import Mathlib

/-!
# Semaphores, locks with priority donation and condition variables (threads/synch.c)

A shallow embedding of `src/threads/synch.c`.  Pointers to threads, locks, semaphores,
wait records and condition variables are natural-number identifiers; `NULL` is `none`.
`int` priorities are `Int`; the `unsigned` semaphore value is a `Nat` kept below `2^32`
with explicit wrap-around.  Code that may abort on an `ASSERT` returns `Option`.
A call that blocks in `thread_block` returns the state at the blocking point and leaves
the rest of the call as a suspended frame, which `resume` runs once the thread has been
unblocked and is scheduled again.
-/

namespace Pintos

/-! ## Data model -/

/-- Interrupt level (threads/interrupt.h). -/
inductive intr_level
  | INTR_OFF
  | INTR_ON
  deriving DecidableEq, Repr

/-- The fields of `struct thread` used by synch.c.  `blocked` abstracts
`status == THREAD_BLOCKED`; `donations` lists the donors front to back. -/
structure thread where
  priority : Int
  original_priority : Int
  wait_on_lock : Option Nat
  donations : List Nat
  blocked : Bool

/-- The `struct semaphore`: an unsigned value and the list of waiting threads, front first. -/
structure semaphore where
  value : Nat
  waiters : List Nat

/-- The `struct lock`: holder (or NULL) and the embedded binary semaphore. -/
structure lock where
  holder : Option Nat
  semaphore : semaphore

/-- The `struct semaphore_elem` (synch.c:334-338): one semaphore in a list, with the
priority snapshot. -/
structure semaphore_elem where
  semaphore : semaphore
  priority : Int

/-- The `struct condition`: the list of wait records (identifiers of `semaphore_elem`s). -/
structure condition where
  waiters : List Nat

/-- A `struct semaphore *`: a stand-alone semaphore, `&lock->semaphore`, or
`&waiter.semaphore` of a wait record. -/
inductive sema_ptr
  | plain (s : Nat)
  | of_lock (l : Nat)
  | of_waiter (e : Nat)
  deriving DecidableEq, Repr

/-- The call site a `sema_down` returns to: a direct call, line 228 of `lock_acquire`,
or line 392 of `cond_wait` (for lock `l`). -/
inductive caller
  | direct
  | from_lock_acquire (l : Nat)
  | from_cond_wait (l : Nat)
  deriving DecidableEq, Repr

/-- Where a thread stands inside this module: not inside a call; suspended in the loop of
`sema_down` (with the saved `old_level`); or inside `cond_wait` after `lock_release`
(line 391) and before `sema_down` (line 392). -/
inductive susp
  | running
  | in_sema_down (sema : sema_ptr) (old_level : intr_level) (c : caller)
  | in_cond_wait (e : Nat) (l : Nat)
  deriving DecidableEq, Repr

/-- The kernel state seen by synch.c. `yields` counts the calls of `thread_yield`. -/
structure Kernel where
  threads : Nat → thread
  locks : Nat → lock
  semas : Nat → semaphore
  elems : Nat → semaphore_elem
  conds : Nat → condition
  stack : Nat → susp
  current : Nat
  ready_list : List Nat
  thread_mlfqs : Bool
  level : intr_level
  intr_context : Bool
  yields : Nat

/-- Pointwise update of a table. -/
def upd {β : Type} (f : Nat → β) (a : Nat) (v : β) : Nat → β :=
  fun x => if x = a then v else f x

/-- Number of values of the C type `unsigned`, taken as 32 bits wide. -/
def UINT_SIZE : Nat := 4294967296

/-- The C expression `v + 1` on `unsigned`. -/
def unsigned_inc (v : Nat) : Nat := (v + 1) % UINT_SIZE

/-- The C expression `v - 1` on `unsigned`. -/
def unsigned_dec (v : Nat) : Nat := (v + (UINT_SIZE - 1)) % UINT_SIZE

/-! ## Collaborators: list library, scheduler, interrupt gate -/

/-- Modelled from the spec: `insert_ordered(list, element, less)` of the list collaborator
(lib/kernel/list.c is not among the sources): the element goes before the first `e`
with `less elem e`. -/
def list_insert_ordered {α : Type} (less : α → α → Bool) (elem : α) : List α → List α
  | [] => [elem]
  | e :: rest =>
    if less elem e then elem :: e :: rest else e :: list_insert_ordered less elem rest

/-- Insertion step of a stable sort: `a`, which stood before every element of the list,
goes before the first `b` that is not strictly `less` than it. -/
def sort_insert {α : Type} (less : α → α → Bool) (a : α) : List α → List α
  | [] => [a]
  | b :: rest => if less b a then b :: sort_insert less a rest else a :: b :: rest

/-- Modelled from the spec: `sort(list, less)` of the list collaborator, a stable sort
(the result of a stable sort does not depend on the algorithm). -/
def list_sort {α : Type} (less : α → α → Bool) : List α → List α
  | [] => []
  | a :: rest => sort_insert less a (list_sort less rest)

/-- Modelled from the spec: the comparator `list_higher_priority` of threads/thread.c (not
among the sources), "descending priority order": `a` goes before `b` when its effective
priority is strictly higher. -/
def list_higher_priority (k : Kernel) (a b : Nat) : Bool :=
  decide ((k.threads a).priority > (k.threads b).priority)

/-- Modelled from the spec: `thread_current ()` of threads/thread.c (not among the
sources), the running thread. -/
def thread_current (k : Kernel) : Nat := k.current

/-- Modelled from the spec: `thread_get_priority ()` of threads/thread.c (not among the
sources), the caller's current effective priority. -/
def thread_get_priority (k : Kernel) : Int := (k.threads k.current).priority

/-- Modelled from the spec: `intr_disable ()` of threads/interrupt.c (not among the
sources) returns the prior level and turns interrupts off. -/
def intr_disable (k : Kernel) : intr_level × Kernel :=
  (k.level, { k with level := intr_level.INTR_OFF })

/-- Modelled from the spec: `intr_set_level (level)` of threads/interrupt.c (not among the
sources) restores the given level. -/
def intr_set_level (k : Kernel) (lv : intr_level) : Kernel :=
  { k with level := lv }

/-- Modelled from the spec: `thread_block ()` of threads/thread.c (not among the sources)
suspends the current thread. -/
def thread_block (k : Kernel) : Kernel :=
  { k with threads := upd k.threads k.current { k.threads k.current with blocked := true } }

/-- Modelled from the spec: `thread_unblock (t)` of threads/thread.c (not among the
sources) moves a blocked thread to the ready queue, which is kept in descending
priority order. -/
def thread_unblock (k : Kernel) (t : Nat) : Kernel :=
  { k with
    threads := upd k.threads t { k.threads t with blocked := false }
    ready_list := list_insert_ordered (list_higher_priority k) t k.ready_list }

/-- Modelled from the spec: `thread_yield ()` of threads/thread.c (not among the sources)
requests a reschedule; the request is counted. -/
def thread_yield (k : Kernel) : Kernel :=
  { k with yields := k.yields + 1 }

/-! ## Semaphores -/

/-- Dereference of a semaphore pointer. -/
def Kernel.sema (k : Kernel) : sema_ptr → semaphore
  | sema_ptr.plain s => k.semas s
  | sema_ptr.of_lock l => (k.locks l).semaphore
  | sema_ptr.of_waiter e => (k.elems e).semaphore

/-- Store through a semaphore pointer. -/
def Kernel.set_sema (k : Kernel) (p : sema_ptr) (v : semaphore) : Kernel :=
  match p with
  | sema_ptr.plain s => { k with semas := upd k.semas s v }
  | sema_ptr.of_lock l => { k with locks := upd k.locks l { k.locks l with semaphore := v } }
  | sema_ptr.of_waiter e => { k with elems := upd k.elems e { k.elems e with semaphore := v } }

/-- Store to `t->priority`. -/
def Kernel.set_priority (k : Kernel) (t : Nat) (p : Int) : Kernel :=
  { k with threads := upd k.threads t { k.threads t with priority := p } }

/-- Store to `t->wait_on_lock`. -/
def Kernel.set_wait_on_lock (k : Kernel) (t : Nat) (w : Option Nat) : Kernel :=
  { k with threads := upd k.threads t { k.threads t with wait_on_lock := w } }

/-- Store of the whole list `t->donations`. -/
def Kernel.set_donations (k : Kernel) (t : Nat) (ds : List Nat) : Kernel :=
  { k with threads := upd k.threads t { k.threads t with donations := ds } }

/-- Store to `lock->holder`. -/
def Kernel.set_holder (k : Kernel) (l : Nat) (h : Option Nat) : Kernel :=
  { k with locks := upd k.locks l { k.locks l with holder := h } }

/-- Record where thread `t` stands. -/
def Kernel.set_stack (k : Kernel) (t : Nat) (s : susp) : Kernel :=
  { k with stack := upd k.stack t s }

/-- Whether the current thread is not suspended inside a call. -/
def returned (k : Kernel) : Bool := decide (k.stack k.current = susp.running)

/-- synch.c:45-51 `sema_init`. -/
def sema_init (k : Kernel) (sema : sema_ptr) (value : Nat) : Kernel :=
  k.set_sema sema { value := value % UINT_SIZE, waiters := [] }

/-- synch.c:69-74, one evaluation of the loop condition of `sema_down` by the current
thread: with value 0 it queues itself in descending priority order and blocks (the
loop is re-entered by `resume`); otherwise it decrements, restores the interrupt level
and returns. -/
def sema_down_loop (k : Kernel) (sema : sema_ptr) (old_level : intr_level) (c : caller) :
    Kernel :=
  if (k.sema sema).value = 0 then
    let k1 := k.set_sema sema { k.sema sema with
      waiters := list_insert_ordered (list_higher_priority k) (thread_current k)
        (k.sema sema).waiters }
    thread_block (k1.set_stack (thread_current k1) (susp.in_sema_down sema old_level c))
  else
    let k1 := k.set_sema sema { k.sema sema with value := unsigned_dec (k.sema sema).value }
    let k2 := intr_set_level k1 old_level
    k2.set_stack (thread_current k2) susp.running

/-- synch.c:61-75 `sema_down`, up to its return or its first `thread_block`. -/
def sema_down (k : Kernel) (sema : sema_ptr) (c : caller) : Option Kernel :=
  if k.intr_context then none
  else
    let r := intr_disable k
    some (sema_down_loop r.2 sema r.1 c)

/-- synch.c:82-100 `sema_try_down`. -/
def sema_try_down (k : Kernel) (sema : sema_ptr) : Bool × Kernel :=
  let r := intr_disable k
  let k1 := r.2
  if (k1.sema sema).value > 0 then
    let k2 := k1.set_sema sema { k1.sema sema with value := unsigned_dec (k1.sema sema).value }
    (true, intr_set_level k2 r.1)
  else
    (false, intr_set_level k1 r.1)

/-- synch.c:112-119, the interrupt-disabled part of `sema_up`: re-sort the waiters, pop and
unblock the front one if any, increment the value, restore the interrupt level. -/
def sema_up_critical (k : Kernel) (sema : sema_ptr) : Kernel :=
  let r := intr_disable k
  let k1 := r.2
  let k2 :=
    match list_sort (list_higher_priority k1) (k1.sema sema).waiters with
    | [] => k1
    | t :: rest => thread_unblock (k1.set_sema sema { k1.sema sema with waiters := rest }) t
  let k3 := k2.set_sema sema { k2.sema sema with value := unsigned_inc (k2.sema sema).value }
  intr_set_level k3 r.1

/-- synch.c:106-137 `sema_up`: the critical part, then the preemption check of lines
120-126. -/
def sema_up (k : Kernel) (sema : sema_ptr) : Kernel :=
  let k4 := sema_up_critical k sema
  match k4.ready_list with
  | [] => k4
  | ready :: _ =>
    if !k4.intr_context && decide ((k4.threads (thread_current k4)).priority
        < (k4.threads ready).priority) then thread_yield k4 else k4

/-! ## Locks -/

/-- synch.c:190-196 `lock_init`. -/
def lock_init (k : Kernel) (l : Nat) : Kernel :=
  sema_init (k.set_holder l none) (sema_ptr.of_lock l) 1

/-- synch.c:326-331 `lock_held_by_current_thread`. -/
def lock_held_by_current_thread (k : Kernel) (l : Nat) : Bool :=
  decide ((k.locks l).holder = some (thread_current k))

/-- synch.c:241-254, the loop of `priority_donate`; `none` when the fuel runs out. -/
def priority_donate_loop : Nat → Kernel → Nat → Option Nat → Option Kernel
  | 0, _, _, _ => none
  | fuel + 1, k, current_thread, waiting_lock =>
    match waiting_lock with
    | none => some k
    | some wl =>
      match (k.locks wl).holder with
      | none => some k
      | some holder =>
        if (k.threads holder).priority < (k.threads current_thread).priority then
          let k1 := k.set_priority holder (k.threads current_thread).priority
          priority_donate_loop fuel k1 holder (k1.threads holder).wait_on_lock
        else if (k.threads holder).priority > (k.threads current_thread).priority then
          some k
        else
          priority_donate_loop fuel k holder (k.threads holder).wait_on_lock

/-- synch.c:235-255 `priority_donate`; the argument `lock` is not used by the body. -/
def priority_donate (fuel : Nat) (k : Kernel) (_lock : Nat) : Option Kernel :=
  priority_donate_loop fuel k (thread_current k) (k.threads (thread_current k)).wait_on_lock

/-- synch.c:231-232, the end of `lock_acquire` after `sema_down` has returned. -/
def lock_acquire_finish (k : Kernel) (l : Nat) : Kernel :=
  (k.set_holder l (some (thread_current k))).set_wait_on_lock (thread_current k) none

/-- synch.c:214-226, the donation step of `lock_acquire`. -/
def lock_acquire_donate (fuel : Nat) (k : Kernel) (l : Nat) : Option Kernel :=
  match (k.locks l).holder with
  | none => some k
  | some holder =>
    let k1 := k.set_wait_on_lock (thread_current k) (some l)
    if !k1.thread_mlfqs then
      let k2 := k1.set_donations holder ((k1.threads holder).donations ++ [thread_current k1])
      priority_donate fuel k2 l
    else some k1

/-- synch.c:206-233 `lock_acquire`, up to its return or its `thread_block`. -/
def lock_acquire (fuel : Nat) (k : Kernel) (l : Nat) : Option Kernel :=
  if k.intr_context then none
  else if lock_held_by_current_thread k l then none
  else
    match lock_acquire_donate fuel k l with
    | none => none
    | some k1 =>
      match sema_down k1 (sema_ptr.of_lock l) (caller.from_lock_acquire l) with
      | none => none
      | some k2 => if returned k2 then some (lock_acquire_finish k2 l) else some k2

/-- synch.c:294-302 `refresh_priority`. -/
def refresh_priority (k : Kernel) (t : Nat) : Kernel :=
  let k1 := k.set_priority t (k.threads t).original_priority
  (k1.threads t).donations.foldl
    (fun ks donated_t =>
      if (ks.threads donated_t).priority > (ks.threads t).priority then
        ks.set_priority t (ks.threads donated_t).priority
      else ks) k1

/-- synch.c:271-286, the donation bookkeeping of `lock_release`. -/
def lock_release_donations (k : Kernel) (l : Nat) : Kernel :=
  if !k.thread_mlfqs then
    let t := thread_current k
    let k1 := k.set_donations t
      ((k.threads t).donations.filter (fun d => decide ((k.threads d).wait_on_lock ≠ some l)))
    let k2 := k1.set_priority t (k1.threads t).original_priority
    refresh_priority k2 t
  else k

/-- synch.c:266-292 `lock_release`. -/
def lock_release (k : Kernel) (l : Nat) : Option Kernel :=
  if !lock_held_by_current_thread k l then none
  else
    let r := intr_disable k
    let k1 := lock_release_donations r.2 l
    let k2 := k1.set_holder l none
    let k3 := sema_up k2 (sema_ptr.of_lock l)
    some (intr_set_level k3 r.1)

/-- synch.c:310-321 `lock_try_acquire`. -/
def lock_try_acquire (k : Kernel) (l : Nat) : Option (Bool × Kernel) :=
  if lock_held_by_current_thread k l then none
  else
    let r := sema_try_down k (sema_ptr.of_lock l)
    if r.1 then some (true, r.2.set_holder l (some (thread_current r.2)))
    else some (false, r.2)

/-! ## Condition variables -/

/-- synch.c:342-347 `sema_elem_higher_priority`. -/
def sema_elem_higher_priority (k : Kernel) (a b : Nat) : Bool :=
  decide ((k.elems a).priority > (k.elems b).priority)

/-- synch.c:351-356 `cond_init`. -/
def cond_init (k : Kernel) (c : Nat) : Kernel :=
  { k with conds := upd k.conds c { waiters := [] } }

/-- synch.c:385-390, the wait record of `cond_wait`: its semaphore is initialised to 0, its
priority is the snapshot of the caller's effective priority, and it is queued on
`cond->waiters` in descending snapshot order. The stack-local record of a thread is
identified by the thread. -/
def cond_wait_enqueue (k : Kernel) (c : Nat) : Kernel :=
  let waiter := thread_current k
  let k1 := sema_init k (sema_ptr.of_waiter waiter) 0
  let k2 := { k1 with
    elems := upd k1.elems waiter { k1.elems waiter with priority := thread_get_priority k1 } }
  { k2 with
    conds := upd k2.conds c
      { waiters := list_insert_ordered (sema_elem_higher_priority k2) waiter
          (k2.conds c).waiters } }

/-- synch.c:378-391 `cond_wait` through `lock_release`. The call continues in
`cond_wait_rest`. -/
def cond_wait (k : Kernel) (c : Nat) (l : Nat) : Option Kernel :=
  if k.intr_context then none
  else if !lock_held_by_current_thread k l then none
  else
    match lock_release (cond_wait_enqueue k c) l with
    | none => none
    | some k4 =>
      some (k4.set_stack (thread_current k4) (susp.in_cond_wait (thread_current k) l))

/-- synch.c:393, the end of `cond_wait` after `sema_down` has returned. -/
def cond_wait_finish (fuel : Nat) (k : Kernel) (l : Nat) : Option Kernel :=
  lock_acquire fuel k l

/-- synch.c:392-393, `cond_wait` after `lock_release`, up to its return or its next
`thread_block`. -/
def cond_wait_rest (fuel : Nat) (k : Kernel) (waiter : Nat) (l : Nat) : Option Kernel :=
  match sema_down (k.set_stack (thread_current k) susp.running)
      (sema_ptr.of_waiter waiter) (caller.from_cond_wait l) with
  | none => none
  | some k1 => if returned k1 then cond_wait_finish fuel k1 l else some k1

/-- synch.c:403-413 `cond_signal`. -/
def cond_signal (k : Kernel) (c : Nat) (l : Nat) : Option Kernel :=
  if k.intr_context then none
  else if !lock_held_by_current_thread k l then none
  else
    match (k.conds c).waiters with
    | [] => some k
    | e :: rest =>
      some (sema_up { k with conds := upd k.conds c { waiters := rest } } (sema_ptr.of_waiter e))

/-! ## Threads taking turns -/

/-- What follows the return of `sema_down` at each call site. -/
def after_sema_down (fuel : Nat) (k : Kernel) : caller → Option Kernel
  | caller.direct => some k
  | caller.from_lock_acquire l => some (lock_acquire_finish k l)
  | caller.from_cond_wait l => cond_wait_finish fuel k l

/-- The current thread, unblocked and scheduled again, continues its suspended call:
`thread_block` returns with interrupts off and the loop of `sema_down` is evaluated
again. -/
def resume (fuel : Nat) (k : Kernel) : Option Kernel :=
  match k.stack (thread_current k) with
  | susp.running => none
  | susp.in_sema_down sema old_level c =>
    let k1 := sema_down_loop (intr_set_level k intr_level.INTR_OFF) sema old_level c
    if returned k1 then after_sema_down fuel k1 c else some k1
  | susp.in_cond_wait waiter l => cond_wait_rest fuel k waiter l

/-- Modelled from the spec: the scheduler transfers to runnable thread `t`: it leaves
the ready queue and the thread that ran before, unless blocked, enters it. Threads
run with interrupts enabled between calls. -/
def dispatch (k : Kernel) (t : Nat) : Kernel :=
  if k.current = t then { k with level := intr_level.INTR_ON }
  else
    { k with
      current := t
      level := intr_level.INTR_ON
      ready_list :=
        if (k.threads k.current).blocked then k.ready_list.erase t
        else list_insert_ordered (list_higher_priority k) k.current (k.ready_list.erase t) }

/-- The calls a thread can make, and `resume` of a suspended call. -/
inductive Op
  | sema_down (s : Nat)
  | sema_try_down (s : Nat)
  | sema_up (s : Nat)
  | lock_acquire (l : Nat)
  | lock_try_acquire (l : Nat)
  | lock_release (l : Nat)
  | cond_wait (c : Nat) (l : Nat)
  | cond_signal (c : Nat) (l : Nat)
  | resume
  deriving DecidableEq, Repr

/-- A call made by a thread that is not inside a call. -/
def call (fuel : Nat) (k : Kernel) : Op → Option Kernel
  | Op.sema_down s => sema_down k (sema_ptr.plain s) caller.direct
  | Op.sema_try_down s => some (sema_try_down k (sema_ptr.plain s)).2
  | Op.sema_up s => some (sema_up k (sema_ptr.plain s))
  | Op.lock_acquire l => lock_acquire fuel k l
  | Op.lock_try_acquire l => (lock_try_acquire k l).map Prod.snd
  | Op.lock_release l => lock_release k l
  | Op.cond_wait c l => cond_wait k c l
  | Op.cond_signal c l => cond_signal k c l
  | Op.resume => none

/-- One turn of thread `t`: it must not be blocked; it is dispatched and either resumes
its suspended call or, when it is not inside a call, makes a new one. `none` when the
turn is impossible, aborts on an assertion, or the fuel of a donation walk runs out. -/
def exec (fuel : Nat) (k : Kernel) (t : Nat) (op : Op) : Option Kernel :=
  if (k.threads t).blocked then none
  else
    match op with
    | Op.resume => resume fuel (dispatch k t)
    | o => if k.stack t = susp.running then call fuel (dispatch k t) o else none

/-- Run a schedule: a list of turns `(thread, operation)`. -/
def run (fuel : Nat) : Kernel → List (Nat × Op) → Option Kernel
  | k, [] => some k
  | k, (t, op) :: rest =>
    match exec fuel k t op with
    | none => none
    | some k1 => run fuel k1 rest

/-- States reachable from `k0` by turns whose operation satisfies `allowed`. -/
inductive Reach (allowed : Op → Prop) (k0 : Kernel) : Kernel → Prop
  | init : Reach allowed k0 k0
  | step (fuel : Nat) (k k1 : Kernel) (t : Nat) (op : Op) :
      Reach allowed k0 k → allowed op → exec fuel k t op = some k1 → Reach allowed k0 k1

/-! ## Concrete states -/

/-- A freshly booted kernel: thread `t` has base priority `prio t`, no donor and waits on
nothing; every lock is as `lock_init` leaves it, every semaphore as `sema_init _ 0` and
every condition variable as `cond_init`; thread 0 runs, in thread context with
interrupts on. -/
def boot (prio : Nat → Int) (mlfqs : Bool) : Kernel where
  threads := fun t =>
    { priority := prio t, original_priority := prio t, wait_on_lock := none,
      donations := [], blocked := false }
  locks := fun _ => { holder := none, semaphore := { value := 1, waiters := [] } }
  semas := fun _ => { value := 0, waiters := [] }
  elems := fun _ => { semaphore := { value := 0, waiters := [] }, priority := 0 }
  conds := fun _ => { waiters := [] }
  stack := fun _ => susp.running
  current := 0
  ready_list := []
  thread_mlfqs := mlfqs
  level := intr_level.INTR_ON
  intr_context := false
  yields := 0

/-- Base priorities of the wake-order scenario: thread 0 has 5, threads 1, 2, 3 have
31, 20, 10. -/
def wake_prio : Nat → Int
  | 0 => 5
  | 1 => 31
  | 2 => 20
  | 3 => 10
  | _ => 0

/-- Threads 3, 1, 2 (priorities 10, 31, 20) down semaphore 0, whose value is 0. -/
def wake_downs : List (Nat × Op) :=
  [(3, Op.sema_down 0), (1, Op.sema_down 0), (2, Op.sema_down 0)]

/-- Value and waiter list of semaphore 0 and the `blocked` flags of threads 1, 2, 3. -/
def wake_view (k : Kernel) : Nat × List Nat × List Bool :=
  ((k.semas 0).value, (k.semas 0).waiters, [1, 2, 3].map (fun t => (k.threads t).blocked))

/-- A semaphore holding the largest `unsigned` value, with no waiter. -/
def sema_full : Kernel :=
  sema_init (boot (fun _ => 31) false) (sema_ptr.plain 0) 4294967295

/-- The state in which threads 1, 2, 3 wait on semaphore 0. -/
def wake_waiting : Kernel :=
  (run 0 (boot wake_prio false) wake_downs).getD (boot wake_prio false)

/-- The maximum of `base` and the effective priorities of the threads in `ds`. -/
def max_priority (k : Kernel) (base : Int) (ds : List Nat) : Int :=
  ds.foldl (fun m d => max m (k.threads d).priority) base

/-- Base priorities of the two-donor scenario: L is thread 0 (10), H1 is thread 1 (25),
H2 is thread 2 (28). -/
def donor_prio : Nat → Int
  | 0 => 10
  | 1 => 25
  | 2 => 28
  | _ => 0

/-- L acquires X (lock 0) and Y (lock 1); H1 blocks on X and H2 blocks on Y. -/
def two_donors : Kernel :=
  (run 4 (boot donor_prio false)
    [(0, Op.lock_acquire 0), (0, Op.lock_acquire 1), (1, Op.lock_acquire 0),
      (2, Op.lock_acquire 1)]).getD (boot donor_prio false)

/-- The lock-dependency chain that starts at the lock `waiting_lock`: `hs` lists the
holders met by repeatedly following `holder` and then `holder->wait_on_lock`, up to
a holder that waits on nothing or on a lock without holder. -/
def is_chain (k : Kernel) : Option Nat → List Nat → Bool
  | none, [] => true
  | some l, [] => decide ((k.locks l).holder = none)
  | none, _ :: _ => false
  | some l, h :: rest =>
    decide ((k.locks l).holder = some h) && is_chain k (k.threads h).wait_on_lock rest

/-- The holders the walk of a donor of priority `q` reaches without meeting a strictly
higher priority: the longest prefix of the chain with priorities at most `q`. -/
def donated_holders (k : Kernel) (q : Int) (hs : List Nat) : List Nat :=
  hs.takeWhile (fun h => decide ((k.threads h).priority ≤ q))

/-- Base priorities of the nested-donation scenario: L is thread 0 (10), M is thread 1
(20), H is thread 2 (30). -/
def nested_prio : Nat → Int
  | 0 => 10
  | 1 => 20
  | 2 => 30
  | _ => 0

/-- L acquires X (lock 0); M acquires Y (lock 1) and blocks on X. -/
def nested_before : Kernel :=
  (run 4 (boot nested_prio false)
    [(0, Op.lock_acquire 0), (1, Op.lock_acquire 1), (1, Op.lock_acquire 0)]).getD
    (boot nested_prio false)

/-- Base priorities of the pass-through scenario: threads 0 to 4 have 5, 10, 20, 40, 20. -/
def pass_prio : Nat → Int
  | 0 => 5
  | 1 => 10
  | 2 => 20
  | 3 => 40
  | 4 => 20
  | _ => 0

/-- Thread 1 takes lock 1, thread 2 lock 2, thread 0 lock 0; threads 2 and 1 block on
lock 0; thread 3 blocks on lock 1 and lends 40 to thread 1 and, through it, to thread 0;
thread 0 releases lock 0, which wakes thread 1; thread 1 takes lock 0 and releases lock
1, falling back to 10. Thread 2 (20) now waits on lock 0, held by thread 1 (10). -/
def pass_sched : List (Nat × Op) :=
  [(1, Op.lock_acquire 1), (2, Op.lock_acquire 2), (0, Op.lock_acquire 0),
    (2, Op.lock_acquire 0), (1, Op.lock_acquire 0), (3, Op.lock_acquire 1),
    (0, Op.lock_release 0), (1, Op.resume), (1, Op.lock_release 1)]

/-- The state after `pass_sched`, with thread 4 (priority 20) running. -/
def pass_state : Kernel :=
  dispatch ((run 8 (boot pass_prio false) pass_sched).getD (boot pass_prio false)) 4

/-- Thread 4 has executed lines 215 and 223 of `lock_acquire` on lock 2 (held by thread
2) and is about to call `priority_donate`. -/
def pass_donating : Kernel :=
  (pass_state.set_wait_on_lock 4 (some 2)).set_donations 2
    ((pass_state.threads 2).donations ++ [4])

/-- H (thread 2) has executed lines 215 and 223 of `lock_acquire` on Y (lock 1) in the
nested-donation scenario and is about to call `priority_donate`. -/
def nested_donating : Kernel :=
  ((dispatch nested_before 2).set_wait_on_lock 2 (some 1)).set_donations 1
    (((dispatch nested_before 2).threads 1).donations ++ [2])

/-- Base priorities of the condition-variable scenario: the signaller is thread 0 (31),
W1, W2, W3 are threads 1, 2, 3 (15, 25, 20); thread 4 has 40. -/
def cond_prio : Nat → Int
  | 0 => 31
  | 1 => 15
  | 2 => 25
  | 3 => 20
  | 4 => 40
  | _ => 0

/-- W1, W2, W3 in turn acquire lock 0, call `cond_wait` on condition 0 and block; then the
signaller acquires lock 0. -/
def cond_waits : List (Nat × Op) :=
  [(1, Op.lock_acquire 0), (1, Op.cond_wait 0 0), (1, Op.resume),
    (2, Op.lock_acquire 0), (2, Op.cond_wait 0 0), (2, Op.resume),
    (3, Op.lock_acquire 0), (3, Op.cond_wait 0 0), (3, Op.resume),
    (0, Op.lock_acquire 0)]

/-- As `cond_waits`, but W1 first takes lock 1, and after the three waits thread 4 (40)
blocks on lock 1, which raises the effective priority of W1 from 15 to 40. -/
def cond_waits_donated : List (Nat × Op) :=
  [(1, Op.lock_acquire 1),
    (1, Op.lock_acquire 0), (1, Op.cond_wait 0 0), (1, Op.resume),
    (2, Op.lock_acquire 0), (2, Op.cond_wait 0 0), (2, Op.resume),
    (3, Op.lock_acquire 0), (3, Op.cond_wait 0 0), (3, Op.resume),
    (4, Op.lock_acquire 1),
    (0, Op.lock_acquire 0)]

/-- Waiter list of condition 0, the snapshots of its records, and the `blocked` flags and
effective priorities of W1, W2, W3. -/
def cond_view (k : Kernel) : List Nat × List Int × List Bool × List Int :=
  ((k.conds 0).waiters, (k.conds 0).waiters.map (fun e => (k.elems e).priority),
    [1, 2, 3].map (fun t => (k.threads t).blocked),
    [1, 2, 3].map (fun t => (k.threads t).priority))

/-- W1 and W2 wait on condition 0; W3 (thread 3) has taken lock 0 and runs. -/
def cond_third : Kernel :=
  dispatch ((run 4 (boot cond_prio false) (cond_waits.take 7)).getD (boot cond_prio false)) 3

/-- The first `n` of successive calls of `cond_signal (c, l)` by the current thread. -/
def cond_signals (c l : Nat) : Nat → Kernel → Option Kernel
  | 0, k => some k
  | n + 1, k =>
    match cond_signal k c l with
    | none => none
    | some k1 => cond_signals c l n k1

/-- The turns of the lock interface: calls of `lock_acquire`, `lock_try_acquire` and
`lock_release`, and the resumption of a blocked `lock_acquire`. -/
def lock_op : Op → Prop
  | Op.lock_acquire _ => True
  | Op.lock_try_acquire _ => True
  | Op.lock_release _ => True
  | Op.resume => True
  | _ => False

/-- Every suspended call is a `lock_acquire` blocked in the `sema_down` of its lock. -/
def lock_frames (k : Kernel) : Prop :=
  ∀ t, k.stack t = susp.running ∨
    ∃ l lv, k.stack t = susp.in_sema_down (sema_ptr.of_lock l) lv (caller.from_lock_acquire l)

/-- For every lock: the holder is non-none exactly when the value of the embedded
semaphore is 0, and the value is at most 1. -/
def lock_inv (k : Kernel) : Prop :=
  ∀ l, ((k.locks l).holder ≠ none ↔ (k.locks l).semaphore.value = 0) ∧
    (k.locks l).semaphore.value ≤ 1

/-- What every turn preserves of the thread table, from state `k` to state `k1`: the mode
flag and every `original_priority` are the same; a thread whose priority was at least
its `original_priority` still is; in MLFQ mode no `donations` list and no priority has
changed. -/
def thread_frame (k k1 : Kernel) : Prop :=
  k1.thread_mlfqs = k.thread_mlfqs ∧
  ∀ u, (k1.threads u).original_priority = (k.threads u).original_priority ∧
    ((k.threads u).original_priority ≤ (k.threads u).priority →
      (k1.threads u).original_priority ≤ (k1.threads u).priority) ∧
    (k.thread_mlfqs = true →
      (k1.threads u).donations = (k.threads u).donations ∧
      (k1.threads u).priority = (k.threads u).priority)

/-- The suspensions a thread can be in outside the `sema_down` of `lock_acquire`: none, the
`sema_down` of a direct call on a stand-alone semaphore, or `cond_wait` before or in the
`sema_down` on its wait record. -/
def outside_lock : susp → Prop
  | susp.running => True
  | susp.in_cond_wait _ _ => True
  | susp.in_sema_down (sema_ptr.plain _) _ caller.direct => True
  | susp.in_sema_down (sema_ptr.of_waiter _) _ (caller.from_cond_wait _) => True
  | _ => False

/-- The donation invariant: the lock invariant; a thread waits on lock `l`
(`wait_on_lock`) exactly when it is suspended in the `sema_down` of `lock_acquire (l)`;
every donor of a thread waits on a lock held by that thread, and has a priority not
above that thread's. -/
structure donation_inv (k : Kernel) : Prop where
  h_locks : lock_inv k
  h_frames : ∀ t, outside_lock (k.stack t) ∨
    ∃ l lv, k.stack t = susp.in_sema_down (sema_ptr.of_lock l) lv (caller.from_lock_acquire l)
  h_waits : ∀ t l, (k.threads t).wait_on_lock = some l ↔
    ∃ lv, k.stack t = susp.in_sema_down (sema_ptr.of_lock l) lv (caller.from_lock_acquire l)
  h_donors : ∀ t d, d ∈ (k.threads t).donations →
    ∃ l, (k.threads d).wait_on_lock = some l ∧ (k.locks l).holder = some t
  h_above : ∀ t d, d ∈ (k.threads t).donations →
    (k.threads d).priority ≤ (k.threads t).priority

/-- The states `k1` that differ from `k` in nothing the donation invariant reads: holders,
lock values, priorities, `donations`, `wait_on_lock`, and which threads are suspended
in the `sema_down` of which lock. -/
def neutral (k k1 : Kernel) : Prop :=
  (∀ l, (k1.locks l).holder = (k.locks l).holder ∧
    (k1.locks l).semaphore.value = (k.locks l).semaphore.value) ∧
  (∀ t, (k1.threads t).priority = (k.threads t).priority ∧
    (k1.threads t).donations = (k.threads t).donations ∧
    (k1.threads t).wait_on_lock = (k.threads t).wait_on_lock) ∧
  (∀ t, k1.stack t = k.stack t ∨ (outside_lock (k1.stack t) ∧ outside_lock (k.stack t)))

/-- The state of a thread inside `lock_acquire (l)` right before the loop of `sema_down`
is evaluated: the donation invariant holds but for the current thread's own
suspension, which that evaluation settles. -/
structure acquiring (k : Kernel) (l : Nat) : Prop where
  h_locks : lock_inv k
  h_frames : ∀ t, t ≠ k.current → (outside_lock (k.stack t) ∨
    ∃ l1 lv, k.stack t = susp.in_sema_down (sema_ptr.of_lock l1) lv (caller.from_lock_acquire l1))
  h_waits : ∀ t l1, t ≠ k.current → ((k.threads t).wait_on_lock = some l1 ↔
    ∃ lv, k.stack t = susp.in_sema_down (sema_ptr.of_lock l1) lv (caller.from_lock_acquire l1))
  h_donors : ∀ t d, d ∈ (k.threads t).donations →
    ∃ l1, (k.threads d).wait_on_lock = some l1 ∧ (k.locks l1).holder = some t
  h_above : ∀ t d, d ∈ (k.threads t).donations →
    (k.threads d).priority ≤ (k.threads t).priority
  h_wait : (k.locks l).semaphore.value = 0 → (k.threads k.current).wait_on_lock = some l
  h_free : (k.locks l).semaphore.value ≠ 0 → ∀ t, k.current ∉ (k.threads t).donations

/-- A freshly initialised state: every lock is as `lock_init` leaves it, no thread is
inside a call, waits on a lock or has a donor, and every priority is the base
priority. -/
def fresh (k : Kernel) : Prop :=
  (∀ l, k.locks l = (lock_init k l).locks l) ∧
  ∀ t, k.stack t = susp.running ∧ (k.threads t).wait_on_lock = none ∧
    (k.threads t).donations = [] ∧ (k.threads t).priority = (k.threads t).original_priority

/-- Base priorities of the hand-over scenario: H is thread 0 (5), A is thread 1 (30), B is
thread 2 (20), D is thread 3 (40). -/
def handover_prio : Nat → Int
  | 0 => 5
  | 1 => 30
  | 2 => 20
  | 3 => 40
  | _ => 0

/-- H takes lock 0; B and A block on it; H releases it, which wakes A; A takes it. B still
waits on lock 0, now held by A. -/
def handover_sched : List (Nat × Op) :=
  [(0, Op.lock_acquire 0), (2, Op.lock_acquire 0), (1, Op.lock_acquire 0),
    (0, Op.lock_release 0), (1, Op.resume)]

/-- B takes lock 1 before the hand-over of lock 0 from H to A; afterwards D (40) blocks on
lock 1, and its donation runs through B to A. -/
def through_sched : List (Nat × Op) :=
  [(2, Op.lock_acquire 1), (0, Op.lock_acquire 0), (2, Op.lock_acquire 0),
    (1, Op.lock_acquire 0), (0, Op.lock_release 0), (1, Op.resume), (3, Op.lock_acquire 1)]

/-- The turns of the semaphore interface: calls of `sema_down`, `sema_try_down` and
`sema_up` on stand-alone semaphores, and the resumption of a blocked `sema_down`. -/
def sema_op : Op → Prop
  | Op.sema_down _ => True
  | Op.sema_try_down _ => True
  | Op.sema_up _ => True
  | Op.resume => True
  | _ => False

/-- Thread `t` has been woken by `sema_up` on semaphore `s` and has not yet resumed its
`sema_down`: it is not blocked and is suspended in the loop of `sema_down (s)`. -/
def woken (k : Kernel) (s t : Nat) : Prop :=
  (k.threads t).blocked = false ∧
    ∃ lv, k.stack t = susp.in_sema_down (sema_ptr.plain s) lv caller.direct

/-- The semaphore invariant, with `ws` a list of distinct threads woken from `s0`: every
suspended call is a direct `sema_down`; the waiters of a semaphore are distinct, blocked
and suspended in its `sema_down`; and if `s0` has a waiter, its value is at most the
number of threads in `ws`. -/
structure sema_inv (k : Kernel) (s0 : Nat) (ws : List Nat) : Prop where
  h_frames : ∀ t, k.stack t = susp.running ∨
    ∃ s lv, k.stack t = susp.in_sema_down (sema_ptr.plain s) lv caller.direct
  h_waiters : ∀ s t, t ∈ (k.semas s).waiters → (k.threads t).blocked = true ∧
    ∃ lv, k.stack t = susp.in_sema_down (sema_ptr.plain s) lv caller.direct
  h_nodup : ∀ s, (k.semas s).waiters.Nodup
  h_distinct : ws.Nodup
  h_woken : ∀ t ∈ ws, woken k s0 t
  h_value : (k.semas s0).waiters ≠ [] → (k.semas s0).value ≤ ws.length

/-- Base priorities of the two-waiter scenario: thread 0 has 40, threads 1 and 2 have 31
and 20. -/
def up_prio : Nat → Int
  | 0 => 40
  | 1 => 31
  | 2 => 20
  | _ => 0

/-- synch.c:241-254 once more, counting instead of updating: the number of times the body
of the loop of `priority_donate` is entered (a pass ended by `break` counts); `none`
when the fuel runs out. -/
def priority_donate_iterations : Nat → Kernel → Nat → Option Nat → Option Nat
  | 0, _, _, _ => none
  | fuel + 1, k, current_thread, waiting_lock =>
    match waiting_lock with
    | none => some 0
    | some wl =>
      match (k.locks wl).holder with
      | none => some 0
      | some holder =>
        if (k.threads holder).priority < (k.threads current_thread).priority then
          let k1 := k.set_priority holder (k.threads current_thread).priority
          (priority_donate_iterations fuel k1 holder (k1.threads holder).wait_on_lock).map
            (fun n => n + 1)
        else if (k.threads holder).priority > (k.threads current_thread).priority then
          some 1
        else
          (priority_donate_iterations fuel k holder (k.threads holder).wait_on_lock).map
            (fun n => n + 1)

/-- synch.c:421-428 `cond_broadcast`; `none` when a `cond_signal` aborts or the fuel runs
out. -/
def cond_broadcast : Nat → Kernel → Nat → Nat → Option Kernel
  | 0, _, _, _ => none
  | fuel + 1, k, c, l =>
    match (k.conds c).waiters with
    | [] => some k
    | _ :: _ =>
      match cond_signal k c l with
      | none => none
      | some k1 => cond_broadcast fuel k1 c l

/-- synch.c:426-427 once more, counting instead of updating: the number of calls of
`cond_signal` the loop of `cond_broadcast` makes. -/
def cond_broadcast_calls : Nat → Kernel → Nat → Nat → Option Nat
  | 0, _, _, _ => none
  | fuel + 1, k, c, l =>
    match (k.conds c).waiters with
    | [] => some 0
    | _ :: _ =>
      match cond_signal k c l with
      | none => none
      | some k1 => (cond_broadcast_calls fuel k1 c l).map (fun n => n + 1)

/-- Thread `e` is inside `cond_wait` and its `sema_down` on its wait record has not
returned: it stands between `lock_release` and `sema_down`, or is blocked in that
`sema_down`. -/
def cond_waiting (k : Kernel) (e : Nat) : Prop :=
  (∃ l, k.stack e = susp.in_cond_wait e l) ∨
  ∃ l lv, k.stack e = susp.in_sema_down (sema_ptr.of_waiter e) lv (caller.from_cond_wait l)

/-- The condition-variable invariant: a record queued on a condition has a semaphore of
value 0 and its thread is inside `cond_wait` before the return of `sema_down`; no
record is queued twice, on one condition or on two. -/
structure cond_inv (k : Kernel) : Prop where
  h_wait : ∀ c e, e ∈ (k.conds c).waiters →
    (k.elems e).semaphore.value = 0 ∧ cond_waiting k e
  h_nodup : ∀ c, (k.conds c).waiters.Nodup
  h_one : ∀ c d e, e ∈ (k.conds c).waiters → e ∈ (k.conds d).waiters → c = d

/-- The states `k1` that differ from `k` in nothing the condition-variable invariant
reads, but for the suspension of the current thread. -/
def quiet (k k1 : Kernel) : Prop :=
  k1.conds = k.conds ∧ k1.current = k.current ∧
  (∀ e, (k1.elems e).semaphore.value = (k.elems e).semaphore.value) ∧
  ∀ u, u ≠ k.current → k1.stack u = k.stack u

/-- W1 (thread 1) has called `cond_wait (0, 0)` and blocked; thread 0 has taken lock 0,
signalled condition 0 and released the lock; W1 is scheduled again. -/
def cond_woken : Kernel :=
  dispatch ((run 4 (boot cond_prio false)
    [(1, Op.lock_acquire 0), (1, Op.cond_wait 0 0), (1, Op.resume),
      (0, Op.lock_acquire 0), (0, Op.cond_signal 0 0), (0, Op.lock_release 0)]).getD
    (boot cond_prio false)) 1

/-! ## Writes and the interrupt level they are made at -/

/-- The shared fields synch.c writes: `sema->value`, `sema->waiters`, `lock->holder`,
`t->wait_on_lock`, `t->donations`, `t->priority`. -/
inductive shared_field
  | value (sema : sema_ptr)
  | waiters (sema : sema_ptr)
  | holder (l : Nat)
  | wait_on_lock (t : Nat)
  | donations (t : Nat)
  | priority (t : Nat)
  deriving DecidableEq, Repr

/-- Whether the field belongs to a semaphore. -/
def shared_field.of_sema : shared_field → Bool
  | shared_field.value _ => true
  | shared_field.waiters _ => true
  | _ => false

/-- synch.c:49-50, the stores of `sema_init`, each with the interrupt level it is made
at. -/
def sema_init_writes (k : Kernel) (sema : sema_ptr) : List (shared_field × intr_level) :=
  [(shared_field.value sema, k.level), (shared_field.waiters sema, k.level)]

/-- synch.c:69-73, the store of one evaluation of the loop of `sema_down`: line 70 queues
the caller, or line 73 decrements. -/
def sema_down_loop_writes (k : Kernel) (sema : sema_ptr) : List (shared_field × intr_level) :=
  if (k.sema sema).value = 0 then [(shared_field.waiters sema, k.level)]
  else [(shared_field.value sema, k.level)]

/-- synch.c:61-75, the stores of `sema_down` up to its return or its first
`thread_block`. -/
def sema_down_writes (k : Kernel) (sema : sema_ptr) : List (shared_field × intr_level) :=
  if k.intr_context then []
  else
    let r := intr_disable k
    sema_down_loop_writes r.2 sema

/-- synch.c:82-100, the store of `sema_try_down`. -/
def sema_try_down_writes (k : Kernel) (sema : sema_ptr) : List (shared_field × intr_level) :=
  let r := intr_disable k
  let k1 := r.2
  if (k1.sema sema).value > 0 then [(shared_field.value sema, k1.level)] else []

/-- synch.c:112-119, the stores of `sema_up`: the sort and the pop of line 114-116 when a
thread waits, and the increment of line 118. -/
def sema_up_writes (k : Kernel) (sema : sema_ptr) : List (shared_field × intr_level) :=
  let r := intr_disable k
  let k1 := r.2
  (match list_sort (list_higher_priority k1) (k1.sema sema).waiters with
    | [] => []
    | _ :: _ => [(shared_field.waiters sema, k1.level)])
  ++ [(shared_field.value sema, k1.level)]

/-- synch.c:241-254, the stores of the loop of `priority_donate` (line 246). -/
def priority_donate_loop_writes :
    Nat → Kernel → Nat → Option Nat → List (shared_field × intr_level)
  | 0, _, _, _ => []
  | fuel + 1, k, current_thread, waiting_lock =>
    match waiting_lock with
    | none => []
    | some wl =>
      match (k.locks wl).holder with
      | none => []
      | some holder =>
        if (k.threads holder).priority < (k.threads current_thread).priority then
          let k1 := k.set_priority holder (k.threads current_thread).priority
          (shared_field.priority holder, k.level) ::
            priority_donate_loop_writes fuel k1 holder (k1.threads holder).wait_on_lock
        else if (k.threads holder).priority > (k.threads current_thread).priority then
          []
        else
          priority_donate_loop_writes fuel k holder (k.threads holder).wait_on_lock

/-- synch.c:214-226, the stores of the donation step of `lock_acquire`: line 215, line 223
and the walk. -/
def lock_acquire_donate_writes (fuel : Nat) (k : Kernel) (l : Nat) :
    List (shared_field × intr_level) :=
  match (k.locks l).holder with
  | none => []
  | some holder =>
    let k1 := k.set_wait_on_lock (thread_current k) (some l)
    (shared_field.wait_on_lock (thread_current k), k.level) ::
      (if !k1.thread_mlfqs then
        let k2 := k1.set_donations holder ((k1.threads holder).donations ++ [thread_current k1])
        (shared_field.donations holder, k1.level) ::
          priority_donate_loop_writes fuel k2 (thread_current k2)
            (k2.threads (thread_current k2)).wait_on_lock
      else [])

/-- synch.c:231-232, the stores at the end of `lock_acquire`. -/
def lock_acquire_finish_writes (k : Kernel) (l : Nat) : List (shared_field × intr_level) :=
  [(shared_field.holder l, k.level), (shared_field.wait_on_lock (thread_current k), k.level)]

/-- synch.c:206-233, the stores of `lock_acquire` up to its return or its
`thread_block`. -/
def lock_acquire_writes (fuel : Nat) (k : Kernel) (l : Nat) :
    List (shared_field × intr_level) :=
  if k.intr_context then []
  else if lock_held_by_current_thread k l then []
  else
    lock_acquire_donate_writes fuel k l ++
    match lock_acquire_donate fuel k l with
    | none => []
    | some k1 =>
      sema_down_writes k1 (sema_ptr.of_lock l) ++
      match sema_down k1 (sema_ptr.of_lock l) (caller.from_lock_acquire l) with
      | none => []
      | some k2 => if returned k2 then lock_acquire_finish_writes k2 l else []

/-- synch.c:296-301, the stores of the loop of `refresh_priority` over the donors. -/
def refresh_priority_loop_writes (k : Kernel) (t : Nat) :
    List Nat → List (shared_field × intr_level)
  | [] => []
  | donated_t :: rest =>
    if (k.threads donated_t).priority > (k.threads t).priority then
      (shared_field.priority t, k.level) ::
        refresh_priority_loop_writes (k.set_priority t (k.threads donated_t).priority) t rest
    else refresh_priority_loop_writes k t rest

/-- synch.c:294-302, the stores of `refresh_priority`. -/
def refresh_priority_writes (k : Kernel) (t : Nat) : List (shared_field × intr_level) :=
  let k1 := k.set_priority t (k.threads t).original_priority
  (shared_field.priority t, k.level) ::
    refresh_priority_loop_writes k1 t (k1.threads t).donations

/-- synch.c:271-286, the stores of the donation bookkeeping of `lock_release`: one
`list_remove` for each donor that waits on the lock, line 284, and `refresh_priority`. -/
def lock_release_donations_writes (k : Kernel) (l : Nat) : List (shared_field × intr_level) :=
  if !k.thread_mlfqs then
    let t := thread_current k
    let k1 := k.set_donations t
      ((k.threads t).donations.filter (fun d => decide ((k.threads d).wait_on_lock ≠ some l)))
    let k2 := k1.set_priority t (k1.threads t).original_priority
    ((k.threads t).donations.filter (fun d => decide ((k.threads d).wait_on_lock = some l))).map
        (fun _ => (shared_field.donations t, k.level))
      ++ (shared_field.priority t, k1.level) :: refresh_priority_writes k2 t
  else []

/-- synch.c:266-292, the stores of `lock_release`. -/
def lock_release_writes (k : Kernel) (l : Nat) : List (shared_field × intr_level) :=
  if !lock_held_by_current_thread k l then []
  else
    let r := intr_disable k
    let k1 := lock_release_donations r.2 l
    let k2 := k1.set_holder l none
    lock_release_donations_writes r.2 l ++ (shared_field.holder l, k1.level) ::
      sema_up_writes k2 (sema_ptr.of_lock l)

/-- synch.c:310-321, the stores of `lock_try_acquire`. -/
def lock_try_acquire_writes (k : Kernel) (l : Nat) : List (shared_field × intr_level) :=
  if lock_held_by_current_thread k l then []
  else
    let r := sema_try_down k (sema_ptr.of_lock l)
    sema_try_down_writes k (sema_ptr.of_lock l) ++
      (if r.1 then [(shared_field.holder l, r.2.level)] else [])

/-- synch.c:378-391, the stores of `cond_wait` through `lock_release`: the `sema_init` of
the caller's wait record, then `lock_release`. -/
def cond_wait_writes (k : Kernel) (c : Nat) (l : Nat) : List (shared_field × intr_level) :=
  if k.intr_context then []
  else if !lock_held_by_current_thread k l then []
  else
    sema_init_writes k (sema_ptr.of_waiter (thread_current k)) ++
      lock_release_writes (cond_wait_enqueue k c) l

/-- synch.c:392-393, the stores of `cond_wait` after `lock_release`. -/
def cond_wait_rest_writes (fuel : Nat) (k : Kernel) (waiter : Nat) (l : Nat) :
    List (shared_field × intr_level) :=
  let k0 := k.set_stack (thread_current k) susp.running
  sema_down_writes k0 (sema_ptr.of_waiter waiter) ++
  match sema_down k0 (sema_ptr.of_waiter waiter) (caller.from_cond_wait l) with
  | none => []
  | some k1 => if returned k1 then lock_acquire_writes fuel k1 l else []

/-- synch.c:403-413, the stores of `cond_signal`. -/
def cond_signal_writes (k : Kernel) (c : Nat) (l : Nat) : List (shared_field × intr_level) :=
  if k.intr_context then []
  else if !lock_held_by_current_thread k l then []
  else
    match (k.conds c).waiters with
    | [] => []
    | e :: rest =>
      sema_up_writes { k with conds := upd k.conds c { waiters := rest } } (sema_ptr.of_waiter e)

/-- The stores of what follows the return of `sema_down` at each call site. -/
def after_sema_down_writes (fuel : Nat) (k : Kernel) :
    caller → List (shared_field × intr_level)
  | caller.direct => []
  | caller.from_lock_acquire l => lock_acquire_finish_writes k l
  | caller.from_cond_wait l => lock_acquire_writes fuel k l

/-- The stores of a resumed call: the loop of `sema_down` is evaluated again with
interrupts off, and what follows its return runs at the restored level. -/
def resume_writes (fuel : Nat) (k : Kernel) : List (shared_field × intr_level) :=
  match k.stack (thread_current k) with
  | susp.running => []
  | susp.in_sema_down sema old_level c =>
    let k0 := intr_set_level k intr_level.INTR_OFF
    let k1 := sema_down_loop k0 sema old_level c
    sema_down_loop_writes k0 sema ++
      (if returned k1 then after_sema_down_writes fuel k1 c else [])
  | susp.in_cond_wait waiter l => cond_wait_rest_writes fuel k waiter l

/-! ## The semaphore self-test -/

/-- synch.c:154-158, the loop of `sema_self_test` with `n` rounds (the source has 10): the
calls thread A makes, on `sema[0]` and `sema[1]`. -/
def self_test_script : Nat → List Op
  | 0 => []
  | n + 1 => Op.sema_up 0 :: Op.sema_down 1 :: self_test_script n

/-- synch.c:169-173, the loop of `sema_test_helper` with `n` rounds: the calls thread B
makes. -/
def test_helper_script : Nat → List Op
  | 0 => []
  | n + 1 => Op.sema_down 0 :: Op.sema_up 1 :: test_helper_script n

/-- The self-test under way: the kernel, and the calls thread A (thread 0, in
`sema_self_test`) and thread B (thread 1, in `sema_test_helper`) have still to make. -/
structure test_state where
  k : Kernel
  main : List Op
  helper : List Op

/-- One turn of the self-test, the scheduler having chosen thread `t`: a thread inside a
call resumes it, a thread outside makes the next call of its loop; `none` when the
thread is blocked or has finished, or is not one of the two. -/
def test_turn (fuel : Nat) (c : test_state) (t : Nat) : Option test_state :=
  if t = 0 then
    if c.k.stack 0 = susp.running then
      match c.main with
      | [] => none
      | op :: rest => (exec fuel c.k 0 op).map (fun k1 => { c with k := k1, main := rest })
    else (exec fuel c.k 0 Op.resume).map (fun k1 => { c with k := k1 })
  else if t = 1 then
    if c.k.stack 1 = susp.running then
      match c.helper with
      | [] => none
      | op :: rest => (exec fuel c.k 1 op).map (fun k1 => { c with k := k1, helper := rest })
    else (exec fuel c.k 1 Op.resume).map (fun k1 => { c with k := k1 })
  else none

/-- The self-test run under a schedule: the list of the threads chosen, turn by turn. -/
def test_run (fuel : Nat) : test_state → List Nat → Option test_state
  | c, [] => some c
  | c, t :: rest =>
    match test_turn fuel c t with
    | none => none
    | some c1 => test_run fuel c1 rest

/-- synch.c:151-153, the start of the self-test with `n` rounds: both semaphores are
initialised to 0, and thread B exists. -/
def test_start (k : Kernel) (n : Nat) : test_state where
  k := sema_init (sema_init k (sema_ptr.plain 0) 0) (sema_ptr.plain 1) 0
  main := self_test_script n
  helper := test_helper_script n

/-- Both threads have left their loops. -/
def test_finished (c : test_state) : Prop :=
  c.main = [] ∧ c.helper = [] ∧ c.k.stack 0 = susp.running ∧ c.k.stack 1 = susp.running

/-- What the self-test reads of the kernel: the two semaphores, and for each of the two
threads whether it is blocked and on which semaphore, if any, its `sema_down` is
suspended. -/
structure test_view where
  value0 : Nat
  waiters0 : List Nat
  value1 : Nat
  waiters1 : List Nat
  blocked0 : Bool
  blocked1 : Bool
  frame0 : Option Nat
  frame1 : Option Nat

/-- A suspension seen as a frame of the view. -/
def in_frame (s : susp) : Option Nat → Prop
  | none => s = susp.running
  | some q => ∃ lv, s = susp.in_sema_down (sema_ptr.plain q) lv caller.direct

/-- The kernel `k`, in thread context, shows the view `v`. -/
structure views (k : Kernel) (v : test_view) : Prop where
  h_ctx : k.intr_context = false
  h_s0 : k.semas 0 = { value := v.value0, waiters := v.waiters0 }
  h_s1 : k.semas 1 = { value := v.value1, waiters := v.waiters1 }
  h_b0 : (k.threads 0).blocked = v.blocked0
  h_b1 : (k.threads 1).blocked = v.blocked1
  h_f0 : in_frame (k.stack 0) v.frame0
  h_f1 : in_frame (k.stack 1) v.frame1

def test_view.value (v : test_view) (s : Nat) : Nat := if s = 0 then v.value0 else v.value1

def test_view.waiters (v : test_view) (s : Nat) : List Nat :=
  if s = 0 then v.waiters0 else v.waiters1

def test_view.blocked (v : test_view) (t : Nat) : Bool := if t = 0 then v.blocked0 else v.blocked1

def test_view.frame (v : test_view) (t : Nat) : Option Nat := if t = 0 then v.frame0 else v.frame1

def test_view.set_sema (v : test_view) (s : Nat) (x : Nat) (ws : List Nat) : test_view :=
  if s = 0 then { v with value0 := x, waiters0 := ws } else { v with value1 := x, waiters1 := ws }

def test_view.set_blocked (v : test_view) (t : Nat) (b : Bool) : test_view :=
  if t = 0 then { v with blocked0 := b } else { v with blocked1 := b }

def test_view.set_frame (v : test_view) (t : Nat) (f : Option Nat) : test_view :=
  if t = 0 then { v with frame0 := f } else { v with frame1 := f }

/-- The view after `sema_up` on semaphore `s` with at most one waiter. -/
def view_up (v : test_view) (s : Nat) : test_view :=
  match v.waiters s with
  | [] => v.set_sema s (unsigned_inc (v.value s)) []
  | x :: rest => (v.set_sema s (unsigned_inc (v.value s)) rest).set_blocked x false

/-- The view after thread `t` has evaluated the loop of `sema_down` on semaphore `s`,
no other thread waiting. -/
def view_down (v : test_view) (t s : Nat) : test_view :=
  if v.value s = 0 then
    ((v.set_sema s 0 [t]).set_blocked t true).set_frame t (some s)
  else (v.set_sema s (unsigned_dec (v.value s)) (v.waiters s)).set_frame t none

/-- One turn of thread `t` with operation `op`, on views; `none` when the turn is
impossible or the view does not determine the outcome. -/
def view_step (v : test_view) (t : Nat) : Op → Option test_view
  | Op.sema_up s =>
    if v.blocked t || (v.frame t).isSome || decide (2 ≤ s) then none
    else
      match v.waiters s with
      | [] => some (view_up v s)
      | [x] => if x < 2 then some (view_up v s) else none
      | _ => none
  | Op.sema_down s =>
    if v.blocked t || (v.frame t).isSome || decide (2 ≤ s) then none
    else if v.value s = 0 && !(v.waiters s).isEmpty then none
    else some (view_down v t s)
  | Op.resume =>
    if v.blocked t then none
    else
      match v.frame t with
      | none => none
      | some s =>
        if decide (2 ≤ s) || (v.value s = 0 && !(v.waiters s).isEmpty) then none
        else some (view_down v t s)
  | _ => none

/-- One turn of the self-test on views. -/
def view_turn (c : test_view × List Op × List Op) (t : Nat) :
    Option (test_view × List Op × List Op) :=
  if t = 0 then
    match c.1.frame0 with
    | none =>
      match c.2.1 with
      | [] => none
      | op :: rest => (view_step c.1 0 op).map (fun v1 => (v1, rest, c.2.2))
    | some _ => (view_step c.1 0 Op.resume).map (fun v1 => (v1, c.2.1, c.2.2))
  else if t = 1 then
    match c.1.frame1 with
    | none =>
      match c.2.2 with
      | [] => none
      | op :: rest => (view_step c.1 1 op).map (fun v1 => (v1, c.2.1, rest))
    | some _ => (view_step c.1 1 Op.resume).map (fun v1 => (v1, c.2.1, c.2.2))
  else none

/-- The stages of a round of the self-test. -/
inductive phase
  | round_start
  | helper_waits
  | main_upped
  | helper_woken
  | main_waits
  | main_waits_helper_woken
  | both_passed
  | main_waits_helper_passed
  | helper_upped
  | main_woken
  | helper_waits_next
  | main_woken_helper_waits
  deriving DecidableEq, Repr

/-- The view at each stage. -/
def phase_view : phase → test_view
  | phase.round_start => ⟨0, [], 0, [], false, false, none, none⟩
  | phase.helper_waits => ⟨0, [1], 0, [], false, true, none, some 0⟩
  | phase.main_upped => ⟨1, [], 0, [], false, false, none, none⟩
  | phase.helper_woken => ⟨1, [], 0, [], false, false, none, some 0⟩
  | phase.main_waits => ⟨1, [], 0, [0], true, false, some 1, none⟩
  | phase.main_waits_helper_woken => ⟨1, [], 0, [0], true, false, some 1, some 0⟩
  | phase.both_passed => ⟨0, [], 0, [], false, false, none, none⟩
  | phase.main_waits_helper_passed => ⟨0, [], 0, [0], true, false, some 1, none⟩
  | phase.helper_upped => ⟨0, [], 1, [], false, false, none, none⟩
  | phase.main_woken => ⟨0, [], 1, [], false, false, some 1, none⟩
  | phase.helper_waits_next => ⟨0, [1], 1, [], false, true, none, some 0⟩
  | phase.main_woken_helper_waits => ⟨0, [1], 1, [], false, true, some 1, some 0⟩

/-- The calls thread A has still to make at each stage, `m` counting the rounds after
the one under way. -/
def phase_main : phase → Nat → List Op
  | phase.round_start, m => self_test_script m
  | phase.helper_waits, m => self_test_script (m + 1)
  | phase.main_upped, m => Op.sema_down 1 :: self_test_script m
  | phase.helper_woken, m => Op.sema_down 1 :: self_test_script m
  | phase.main_waits, m => self_test_script m
  | phase.main_waits_helper_woken, m => self_test_script m
  | phase.both_passed, m => Op.sema_down 1 :: self_test_script m
  | phase.main_waits_helper_passed, m => self_test_script m
  | phase.helper_upped, m => Op.sema_down 1 :: self_test_script m
  | phase.main_woken, m => self_test_script m
  | phase.helper_waits_next, m => Op.sema_down 1 :: self_test_script (m + 1)
  | phase.main_woken_helper_waits, m => self_test_script (m + 1)

/-- The calls thread B has still to make at each stage. -/
def phase_helper : phase → Nat → List Op
  | phase.round_start, m => test_helper_script m
  | phase.helper_waits, m => Op.sema_up 1 :: test_helper_script m
  | phase.main_upped, m => test_helper_script (m + 1)
  | phase.helper_woken, m => Op.sema_up 1 :: test_helper_script m
  | phase.main_waits, m => test_helper_script (m + 1)
  | phase.main_waits_helper_woken, m => Op.sema_up 1 :: test_helper_script m
  | phase.both_passed, m => Op.sema_up 1 :: test_helper_script m
  | phase.main_waits_helper_passed, m => Op.sema_up 1 :: test_helper_script m
  | phase.helper_upped, m => test_helper_script m
  | phase.main_woken, m => test_helper_script m
  | phase.helper_waits_next, m => Op.sema_up 1 :: test_helper_script m
  | phase.main_woken_helper_waits, m => Op.sema_up 1 :: test_helper_script m

/-- The largest number of turns the self-test can still take from each stage. -/
def phase_turns : phase → Nat → Nat
  | phase.round_start, m => 6 * m
  | phase.helper_waits, m => 6 * m + 5
  | phase.main_upped, m => 6 * m + 4
  | phase.helper_woken, m => 6 * m + 4
  | phase.main_waits, m => 6 * m + 3
  | phase.main_waits_helper_woken, m => 6 * m + 3
  | phase.both_passed, m => 6 * m + 3
  | phase.main_waits_helper_passed, m => 6 * m + 2
  | phase.helper_upped, m => 6 * m + 1
  | phase.main_woken, m => 6 * m + 1
  | phase.helper_waits_next, m => 6 * m + 6
  | phase.main_woken_helper_waits, m => 6 * m + 6

/-- The self-test stands at stage `p`, with `m` rounds after the one under way. -/
def at_phase (c : test_state) (p : phase) (m : Nat) : Prop :=
  views c.k (phase_view p) ∧ c.main = phase_main p m ∧ c.helper = phase_helper p m

/-- The self-test on views, at stage `p` with `m` rounds after the one under way. -/
def phase_cfg (p : phase) (m : Nat) : test_view × List Op × List Op :=
  (phase_view p, phase_main p m, phase_helper p m)

/-- Thread `t` cannot take a turn: it is not one of the two, is blocked, or has left its
loop. -/
def view_idle (c : test_view × List Op × List Op) (t : Nat) : Bool :=
  decide (2 ≤ t) || c.1.blocked t ||
    ((c.1.frame t).isNone && (if t = 0 then c.2.1 else c.2.2).isEmpty)

/-! ## Basic facts about the state accessors -/

@[simp] theorem upd_same {β : Type} (f : Nat → β) (a : Nat) (v : β) : upd f a v a = v := by
  simp [upd]

@[simp] theorem upd_ne {β : Type} (f : Nat → β) (a b : Nat) (v : β) (h : b ≠ a) :
    upd f a v b = f b := by
  simp [upd, h]

theorem upd_apply {β : Type} (f : Nat → β) (a b : Nat) (v : β) :
    upd f a v b = if b = a then v else f b := rfl

@[simp] theorem sema_set_sema_same (k : Kernel) (p : sema_ptr) (v : semaphore) :
    (k.set_sema p v).sema p = v := by
  cases p <;> simp [Kernel.set_sema, Kernel.sema]

theorem sema_set_sema_ne (k : Kernel) (p q : sema_ptr) (v : semaphore) (h : q ≠ p) :
    (k.set_sema p v).sema q = k.sema q := by
  cases p <;> cases q <;> simp_all [Kernel.set_sema, Kernel.sema, upd_apply]

@[simp] theorem set_sema_threads (k : Kernel) (p : sema_ptr) (v : semaphore) :
    (k.set_sema p v).threads = k.threads := by
  cases p <;> rfl

@[simp] theorem set_sema_stack (k : Kernel) (p : sema_ptr) (v : semaphore) :
    (k.set_sema p v).stack = k.stack := by
  cases p <;> rfl

@[simp] theorem set_sema_level (k : Kernel) (p : sema_ptr) (v : semaphore) :
    (k.set_sema p v).level = k.level := by
  cases p <;> rfl

@[simp] theorem set_sema_current (k : Kernel) (p : sema_ptr) (v : semaphore) :
    (k.set_sema p v).current = k.current := by
  cases p <;> rfl

@[simp] theorem set_sema_ready_list (k : Kernel) (p : sema_ptr) (v : semaphore) :
    (k.set_sema p v).ready_list = k.ready_list := by
  cases p <;> rfl

@[simp] theorem set_sema_intr_context (k : Kernel) (p : sema_ptr) (v : semaphore) :
    (k.set_sema p v).intr_context = k.intr_context := by
  cases p <;> rfl

@[simp] theorem set_sema_thread_mlfqs (k : Kernel) (p : sema_ptr) (v : semaphore) :
    (k.set_sema p v).thread_mlfqs = k.thread_mlfqs := by
  cases p <;> rfl

@[simp] theorem set_sema_yields (k : Kernel) (p : sema_ptr) (v : semaphore) :
    (k.set_sema p v).yields = k.yields := by
  cases p <;> rfl

@[simp] theorem set_sema_conds (k : Kernel) (p : sema_ptr) (v : semaphore) :
    (k.set_sema p v).conds = k.conds := by
  cases p <;> rfl

@[simp] theorem sema_with_level (k : Kernel) (lv : intr_level) (p : sema_ptr) :
    Kernel.sema { k with level := lv } p = k.sema p := by
  cases p <;> rfl

@[simp] theorem intr_set_level_sema (k : Kernel) (lv : intr_level) (p : sema_ptr) :
    (intr_set_level k lv).sema p = k.sema p := by
  cases p <;> rfl

@[simp] theorem intr_set_level_threads (k : Kernel) (lv : intr_level) :
    (intr_set_level k lv).threads = k.threads := rfl

@[simp] theorem intr_set_level_stack (k : Kernel) (lv : intr_level) :
    (intr_set_level k lv).stack = k.stack := rfl

@[simp] theorem intr_set_level_level (k : Kernel) (lv : intr_level) :
    (intr_set_level k lv).level = lv := rfl

@[simp] theorem intr_set_level_locks (k : Kernel) (lv : intr_level) :
    (intr_set_level k lv).locks = k.locks := rfl

@[simp] theorem intr_set_level_current (k : Kernel) (lv : intr_level) :
    (intr_set_level k lv).current = k.current := rfl

@[simp] theorem intr_set_level_ready_list (k : Kernel) (lv : intr_level) :
    (intr_set_level k lv).ready_list = k.ready_list := rfl

@[simp] theorem intr_set_level_intr_context (k : Kernel) (lv : intr_level) :
    (intr_set_level k lv).intr_context = k.intr_context := rfl

@[simp] theorem intr_disable_fst (k : Kernel) : (intr_disable k).1 = k.level := rfl

@[simp] theorem intr_disable_snd (k : Kernel) :
    (intr_disable k).2 = intr_set_level k intr_level.INTR_OFF := rfl

theorem unsigned_dec_pos (v : Nat) (h0 : 0 < v) (h : v < UINT_SIZE) :
    unsigned_dec v + 1 = v := by
  unfold unsigned_dec UINT_SIZE at *
  omega

theorem unsigned_inc_small (v : Nat) (h : v + 1 < UINT_SIZE) : unsigned_inc v = v + 1 := by
  unfold unsigned_inc UINT_SIZE at *
  omega

theorem unsigned_inc_le (v : Nat) : unsigned_inc v ≤ v + 1 := by
  unfold unsigned_inc UINT_SIZE
  omega

/-! ## C10: `sema_try_down` -/

/-- C10: for a semaphore holding a representable `unsigned` value, `sema_try_down`
returns true and leaves the value exactly 1 lower when the value is positive, returns
false with the value still 0 when it is 0; in both cases the waiter list is the same,
no thread changes (the caller does not block and is not suspended) and the interrupt
level on return is the level on entry. -/
theorem sema_try_down_spec (k : Kernel) (sema : sema_ptr)
    (h : (k.sema sema).value < UINT_SIZE) :
    (0 < (k.sema sema).value →
      (sema_try_down k sema).1 = true ∧
      ((sema_try_down k sema).2.sema sema).value + 1 = (k.sema sema).value) ∧
    ((k.sema sema).value = 0 →
      (sema_try_down k sema).1 = false ∧
      ((sema_try_down k sema).2.sema sema).value = 0) ∧
    ((sema_try_down k sema).2.sema sema).waiters = (k.sema sema).waiters ∧
    (sema_try_down k sema).2.threads = k.threads ∧
    (sema_try_down k sema).2.stack = k.stack ∧
    (sema_try_down k sema).2.level = k.level := by
  by_cases hv : 0 < (k.sema sema).value
  · have hd := unsigned_dec_pos _ hv h
    simp [sema_try_down, hv, hd]
    omega
  · have h0 : (k.sema sema).value = 0 := by omega
    simp [sema_try_down, h0]

/-- C10 at a concrete input: a semaphore of value 2 in the booted kernel. -/
theorem sema_try_down_spec_witness :
    ((sema_try_down (sema_init (boot (fun _ => 31) false) (sema_ptr.plain 0) 2)
        (sema_ptr.plain 0)).1 = true) ∧
    ((sema_try_down (sema_init (boot (fun _ => 31) false) (sema_ptr.plain 0) 2)
        (sema_ptr.plain 0)).2.sema (sema_ptr.plain 0)).value + 1 = 2 :=
  (sema_try_down_spec (sema_init (boot (fun _ => 31) false) (sema_ptr.plain 0) 2)
    (sema_ptr.plain 0) (by decide)).1 (by decide)

/-! ## The list collaborator -/

theorem sort_insert_perm {α : Type} (less : α → α → Bool) (a : α) (l : List α) :
    (sort_insert less a l).Perm (a :: l) := by
  induction l with
  | nil => simp [sort_insert]
  | cons b rest ih =>
    simp only [sort_insert]
    split
    · exact (List.Perm.cons b ih).trans (List.Perm.swap a b rest)
    · exact List.Perm.refl _

theorem list_sort_perm {α : Type} (less : α → α → Bool) (l : List α) :
    (list_sort less l).Perm l := by
  induction l with
  | nil => simp [list_sort]
  | cons a rest ih =>
    simp only [list_sort]
    exact (sort_insert_perm less a _).trans (List.Perm.cons a ih)

theorem sort_insert_sorted {α : Type} (f : α → Int) (less : α → α → Bool)
    (hless : ∀ x y, less x y = decide (f y < f x)) (a : α) (l : List α)
    (hl : l.Pairwise (fun x y => f y ≤ f x)) :
    (sort_insert less a l).Pairwise (fun x y => f y ≤ f x) := by
  induction l with
  | nil => simp [sort_insert]
  | cons b rest ih =>
    rw [List.pairwise_cons] at hl
    simp only [sort_insert]
    split
    · rename_i hb
      rw [hless] at hb
      have hb1 : f a < f b := by simpa using hb
      rw [List.pairwise_cons]
      refine ⟨?_, ih hl.2⟩
      intro y hy
      have hy1 : y ∈ a :: rest := (sort_insert_perm less a rest).subset hy
      rcases List.mem_cons.mp hy1 with rfl | hy2
      · omega
      · exact hl.1 y hy2
    · rename_i hb
      rw [hless] at hb
      have hb1 : f b ≤ f a := by simpa using hb
      rw [List.pairwise_cons]
      refine ⟨?_, List.pairwise_cons.mpr hl⟩
      intro y hy
      rcases List.mem_cons.mp hy with rfl | hy2
      · exact hb1
      · have := hl.1 y hy2
        omega

theorem list_sort_sorted {α : Type} (f : α → Int) (less : α → α → Bool)
    (hless : ∀ x y, less x y = decide (f y < f x)) (l : List α) :
    (list_sort less l).Pairwise (fun x y => f y ≤ f x) := by
  induction l with
  | nil => simp [list_sort]
  | cons a rest ih =>
    simp only [list_sort]
    exact sort_insert_sorted f less hless a _ ih

theorem list_insert_ordered_perm {α : Type} (less : α → α → Bool) (a : α) (l : List α) :
    (list_insert_ordered less a l).Perm (a :: l) := by
  induction l with
  | nil => simp [list_insert_ordered]
  | cons b rest ih =>
    simp only [list_insert_ordered]
    split
    · exact List.Perm.refl _
    · exact (List.Perm.cons b ih).trans (List.Perm.swap a b rest)

theorem list_insert_ordered_sorted {α : Type} (f : α → Int) (less : α → α → Bool)
    (hless : ∀ x y, less x y = decide (f y < f x)) (a : α) (l : List α)
    (hl : l.Pairwise (fun x y => f y ≤ f x)) :
    (list_insert_ordered less a l).Pairwise (fun x y => f y ≤ f x) := by
  induction l with
  | nil => simp [list_insert_ordered]
  | cons b rest ih =>
    rw [List.pairwise_cons] at hl
    simp only [list_insert_ordered]
    split
    · rename_i hb
      rw [hless] at hb
      have hb1 : f b < f a := by simpa using hb
      rw [List.pairwise_cons]
      refine ⟨?_, List.pairwise_cons.mpr hl⟩
      intro y hy
      rcases List.mem_cons.mp hy with rfl | hy2
      · omega
      · have := hl.1 y hy2
        omega
    · rename_i hb
      rw [hless] at hb
      have hb1 : f a ≤ f b := by simpa using hb
      rw [List.pairwise_cons]
      refine ⟨?_, ih hl.2⟩
      intro y hy
      have hy1 : y ∈ a :: rest := (list_insert_ordered_perm less a rest).subset hy
      rcases List.mem_cons.mp hy1 with rfl | hy2
      · exact hb1
      · exact hl.1 y hy2

theorem mem_list_insert_ordered {α : Type} (less : α → α → Bool) (a x : α) (l : List α) :
    x ∈ list_insert_ordered less a l ↔ x = a ∨ x ∈ l := by
  rw [(list_insert_ordered_perm less a l).mem_iff, List.mem_cons]

theorem list_higher_priority_eq (k : Kernel) (x y : Nat) :
    list_higher_priority k x y = decide ((k.threads y).priority < (k.threads x).priority) := rfl

@[simp] theorem list_higher_priority_level (k : Kernel) (lv : intr_level) :
    list_higher_priority (intr_set_level k lv) = list_higher_priority k := rfl

/-! ## Frame facts of the elementary stores -/

@[simp] theorem thread_block_locks (k : Kernel) :
    (thread_block k).locks = k.locks := rfl

@[simp] theorem thread_block_semas (k : Kernel) :
    (thread_block k).semas = k.semas := rfl

@[simp] theorem thread_block_elems (k : Kernel) :
    (thread_block k).elems = k.elems := rfl

@[simp] theorem thread_block_conds (k : Kernel) :
    (thread_block k).conds = k.conds := rfl

@[simp] theorem thread_block_stack (k : Kernel) :
    (thread_block k).stack = k.stack := rfl

@[simp] theorem thread_block_current (k : Kernel) :
    (thread_block k).current = k.current := rfl

@[simp] theorem thread_block_ready_list (k : Kernel) :
    (thread_block k).ready_list = k.ready_list := rfl

@[simp] theorem thread_block_thread_mlfqs (k : Kernel) :
    (thread_block k).thread_mlfqs = k.thread_mlfqs := rfl

@[simp] theorem thread_block_level (k : Kernel) :
    (thread_block k).level = k.level := rfl

@[simp] theorem thread_block_intr_context (k : Kernel) :
    (thread_block k).intr_context = k.intr_context := rfl

@[simp] theorem thread_block_yields (k : Kernel) :
    (thread_block k).yields = k.yields := rfl

@[simp] theorem thread_block_sema (k : Kernel) (q : sema_ptr) :
    (thread_block k).sema q = k.sema q := by
  cases q <;> rfl

@[simp] theorem thread_unblock_locks (k : Kernel) (t : Nat) :
    (thread_unblock k t).locks = k.locks := rfl

@[simp] theorem thread_unblock_semas (k : Kernel) (t : Nat) :
    (thread_unblock k t).semas = k.semas := rfl

@[simp] theorem thread_unblock_elems (k : Kernel) (t : Nat) :
    (thread_unblock k t).elems = k.elems := rfl

@[simp] theorem thread_unblock_conds (k : Kernel) (t : Nat) :
    (thread_unblock k t).conds = k.conds := rfl

@[simp] theorem thread_unblock_stack (k : Kernel) (t : Nat) :
    (thread_unblock k t).stack = k.stack := rfl

@[simp] theorem thread_unblock_current (k : Kernel) (t : Nat) :
    (thread_unblock k t).current = k.current := rfl

@[simp] theorem thread_unblock_thread_mlfqs (k : Kernel) (t : Nat) :
    (thread_unblock k t).thread_mlfqs = k.thread_mlfqs := rfl

@[simp] theorem thread_unblock_level (k : Kernel) (t : Nat) :
    (thread_unblock k t).level = k.level := rfl

@[simp] theorem thread_unblock_intr_context (k : Kernel) (t : Nat) :
    (thread_unblock k t).intr_context = k.intr_context := rfl

@[simp] theorem thread_unblock_yields (k : Kernel) (t : Nat) :
    (thread_unblock k t).yields = k.yields := rfl

@[simp] theorem thread_unblock_sema (k : Kernel) (t : Nat) (q : sema_ptr) :
    (thread_unblock k t).sema q = k.sema q := by
  cases q <;> rfl

@[simp] theorem thread_yield_threads (k : Kernel) :
    (thread_yield k).threads = k.threads := rfl

@[simp] theorem thread_yield_locks (k : Kernel) :
    (thread_yield k).locks = k.locks := rfl

@[simp] theorem thread_yield_semas (k : Kernel) :
    (thread_yield k).semas = k.semas := rfl

@[simp] theorem thread_yield_elems (k : Kernel) :
    (thread_yield k).elems = k.elems := rfl

@[simp] theorem thread_yield_conds (k : Kernel) :
    (thread_yield k).conds = k.conds := rfl

@[simp] theorem thread_yield_stack (k : Kernel) :
    (thread_yield k).stack = k.stack := rfl

@[simp] theorem thread_yield_current (k : Kernel) :
    (thread_yield k).current = k.current := rfl

@[simp] theorem thread_yield_ready_list (k : Kernel) :
    (thread_yield k).ready_list = k.ready_list := rfl

@[simp] theorem thread_yield_thread_mlfqs (k : Kernel) :
    (thread_yield k).thread_mlfqs = k.thread_mlfqs := rfl

@[simp] theorem thread_yield_level (k : Kernel) :
    (thread_yield k).level = k.level := rfl

@[simp] theorem thread_yield_intr_context (k : Kernel) :
    (thread_yield k).intr_context = k.intr_context := rfl

@[simp] theorem thread_yield_sema (k : Kernel) (q : sema_ptr) :
    (thread_yield k).sema q = k.sema q := by
  cases q <;> rfl

@[simp] theorem intr_set_level_semas (k : Kernel) (lv : intr_level) :
    (intr_set_level k lv).semas = k.semas := rfl

@[simp] theorem intr_set_level_elems (k : Kernel) (lv : intr_level) :
    (intr_set_level k lv).elems = k.elems := rfl

@[simp] theorem intr_set_level_conds (k : Kernel) (lv : intr_level) :
    (intr_set_level k lv).conds = k.conds := rfl

@[simp] theorem intr_set_level_thread_mlfqs (k : Kernel) (lv : intr_level) :
    (intr_set_level k lv).thread_mlfqs = k.thread_mlfqs := rfl

@[simp] theorem intr_set_level_yields (k : Kernel) (lv : intr_level) :
    (intr_set_level k lv).yields = k.yields := rfl

@[simp] theorem set_priority_locks (k : Kernel) (t : Nat) (p : Int) :
    (k.set_priority t p).locks = k.locks := rfl

@[simp] theorem set_priority_semas (k : Kernel) (t : Nat) (p : Int) :
    (k.set_priority t p).semas = k.semas := rfl

@[simp] theorem set_priority_elems (k : Kernel) (t : Nat) (p : Int) :
    (k.set_priority t p).elems = k.elems := rfl

@[simp] theorem set_priority_conds (k : Kernel) (t : Nat) (p : Int) :
    (k.set_priority t p).conds = k.conds := rfl

@[simp] theorem set_priority_stack (k : Kernel) (t : Nat) (p : Int) :
    (k.set_priority t p).stack = k.stack := rfl

@[simp] theorem set_priority_current (k : Kernel) (t : Nat) (p : Int) :
    (k.set_priority t p).current = k.current := rfl

@[simp] theorem set_priority_ready_list (k : Kernel) (t : Nat) (p : Int) :
    (k.set_priority t p).ready_list = k.ready_list := rfl

@[simp] theorem set_priority_thread_mlfqs (k : Kernel) (t : Nat) (p : Int) :
    (k.set_priority t p).thread_mlfqs = k.thread_mlfqs := rfl

@[simp] theorem set_priority_level (k : Kernel) (t : Nat) (p : Int) :
    (k.set_priority t p).level = k.level := rfl

@[simp] theorem set_priority_intr_context (k : Kernel) (t : Nat) (p : Int) :
    (k.set_priority t p).intr_context = k.intr_context := rfl

@[simp] theorem set_priority_yields (k : Kernel) (t : Nat) (p : Int) :
    (k.set_priority t p).yields = k.yields := rfl

@[simp] theorem set_priority_sema (k : Kernel) (t : Nat) (p : Int) (q : sema_ptr) :
    (k.set_priority t p).sema q = k.sema q := by
  cases q <;> rfl

@[simp] theorem set_wait_on_lock_locks (k : Kernel) (t : Nat) (w : Option Nat) :
    (k.set_wait_on_lock t w).locks = k.locks := rfl

@[simp] theorem set_wait_on_lock_semas (k : Kernel) (t : Nat) (w : Option Nat) :
    (k.set_wait_on_lock t w).semas = k.semas := rfl

@[simp] theorem set_wait_on_lock_elems (k : Kernel) (t : Nat) (w : Option Nat) :
    (k.set_wait_on_lock t w).elems = k.elems := rfl

@[simp] theorem set_wait_on_lock_conds (k : Kernel) (t : Nat) (w : Option Nat) :
    (k.set_wait_on_lock t w).conds = k.conds := rfl

@[simp] theorem set_wait_on_lock_stack (k : Kernel) (t : Nat) (w : Option Nat) :
    (k.set_wait_on_lock t w).stack = k.stack := rfl

@[simp] theorem set_wait_on_lock_current (k : Kernel) (t : Nat) (w : Option Nat) :
    (k.set_wait_on_lock t w).current = k.current := rfl

@[simp] theorem set_wait_on_lock_ready_list (k : Kernel) (t : Nat) (w : Option Nat) :
    (k.set_wait_on_lock t w).ready_list = k.ready_list := rfl

@[simp] theorem set_wait_on_lock_thread_mlfqs (k : Kernel) (t : Nat) (w : Option Nat) :
    (k.set_wait_on_lock t w).thread_mlfqs = k.thread_mlfqs := rfl

@[simp] theorem set_wait_on_lock_level (k : Kernel) (t : Nat) (w : Option Nat) :
    (k.set_wait_on_lock t w).level = k.level := rfl

@[simp] theorem set_wait_on_lock_intr_context (k : Kernel) (t : Nat) (w : Option Nat) :
    (k.set_wait_on_lock t w).intr_context = k.intr_context := rfl

@[simp] theorem set_wait_on_lock_yields (k : Kernel) (t : Nat) (w : Option Nat) :
    (k.set_wait_on_lock t w).yields = k.yields := rfl

@[simp] theorem set_wait_on_lock_sema (k : Kernel) (t : Nat) (w : Option Nat) (q : sema_ptr) :
    (k.set_wait_on_lock t w).sema q = k.sema q := by
  cases q <;> rfl

@[simp] theorem set_donations_locks (k : Kernel) (t : Nat) (ds : List Nat) :
    (k.set_donations t ds).locks = k.locks := rfl

@[simp] theorem set_donations_semas (k : Kernel) (t : Nat) (ds : List Nat) :
    (k.set_donations t ds).semas = k.semas := rfl

@[simp] theorem set_donations_elems (k : Kernel) (t : Nat) (ds : List Nat) :
    (k.set_donations t ds).elems = k.elems := rfl

@[simp] theorem set_donations_conds (k : Kernel) (t : Nat) (ds : List Nat) :
    (k.set_donations t ds).conds = k.conds := rfl

@[simp] theorem set_donations_stack (k : Kernel) (t : Nat) (ds : List Nat) :
    (k.set_donations t ds).stack = k.stack := rfl

@[simp] theorem set_donations_current (k : Kernel) (t : Nat) (ds : List Nat) :
    (k.set_donations t ds).current = k.current := rfl

@[simp] theorem set_donations_ready_list (k : Kernel) (t : Nat) (ds : List Nat) :
    (k.set_donations t ds).ready_list = k.ready_list := rfl

@[simp] theorem set_donations_thread_mlfqs (k : Kernel) (t : Nat) (ds : List Nat) :
    (k.set_donations t ds).thread_mlfqs = k.thread_mlfqs := rfl

@[simp] theorem set_donations_level (k : Kernel) (t : Nat) (ds : List Nat) :
    (k.set_donations t ds).level = k.level := rfl

@[simp] theorem set_donations_intr_context (k : Kernel) (t : Nat) (ds : List Nat) :
    (k.set_donations t ds).intr_context = k.intr_context := rfl

@[simp] theorem set_donations_yields (k : Kernel) (t : Nat) (ds : List Nat) :
    (k.set_donations t ds).yields = k.yields := rfl

@[simp] theorem set_donations_sema (k : Kernel) (t : Nat) (ds : List Nat) (q : sema_ptr) :
    (k.set_donations t ds).sema q = k.sema q := by
  cases q <;> rfl

@[simp] theorem set_holder_threads (k : Kernel) (l : Nat) (h : Option Nat) :
    (k.set_holder l h).threads = k.threads := rfl

@[simp] theorem set_holder_semas (k : Kernel) (l : Nat) (h : Option Nat) :
    (k.set_holder l h).semas = k.semas := rfl

@[simp] theorem set_holder_elems (k : Kernel) (l : Nat) (h : Option Nat) :
    (k.set_holder l h).elems = k.elems := rfl

@[simp] theorem set_holder_conds (k : Kernel) (l : Nat) (h : Option Nat) :
    (k.set_holder l h).conds = k.conds := rfl

@[simp] theorem set_holder_stack (k : Kernel) (l : Nat) (h : Option Nat) :
    (k.set_holder l h).stack = k.stack := rfl

@[simp] theorem set_holder_current (k : Kernel) (l : Nat) (h : Option Nat) :
    (k.set_holder l h).current = k.current := rfl

@[simp] theorem set_holder_ready_list (k : Kernel) (l : Nat) (h : Option Nat) :
    (k.set_holder l h).ready_list = k.ready_list := rfl

@[simp] theorem set_holder_thread_mlfqs (k : Kernel) (l : Nat) (h : Option Nat) :
    (k.set_holder l h).thread_mlfqs = k.thread_mlfqs := rfl

@[simp] theorem set_holder_level (k : Kernel) (l : Nat) (h : Option Nat) :
    (k.set_holder l h).level = k.level := rfl

@[simp] theorem set_holder_intr_context (k : Kernel) (l : Nat) (h : Option Nat) :
    (k.set_holder l h).intr_context = k.intr_context := rfl

@[simp] theorem set_holder_yields (k : Kernel) (l : Nat) (h : Option Nat) :
    (k.set_holder l h).yields = k.yields := rfl

@[simp] theorem set_holder_sema (k : Kernel) (l : Nat) (h : Option Nat) (q : sema_ptr) :
    (k.set_holder l h).sema q = k.sema q := by
  cases q <;> simp [Kernel.sema, Kernel.set_holder, upd_apply]
  split <;> simp_all

@[simp] theorem set_stack_threads (k : Kernel) (t : Nat) (s : susp) :
    (k.set_stack t s).threads = k.threads := rfl

@[simp] theorem set_stack_locks (k : Kernel) (t : Nat) (s : susp) :
    (k.set_stack t s).locks = k.locks := rfl

@[simp] theorem set_stack_semas (k : Kernel) (t : Nat) (s : susp) :
    (k.set_stack t s).semas = k.semas := rfl

@[simp] theorem set_stack_elems (k : Kernel) (t : Nat) (s : susp) :
    (k.set_stack t s).elems = k.elems := rfl

@[simp] theorem set_stack_conds (k : Kernel) (t : Nat) (s : susp) :
    (k.set_stack t s).conds = k.conds := rfl

@[simp] theorem set_stack_current (k : Kernel) (t : Nat) (s : susp) :
    (k.set_stack t s).current = k.current := rfl

@[simp] theorem set_stack_ready_list (k : Kernel) (t : Nat) (s : susp) :
    (k.set_stack t s).ready_list = k.ready_list := rfl

@[simp] theorem set_stack_thread_mlfqs (k : Kernel) (t : Nat) (s : susp) :
    (k.set_stack t s).thread_mlfqs = k.thread_mlfqs := rfl

@[simp] theorem set_stack_level (k : Kernel) (t : Nat) (s : susp) :
    (k.set_stack t s).level = k.level := rfl

@[simp] theorem set_stack_intr_context (k : Kernel) (t : Nat) (s : susp) :
    (k.set_stack t s).intr_context = k.intr_context := rfl

@[simp] theorem set_stack_yields (k : Kernel) (t : Nat) (s : susp) :
    (k.set_stack t s).yields = k.yields := rfl

@[simp] theorem set_stack_sema (k : Kernel) (t : Nat) (s : susp) (q : sema_ptr) :
    (k.set_stack t s).sema q = k.sema q := by
  cases q <;> rfl

@[simp] theorem set_sema_holder (k : Kernel) (p : sema_ptr) (v : semaphore) (l : Nat) :
    ((k.set_sema p v).locks l).holder = (k.locks l).holder := by
  cases p <;> simp [Kernel.set_sema, upd_apply]
  split <;> simp_all

@[simp] theorem set_sema_elem_priority (k : Kernel) (p : sema_ptr) (v : semaphore) (e : Nat) :
    ((k.set_sema p v).elems e).priority = (k.elems e).priority := by
  cases p <;> simp [Kernel.set_sema, upd_apply]
  split <;> simp_all

@[simp] theorem set_priority_thread_same (k : Kernel) (t : Nat) (p : Int) :
    (k.set_priority t p).threads t = { k.threads t with priority := p } := by
  simp [Kernel.set_priority]

theorem set_priority_thread_ne (k : Kernel) (t u : Nat) (p : Int) (h : u ≠ t) :
    (k.set_priority t p).threads u = k.threads u := by
  simp [Kernel.set_priority, h]

@[simp] theorem set_holder_lock_same (k : Kernel) (l : Nat) (h : Option Nat) :
    (k.set_holder l h).locks l = { k.locks l with holder := h } := by
  simp [Kernel.set_holder]

theorem set_holder_lock_ne (k : Kernel) (l m : Nat) (h : Option Nat) (hm : m ≠ l) :
    (k.set_holder l h).locks m = k.locks m := by
  simp [Kernel.set_holder, hm]

@[simp] theorem list_higher_priority_set_sema (k : Kernel) (p : sema_ptr) (v : semaphore) :
    list_higher_priority (k.set_sema p v) = list_higher_priority k := by
  funext a b
  simp [list_higher_priority]

/-! ## What `sema_up` does -/

theorem sema_up_cases (k : Kernel) (sema : sema_ptr) :
    sema_up k sema = sema_up_critical k sema ∨
    sema_up k sema = thread_yield (sema_up_critical k sema) := by
  unfold sema_up
  simp only
  split
  · exact Or.inl rfl
  · split
    · exact Or.inr rfl
    · exact Or.inl rfl

@[simp] theorem sema_up_sema (k : Kernel) (sema q : sema_ptr) :
    (sema_up k sema).sema q = (sema_up_critical k sema).sema q := by
  rcases sema_up_cases k sema with h | h <;> rw [h]
  simp

@[simp] theorem sema_up_threads (k : Kernel) (sema : sema_ptr) :
    (sema_up k sema).threads = (sema_up_critical k sema).threads := by
  rcases sema_up_cases k sema with h | h <;> rw [h]
  simp

@[simp] theorem sema_up_locks (k : Kernel) (sema : sema_ptr) :
    (sema_up k sema).locks = (sema_up_critical k sema).locks := by
  rcases sema_up_cases k sema with h | h <;> rw [h]
  simp

@[simp] theorem sema_up_semas (k : Kernel) (sema : sema_ptr) :
    (sema_up k sema).semas = (sema_up_critical k sema).semas := by
  rcases sema_up_cases k sema with h | h <;> rw [h]
  simp

@[simp] theorem sema_up_elems (k : Kernel) (sema : sema_ptr) :
    (sema_up k sema).elems = (sema_up_critical k sema).elems := by
  rcases sema_up_cases k sema with h | h <;> rw [h]
  simp

@[simp] theorem sema_up_conds (k : Kernel) (sema : sema_ptr) :
    (sema_up k sema).conds = k.conds := by
  rcases sema_up_cases k sema with h | h <;> rw [h] <;>
    (unfold sema_up_critical; simp only [intr_disable_fst, intr_disable_snd]; split <;> simp)

@[simp] theorem sema_up_stack (k : Kernel) (sema : sema_ptr) :
    (sema_up k sema).stack = k.stack := by
  rcases sema_up_cases k sema with h | h <;> rw [h] <;>
    (unfold sema_up_critical; simp only [intr_disable_fst, intr_disable_snd]; split <;> simp)

@[simp] theorem sema_up_current (k : Kernel) (sema : sema_ptr) :
    (sema_up k sema).current = k.current := by
  rcases sema_up_cases k sema with h | h <;> rw [h] <;>
    (unfold sema_up_critical; simp only [intr_disable_fst, intr_disable_snd]; split <;> simp)

@[simp] theorem sema_up_thread_mlfqs (k : Kernel) (sema : sema_ptr) :
    (sema_up k sema).thread_mlfqs = k.thread_mlfqs := by
  rcases sema_up_cases k sema with h | h <;> rw [h] <;>
    (unfold sema_up_critical; simp only [intr_disable_fst, intr_disable_snd]; split <;> simp)

@[simp] theorem sema_up_intr_context (k : Kernel) (sema : sema_ptr) :
    (sema_up k sema).intr_context = k.intr_context := by
  rcases sema_up_cases k sema with h | h <;> rw [h] <;>
    (unfold sema_up_critical; simp only [intr_disable_fst, intr_disable_snd]; split <;> simp)

@[simp] theorem sema_up_level (k : Kernel) (sema : sema_ptr) :
    (sema_up k sema).level = k.level := by
  rcases sema_up_cases k sema with h | h <;> rw [h] <;>
    (unfold sema_up_critical; simp only [intr_disable_fst, intr_disable_snd]; split <;> simp)

@[simp] theorem sema_up_ready_list (k : Kernel) (sema : sema_ptr) :
    (sema_up k sema).ready_list = (sema_up_critical k sema).ready_list := by
  rcases sema_up_cases k sema with h | h <;> rw [h]
  simp

theorem list_sort_eq_nil {α : Type} (less : α → α → Bool) (l : List α)
    (h : list_sort less l = []) : l = [] := by
  have hp := list_sort_perm less l
  rw [h] at hp
  exact List.Perm.eq_nil hp.symm

/-- The semaphore after the critical part of `sema_up`. -/
theorem sema_up_critical_sema (k : Kernel) (sema : sema_ptr) :
    (sema_up_critical k sema).sema sema =
      { value := unsigned_inc (k.sema sema).value,
        waiters := (list_sort (list_higher_priority k) (k.sema sema).waiters).tail } := by
  unfold sema_up_critical
  simp only [intr_disable_fst, intr_disable_snd, list_higher_priority_level, intr_set_level_sema]
  split
  · rename_i hs
    simp [list_sort_eq_nil _ _ hs, list_sort]
  · rename_i hs
    simp [hs]

theorem sema_up_critical_sema_ne (k : Kernel) (sema q : sema_ptr) (h : q ≠ sema) :
    (sema_up_critical k sema).sema q = k.sema q := by
  unfold sema_up_critical
  simp only [intr_disable_fst, intr_disable_snd, list_higher_priority_level, intr_set_level_sema]
  split <;> simp [sema_set_sema_ne, h]

/-- The threads after the critical part of `sema_up`: only the front of the sorted waiter
list changes, and only its `blocked` flag. -/
theorem sema_up_critical_threads (k : Kernel) (sema : sema_ptr) :
    (sema_up_critical k sema).threads =
      match list_sort (list_higher_priority k) (k.sema sema).waiters with
      | [] => k.threads
      | t :: _ => upd k.threads t { k.threads t with blocked := false } := by
  unfold sema_up_critical
  simp only [intr_disable_fst, intr_disable_snd, list_higher_priority_level, intr_set_level_sema]
  split <;> simp [thread_unblock]

theorem sema_up_critical_ready_list (k : Kernel) (sema : sema_ptr) :
    (sema_up_critical k sema).ready_list =
      match list_sort (list_higher_priority k) (k.sema sema).waiters with
      | [] => k.ready_list
      | t :: _ => list_insert_ordered (list_higher_priority k) t k.ready_list := by
  unfold sema_up_critical
  simp only [intr_disable_fst, intr_disable_snd, list_higher_priority_level, intr_set_level_sema]
  split <;> simp [thread_unblock]

@[simp] theorem sema_up_critical_holder (k : Kernel) (sema : sema_ptr) (l : Nat) :
    ((sema_up_critical k sema).locks l).holder = (k.locks l).holder := by
  unfold sema_up_critical
  simp only [intr_disable_fst, intr_disable_snd, list_higher_priority_level, intr_set_level_sema]
  split <;> simp

@[simp] theorem sema_up_critical_elem_priority (k : Kernel) (sema : sema_ptr) (e : Nat) :
    ((sema_up_critical k sema).elems e).priority = (k.elems e).priority := by
  unfold sema_up_critical
  simp only [intr_disable_fst, intr_disable_snd, list_higher_priority_level, intr_set_level_sema]
  split <;> simp [intr_set_level]

/-! ## C1: `sema_up` -/

/-- C1, as stated, fails: on a semaphore with no waiter whose value is the largest
`unsigned`, `sema_up` leaves the value 0, not the value plus 1. -/
theorem sema_up_wraps :
    (sema_full.sema (sema_ptr.plain 0)).value = 4294967295 ∧
    (sema_full.sema (sema_ptr.plain 0)).waiters = [] ∧
    ((sema_up sema_full (sema_ptr.plain 0)).sema (sema_ptr.plain 0)).value = 0 ∧
    ((sema_up sema_full (sema_ptr.plain 0)).sema (sema_ptr.plain 0)).value ≠
      (sema_full.sema (sema_ptr.plain 0)).value + 1 := by
  decide

/-- C1, amended: with a non-empty waiter list `sema_up` unblocks exactly one waiter (only
its `blocked` flag changes and it enters the ready queue), whose effective priority at
the time of the up is at least that of every waiter; the other waiters stay in the
list; the value becomes `(value + 1) mod 2^32`. With an empty list no thread changes
and the value becomes `(value + 1) mod 2^32`. That is the value plus exactly 1 whenever
the value is below `2^32 - 1`. Waiters of priority 31, 20, 10 (queued in the order 10,
31, 20) are woken by successive ups in the order 31, 20, 10, and the fourth up leaves
value 1 with no waiter. -/
theorem sema_up_spec :
    (∀ (k : Kernel) (sema : sema_ptr), (k.sema sema).waiters ≠ [] →
      ∃ t, t ∈ (k.sema sema).waiters ∧
        (∀ u ∈ (k.sema sema).waiters, (k.threads u).priority ≤ (k.threads t).priority) ∧
        (sema_up k sema).threads = upd k.threads t { k.threads t with blocked := false } ∧
        t ∈ (sema_up k sema).ready_list ∧
        (t :: ((sema_up k sema).sema sema).waiters).Perm (k.sema sema).waiters ∧
        ((sema_up k sema).sema sema).value = unsigned_inc (k.sema sema).value) ∧
    (∀ (k : Kernel) (sema : sema_ptr), (k.sema sema).waiters = [] →
      (sema_up k sema).threads = k.threads ∧
      (sema_up k sema).ready_list = k.ready_list ∧
      ((sema_up k sema).sema sema).waiters = [] ∧
      ((sema_up k sema).sema sema).value = unsigned_inc (k.sema sema).value) ∧
    (∀ v : Nat, v + 1 < UINT_SIZE → unsigned_inc v = v + 1) ∧
    (run 0 (boot wake_prio false) wake_downs).map wake_view =
      some (0, [1, 2, 3], [true, true, true]) ∧
    (run 0 (boot wake_prio false) (wake_downs ++ [(0, Op.sema_up 0)])).map wake_view =
      some (1, [2, 3], [false, true, true]) ∧
    (run 0 (boot wake_prio false)
      (wake_downs ++ [(0, Op.sema_up 0), (1, Op.resume), (0, Op.sema_up 0)])).map wake_view =
      some (1, [3], [false, false, true]) ∧
    (run 0 (boot wake_prio false)
      (wake_downs ++ [(0, Op.sema_up 0), (1, Op.resume), (0, Op.sema_up 0), (2, Op.resume),
        (0, Op.sema_up 0)])).map wake_view =
      some (1, [], [false, false, false]) ∧
    (run 0 (boot wake_prio false)
      (wake_downs ++ [(0, Op.sema_up 0), (1, Op.resume), (0, Op.sema_up 0), (2, Op.resume),
        (0, Op.sema_up 0), (3, Op.resume), (0, Op.sema_up 0)])).map wake_view =
      some (1, [], [false, false, false]) := by
  refine ⟨?_, ?_, unsigned_inc_small, by decide, by decide, by decide, by decide, by decide⟩
  · intro k sema hne
    cases hs : list_sort (list_higher_priority k) (k.sema sema).waiters with
    | nil => exact absurd (list_sort_eq_nil _ _ hs) hne
    | cons t rest =>
      have hperm := list_sort_perm (list_higher_priority k) (k.sema sema).waiters
      have hsorted := list_sort_sorted (fun u => (k.threads u).priority)
        (list_higher_priority k) (list_higher_priority_eq k) (k.sema sema).waiters
      rw [hs] at hperm hsorted
      rw [List.pairwise_cons] at hsorted
      refine ⟨t, hperm.subset (List.mem_cons_self t rest), ?_, ?_, ?_, ?_, ?_⟩
      · intro u hu
        rcases List.mem_cons.mp (hperm.symm.subset hu) with rfl | hu1
        · exact le_refl _
        · exact hsorted.1 u hu1
      · rw [sema_up_threads, sema_up_critical_threads, hs]
      · rw [sema_up_ready_list, sema_up_critical_ready_list, hs]
        exact (mem_list_insert_ordered _ _ _ _).mpr (Or.inl rfl)
      · rw [sema_up_sema, sema_up_critical_sema, hs]
        exact hperm
      · rw [sema_up_sema, sema_up_critical_sema]
  · intro k sema he
    have hs : list_sort (list_higher_priority k) (k.sema sema).waiters = [] := by
      rw [he]; rfl
    refine ⟨?_, ?_, ?_, ?_⟩
    · rw [sema_up_threads, sema_up_critical_threads, hs]
    · rw [sema_up_ready_list, sema_up_critical_ready_list, hs]
    · rw [sema_up_sema, sema_up_critical_sema, hs]; rfl
    · rw [sema_up_sema, sema_up_critical_sema]

/-- C1 at a concrete input: the semaphore on which threads 1, 2, 3 wait. -/
theorem sema_up_spec_witness :
    (wake_waiting.sema (sema_ptr.plain 0)).waiters ≠ [] ∧
    ∃ t, t ∈ (wake_waiting.sema (sema_ptr.plain 0)).waiters ∧
      (∀ u ∈ (wake_waiting.sema (sema_ptr.plain 0)).waiters,
        (wake_waiting.threads u).priority ≤ (wake_waiting.threads t).priority) ∧
      (sema_up wake_waiting (sema_ptr.plain 0)).threads =
        upd wake_waiting.threads t { wake_waiting.threads t with blocked := false } ∧
      t ∈ (sema_up wake_waiting (sema_ptr.plain 0)).ready_list ∧
      (t :: ((sema_up wake_waiting (sema_ptr.plain 0)).sema (sema_ptr.plain 0)).waiters).Perm
        (wake_waiting.sema (sema_ptr.plain 0)).waiters ∧
      ((sema_up wake_waiting (sema_ptr.plain 0)).sema (sema_ptr.plain 0)).value =
        unsigned_inc (wake_waiting.sema (sema_ptr.plain 0)).value :=
  ⟨by decide, sema_up_spec.1 wake_waiting (sema_ptr.plain 0) (by decide)⟩

/-! ## C2: `lock_release` -/

theorem set_priority_twice (k : Kernel) (t : Nat) (a b : Int) :
    (k.set_priority t a).set_priority t b = k.set_priority t b := by
  unfold Kernel.set_priority
  congr 1
  funext u
  by_cases h : u = t <;> simp [upd_apply, h]

theorem refresh_fold (k : Kernel) (t : Nat) (ds : List Nat) (m : Int) :
    ds.foldl
      (fun ks donated_t =>
        if (ks.threads donated_t).priority > (ks.threads t).priority then
          ks.set_priority t (ks.threads donated_t).priority
        else ks) (k.set_priority t m) =
    k.set_priority t (max_priority k m (ds.filter (fun d => decide (d ≠ t)))) := by
  induction ds generalizing m with
  | nil => simp [max_priority]
  | cons d rest ih =>
    simp only [List.foldl_cons]
    by_cases hd : d = t
    · subst hd
      simp only [gt_iff_lt, lt_self_iff_false, if_false]
      rw [ih]
      simp [List.filter]
    · have hp : ((k.set_priority t m).threads d).priority = (k.threads d).priority := by
        rw [set_priority_thread_ne _ _ _ _ hd]
      have hf : (d :: rest).filter (fun d => decide (d ≠ t)) =
          d :: rest.filter (fun d => decide (d ≠ t)) := by
        simp [List.filter, hd]
      rw [hf]
      simp only [hp, set_priority_thread_same, gt_iff_lt, max_priority, List.foldl_cons]
      split
      · rename_i hlt
        rw [set_priority_twice, ih, max_eq_right (le_of_lt hlt)]
        rfl
      · rename_i hlt
        rw [ih, max_eq_left (not_lt.mp hlt)]
        rfl

/-- The loop of `refresh_priority` computes the maximum of the base priority and the
priorities of the donors (a thread listed among its own donors adds nothing). -/
theorem refresh_priority_eq (k : Kernel) (t : Nat) :
    refresh_priority k t =
      k.set_priority t (max_priority k (k.threads t).original_priority
        ((k.threads t).donations.filter (fun d => decide (d ≠ t)))) := by
  unfold refresh_priority
  simp only [set_priority_thread_same]
  exact refresh_fold k t _ _

theorem max_priority_congr (k k1 : Kernel) (m : Int) (ds : List Nat)
    (h : ∀ d ∈ ds, (k1.threads d).priority = (k.threads d).priority) :
    max_priority k1 m ds = max_priority k m ds := by
  induction ds generalizing m with
  | nil => rfl
  | cons d rest ih =>
    simp only [max_priority, List.foldl_cons]
    rw [h d (List.mem_cons_self d rest)]
    exact ih _ (fun x hx => h x (List.mem_cons_of_mem d hx))

/-- The donation bookkeeping of `lock_release` in donation mode. -/
theorem lock_release_donations_eq (k : Kernel) (l : Nat) (hm : k.thread_mlfqs = false) :
    lock_release_donations k l =
      (k.set_donations k.current ((k.threads k.current).donations.filter
        (fun d => decide ((k.threads d).wait_on_lock ≠ some l)))).set_priority k.current
        (max_priority k (k.threads k.current).original_priority
          (((k.threads k.current).donations.filter
            (fun d => decide ((k.threads d).wait_on_lock ≠ some l))).filter
              (fun d => decide (d ≠ k.current)))) := by
  unfold lock_release_donations
  simp only [hm, Bool.not_false, if_true, thread_current]
  rw [refresh_priority_eq, set_priority_twice]
  congr 1
  simp only [Kernel.set_priority, Kernel.set_donations, upd_same]
  apply max_priority_congr
  intro d hd
  have hdt : d ≠ k.current := by
    have := (List.mem_filter.mp hd).2
    simpa using this
  simp [upd_apply, hdt]

/-- The critical part of `sema_up` changes at most the `blocked` flag of a thread. -/
theorem sema_up_critical_thread (k : Kernel) (sema : sema_ptr) (u : Nat) :
    ∃ b, (sema_up_critical k sema).threads u = { k.threads u with blocked := b } := by
  rw [sema_up_critical_threads]
  split
  · exact ⟨(k.threads u).blocked, rfl⟩
  · rename_i t rest hs
    by_cases h : u = t
    · subst h
      exact ⟨false, by simp⟩
    · exact ⟨(k.threads u).blocked, by simp [h]⟩

@[simp] theorem sema_up_critical_priority (k : Kernel) (sema : sema_ptr) (u : Nat) :
    ((sema_up_critical k sema).threads u).priority = (k.threads u).priority := by
  obtain ⟨b, hb⟩ := sema_up_critical_thread k sema u
  rw [hb]

@[simp] theorem sema_up_critical_original_priority (k : Kernel) (sema : sema_ptr) (u : Nat) :
    ((sema_up_critical k sema).threads u).original_priority =
      (k.threads u).original_priority := by
  obtain ⟨b, hb⟩ := sema_up_critical_thread k sema u
  rw [hb]

@[simp] theorem sema_up_critical_donations (k : Kernel) (sema : sema_ptr) (u : Nat) :
    ((sema_up_critical k sema).threads u).donations = (k.threads u).donations := by
  obtain ⟨b, hb⟩ := sema_up_critical_thread k sema u
  rw [hb]

@[simp] theorem sema_up_critical_wait_on_lock (k : Kernel) (sema : sema_ptr) (u : Nat) :
    ((sema_up_critical k sema).threads u).wait_on_lock = (k.threads u).wait_on_lock := by
  obtain ⟨b, hb⟩ := sema_up_critical_thread k sema u
  rw [hb]

/-- C2: in donation mode, `lock_release (l)` by the holder returns, having removed from
the holder's `donations` exactly the donors whose `wait_on_lock` is `l` (the others
stay, in the same order), set the holder's priority to the maximum of its
`original_priority` and the priorities of the remaining donors, left every other
thread's priority, `original_priority`, `donations` and every `wait_on_lock` as they
were, and cleared `l.holder`. In the scenario L (10) holds X and Y with donors H1 (25,
on X) and H2 (28, on Y): L has 28, releasing Y gives 25, then releasing X gives 10. -/
theorem lock_release_spec :
    (∀ (k : Kernel) (l : Nat), k.thread_mlfqs = false →
      (k.locks l).holder = some k.current →
      ∃ k1, lock_release k l = some k1 ∧
        (k1.threads k.current).donations =
          (k.threads k.current).donations.filter
            (fun d => decide ((k.threads d).wait_on_lock ≠ some l)) ∧
        (k1.threads k.current).priority =
          max_priority k (k.threads k.current).original_priority
            ((k1.threads k.current).donations.filter (fun d => decide (d ≠ k.current))) ∧
        (k.current ∉ (k.threads k.current).donations →
          (k1.threads k.current).priority =
            max_priority k (k.threads k.current).original_priority
              (k1.threads k.current).donations) ∧
        (∀ u, (k1.threads u).original_priority = (k.threads u).original_priority ∧
          (k1.threads u).wait_on_lock = (k.threads u).wait_on_lock) ∧
        (∀ u, u ≠ k.current →
          (k1.threads u).priority = (k.threads u).priority ∧
          (k1.threads u).donations = (k.threads u).donations) ∧
        (k1.locks l).holder = none ∧
        (∀ m, m ≠ l → (k1.locks m).holder = (k.locks m).holder)) ∧
    ((two_donors.threads 0).priority = 28 ∧ (two_donors.threads 0).donations = [1, 2] ∧
      (two_donors.threads 1).wait_on_lock = some 0 ∧
      (two_donors.threads 2).wait_on_lock = some 1) ∧
    (run 4 two_donors [(0, Op.lock_release 1)]).map
      (fun k => ((k.threads 0).priority, (k.threads 0).donations, (k.locks 1).holder)) =
      some (25, [1], none) ∧
    (run 4 two_donors [(0, Op.lock_release 1), (0, Op.lock_release 0)]).map
      (fun k => ((k.threads 0).priority, (k.threads 0).donations, (k.locks 0).holder)) =
      some (10, [], none) := by
  refine ⟨?_, by decide, by decide, by decide⟩
  intro k l hm hh
  have hheld : lock_held_by_current_thread k l = true := by
    simp [lock_held_by_current_thread, thread_current, hh]
  refine ⟨_, by simp only [lock_release, hheld, Bool.not_true]; rfl, ?_⟩
  have hm1 : (intr_set_level k intr_level.INTR_OFF).thread_mlfqs = false := hm
  simp only [intr_disable_fst, intr_disable_snd, intr_set_level_threads, sema_up_threads,
    sema_up_critical_priority, sema_up_critical_donations, sema_up_critical_wait_on_lock,
    sema_up_critical_original_priority, set_holder_threads, intr_set_level_locks,
    sema_up_locks, sema_up_critical_holder,
    lock_release_donations_eq _ l hm1, intr_set_level_current]
  have hfilt : ∀ ds : List Nat, k.current ∉ ds →
      ds.filter (fun d => decide (d ≠ k.current)) = ds := by
    intro ds hds
    apply List.filter_eq_self.mpr
    intro d hd
    have : d ≠ k.current := fun h => hds (h ▸ hd)
    simpa using this
  refine ⟨?_, ?_, ?_, ?_, ?_, ?_, ?_⟩
  · simp [Kernel.set_priority, Kernel.set_donations]
  · simp [Kernel.set_priority, Kernel.set_donations]
    rfl
  · intro hself
    simp only [Kernel.set_priority, Kernel.set_donations, upd_same]
    rw [hfilt]
    · rfl
    · intro hc
      exact hself (List.mem_filter.mp hc).1
  · intro u
    by_cases hu : u = k.current <;> simp [Kernel.set_priority, Kernel.set_donations, upd_apply, hu]
  · intro u hu
    simp [Kernel.set_priority, Kernel.set_donations, upd_apply, hu]
  · simp
  · intro m hmne
    simp [set_holder_lock_ne, hmne]

/-- C2 at a concrete input: L releases Y in the two-donor scenario. -/
theorem lock_release_spec_witness :
    ∃ k1, lock_release (dispatch two_donors 0) 1 = some k1 ∧
      (k1.threads 0).donations = [1] ∧ (k1.threads 0).priority = 25 ∧
      (k1.locks 1).holder = none := by
  obtain ⟨k1, h1, h2, h3, -, -, -, h7, -⟩ :=
    lock_release_spec.1 (dispatch two_donors 0) 1 (by decide) (by decide)
  have hc : (dispatch two_donors 0).current = 0 := by decide
  rw [hc] at h2 h3
  refine ⟨k1, h1, ?_, ?_, h7⟩
  · rw [h2]; decide
  · rw [h3, h2]; decide

/-! ## The donation walk -/

theorem is_chain_congr (k k1 : Kernel) (hl : ∀ l, (k1.locks l).holder = (k.locks l).holder)
    (hs : List Nat) (hw : ∀ h ∈ hs, (k1.threads h).wait_on_lock = (k.threads h).wait_on_lock)
    (wl : Option Nat) : is_chain k1 wl hs = is_chain k wl hs := by
  induction hs generalizing wl with
  | nil => cases wl <;> simp [is_chain, hl]
  | cons h rest ih =>
    cases wl with
    | none => simp [is_chain]
    | some l =>
      simp only [is_chain, hl, hw h (List.mem_cons_self h rest)]
      rw [ih (fun x hx => hw x (List.mem_cons_of_mem h hx))]

theorem donated_holders_congr (k k1 : Kernel) (q : Int) (hs : List Nat)
    (hp : ∀ h ∈ hs, (k1.threads h).priority = (k.threads h).priority) :
    donated_holders k1 q hs = donated_holders k q hs := by
  induction hs with
  | nil => rfl
  | cons h rest ih =>
    simp only [donated_holders, List.takeWhile, hp h (List.mem_cons_self h rest)]
    have := ih (fun x hx => hp x (List.mem_cons_of_mem h hx))
    simp only [donated_holders] at this
    rw [this]

theorem donated_holders_subset (k : Kernel) (q : Int) (hs : List Nat) :
    ∀ u ∈ donated_holders k q hs, u ∈ hs := by
  intro u hu
  exact (List.takeWhile_sublist _).subset hu

/-- The walk of `priority_donate` along an acyclic chain returns within `length + 1`
evaluations of the loop; it sets to the donor's priority the priority of every holder
of the donated prefix and changes nothing else. -/
theorem priority_donate_loop_eq (hs : List Nat) :
    ∀ (k : Kernel) (cur : Nat) (wl : Option Nat) (fuel : Nat),
      is_chain k wl hs = true → hs.Nodup → cur ∉ hs → hs.length < fuel →
      priority_donate_loop fuel k cur wl = some
        { k with threads := fun u =>
            if u ∈ donated_holders k (k.threads cur).priority hs then
              { k.threads u with priority := (k.threads cur).priority }
            else k.threads u } := by
  induction hs with
  | nil =>
    intro k cur wl fuel hc _ _ hf
    obtain ⟨n, rfl⟩ : ∃ n, fuel = n + 1 := ⟨fuel - 1, by omega⟩
    cases wl with
    | none => simp [priority_donate_loop, donated_holders]
    | some l =>
      have hh : (k.locks l).holder = none := by simpa [is_chain] using hc
      simp [priority_donate_loop, donated_holders, hh]
  | cons h rest ih =>
    intro k cur wl fuel hc hnd hcur hf
    obtain ⟨n, rfl⟩ : ∃ n, fuel = n + 1 := ⟨fuel - 1, by omega⟩
    have hn : rest.length < n := by simpa using hf
    cases wl with
    | none => simp [is_chain] at hc
    | some l =>
      simp only [is_chain, Bool.and_eq_true, decide_eq_true_eq] at hc
      obtain ⟨hh, hrest⟩ := hc
      have hhr : h ∉ rest := (List.nodup_cons.mp hnd).1
      have hndr : rest.Nodup := (List.nodup_cons.mp hnd).2
      have hch : cur ≠ h := fun e => hcur (e ▸ List.mem_cons_self h rest)
      simp only [priority_donate_loop, hh]
      by_cases hlt : (k.threads h).priority < (k.threads cur).priority
      · simp only [hlt, if_true]
        have hc1 : is_chain (k.set_priority h (k.threads cur).priority)
            ((k.set_priority h (k.threads cur).priority).threads h).wait_on_lock rest = true := by
          rw [is_chain_congr k (k.set_priority h (k.threads cur).priority) (fun _ => rfl) rest]
          · simpa using hrest
          · intro x hx
            have : x ≠ h := fun e => hhr (e ▸ hx)
            simp [Kernel.set_priority, this]
        rw [ih _ h _ n hc1 hndr hhr hn]
        have hpre : donated_holders (k.set_priority h (k.threads cur).priority)
            (k.threads cur).priority rest = donated_holders k (k.threads cur).priority rest := by
          apply donated_holders_congr
          intro x hx
          have : x ≠ h := fun e => hhr (e ▸ hx)
          simp [Kernel.set_priority, this]
        simp only [set_priority_thread_same, hpre]
        have hhead : donated_holders k (k.threads cur).priority (h :: rest) =
            h :: donated_holders k (k.threads cur).priority rest := by
          simp [donated_holders, List.takeWhile, le_of_lt hlt]
        rw [hhead]
        simp only [Kernel.set_priority]
        refine congrArg some ?_
        congr 1
        funext u
        by_cases hu : u = h
        · subst hu
          have : u ∉ donated_holders k (k.threads cur).priority rest :=
            fun hm => hhr (donated_holders_subset _ _ _ _ hm)
          simp [this]
        · simp [hu, upd_apply]
      · simp only [hlt, if_false]
        by_cases hgt : (k.threads h).priority > (k.threads cur).priority
        · simp only [hgt, if_true]
          have hhead : donated_holders k (k.threads cur).priority (h :: rest) = [] := by
            simp [donated_holders, List.takeWhile, not_le.mpr hgt]
          rw [hhead]
          simp
        · simp only [hgt, if_false]
          have heq : (k.threads h).priority = (k.threads cur).priority := by omega
          rw [ih k h _ n hrest hndr hhr hn]
          have hhead : donated_holders k (k.threads cur).priority (h :: rest) =
              h :: donated_holders k (k.threads cur).priority rest := by
            simp [donated_holders, List.takeWhile, heq]
          rw [hhead, heq]
          refine congrArg some ?_
          congr 1
          funext u
          by_cases hu : u = h
          · subst hu
            have : u ∉ donated_holders k (k.threads cur).priority rest :=
              fun hm => hhr (donated_holders_subset _ _ _ _ hm)
            simp [this, ← heq]
          · simp [hu]

/-! ## C3: the donation step of `lock_acquire` -/

theorem above_donated_holders (k : Kernel) (q : Int) (hs : List Nat)
    (hp : hs.Pairwise (fun a b => (k.threads a).priority ≤ (k.threads b).priority))
    (x : Nat) (hx : x ∈ hs) (hn : x ∉ donated_holders k q hs) : q < (k.threads x).priority := by
  induction hs with
  | nil => simp at hx
  | cons h rest ih =>
    rw [List.pairwise_cons] at hp
    by_cases hle : (k.threads h).priority ≤ q
    · have hhead : donated_holders k q (h :: rest) = h :: donated_holders k q rest := by
        simp [donated_holders, List.takeWhile, hle]
      rw [hhead, List.mem_cons, not_or] at hn
      rcases List.mem_cons.mp hx with rfl | hx1
      · exact absurd rfl hn.1
      · exact ih hp.2 hx1 hn.2
    · rcases List.mem_cons.mp hx with rfl | hx1
      · omega
      · have := hp.1 x hx1
        omega

/-- C3: in donation mode, when the current thread D (priority q) reaches the donation
step of `lock_acquire` on a lock held by H (priority p) whose chain of holders is
acyclic, the step returns; afterwards H's priority is max (p, q), D is the last entry
of `H.donations` and waits on the lock; and if the priorities were non-decreasing along
the chain of holders, every holder on the chain has priority at least q. In the
scenario L (10) holds X, M (20) holds Y and waits on X, H (30) acquires Y: M and L both
end at 30. -/
theorem lock_acquire_donate_spec :
    (∀ (k : Kernel) (l H : Nat) (hs : List Nat) (fuel : Nat),
      k.thread_mlfqs = false → (k.locks l).holder = some H →
      is_chain k (some l) hs = true → hs.Nodup → k.current ∉ hs → hs.length < fuel →
      ∃ k1, lock_acquire_donate fuel k l = some k1 ∧
        (k1.threads H).priority = max (k.threads H).priority (k.threads k.current).priority ∧
        k.current ∈ (k1.threads H).donations ∧
        (k1.threads H).donations = (k.threads H).donations ++ [k.current] ∧
        (k1.threads k.current).wait_on_lock = some l ∧
        (hs.Chain' (fun a b => (k.threads a).priority ≤ (k.threads b).priority) →
          ∀ h ∈ hs, (k.threads k.current).priority ≤ (k1.threads h).priority)) ∧
    ((nested_before.threads 0).priority = 20 ∧ (nested_before.threads 1).priority = 20 ∧
      (nested_before.locks 0).holder = some 0 ∧ (nested_before.locks 1).holder = some 1 ∧
      (nested_before.threads 1).wait_on_lock = some 0) ∧
    (lock_acquire_donate 4 (dispatch nested_before 2) 1).map
      (fun k => ((k.threads 1).priority, (k.threads 0).priority, (k.threads 1).donations)) =
      some (30, 30, [2]) ∧
    (run 4 nested_before [(2, Op.lock_acquire 1)]).map
      (fun k => ((k.threads 1).priority, (k.threads 0).priority, (k.threads 2).blocked)) =
      some (30, 30, true) := by
  refine ⟨?_, by decide, by decide, by decide⟩
  intro k l H hs fuel hm hh hc hnd hcur hf
  have hHs : H ∈ hs := by
    cases hs with
    | nil => simp [is_chain, hh] at hc
    | cons h rest =>
      simp only [is_chain, hh, Bool.and_eq_true, decide_eq_true_eq, Option.some.injEq] at hc
      rw [hc.1]
      exact List.mem_cons_self h rest
  have hDH : k.current ≠ H := fun e => hcur (e ▸ hHs)
  have hne : ∀ h ∈ hs, h ≠ k.current := fun h hmem e => hcur (e ▸ hmem)
  let k2 := (k.set_wait_on_lock k.current (some l)).set_donations H
    (((k.set_wait_on_lock k.current (some l)).threads H).donations ++ [k.current])
  have hk2D : k2.threads k.current = { k.threads k.current with wait_on_lock := some l } := by
    simp [k2, Kernel.set_wait_on_lock, Kernel.set_donations, upd_apply, hDH]
  have hk2u : ∀ u, u ≠ k.current →
      k2.threads u = if u = H then
        { k.threads u with donations := (k.threads H).donations ++ [k.current] }
      else k.threads u := by
    intro u hu
    by_cases huH : u = H
    · subst huH
      simp [k2, Kernel.set_wait_on_lock, Kernel.set_donations, upd_apply, hu]
    · simp [k2, Kernel.set_wait_on_lock, Kernel.set_donations, upd_apply, hu, huH]
  have hc2 : is_chain k2 (some l) hs = true := by
    rw [is_chain_congr k k2 (fun _ => rfl) hs]
    · exact hc
    · intro h hmem
      rw [hk2u h (hne h hmem)]
      split <;> rfl
  have hp2 : donated_holders k2 (k.threads k.current).priority hs =
      donated_holders k (k.threads k.current).priority hs := by
    apply donated_holders_congr
    intro h hmem
    rw [hk2u h (hne h hmem)]
    split <;> rfl
  have hwalk := priority_donate_loop_eq hs k2 k.current (some l) fuel hc2 hnd hcur hf
  have hq2 : (k2.threads k.current).priority = (k.threads k.current).priority := by
    rw [hk2D]
  rw [hq2, hp2] at hwalk
  have hstep : lock_acquire_donate fuel k l = priority_donate_loop fuel k2 k.current (some l) := by
    simp only [lock_acquire_donate, hh, set_wait_on_lock_thread_mlfqs, hm, Bool.not_false,
      if_true, priority_donate, thread_current, set_donations_current,
      set_wait_on_lock_current]
    have : (k2.threads k.current).wait_on_lock = some l := by rw [hk2D]
    change priority_donate_loop fuel k2 k.current (k2.threads k.current).wait_on_lock = _
    rw [this]
  refine ⟨_, hstep.trans hwalk, ?_, ?_, ?_, ?_, ?_⟩
  · simp only [hk2u H (Ne.symm hDH), if_true]
    cases hs with
    | nil => simp at hHs
    | cons h rest =>
      simp only [is_chain, hh, Bool.and_eq_true, decide_eq_true_eq, Option.some.injEq] at hc
      obtain ⟨rfl, -⟩ := hc
      by_cases hle : (k.threads H).priority ≤ (k.threads k.current).priority
      · simp [donated_holders, List.takeWhile, hle]
      · simp [donated_holders, List.takeWhile, hle]
        omega
  · simp only [hk2u H (Ne.symm hDH), if_true]
    split <;> simp
  · simp only [hk2u H (Ne.symm hDH), if_true]
    split <;> simp
  · simp only [hk2D]
    split <;> simp
  · intro hmono h hmem
    haveI : IsTrans Nat (fun a b => (k.threads a).priority ≤ (k.threads b).priority) :=
      ⟨fun _ _ _ h1 h2 => le_trans h1 h2⟩
    have hpw : hs.Pairwise (fun a b => (k.threads a).priority ≤ (k.threads b).priority) :=
      List.chain'_iff_pairwise.mp hmono
    by_cases hin : h ∈ donated_holders k (k.threads k.current).priority hs
    · simp [hin]
    · have := above_donated_holders k _ hs hpw h hmem hin
      simp only [hin, if_false, hk2u h (hne h hmem)]
      split <;> simp <;> omega

/-- C3 at a concrete input: H (thread 2) reaches the donation step on Y (lock 1) in the
nested-donation scenario. -/
theorem lock_acquire_donate_spec_witness :
    ∃ k1, lock_acquire_donate 4 (dispatch nested_before 2) 1 = some k1 ∧
      (k1.threads 1).priority = 30 ∧ 2 ∈ (k1.threads 1).donations ∧
      ∀ h ∈ [1, 0], (30 : Int) ≤ (k1.threads h).priority := by
  obtain ⟨k1, h1, h2, h3, -, -, h6⟩ :=
    lock_acquire_donate_spec.1 (dispatch nested_before 2) 1 1 [1, 0] 4
      (by decide) (by decide) (by decide) (by decide) (by decide) (by decide)
  exact ⟨k1, h1, h2, h3, h6 (List.chain'_cons.mpr ⟨by decide, List.chain'_singleton _⟩)⟩

/-! ## C4: where the donation walk stops -/

/-- C4, as stated, fails: in a state reached from boot, thread 4 (priority 20) donates
along the chain thread 2 (priority 20), thread 1 (priority 10). Thread 2 already has a
priority equal to the donor's, yet the walk does not stop there: thread 1, further
along the chain, is raised from 10 to 20. -/
theorem priority_donate_passes_equal :
    (run 8 (boot pass_prio false) pass_sched).isSome = true ∧
    is_chain pass_donating (pass_donating.threads 4).wait_on_lock [2, 1] = true ∧
    pass_donating.current = 4 ∧
    (pass_donating.threads 4).priority = 20 ∧
    (pass_donating.threads 2).priority = 20 ∧
    (pass_donating.threads 1).priority = 10 ∧
    (priority_donate 3 pass_donating 2).map
      (fun k => ((k.threads 2).priority, (k.threads 1).priority)) = some (20, 20) ∧
    (lock_acquire_donate 3 pass_state 2).map
      (fun k => ((k.threads 2).priority, (k.threads 1).priority)) = some (20, 20) := by
  decide

/-- C4, amended: along an acyclic lock-dependency chain the walk of `priority_donate`
returns; it changes a priority only by raising a holder on the chain whose priority is
lower than the donor's to the donor's priority; it stops at the first holder whose
priority is strictly greater than the donor's, and no thread from that holder on is
changed; a holder whose priority is lower than or equal to the donor's, with only such
holders before it, ends at the donor's priority (a holder of equal priority is passed
and the walk goes on); nothing but priorities changes. -/
theorem priority_donate_spec (k : Kernel) (lock : Nat) (hs : List Nat) (fuel : Nat)
    (hc : is_chain k (k.threads k.current).wait_on_lock hs = true) (hnd : hs.Nodup)
    (hcur : k.current ∉ hs) (hf : hs.length < fuel) :
    ∃ k1, priority_donate fuel k lock = some k1 ∧
      (∀ u, (k1.threads u).priority ≠ (k.threads u).priority →
        u ∈ hs ∧ (k.threads u).priority < (k.threads k.current).priority ∧
        (k1.threads u).priority = (k.threads k.current).priority) ∧
      (∀ pre h post, hs = pre ++ h :: post →
        (∀ x ∈ pre, (k.threads x).priority ≤ (k.threads k.current).priority) →
        (k.threads k.current).priority < (k.threads h).priority →
        ∀ u ∈ h :: post, k1.threads u = k.threads u) ∧
      (∀ pre h post, hs = pre ++ h :: post →
        (∀ x ∈ pre, (k.threads x).priority ≤ (k.threads k.current).priority) →
        (k.threads h).priority ≤ (k.threads k.current).priority →
        (k1.threads h).priority = (k.threads k.current).priority) ∧
      (∀ u, k1.threads u = { k.threads u with priority := (k1.threads u).priority }) ∧
      k1 = { k with threads := k1.threads } := by
  refine ⟨_, priority_donate_loop_eq hs k k.current _ fuel hc hnd hcur hf, ?_, ?_, ?_, ?_, ?_⟩
  · intro u hu
    by_cases hin : u ∈ donated_holders k (k.threads k.current).priority hs
    · simp only [hin, if_true] at hu ⊢
      have hle : (k.threads u).priority ≤ (k.threads k.current).priority := by
        have := (List.mem_takeWhile_imp hin)
        simpa using this
      refine ⟨donated_holders_subset _ _ _ _ hin, ?_, trivial⟩
      have hne : (k.threads u).priority ≠ (k.threads k.current).priority := fun e => hu e.symm
      omega
    · simp [hin] at hu
  · intro pre h post hsplit hpre hgt u hu
    have hpfx : donated_holders k (k.threads k.current).priority hs = pre := by
      rw [hsplit]
      unfold donated_holders
      rw [List.takeWhile_append_of_pos (by simpa using hpre)]
      simp [List.takeWhile, not_le.mpr hgt]
    have hnot : u ∉ pre := by
      intro hmem
      rw [hsplit] at hnd
      exact (List.disjoint_of_nodup_append hnd) hmem hu
    simp [hpfx, hnot]
  · intro pre h post hsplit hpre hle
    have hin : h ∈ donated_holders k (k.threads k.current).priority hs := by
      rw [hsplit]
      unfold donated_holders
      rw [List.takeWhile_append_of_pos (by simpa using hpre)]
      simp [List.takeWhile, hle]
    simp [hin]
  · intro u
    by_cases hin : u ∈ donated_holders k (k.threads k.current).priority hs <;> simp [hin]
  · rfl

/-- C4 at a concrete input: the walk of H in the nested-donation scenario. -/
theorem priority_donate_spec_witness :
    ∃ k1, priority_donate 3 nested_donating 1 = some k1 ∧
      (k1.threads 1).priority = 30 ∧ (k1.threads 0).priority = 30 := by
  obtain ⟨k1, h1, -, -, h4, -, -⟩ :=
    priority_donate_spec nested_donating 1 [1, 0] 3 (by decide) (by decide) (by decide)
      (by decide)
  refine ⟨k1, h1, ?_, ?_⟩
  · exact h4 [] 1 [0] rfl (by simp) (by decide)
  · exact h4 [1] 0 [] rfl (by decide) (by decide)

/-! ## Frame facts of `lock_release` -/

/-- The donation bookkeeping of `lock_release` changes nothing but thread fields. -/
theorem lock_release_donations_frame (k : Kernel) (l : Nat) :
    ∃ f, lock_release_donations k l = { k with threads := f } := by
  by_cases hm : k.thread_mlfqs = false
  · rw [lock_release_donations_eq k l hm]
    exact ⟨_, rfl⟩
  · refine ⟨k.threads, ?_⟩
    have hm1 : k.thread_mlfqs = true := by simpa using hm
    have hk : lock_release_donations k l = k := by
      simp [lock_release_donations, hm1]
    exact hk

@[simp] theorem lock_release_donations_locks (k : Kernel) (l : Nat) :
    (lock_release_donations k l).locks = k.locks := by
  obtain ⟨f, hf⟩ := lock_release_donations_frame k l
  rw [hf]

@[simp] theorem lock_release_donations_semas (k : Kernel) (l : Nat) :
    (lock_release_donations k l).semas = k.semas := by
  obtain ⟨f, hf⟩ := lock_release_donations_frame k l
  rw [hf]

@[simp] theorem lock_release_donations_elems (k : Kernel) (l : Nat) :
    (lock_release_donations k l).elems = k.elems := by
  obtain ⟨f, hf⟩ := lock_release_donations_frame k l
  rw [hf]

@[simp] theorem lock_release_donations_conds (k : Kernel) (l : Nat) :
    (lock_release_donations k l).conds = k.conds := by
  obtain ⟨f, hf⟩ := lock_release_donations_frame k l
  rw [hf]

@[simp] theorem lock_release_donations_stack (k : Kernel) (l : Nat) :
    (lock_release_donations k l).stack = k.stack := by
  obtain ⟨f, hf⟩ := lock_release_donations_frame k l
  rw [hf]

@[simp] theorem lock_release_donations_current (k : Kernel) (l : Nat) :
    (lock_release_donations k l).current = k.current := by
  obtain ⟨f, hf⟩ := lock_release_donations_frame k l
  rw [hf]

@[simp] theorem lock_release_donations_thread_mlfqs (k : Kernel) (l : Nat) :
    (lock_release_donations k l).thread_mlfqs = k.thread_mlfqs := by
  obtain ⟨f, hf⟩ := lock_release_donations_frame k l
  rw [hf]

@[simp] theorem lock_release_donations_intr_context (k : Kernel) (l : Nat) :
    (lock_release_donations k l).intr_context = k.intr_context := by
  obtain ⟨f, hf⟩ := lock_release_donations_frame k l
  rw [hf]

@[simp] theorem lock_release_donations_ready_list (k : Kernel) (l : Nat) :
    (lock_release_donations k l).ready_list = k.ready_list := by
  obtain ⟨f, hf⟩ := lock_release_donations_frame k l
  rw [hf]

@[simp] theorem lock_release_donations_sema (k : Kernel) (l : Nat) (q : sema_ptr) :
    (lock_release_donations k l).sema q = k.sema q := by
  obtain ⟨f, hf⟩ := lock_release_donations_frame k l
  rw [hf]
  cases q <;> rfl

@[simp] theorem lock_release_donations_blocked (k : Kernel) (l : Nat) (u : Nat) :
    ((lock_release_donations k l).threads u).blocked = (k.threads u).blocked := by
  by_cases hm : k.thread_mlfqs = false
  · rw [lock_release_donations_eq k l hm]
    by_cases hu : u = k.current <;> simp [Kernel.set_priority, Kernel.set_donations, upd_apply, hu]
  · simp [lock_release_donations, hm]

@[simp] theorem lock_release_donations_wait_on_lock (k : Kernel) (l : Nat) (u : Nat) :
    ((lock_release_donations k l).threads u).wait_on_lock = (k.threads u).wait_on_lock := by
  by_cases hm : k.thread_mlfqs = false
  · rw [lock_release_donations_eq k l hm]
    by_cases hu : u = k.current <;> simp [Kernel.set_priority, Kernel.set_donations, upd_apply, hu]
  · simp [lock_release_donations, hm]

@[simp] theorem lock_release_donations_original_priority (k : Kernel) (l : Nat) (u : Nat) :
    ((lock_release_donations k l).threads u).original_priority =
      (k.threads u).original_priority := by
  by_cases hm : k.thread_mlfqs = false
  · rw [lock_release_donations_eq k l hm]
    by_cases hu : u = k.current <;> simp [Kernel.set_priority, Kernel.set_donations, upd_apply, hu]
  · simp [lock_release_donations, hm]

/-- The result of `lock_release` when the caller holds the lock. -/
theorem lock_release_eq (k : Kernel) (l : Nat) (hh : (k.locks l).holder = some k.current) :
    lock_release k l = some (intr_set_level
      (sema_up ((lock_release_donations (intr_set_level k intr_level.INTR_OFF) l).set_holder
        l none) (sema_ptr.of_lock l)) k.level) := by
  have hheld : lock_held_by_current_thread k l = true := by
    simp [lock_held_by_current_thread, thread_current, hh]
  simp only [lock_release, hheld, Bool.not_true]
  rfl

/-- The call `lock_release` aborts when the caller does not hold the lock. -/
theorem lock_release_none (k : Kernel) (l : Nat) (hh : (k.locks l).holder ≠ some k.current) :
    lock_release k l = none := by
  have hheld : lock_held_by_current_thread k l = false := by
    simp [lock_held_by_current_thread, thread_current, hh]
  simp [lock_release, hheld]

/-! ## C9: condition variables -/

theorem sema_elem_higher_priority_eq (k : Kernel) (x y : Nat) :
    sema_elem_higher_priority k x y = decide ((k.elems y).priority < (k.elems x).priority) := rfl

/-- The result of `cond_signal` on a non-empty waiter list. -/
theorem cond_signal_cons (k : Kernel) (c l e : Nat) (rest : List Nat)
    (hi : k.intr_context = false) (hh : (k.locks l).holder = some k.current)
    (hw : (k.conds c).waiters = e :: rest) :
    cond_signal k c l =
      some (sema_up { k with conds := upd k.conds c { waiters := rest } }
        (sema_ptr.of_waiter e)) := by
  have hheld : lock_held_by_current_thread k l = true := by
    simp [lock_held_by_current_thread, thread_current, hh]
  simp [cond_signal, hi, hheld, hw]

/-- The result of `cond_signal` on an empty waiter list. -/
theorem cond_signal_nil (k : Kernel) (c l : Nat)
    (hi : k.intr_context = false) (hh : (k.locks l).holder = some k.current)
    (hw : (k.conds c).waiters = []) : cond_signal k c l = some k := by
  have hheld : lock_held_by_current_thread k l = true := by
    simp [lock_held_by_current_thread, thread_current, hh]
  simp [cond_signal, hi, hheld, hw]

/-- Successive calls of `cond_signal` pop the waiter list from the front and leave the
snapshots alone. -/
theorem cond_signals_drop (c l : Nat) (n : Nat) :
    ∀ k : Kernel, k.intr_context = false → (k.locks l).holder = some k.current →
      ∃ k1, cond_signals c l n k = some k1 ∧
        (k1.conds c).waiters = (k.conds c).waiters.drop n ∧
        (∀ x, (k1.elems x).priority = (k.elems x).priority) := by
  induction n with
  | zero =>
    intro k _ _
    exact ⟨k, rfl, by simp, fun _ => rfl⟩
  | succ n ih =>
    intro k hi hh
    cases hw : (k.conds c).waiters with
    | nil =>
      simp only [cond_signals, cond_signal_nil k c l hi hh hw]
      obtain ⟨k1, h1, h2, h3⟩ := ih k hi hh
      exact ⟨k1, h1, by rw [h2, hw]; simp, h3⟩
    | cons e rest =>
      simp only [cond_signals, cond_signal_cons k c l e rest hi hh hw]
      obtain ⟨k1, h1, h2, h3⟩ := ih
        (sema_up { k with conds := upd k.conds c { waiters := rest } } (sema_ptr.of_waiter e))
        (by simpa using hi) (by simpa using hh)
      refine ⟨k1, h1, ?_, ?_⟩
      · rw [h2]
        simp
      · intro x
        rw [h3]
        simp

/-- The state `cond_wait` hands to `lock_release`, seen through the waiter list and the
snapshots. -/
theorem cond_wait_eq (k : Kernel) (c l : Nat) (hi : k.intr_context = false)
    (hh : (k.locks l).holder = some k.current) :
    ∃ k1, cond_wait k c l = some k1 ∧
      (k1.elems k.current).priority = (k.threads k.current).priority ∧
      (∀ e, e ≠ k.current → (k1.elems e).priority = (k.elems e).priority) ∧
      (k1.conds c).waiters =
        list_insert_ordered
          (fun a b => decide ((k1.elems b).priority < (k1.elems a).priority))
          k.current (k.conds c).waiters ∧
      (∀ d, d ≠ c → (k1.conds d).waiters = (k.conds d).waiters) ∧
      k1.stack k.current = susp.in_cond_wait k.current l := by
  have hheld : lock_held_by_current_thread k l = true := by
    simp [lock_held_by_current_thread, thread_current, hh]
  unfold cond_wait
  simp only [hi, hheld, Bool.not_true, Bool.false_eq_true, if_false, thread_current]
  rw [lock_release_eq]
  · refine ⟨_, rfl, ?_, ?_, ?_, ?_, ?_⟩
    · simp [cond_wait_enqueue, thread_current, sema_init, thread_get_priority, Kernel.set_sema]
    · intro e he
      simp [cond_wait_enqueue, thread_current, sema_init, Kernel.set_sema, upd_apply, he]
    · simp only [set_stack_conds, intr_set_level_conds, sema_up_conds, set_holder_conds,
        lock_release_donations_conds, cond_wait_enqueue, thread_current, upd_same]
      congr 1
      funext a b
      simp [sema_elem_higher_priority, sema_init, thread_get_priority, Kernel.set_sema,
        upd_apply]
    · intro d hd
      simp [cond_wait_enqueue, thread_current, sema_init, Kernel.set_sema, upd_apply, hd]
    · simp [Kernel.set_stack, cond_wait_enqueue, thread_current, sema_init, Kernel.set_sema]
  · simpa [cond_wait_enqueue, thread_current, sema_init, Kernel.set_sema] using hh

/-- C9: `cond_wait` by the holder of the lock, whose wait record is not yet queued, takes
the snapshot of its effective priority and queues the record so that `c.waiters`, if it
was in descending snapshot order, still is, with the old records kept. `cond_signal`
pops the front record, whose snapshot is the highest, ups its semaphore (a thread
waiting on it is unblocked) and leaves the order and the snapshots of the other records
alone; so `n` successive calls pop the first `n` records of the list, front first,
whatever the effective priorities of the waiting threads are. On an empty list
`cond_signal` changes nothing. Waiters with priorities 15, 25, 20 are woken in the order
25, 20, 15, also when the first waiter's effective priority has risen to 40 since. -/
theorem cond_wait_signal_spec :
    (∀ (k : Kernel) (c l : Nat), k.intr_context = false →
      (k.locks l).holder = some k.current → k.current ∉ (k.conds c).waiters →
      (k.conds c).waiters.Pairwise (fun a b => (k.elems b).priority ≤ (k.elems a).priority) →
      ∃ k1, cond_wait k c l = some k1 ∧
        (k1.elems k.current).priority = (k.threads k.current).priority ∧
        (∀ e, e ≠ k.current → (k1.elems e).priority = (k.elems e).priority) ∧
        (k1.conds c).waiters.Perm (k.current :: (k.conds c).waiters) ∧
        (k1.conds c).waiters.Pairwise
          (fun a b => (k1.elems b).priority ≤ (k1.elems a).priority)) ∧
    (∀ (k : Kernel) (c l e : Nat) (rest : List Nat), k.intr_context = false →
      (k.locks l).holder = some k.current → (k.conds c).waiters = e :: rest →
      ∃ k1, cond_signal k c l = some k1 ∧
        (k1.conds c).waiters = rest ∧
        (∀ x, (k1.elems x).priority = (k.elems x).priority) ∧
        (k1.elems e).semaphore.value = unsigned_inc (k.elems e).semaphore.value ∧
        k1.threads = (sema_up k (sema_ptr.of_waiter e)).threads ∧
        (∀ w, (k.elems e).semaphore.waiters = [w] → (k1.threads w).blocked = false) ∧
        ((k.conds c).waiters.Pairwise
            (fun a b => (k.elems b).priority ≤ (k.elems a).priority) →
          ∀ x ∈ rest, (k.elems x).priority ≤ (k.elems e).priority)) ∧
    (∀ (k : Kernel) (c l n : Nat), k.intr_context = false →
      (k.locks l).holder = some k.current →
      ∃ k1, cond_signals c l n k = some k1 ∧
        (k1.conds c).waiters = (k.conds c).waiters.drop n ∧
        (∀ x, (k1.elems x).priority = (k.elems x).priority)) ∧
    (∀ (k : Kernel) (c l : Nat), k.intr_context = false →
      (k.locks l).holder = some k.current → (k.conds c).waiters = [] →
      cond_signal k c l = some k) ∧
    (run 4 (boot cond_prio false) cond_waits).map cond_view =
      some ([2, 3, 1], [25, 20, 15], [true, true, true], [15, 25, 20]) ∧
    (run 4 (boot cond_prio false) (cond_waits ++ [(0, Op.cond_signal 0 0)])).map cond_view =
      some ([3, 1], [20, 15], [true, false, true], [15, 25, 20]) ∧
    (run 4 (boot cond_prio false)
      (cond_waits ++ [(0, Op.cond_signal 0 0), (0, Op.cond_signal 0 0)])).map cond_view =
      some ([1], [15], [true, false, false], [15, 25, 20]) ∧
    (run 4 (boot cond_prio false)
      (cond_waits ++ [(0, Op.cond_signal 0 0), (0, Op.cond_signal 0 0),
        (0, Op.cond_signal 0 0)])).map cond_view =
      some ([], [], [false, false, false], [15, 25, 20]) ∧
    (run 4 (boot cond_prio false) cond_waits_donated).map cond_view =
      some ([2, 3, 1], [25, 20, 15], [true, true, true], [40, 25, 20]) ∧
    (run 4 (boot cond_prio false)
      (cond_waits_donated ++ [(0, Op.cond_signal 0 0)])).map cond_view =
      some ([3, 1], [20, 15], [true, false, true], [40, 25, 20]) ∧
    (run 4 (boot cond_prio false)
      (cond_waits_donated ++ [(0, Op.cond_signal 0 0), (0, Op.cond_signal 0 0)])).map
        cond_view =
      some ([1], [15], [true, false, false], [40, 25, 20]) := by
  refine ⟨?_, ?_, ?_, ?_, ?_, ?_, ?_, ?_, ?_, ?_, ?_⟩
  rotate_left 4
  · decide!
  · decide!
  · decide!
  · decide!
  · decide!
  · decide!
  · decide!
  · intro k c l hi hh hfresh hsorted
    obtain ⟨k1, h1, h2, h3, h4, -, -⟩ := cond_wait_eq k c l hi hh
    refine ⟨k1, h1, h2, h3, ?_, ?_⟩
    · rw [h4]
      exact list_insert_ordered_perm _ _ _
    · rw [h4]
      apply list_insert_ordered_sorted (fun e => (k1.elems e).priority) _ (fun _ _ => rfl)
      refine hsorted.imp_of_mem ?_
      intro a b ha hb hab
      have hane : a ≠ k.current := fun e => hfresh (e ▸ ha)
      have hbne : b ≠ k.current := fun e => hfresh (e ▸ hb)
      rw [h3 a hane, h3 b hbne]
      exact hab
  · intro k c l e rest hi hh hw
    refine ⟨_, cond_signal_cons k c l e rest hi hh hw, ?_, ?_, ?_, ?_, ?_, ?_⟩
    · simp
    · intro x
      simp
    · have := sema_up_critical_sema { k with conds := upd k.conds c { waiters := rest } }
        (sema_ptr.of_waiter e)
      simp only [Kernel.sema] at this
      rw [sema_up_elems, this]
    · simp only [sema_up_threads, sema_up_critical_threads]
      rfl
    · intro w hwl
      simp only [sema_up_threads, sema_up_critical_threads]
      have hs : list_sort
          (list_higher_priority { k with conds := upd k.conds c { waiters := rest } })
          (Kernel.sema { k with conds := upd k.conds c { waiters := rest } }
            (sema_ptr.of_waiter e)).waiters = [w] := by
        simp only [Kernel.sema, hwl]
        rfl
      rw [hs]
      simp
    · intro hsorted x hx
      rw [hw, List.pairwise_cons] at hsorted
      exact hsorted.1 x hx
  · intro k c l n hi hh
    exact cond_signals_drop c l n k hi hh
  · intro k c l hi hh hw
    exact cond_signal_nil k c l hi hh hw

/-- C9 at a concrete input: W3 (thread 3) calls `cond_wait` after W1 and W2. -/
theorem cond_wait_signal_spec_witness :
    ∃ k1, cond_wait cond_third 0 0 = some k1 ∧
      (k1.conds 0).waiters.Perm [3, 2, 1] ∧
      (k1.conds 0).waiters.Pairwise
        (fun a b => (k1.elems b).priority ≤ (k1.elems a).priority) := by
  have hw : (cond_third.conds 0).waiters = [2, 1] := by decide!
  obtain ⟨k1, h1, -, -, h4, h5⟩ :=
    cond_wait_signal_spec.1 cond_third 0 0 (by decide!) (by decide!)
      (by rw [hw]; decide)
      (by
        rw [hw]
        refine List.pairwise_cons.mpr ⟨?_, List.pairwise_singleton _ _⟩
        intro b hb
        rw [List.mem_singleton.mp hb]
        decide!)
  have hc : cond_third.current = 3 := by decide!
  rw [hw, hc] at h4
  exact ⟨k1, h1, h4, h5⟩

/-! ## The loop of `sema_down` and the steps of `lock_acquire` -/

theorem sema_down_loop_zero (k : Kernel) (q : sema_ptr) (lv : intr_level) (c : caller)
    (h : (k.sema q).value = 0) :
    sema_down_loop k q lv c =
      thread_block ((k.set_sema q { k.sema q with
        waiters := list_insert_ordered (list_higher_priority k) k.current
          (k.sema q).waiters }).set_stack k.current (susp.in_sema_down q lv c)) := by
  simp [sema_down_loop, h, thread_current]

theorem sema_down_loop_pos (k : Kernel) (q : sema_ptr) (lv : intr_level) (c : caller)
    (h : (k.sema q).value ≠ 0) :
    sema_down_loop k q lv c =
      (intr_set_level (k.set_sema q { k.sema q with value := unsigned_dec (k.sema q).value })
        lv).set_stack k.current susp.running := by
  simp [sema_down_loop, h, thread_current]

theorem returned_sema_down_loop (k : Kernel) (q : sema_ptr) (lv : intr_level) (c : caller) :
    returned (sema_down_loop k q lv c) = decide ((k.sema q).value ≠ 0) := by
  by_cases h : (k.sema q).value = 0
  · rw [sema_down_loop_zero k q lv c h]
    simp [returned, Kernel.set_stack, h]
  · rw [sema_down_loop_pos k q lv c h]
    simp [returned, Kernel.set_stack, h]

/-- The walk of `priority_donate`, whenever it returns, has changed nothing but
priorities, and has lowered none. -/
theorem priority_donate_loop_frame (fuel : Nat) :
    ∀ (k : Kernel) (cur : Nat) (wl : Option Nat) (k1 : Kernel),
      priority_donate_loop fuel k cur wl = some k1 →
      k1 = { k with threads := k1.threads } ∧
      ∀ u, k1.threads u = { k.threads u with priority := (k1.threads u).priority } ∧
        (k.threads u).priority ≤ (k1.threads u).priority := by
  induction fuel with
  | zero =>
    intro k cur wl k1 h
    simp [priority_donate_loop] at h
  | succ n ih =>
    intro k cur wl k1 h
    have hsame : k1 = k →
        k1 = { k with threads := k1.threads } ∧
        ∀ u, k1.threads u = { k.threads u with priority := (k1.threads u).priority } ∧
          (k.threads u).priority ≤ (k1.threads u).priority := by
      intro e
      subst e
      exact ⟨rfl, fun u => ⟨rfl, le_refl _⟩⟩
    cases wl with
    | none =>
      simp only [priority_donate_loop, Option.some.injEq] at h
      exact hsame h.symm
    | some l =>
      simp only [priority_donate_loop] at h
      cases hh : (k.locks l).holder with
      | none =>
        simp only [hh, Option.some.injEq] at h
        exact hsame h.symm
      | some holder =>
        simp only [hh] at h
        by_cases hlt : (k.threads holder).priority < (k.threads cur).priority
        · simp only [hlt, if_true] at h
          obtain ⟨h1, h2⟩ := ih _ _ _ _ h
          refine ⟨?_, ?_⟩
          · rw [h1]
            rfl
          · intro u
            obtain ⟨h3, h4⟩ := h2 u
            by_cases hu : u = holder
            · subst hu
              rw [set_priority_thread_same] at h3 h4
              refine ⟨?_, ?_⟩
              · rw [h3]
              · simp only at h4
                omega
            · rw [set_priority_thread_ne _ _ _ _ hu] at h3 h4
              exact ⟨h3, h4⟩
        · simp only [hlt, if_false] at h
          by_cases hgt : (k.threads holder).priority > (k.threads cur).priority
          · simp only [hgt, if_true, Option.some.injEq] at h
            exact hsame h.symm
          · simp only [hgt, if_false] at h
            exact ih _ _ _ _ h

/-! ## Thread fields under the elementary stores -/

theorem set_priority_thread_priority_ne (k : Kernel) (t : Nat) (p : Int) (u : Nat) (h : u ≠ t) :
    ((k.set_priority t p).threads u).priority = (k.threads u).priority := by
  simp [Kernel.set_priority, upd_apply, h]

@[simp] theorem set_priority_thread_original_priority (k : Kernel) (t : Nat) (p : Int) (u : Nat) :
    ((k.set_priority t p).threads u).original_priority = (k.threads u).original_priority := by
  by_cases h : u = t <;> simp [Kernel.set_priority, upd_apply, h]

@[simp] theorem set_priority_thread_wait_on_lock (k : Kernel) (t : Nat) (p : Int) (u : Nat) :
    ((k.set_priority t p).threads u).wait_on_lock = (k.threads u).wait_on_lock := by
  by_cases h : u = t <;> simp [Kernel.set_priority, upd_apply, h]

@[simp] theorem set_priority_thread_donations (k : Kernel) (t : Nat) (p : Int) (u : Nat) :
    ((k.set_priority t p).threads u).donations = (k.threads u).donations := by
  by_cases h : u = t <;> simp [Kernel.set_priority, upd_apply, h]

@[simp] theorem set_priority_thread_blocked (k : Kernel) (t : Nat) (p : Int) (u : Nat) :
    ((k.set_priority t p).threads u).blocked = (k.threads u).blocked := by
  by_cases h : u = t <;> simp [Kernel.set_priority, upd_apply, h]

@[simp] theorem set_wait_on_lock_thread_priority (k : Kernel) (t : Nat) (w : Option Nat) (u : Nat) :
    ((k.set_wait_on_lock t w).threads u).priority = (k.threads u).priority := by
  by_cases h : u = t <;> simp [Kernel.set_wait_on_lock, upd_apply, h]

@[simp] theorem set_wait_on_lock_thread_original_priority (k : Kernel) (t : Nat) (w : Option Nat) (u : Nat) :
    ((k.set_wait_on_lock t w).threads u).original_priority = (k.threads u).original_priority := by
  by_cases h : u = t <;> simp [Kernel.set_wait_on_lock, upd_apply, h]

theorem set_wait_on_lock_thread_wait_on_lock_ne (k : Kernel) (t : Nat) (w : Option Nat) (u : Nat) (h : u ≠ t) :
    ((k.set_wait_on_lock t w).threads u).wait_on_lock = (k.threads u).wait_on_lock := by
  simp [Kernel.set_wait_on_lock, upd_apply, h]

@[simp] theorem set_wait_on_lock_thread_donations (k : Kernel) (t : Nat) (w : Option Nat) (u : Nat) :
    ((k.set_wait_on_lock t w).threads u).donations = (k.threads u).donations := by
  by_cases h : u = t <;> simp [Kernel.set_wait_on_lock, upd_apply, h]

@[simp] theorem set_wait_on_lock_thread_blocked (k : Kernel) (t : Nat) (w : Option Nat) (u : Nat) :
    ((k.set_wait_on_lock t w).threads u).blocked = (k.threads u).blocked := by
  by_cases h : u = t <;> simp [Kernel.set_wait_on_lock, upd_apply, h]

@[simp] theorem set_donations_thread_priority (k : Kernel) (t : Nat) (ds : List Nat) (u : Nat) :
    ((k.set_donations t ds).threads u).priority = (k.threads u).priority := by
  by_cases h : u = t <;> simp [Kernel.set_donations, upd_apply, h]

@[simp] theorem set_donations_thread_original_priority (k : Kernel) (t : Nat) (ds : List Nat) (u : Nat) :
    ((k.set_donations t ds).threads u).original_priority = (k.threads u).original_priority := by
  by_cases h : u = t <;> simp [Kernel.set_donations, upd_apply, h]

@[simp] theorem set_donations_thread_wait_on_lock (k : Kernel) (t : Nat) (ds : List Nat) (u : Nat) :
    ((k.set_donations t ds).threads u).wait_on_lock = (k.threads u).wait_on_lock := by
  by_cases h : u = t <;> simp [Kernel.set_donations, upd_apply, h]

theorem set_donations_thread_donations_ne (k : Kernel) (t : Nat) (ds : List Nat) (u : Nat) (h : u ≠ t) :
    ((k.set_donations t ds).threads u).donations = (k.threads u).donations := by
  simp [Kernel.set_donations, upd_apply, h]

@[simp] theorem set_donations_thread_blocked (k : Kernel) (t : Nat) (ds : List Nat) (u : Nat) :
    ((k.set_donations t ds).threads u).blocked = (k.threads u).blocked := by
  by_cases h : u = t <;> simp [Kernel.set_donations, upd_apply, h]

@[simp] theorem thread_block_thread_priority (k : Kernel) (u : Nat) :
    ((thread_block k).threads u).priority = (k.threads u).priority := by
  by_cases h : u = k.current <;> simp [thread_block, upd_apply, h]

@[simp] theorem thread_block_thread_original_priority (k : Kernel) (u : Nat) :
    ((thread_block k).threads u).original_priority = (k.threads u).original_priority := by
  by_cases h : u = k.current <;> simp [thread_block, upd_apply, h]

@[simp] theorem thread_block_thread_wait_on_lock (k : Kernel) (u : Nat) :
    ((thread_block k).threads u).wait_on_lock = (k.threads u).wait_on_lock := by
  by_cases h : u = k.current <;> simp [thread_block, upd_apply, h]

@[simp] theorem thread_block_thread_donations (k : Kernel) (u : Nat) :
    ((thread_block k).threads u).donations = (k.threads u).donations := by
  by_cases h : u = k.current <;> simp [thread_block, upd_apply, h]

theorem thread_block_thread_blocked_ne (k : Kernel) (u : Nat) (h : u ≠ k.current) :
    ((thread_block k).threads u).blocked = (k.threads u).blocked := by
  simp [thread_block, upd_apply, h]

@[simp] theorem thread_unblock_thread_priority (k : Kernel) (t : Nat) (u : Nat) :
    ((thread_unblock k t).threads u).priority = (k.threads u).priority := by
  by_cases h : u = t <;> simp [thread_unblock, upd_apply, h]

@[simp] theorem thread_unblock_thread_original_priority (k : Kernel) (t : Nat) (u : Nat) :
    ((thread_unblock k t).threads u).original_priority = (k.threads u).original_priority := by
  by_cases h : u = t <;> simp [thread_unblock, upd_apply, h]

@[simp] theorem thread_unblock_thread_wait_on_lock (k : Kernel) (t : Nat) (u : Nat) :
    ((thread_unblock k t).threads u).wait_on_lock = (k.threads u).wait_on_lock := by
  by_cases h : u = t <;> simp [thread_unblock, upd_apply, h]

@[simp] theorem thread_unblock_thread_donations (k : Kernel) (t : Nat) (u : Nat) :
    ((thread_unblock k t).threads u).donations = (k.threads u).donations := by
  by_cases h : u = t <;> simp [thread_unblock, upd_apply, h]

theorem thread_unblock_thread_blocked_ne (k : Kernel) (t : Nat) (u : Nat) (h : u ≠ t) :
    ((thread_unblock k t).threads u).blocked = (k.threads u).blocked := by
  simp [thread_unblock, upd_apply, h]

@[simp] theorem set_wait_on_lock_thread_same (k : Kernel) (t : Nat) (w : Option Nat) :
    ((k.set_wait_on_lock t w).threads t).wait_on_lock = w := by
  simp [Kernel.set_wait_on_lock]

@[simp] theorem set_donations_thread_same (k : Kernel) (t : Nat) (ds : List Nat) :
    ((k.set_donations t ds).threads t).donations = ds := by
  simp [Kernel.set_donations]

@[simp] theorem thread_block_thread_same (k : Kernel) :
    ((thread_block k).threads k.current).blocked = true := by
  simp [thread_block]

@[simp] theorem thread_unblock_thread_same (k : Kernel) (t : Nat) :
    ((thread_unblock k t).threads t).blocked = false := by
  simp [thread_unblock]

@[simp] theorem set_stack_same (k : Kernel) (t : Nat) (s : susp) :
    (k.set_stack t s).stack t = s := by
  simp [Kernel.set_stack]

theorem set_stack_ne (k : Kernel) (t u : Nat) (s : susp) (h : u ≠ t) :
    (k.set_stack t s).stack u = k.stack u := by
  simp [Kernel.set_stack, h]
/-! ## Frame facts of `dispatch`, `lock_acquire` and `sema_down_loop` -/

@[simp] theorem dispatch_threads (k : Kernel) (t : Nat) : (dispatch k t).threads = k.threads := by
  unfold dispatch; split <;> rfl

@[simp] theorem dispatch_locks (k : Kernel) (t : Nat) : (dispatch k t).locks = k.locks := by
  unfold dispatch; split <;> rfl

@[simp] theorem dispatch_semas (k : Kernel) (t : Nat) : (dispatch k t).semas = k.semas := by
  unfold dispatch; split <;> rfl

@[simp] theorem dispatch_elems (k : Kernel) (t : Nat) : (dispatch k t).elems = k.elems := by
  unfold dispatch; split <;> rfl

@[simp] theorem dispatch_conds (k : Kernel) (t : Nat) : (dispatch k t).conds = k.conds := by
  unfold dispatch; split <;> rfl

@[simp] theorem dispatch_stack (k : Kernel) (t : Nat) : (dispatch k t).stack = k.stack := by
  unfold dispatch; split <;> rfl

@[simp] theorem dispatch_thread_mlfqs (k : Kernel) (t : Nat) :
    (dispatch k t).thread_mlfqs = k.thread_mlfqs := by
  unfold dispatch; split <;> rfl

@[simp] theorem dispatch_intr_context (k : Kernel) (t : Nat) :
    (dispatch k t).intr_context = k.intr_context := by
  unfold dispatch; split <;> rfl

@[simp] theorem dispatch_current (k : Kernel) (t : Nat) : (dispatch k t).current = t := by
  unfold dispatch; split <;> simp_all

@[simp] theorem dispatch_sema (k : Kernel) (t : Nat) (q : sema_ptr) :
    (dispatch k t).sema q = k.sema q := by
  cases q <;> simp [Kernel.sema]

theorem set_sema_locks_ne (k : Kernel) (l m : Nat) (v : semaphore) (h : m ≠ l) :
    (k.set_sema (sema_ptr.of_lock l) v).locks m = k.locks m := by
  simp [Kernel.set_sema, h]

@[simp] theorem set_sema_lock_semaphore (k : Kernel) (l : Nat) (v : semaphore) :
    ((k.set_sema (sema_ptr.of_lock l) v).locks l).semaphore = v := by
  simp [Kernel.set_sema]

@[simp] theorem sema_of_lock (k : Kernel) (l : Nat) :
    k.sema (sema_ptr.of_lock l) = (k.locks l).semaphore := rfl

@[simp] theorem sema_plain (k : Kernel) (s : Nat) :
    k.sema (sema_ptr.plain s) = k.semas s := rfl

@[simp] theorem sema_of_waiter (k : Kernel) (e : Nat) :
    k.sema (sema_ptr.of_waiter e) = (k.elems e).semaphore := rfl

/-- The donation step of `lock_acquire`, whenever it returns, has changed nothing but
thread fields: no `original_priority`, no `blocked` flag, no `wait_on_lock` other
than the caller's; priorities have not dropped; in MLFQ mode no priority and no
`donations` list has changed. -/
theorem lock_acquire_donate_frame (fuel : Nat) (k : Kernel) (l : Nat) (k1 : Kernel)
    (h : lock_acquire_donate fuel k l = some k1) :
    k1 = { k with threads := k1.threads } ∧
    ∀ u, (k1.threads u).original_priority = (k.threads u).original_priority ∧
      (k1.threads u).blocked = (k.threads u).blocked ∧
      (k.threads u).priority ≤ (k1.threads u).priority ∧
      (u ≠ k.current → (k1.threads u).wait_on_lock = (k.threads u).wait_on_lock) ∧
      (k.thread_mlfqs = true →
        (k1.threads u).donations = (k.threads u).donations ∧
        (k1.threads u).priority = (k.threads u).priority) := by
  unfold lock_acquire_donate at h
  cases hh : (k.locks l).holder with
  | none =>
    simp only [hh, Option.some.injEq] at h
    subst h
    exact ⟨rfl, fun u => ⟨rfl, rfl, le_refl _, fun _ => rfl, fun _ => ⟨rfl, rfl⟩⟩⟩
  | some holder =>
    simp only [hh, set_wait_on_lock_thread_mlfqs, thread_current] at h
    by_cases hm : k.thread_mlfqs = true
    · simp only [hm, Bool.not_true, Bool.false_eq_true, if_false, Option.some.injEq] at h
      subst h
      refine ⟨rfl, fun u => ?_⟩
      by_cases hu : u = k.current <;> simp [Kernel.set_wait_on_lock, upd_apply, hu]
    · have hm1 : k.thread_mlfqs = false := by simpa using hm
      simp only [hm1, Bool.not_false, if_true, priority_donate] at h
      obtain ⟨h1, h2⟩ := priority_donate_loop_frame _ _ _ _ _ h
      refine ⟨?_, fun u => ?_⟩
      · rw [h1]
        rfl
      · obtain ⟨h3, h4⟩ := h2 u
        have ho := congrArg thread.original_priority h3
        have hb := congrArg thread.blocked h3
        have hw := congrArg thread.wait_on_lock h3
        simp only [set_donations_thread_original_priority,
          set_wait_on_lock_thread_original_priority, set_donations_thread_blocked,
          set_wait_on_lock_thread_blocked, set_donations_thread_wait_on_lock] at ho hb hw
        simp only [set_donations_thread_priority, set_wait_on_lock_thread_priority] at h4
        rw [ho, hb, hw]
        simp only [hm1, Bool.false_eq_true, false_implies, and_true, true_and]
        exact ⟨h4, fun hu => set_wait_on_lock_thread_wait_on_lock_ne _ _ _ _ hu⟩

/-- The call `lock_acquire` when its assertions hold: the donation step, then the loop of
`sema_down`, then lines 231-232 if the loop did not block. -/
theorem lock_acquire_eq (fuel : Nat) (k : Kernel) (l : Nat) (hi : k.intr_context = false)
    (hh : (k.locks l).holder ≠ some k.current) :
    lock_acquire fuel k l =
      (lock_acquire_donate fuel k l).map (fun k1 =>
        if (k.locks l).semaphore.value = 0 then
          sema_down_loop (intr_set_level k1 intr_level.INTR_OFF) (sema_ptr.of_lock l) k.level
            (caller.from_lock_acquire l)
        else
          lock_acquire_finish
            (sema_down_loop (intr_set_level k1 intr_level.INTR_OFF) (sema_ptr.of_lock l)
              k.level (caller.from_lock_acquire l)) l) := by
  have hheld : lock_held_by_current_thread k l = false := by
    simp [lock_held_by_current_thread, thread_current, hh]
  unfold lock_acquire
  simp only [hi, hheld, Bool.false_eq_true, if_false]
  cases hd : lock_acquire_donate fuel k l with
  | none => rfl
  | some k1 =>
    obtain ⟨h1, -⟩ := lock_acquire_donate_frame fuel k l k1 hd
    have hi1 : k1.intr_context = false := by rw [h1]; exact hi
    have hlv : k1.level = k.level := by rw [h1]
    have hlk : k1.locks = k.locks := by rw [h1]
    simp only [sema_down, hi1, Bool.false_eq_true, if_false, intr_disable_fst,
      intr_disable_snd, returned_sema_down_loop, Option.map_some', hlv, intr_set_level_sema,
      sema_of_lock, hlk]
    have hv1 : (k1.locks l).semaphore.value = (k.locks l).semaphore.value := by rw [hlk]
    by_cases hv : (k.locks l).semaphore.value = 0 <;> simp [hv, hv1]

/-! ## Equations of `resume` and `exec` -/

theorem resume_in_sema_down (fuel : Nat) (k : Kernel) (q : sema_ptr) (lv : intr_level)
    (c : caller) (hs : k.stack k.current = susp.in_sema_down q lv c) :
    resume fuel k =
      if (k.sema q).value = 0 then
        some (sema_down_loop (intr_set_level k intr_level.INTR_OFF) q lv c)
      else
        after_sema_down fuel (sema_down_loop (intr_set_level k intr_level.INTR_OFF) q lv c) c := by
  simp only [resume, thread_current, hs, returned_sema_down_loop, intr_set_level_sema]
  by_cases hv : (k.sema q).value = 0 <;> simp [hv]

theorem resume_running (fuel : Nat) (k : Kernel) (hs : k.stack k.current = susp.running) :
    resume fuel k = none := by
  simp [resume, thread_current, hs]

theorem resume_in_cond_wait (fuel : Nat) (k : Kernel) (e l : Nat)
    (hs : k.stack k.current = susp.in_cond_wait e l) :
    resume fuel k = cond_wait_rest fuel k e l := by
  simp [resume, thread_current, hs]

/-- A turn succeeds only for a thread that is not blocked; a call only for a thread that
is not inside a call. -/
theorem exec_some (fuel : Nat) (k k1 : Kernel) (t : Nat) (op : Op)
    (h : exec fuel k t op = some k1) :
    (k.threads t).blocked = false ∧
    ((op = Op.resume ∧ resume fuel (dispatch k t) = some k1) ∨
      (op ≠ Op.resume ∧ k.stack t = susp.running ∧ call fuel (dispatch k t) op = some k1)) := by
  unfold exec at h
  by_cases hb : (k.threads t).blocked = true
  · simp [hb] at h
  simp only [hb, Bool.false_eq_true, if_false] at h
  refine ⟨by simpa using hb, ?_⟩
  cases op with
  | resume => exact Or.inl ⟨rfl, h⟩
  | sema_down s =>
    right
    simp only at h
    by_cases hs : k.stack t = susp.running
    · exact ⟨by simp, hs, by simpa [hs] using h⟩
    · rw [if_neg hs] at h
      cases h
  | sema_try_down s =>
    right
    simp only at h
    by_cases hs : k.stack t = susp.running
    · exact ⟨by simp, hs, by simpa [hs] using h⟩
    · rw [if_neg hs] at h
      cases h
  | sema_up s =>
    right
    simp only at h
    by_cases hs : k.stack t = susp.running
    · exact ⟨by simp, hs, by simpa [hs] using h⟩
    · rw [if_neg hs] at h
      cases h
  | lock_acquire s =>
    right
    simp only at h
    by_cases hs : k.stack t = susp.running
    · exact ⟨by simp, hs, by simpa [hs] using h⟩
    · rw [if_neg hs] at h
      cases h
  | lock_try_acquire s =>
    right
    simp only at h
    by_cases hs : k.stack t = susp.running
    · exact ⟨by simp, hs, by simpa [hs] using h⟩
    · rw [if_neg hs] at h
      cases h
  | lock_release s =>
    right
    simp only at h
    by_cases hs : k.stack t = susp.running
    · exact ⟨by simp, hs, by simpa [hs] using h⟩
    · rw [if_neg hs] at h
      cases h
  | cond_wait c l =>
    right
    simp only at h
    by_cases hs : k.stack t = susp.running
    · exact ⟨by simp, hs, by simpa [hs] using h⟩
    · rw [if_neg hs] at h
      cases h
  | cond_signal c l =>
    right
    simp only at h
    by_cases hs : k.stack t = susp.running
    · exact ⟨by simp, hs, by simpa [hs] using h⟩
    · rw [if_neg hs] at h
      cases h

/-- The call `lock_try_acquire` when its assertion holds. -/
theorem lock_try_acquire_eq (k : Kernel) (l : Nat) (hh : (k.locks l).holder ≠ some k.current) :
    lock_try_acquire k l =
      if 0 < (k.locks l).semaphore.value then
        some (true, (intr_set_level
          ((intr_set_level k intr_level.INTR_OFF).set_sema (sema_ptr.of_lock l)
            { (k.locks l).semaphore with value := unsigned_dec (k.locks l).semaphore.value })
          k.level).set_holder l (some k.current))
      else some (false, intr_set_level (intr_set_level k intr_level.INTR_OFF) k.level) := by
  have hheld : lock_held_by_current_thread k l = false := by
    simp [lock_held_by_current_thread, thread_current, hh]
  simp only [lock_try_acquire, hheld, Bool.false_eq_true, if_false, sema_try_down,
    intr_disable_fst, intr_disable_snd, intr_set_level_sema, sema_of_lock, thread_current]
  by_cases hv : 0 < (k.locks l).semaphore.value
  · simp [hv]
  · simp [hv]

/-! ## C8: the lock invariant -/

theorem lock_inv_congr (k k1 : Kernel) (h : k1.locks = k.locks) (hi : lock_inv k) :
    lock_inv k1 := by
  intro l
  rw [h]
  exact hi l

theorem unsigned_dec_one : unsigned_dec 1 = 0 := by decide

theorem unsigned_inc_zero : unsigned_inc 0 = 1 := by decide

/-- The loop of `sema_down` on the semaphore of lock `l`, followed by lines 231-232 when
it does not block, keeps the lock invariant. -/
theorem lock_tail_inv (k : Kernel) (l : Nat) (lv : intr_level) (hi : lock_inv k) :
    lock_inv
      (if (k.locks l).semaphore.value = 0 then
        sema_down_loop k (sema_ptr.of_lock l) lv (caller.from_lock_acquire l)
      else
        lock_acquire_finish
          (sema_down_loop k (sema_ptr.of_lock l) lv (caller.from_lock_acquire l)) l) := by
  intro m
  by_cases hv : (k.locks l).semaphore.value = 0
  · simp only [hv, if_true]
    rw [sema_down_loop_zero _ _ _ _ (by simpa using hv)]
    by_cases hm : m = l
    · subst hm
      have := hi m
      simp only [thread_block_locks, set_stack_locks, set_sema_holder, set_sema_lock_semaphore]
      simpa [hv] using this.1
    · simp only [thread_block_locks, set_stack_locks, set_sema_locks_ne _ _ _ _ hm]
      exact hi m
  · simp only [hv, if_false]
    rw [sema_down_loop_pos _ _ _ _ (by simpa using hv)]
    have h1 : (k.locks l).semaphore.value = 1 := by
      have := (hi l).2
      omega
    by_cases hm : m = l
    · subst hm
      simp [lock_acquire_finish, thread_current, h1, unsigned_dec_one]
    · simp only [lock_acquire_finish, set_wait_on_lock_locks, set_holder_lock_ne _ _ _ _ hm,
        set_stack_locks, intr_set_level_locks, set_sema_locks_ne _ _ _ _ hm]
      exact hi m

theorem lock_tail_frames (k : Kernel) (l : Nat) (lv : intr_level) (hf : lock_frames k) :
    lock_frames
      (if (k.locks l).semaphore.value = 0 then
        sema_down_loop k (sema_ptr.of_lock l) lv (caller.from_lock_acquire l)
      else
        lock_acquire_finish
          (sema_down_loop k (sema_ptr.of_lock l) lv (caller.from_lock_acquire l)) l) := by
  intro t
  by_cases hv : (k.locks l).semaphore.value = 0
  · simp only [hv, if_true]
    rw [sema_down_loop_zero _ _ _ _ (by simpa using hv)]
    by_cases ht : t = k.current
    · right
      exact ⟨l, lv, by simp [ht]⟩
    · simpa [set_stack_ne _ _ _ _ ht] using hf t
  · simp only [hv, if_false]
    rw [sema_down_loop_pos _ _ _ _ (by simpa using hv)]
    by_cases ht : t = k.current
    · left
      simp [lock_acquire_finish, ht]
    · simpa [lock_acquire_finish, set_stack_ne _ _ _ _ ht] using hf t

/-- The call `lock_acquire` keeps the lock invariant. -/
theorem lock_acquire_inv (fuel : Nat) (k k1 : Kernel) (l : Nat)
    (hf : lock_frames k) (hi : lock_inv k) (h : lock_acquire fuel k l = some k1) :
    lock_frames k1 ∧ lock_inv k1 := by
  by_cases hic : k.intr_context = true
  · simp [lock_acquire, hic] at h
  by_cases hh : (k.locks l).holder = some k.current
  · simp [lock_acquire, lock_held_by_current_thread, thread_current, hh] at h
  rw [lock_acquire_eq fuel _ l (by simpa using hic) hh] at h
  cases hd : lock_acquire_donate fuel k l with
  | none => simp [hd] at h
  | some k2 =>
    obtain ⟨hk2, -⟩ := lock_acquire_donate_frame _ _ _ _ hd
    have hk2l : k2.locks = k.locks := by rw [hk2]
    have hk2s : k2.stack = k.stack := by rw [hk2]
    have hi2 := lock_tail_inv (intr_set_level k2 intr_level.INTR_OFF) l
      k.level (lock_inv_congr k _ (by simpa using hk2l) hi)
    have hf2 := lock_tail_frames (intr_set_level k2 intr_level.INTR_OFF) l
      k.level (by intro u; simpa [hk2s] using hf u)
    simp only [hd, Option.map_some', Option.some.injEq] at h
    simp only [intr_set_level_locks, hk2l] at hi2 hf2
    rw [h] at hi2 hf2
    exact ⟨hf2, hi2⟩

/-- One turn of the lock interface keeps the lock invariant. -/
theorem lock_inv_step (fuel : Nat) (k k1 : Kernel) (t : Nat) (op : Op) (hop : lock_op op)
    (hf : lock_frames k) (hi : lock_inv k) (h : exec fuel k t op = some k1) :
    lock_frames k1 ∧ lock_inv k1 := by
  obtain ⟨-, hcase⟩ := exec_some fuel k k1 t op h
  have hid : lock_inv (dispatch k t) := lock_inv_congr k _ (dispatch_locks k t) hi
  have hfd : lock_frames (dispatch k t) := by
    intro u
    simpa using hf u
  rcases hcase with ⟨rfl, hr⟩ | ⟨hne, hs, hc⟩
  · rcases hf t with hs | ⟨l, lv, hs⟩
    · rw [resume_running _ _ (by simpa using hs)] at hr
      cases hr
    · rw [resume_in_sema_down _ _ _ _ _ (by simpa using hs)] at hr
      have hi2 := lock_tail_inv (intr_set_level (dispatch k t) intr_level.INTR_OFF) l lv
        (lock_inv_congr _ _ rfl hid)
      have hf2 := lock_tail_frames (intr_set_level (dispatch k t) intr_level.INTR_OFF) l lv
        (by intro u; simpa using hfd u)
      by_cases hv : (k.locks l).semaphore.value = 0
      · simp [hv] at hr hi2 hf2
        subst hr
        exact ⟨hf2, hi2⟩
      · simp [hv, after_sema_down] at hr hi2 hf2
        subst hr
        exact ⟨hf2, hi2⟩
  · cases op with
    | sema_down s => exact absurd hop (by simp [lock_op])
    | sema_try_down s => exact absurd hop (by simp [lock_op])
    | sema_up s => exact absurd hop (by simp [lock_op])
    | cond_wait c l => exact absurd hop (by simp [lock_op])
    | cond_signal c l => exact absurd hop (by simp [lock_op])
    | resume => exact absurd rfl hne
    | lock_acquire l => exact lock_acquire_inv fuel _ _ l hfd hid hc
    | lock_try_acquire l =>
      simp only [call] at hc
      by_cases hh : (k.locks l).holder = some t
      · simp [lock_try_acquire, lock_held_by_current_thread, thread_current, hh] at hc
      rw [lock_try_acquire_eq _ l (by simpa using hh)] at hc
      by_cases hv : 0 < (k.locks l).semaphore.value
      · simp only [dispatch_locks, hv, if_true, Option.map_some', Option.some.injEq] at hc
        subst hc
        have h1 : (k.locks l).semaphore.value = 1 := by
          have := (hi l).2
          omega
        refine ⟨by intro u; simpa using hf u, ?_⟩
        intro m
        by_cases hm : m = l
        · subst hm
          simp [h1, unsigned_dec_one]
        · simp only [set_holder_lock_ne _ _ _ _ hm, intr_set_level_locks,
            set_sema_locks_ne _ _ _ _ hm, dispatch_locks]
          exact hi m
      · simp only [dispatch_locks, hv, if_false, Option.map_some', Option.some.injEq] at hc
        subst hc
        exact ⟨by intro u; simpa using hf u, lock_inv_congr k _ (by simp) hi⟩
    | lock_release l =>
      simp only [call] at hc
      by_cases hh : (k.locks l).holder = some t
      · rw [lock_release_eq _ l (by simpa using hh)] at hc
        simp only [Option.some.injEq] at hc
        subst hc
        refine ⟨by intro u; simpa using hf u, ?_⟩
        have h0 : (k.locks l).semaphore.value = 0 := ((hi l).1).mp (by simp [hh])
        intro m
        by_cases hm : m = l
        · subst hm
          have hsem := sema_up_critical_sema
            ((lock_release_donations (intr_set_level (dispatch k t) intr_level.INTR_OFF)
              m).set_holder m none) (sema_ptr.of_lock m)
          simp only [sema_of_lock] at hsem
          simp [hsem, h0, unsigned_inc_zero]
        · have hsem := sema_up_critical_sema_ne
            ((lock_release_donations (intr_set_level (dispatch k t) intr_level.INTR_OFF)
              l).set_holder l none) (sema_ptr.of_lock l) (sema_ptr.of_lock m)
            (by simp [hm])
          simp only [sema_of_lock] at hsem
          simp only [intr_set_level_locks, sema_up_locks, sema_up_critical_holder, hsem,
            set_holder_lock_ne _ _ _ _ hm, lock_release_donations_locks, dispatch_locks]
          exact hi m
      · rw [lock_release_none _ l (by simpa using hh)] at hc
        cases hc

theorem reach_run (allowed : Op → Prop) (fuel : Nat) (k0 : Kernel) :
    ∀ (sched : List (Nat × Op)) (k k1 : Kernel), Reach allowed k0 k →
      (∀ x ∈ sched, allowed x.2) → run fuel k sched = some k1 → Reach allowed k0 k1 := by
  intro sched
  induction sched with
  | nil =>
    intro k k1 hr _ h
    simp only [run, Option.some.injEq] at h
    exact h ▸ hr
  | cons x rest ih =>
    intro k k1 hr hall h
    obtain ⟨t, op⟩ := x
    simp only [run] at h
    cases he : exec fuel k t op with
    | none => simp [he] at h
    | some k2 =>
      simp only [he] at h
      exact ih k2 k1 (Reach.step fuel k k2 t op hr (hall (t, op) (List.mem_cons_self _ _)) he)
        (fun y hy => hall y (List.mem_cons_of_mem _ hy)) h

theorem some_getD {α : Type} (o : Option α) (d : α) (h : o.isSome = true) :
    o = some (o.getD d) := by
  cases o with
  | none => simp at h
  | some a => rfl

theorem lock_init_lock (k : Kernel) (l : Nat) :
    (lock_init k l).locks l = { holder := none, semaphore := { value := 1, waiters := [] } } := by
  simp [lock_init, sema_init, Kernel.set_sema, UINT_SIZE]

/-- C8: in every state reached from a state in which every lock is as `lock_init` leaves
it and no thread is inside a call, by turns of `lock_acquire`, `lock_try_acquire` and
`lock_release` that pass their assertions (a blocked `lock_acquire` completing in
a later turn), every lock has a holder exactly when the value of its semaphore is 0,
the value never exceeds 1, and the lock has at most one holder. -/
theorem lock_holder_invariant (k0 k : Kernel)
    (hinit : ∀ l, k0.locks l = (lock_init k0 l).locks l)
    (hidle : ∀ t, k0.stack t = susp.running) (h : Reach lock_op k0 k) :
    ∀ l, ((k.locks l).holder ≠ none ↔ (k.locks l).semaphore.value = 0) ∧
      (k.locks l).semaphore.value ≤ 1 ∧
      ∀ t u, (k.locks l).holder = some t → (k.locks l).holder = some u → t = u := by
  have hall : lock_frames k ∧ lock_inv k := by
    induction h with
    | init =>
      refine ⟨fun t => Or.inl (hidle t), fun l => ?_⟩
      rw [hinit l, lock_init_lock]
      simp
    | step fuel k1 k2 t op _ hop hex ih =>
      exact lock_inv_step fuel k1 k2 t op hop ih.1 ih.2 hex
  intro l
  refine ⟨(hall.2 l).1, (hall.2 l).2, ?_⟩
  intro t u ht hu
  rw [ht] at hu
  exact Option.some.inj hu

/-- C8 at a concrete input: the state of the two-donor scenario. -/
theorem lock_holder_invariant_witness :
    ((two_donors.locks 0).holder ≠ none ↔ (two_donors.locks 0).semaphore.value = 0) ∧
    (two_donors.locks 0).semaphore.value ≤ 1 := by
  have hr : Reach lock_op (boot donor_prio false) two_donors :=
    reach_run lock_op 4 (boot donor_prio false) _ _ _ Reach.init
      (by
        intro x hx
        simp only [List.mem_cons, List.mem_singleton, List.not_mem_nil, or_false] at hx
        rcases hx with rfl | rfl | rfl | rfl <;> trivial)
      (some_getD _ _ (by decide))
  have h := lock_holder_invariant (boot donor_prio false) two_donors
    (fun l => by rw [lock_init_lock]; rfl) (fun _ => rfl) hr 0
  exact ⟨h.1, h.2.1⟩

/-! ## What every turn preserves of the thread table -/

theorem thread_frame_of_eq (k k1 : Kernel) (hm : k1.thread_mlfqs = k.thread_mlfqs)
    (h : ∀ u, (k1.threads u).priority = (k.threads u).priority ∧
      (k1.threads u).original_priority = (k.threads u).original_priority ∧
      (k1.threads u).donations = (k.threads u).donations) : thread_frame k k1 := by
  refine ⟨hm, fun u => ?_⟩
  obtain ⟨h1, h2, h3⟩ := h u
  rw [h1, h2, h3]
  exact ⟨rfl, fun x => x, fun _ => ⟨rfl, rfl⟩⟩

theorem thread_frame_refl (k : Kernel) : thread_frame k k :=
  thread_frame_of_eq k k rfl (fun _ => ⟨rfl, rfl, rfl⟩)

theorem thread_frame_trans (k k1 k2 : Kernel) (h1 : thread_frame k k1)
    (h2 : thread_frame k1 k2) : thread_frame k k2 := by
  refine ⟨h2.1.trans h1.1, fun u => ?_⟩
  obtain ⟨a1, a2, a3⟩ := h1.2 u
  obtain ⟨b1, b2, b3⟩ := h2.2 u
  refine ⟨b1.trans a1, fun h => b2 (a2 h), fun hm => ?_⟩
  obtain ⟨c1, c2⟩ := a3 hm
  obtain ⟨d1, d2⟩ := b3 (h1.1.trans hm)
  exact ⟨d1.trans c1, d2.trans c2⟩

theorem sema_down_loop_thread_frame (k : Kernel) (q : sema_ptr) (lv : intr_level)
    (c : caller) : thread_frame k (sema_down_loop k q lv c) := by
  apply thread_frame_of_eq
  · by_cases h : (k.sema q).value = 0
    · rw [sema_down_loop_zero k q lv c h]; simp
    · rw [sema_down_loop_pos k q lv c h]; simp
  · intro u
    by_cases h : (k.sema q).value = 0
    · rw [sema_down_loop_zero k q lv c h]; simp
    · rw [sema_down_loop_pos k q lv c h]; simp

theorem sema_up_thread_frame (k : Kernel) (q : sema_ptr) : thread_frame k (sema_up k q) := by
  apply thread_frame_of_eq
  · simp
  · intro u
    simp

theorem dispatch_thread_frame (k : Kernel) (t : Nat) : thread_frame k (dispatch k t) := by
  apply thread_frame_of_eq <;> simp

theorem intr_set_level_thread_frame (k : Kernel) (lv : intr_level) :
    thread_frame k (intr_set_level k lv) := by
  apply thread_frame_of_eq <;> simp

theorem lock_acquire_finish_thread_frame (k : Kernel) (l : Nat) :
    thread_frame k (lock_acquire_finish k l) := by
  apply thread_frame_of_eq <;> simp [lock_acquire_finish]

theorem le_max_priority (k : Kernel) (base : Int) (ds : List Nat) :
    base ≤ max_priority k base ds := by
  induction ds generalizing base with
  | nil => exact le_refl _
  | cons d rest ih =>
    simp only [max_priority, List.foldl_cons]
    exact le_trans (le_max_left _ _) (ih _)

theorem lock_release_donations_thread_frame (k : Kernel) (l : Nat) :
    thread_frame k (lock_release_donations k l) := by
  by_cases hm : k.thread_mlfqs = false
  · refine ⟨by simp, fun u => ⟨by simp, fun _ => ?_, fun hm1 => ?_⟩⟩
    · rw [lock_release_donations_original_priority, lock_release_donations_eq k l hm]
      by_cases hu : u = k.current
      · subst hu
        simp only [set_priority_thread_same]
        exact le_max_priority _ _ _
      · rw [set_priority_thread_priority_ne _ _ _ _ hu]
        simpa using ‹_›
    · rw [hm] at hm1
      cases hm1
  · have hm1 : k.thread_mlfqs = true := by simpa using hm
    have hk : lock_release_donations k l = k := by
      simp [lock_release_donations, hm1]
    rw [hk]
    exact thread_frame_refl k

theorem lock_acquire_donate_thread_frame (fuel : Nat) (k k1 : Kernel) (l : Nat)
    (h : lock_acquire_donate fuel k l = some k1) : thread_frame k k1 := by
  obtain ⟨h1, h2⟩ := lock_acquire_donate_frame fuel k l k1 h
  refine ⟨by rw [h1], fun u => ?_⟩
  obtain ⟨a, -, c, -, e⟩ := h2 u
  refine ⟨a, fun hle => ?_, e⟩
  rw [a]
  exact le_trans hle c

theorem lock_acquire_thread_frame (fuel : Nat) (k k1 : Kernel) (l : Nat)
    (h : lock_acquire fuel k l = some k1) : thread_frame k k1 := by
  by_cases hic : k.intr_context = true
  · simp [lock_acquire, hic] at h
  by_cases hh : (k.locks l).holder = some k.current
  · simp [lock_acquire, lock_held_by_current_thread, thread_current, hh] at h
  rw [lock_acquire_eq fuel _ l (by simpa using hic) hh] at h
  cases hd : lock_acquire_donate fuel k l with
  | none => simp [hd] at h
  | some k2 =>
    simp only [hd, Option.map_some', Option.some.injEq] at h
    have h2 := lock_acquire_donate_thread_frame fuel k k2 l hd
    have h3 := thread_frame_trans _ _ _ (intr_set_level_thread_frame k2 intr_level.INTR_OFF)
      (sema_down_loop_thread_frame (intr_set_level k2 intr_level.INTR_OFF)
        (sema_ptr.of_lock l) k.level (caller.from_lock_acquire l))
    split at h
    · rw [← h]
      exact thread_frame_trans _ _ _ h2 h3
    · rw [← h]
      exact thread_frame_trans _ _ _ h2
        (thread_frame_trans _ _ _ h3 (lock_acquire_finish_thread_frame _ l))

theorem lock_release_thread_frame (k k1 : Kernel) (l : Nat)
    (h : lock_release k l = some k1) : thread_frame k k1 := by
  by_cases hh : (k.locks l).holder = some k.current
  · rw [lock_release_eq _ l hh] at h
    simp only [Option.some.injEq] at h
    subst h
    refine thread_frame_trans _ _ _ (intr_set_level_thread_frame k intr_level.INTR_OFF) ?_
    refine thread_frame_trans _ _ _ (lock_release_donations_thread_frame _ l) ?_
    refine thread_frame_trans _ _ _ ?_ (intr_set_level_thread_frame _ _)
    refine thread_frame_trans _ _ _ ?_ (sema_up_thread_frame _ _)
    apply thread_frame_of_eq <;> simp
  · rw [lock_release_none _ l hh] at h
    cases h

theorem sema_down_thread_frame (k k1 : Kernel) (q : sema_ptr) (c : caller)
    (h : sema_down k q c = some k1) : thread_frame k k1 := by
  unfold sema_down at h
  by_cases hic : k.intr_context = true
  · simp [hic] at h
  simp only [hic, Bool.false_eq_true, if_false, Option.some.injEq, intr_disable_fst,
    intr_disable_snd] at h
  subst h
  exact thread_frame_trans _ _ _ (intr_set_level_thread_frame k intr_level.INTR_OFF)
    (sema_down_loop_thread_frame _ _ _ _)

theorem cond_wait_thread_frame (k k1 : Kernel) (c l : Nat)
    (h : cond_wait k c l = some k1) : thread_frame k k1 := by
  unfold cond_wait at h
  by_cases hic : k.intr_context = true
  · simp [hic] at h
  by_cases hheld : lock_held_by_current_thread k l = true
  · simp only [hic, Bool.false_eq_true, if_false, hheld, Bool.not_true] at h
    split at h
    · cases h
    · rename_i k4 hrel
      simp only [Option.some.injEq] at h
      subst h
      have h1 := lock_release_thread_frame _ _ _ hrel
      refine thread_frame_trans _ _ _ ?_
        (thread_frame_trans _ _ _ h1 (by apply thread_frame_of_eq <;> simp))
      apply thread_frame_of_eq <;> simp [cond_wait_enqueue, sema_init]
  · simp [hic, hheld] at h

theorem cond_signal_thread_frame (k k1 : Kernel) (c l : Nat)
    (h : cond_signal k c l = some k1) : thread_frame k k1 := by
  unfold cond_signal at h
  by_cases hic : k.intr_context = true
  · simp [hic] at h
  by_cases hheld : lock_held_by_current_thread k l = true
  · simp only [hic, Bool.false_eq_true, if_false, hheld, Bool.not_true] at h
    split at h
    · simp only [Option.some.injEq] at h
      subst h
      exact thread_frame_refl k
    · simp only [Option.some.injEq] at h
      subst h
      refine thread_frame_trans _ _ _ ?_ (sema_up_thread_frame _ _)
      apply thread_frame_of_eq <;> simp
  · simp [hic, hheld] at h

theorem after_sema_down_thread_frame (fuel : Nat) (k k1 : Kernel) (c : caller)
    (h : after_sema_down fuel k c = some k1) : thread_frame k k1 := by
  cases c with
  | direct =>
    simp only [after_sema_down, Option.some.injEq] at h
    subst h
    exact thread_frame_refl k
  | from_lock_acquire l =>
    simp only [after_sema_down, Option.some.injEq] at h
    subst h
    exact lock_acquire_finish_thread_frame k l
  | from_cond_wait l =>
    exact lock_acquire_thread_frame fuel k k1 l h

theorem resume_thread_frame (fuel : Nat) (k k1 : Kernel)
    (h : resume fuel k = some k1) : thread_frame k k1 := by
  cases hs : k.stack k.current with
  | running =>
    rw [resume_running _ _ hs] at h
    cases h
  | in_sema_down q lv c =>
    rw [resume_in_sema_down _ _ _ _ _ hs] at h
    have h3 := thread_frame_trans _ _ _ (intr_set_level_thread_frame k intr_level.INTR_OFF)
      (sema_down_loop_thread_frame (intr_set_level k intr_level.INTR_OFF) q lv c)
    split at h
    · simp only [Option.some.injEq] at h
      subst h
      exact h3
    · exact thread_frame_trans _ _ _ h3 (after_sema_down_thread_frame fuel _ _ c h)
  | in_cond_wait e l =>
    rw [resume_in_cond_wait _ _ _ _ hs] at h
    unfold cond_wait_rest at h
    split at h
    · cases h
    · rename_i k2 hdown
      have h1 := sema_down_thread_frame _ _ _ _ hdown
      have h0 : thread_frame k (k.set_stack (thread_current k) susp.running) := by
        apply thread_frame_of_eq <;> simp
      split at h
      · exact thread_frame_trans _ _ _ h0
          (thread_frame_trans _ _ _ h1 (lock_acquire_thread_frame fuel _ _ l h))
      · simp only [Option.some.injEq] at h
        subst h
        exact thread_frame_trans _ _ _ h0 h1

/-- Every turn preserves the thread frame. -/
theorem exec_thread_frame (fuel : Nat) (k k1 : Kernel) (t : Nat) (op : Op)
    (h : exec fuel k t op = some k1) : thread_frame k k1 := by
  obtain ⟨-, hcase⟩ := exec_some fuel k k1 t op h
  refine thread_frame_trans _ _ _ (dispatch_thread_frame k t) ?_
  rcases hcase with ⟨-, hr⟩ | ⟨-, -, hc⟩
  · exact resume_thread_frame fuel _ _ hr
  · cases op with
    | resume => simp [call] at hc
    | sema_down s => exact sema_down_thread_frame _ _ _ _ hc
    | sema_try_down s =>
      simp only [call, Option.some.injEq] at hc
      subst hc
      apply thread_frame_of_eq
      · simp only [sema_try_down]
        split <;> simp
      · intro u
        simp only [sema_try_down]
        split <;> simp
    | sema_up s =>
      simp only [call, Option.some.injEq] at hc
      subst hc
      exact sema_up_thread_frame _ _
    | lock_acquire l => exact lock_acquire_thread_frame fuel _ _ l hc
    | lock_try_acquire l =>
      simp only [call] at hc
      by_cases hh : ((dispatch k t).locks l).holder = some (dispatch k t).current
      · have hheld : lock_held_by_current_thread (dispatch k t) l = true := by
          simp only [lock_held_by_current_thread, thread_current, hh, decide_True]
        simp only [lock_try_acquire, hheld, if_true, Option.map_none'] at hc
        cases hc
      rw [lock_try_acquire_eq _ l hh] at hc
      split at hc
      · simp only [Option.map_some', Option.some.injEq] at hc
        subst hc
        apply thread_frame_of_eq <;> simp
      · simp only [Option.map_some', Option.some.injEq] at hc
        subst hc
        apply thread_frame_of_eq <;> simp
    | lock_release l => exact lock_release_thread_frame _ _ l hc
    | cond_wait c l => exact cond_wait_thread_frame _ _ c l hc
    | cond_signal c l => exact cond_signal_thread_frame _ _ c l hc

/-! ## The donation invariant -/

theorem neutral_refl (k : Kernel) : neutral k k :=
  ⟨fun _ => ⟨rfl, rfl⟩, fun _ => ⟨rfl, rfl, rfl⟩, fun _ => Or.inl rfl⟩

theorem neutral_trans (k k1 k2 : Kernel) (h1 : neutral k k1) (h2 : neutral k1 k2) :
    neutral k k2 := by
  obtain ⟨a1, a2, a3⟩ := h1
  obtain ⟨b1, b2, b3⟩ := h2
  refine ⟨fun l => ?_, fun t => ?_, fun t => ?_⟩
  · exact ⟨(b1 l).1.trans (a1 l).1, (b1 l).2.trans (a1 l).2⟩
  · exact ⟨(b2 t).1.trans (a2 t).1, (b2 t).2.1.trans (a2 t).2.1,
      (b2 t).2.2.trans (a2 t).2.2⟩
  · rcases b3 t with e2 | ⟨n2, n1⟩
    · rcases a3 t with e1 | ⟨m1, m0⟩
      · exact Or.inl (e2.trans e1)
      · exact Or.inr ⟨e2 ▸ m1, m0⟩
    · rcases a3 t with e1 | ⟨m1, m0⟩
      · exact Or.inr ⟨n2, e1 ▸ n1⟩
      · exact Or.inr ⟨n2, m0⟩

theorem outside_lock_not_lock (s : susp) (h : outside_lock s) (l : Nat) (lv : intr_level)
    (c : caller) : s ≠ susp.in_sema_down (sema_ptr.of_lock l) lv c := by
  intro e
  subst e
  exact h

theorem neutral_stack (k k1 : Kernel) (h : neutral k k1) (t l : Nat) (lv : intr_level)
    (c : caller) :
    k1.stack t = susp.in_sema_down (sema_ptr.of_lock l) lv c ↔
      k.stack t = susp.in_sema_down (sema_ptr.of_lock l) lv c := by
  rcases h.2.2 t with e | ⟨n1, n0⟩
  · rw [e]
  · constructor
    · intro hs
      exact absurd hs (outside_lock_not_lock _ n1 l lv c)
    · intro hs
      exact absurd hs (outside_lock_not_lock _ n0 l lv c)

theorem donation_inv_neutral (k k1 : Kernel) (h : neutral k k1) (hi : donation_inv k) :
    donation_inv k1 := by
  obtain ⟨a1, a2, a3⟩ := h
  refine ⟨?_, ?_, ?_, ?_, ?_⟩
  · intro l
    rw [(a1 l).1, (a1 l).2]
    exact hi.h_locks l
  · intro t
    rcases a3 t with e | ⟨n1, -⟩
    · rw [e]
      exact hi.h_frames t
    · exact Or.inl n1
  · intro t l
    rw [(a2 t).2.2, hi.h_waits t l]
    constructor
    · rintro ⟨lv, hs⟩
      exact ⟨lv, (neutral_stack k k1 ⟨a1, a2, a3⟩ t l lv _).mpr hs⟩
    · rintro ⟨lv, hs⟩
      exact ⟨lv, (neutral_stack k k1 ⟨a1, a2, a3⟩ t l lv _).mp hs⟩
  · intro t d hd
    rw [(a2 t).2.1] at hd
    obtain ⟨l, h1, h2⟩ := hi.h_donors t d hd
    exact ⟨l, by rw [(a2 d).2.2]; exact h1, by rw [(a1 l).1]; exact h2⟩
  · intro t d hd
    rw [(a2 t).2.1] at hd
    rw [(a2 t).1, (a2 d).1]
    exact hi.h_above t d hd

/-- A state change that leaves locks and threads' donation fields alone and moves only the
current thread between suspensions outside locks is neutral. -/
theorem neutral_of_eq (k k1 : Kernel)
    (hl : ∀ l, (k1.locks l).holder = (k.locks l).holder ∧
      (k1.locks l).semaphore.value = (k.locks l).semaphore.value)
    (ht : ∀ t, (k1.threads t).priority = (k.threads t).priority ∧
      (k1.threads t).donations = (k.threads t).donations ∧
      (k1.threads t).wait_on_lock = (k.threads t).wait_on_lock)
    (hs : ∀ t, t ≠ k.current → k1.stack t = k.stack t)
    (hc : outside_lock (k.stack k.current))
    (hc1 : outside_lock (k1.stack k.current)) : neutral k k1 := by
  refine ⟨hl, ht, fun t => ?_⟩
  by_cases h : t = k.current
  · subst h
    exact Or.inr ⟨hc1, hc⟩
  · exact Or.inl (hs t h)

theorem neutral_of_same_stack (k k1 : Kernel)
    (hl : ∀ l, (k1.locks l).holder = (k.locks l).holder ∧
      (k1.locks l).semaphore.value = (k.locks l).semaphore.value)
    (ht : ∀ t, (k1.threads t).priority = (k.threads t).priority ∧
      (k1.threads t).donations = (k.threads t).donations ∧
      (k1.threads t).wait_on_lock = (k.threads t).wait_on_lock)
    (hs : k1.stack = k.stack) : neutral k k1 :=
  ⟨hl, ht, fun t => Or.inl (by rw [hs])⟩

theorem dispatch_neutral (k : Kernel) (t : Nat) : neutral k (dispatch k t) := by
  apply neutral_of_same_stack <;> simp

theorem intr_set_level_neutral (k : Kernel) (lv : intr_level) :
    neutral k (intr_set_level k lv) := by
  apply neutral_of_same_stack <;> simp

theorem set_sema_locks_of_not_lock (k : Kernel) (q : sema_ptr) (v : semaphore)
    (hq : ∀ l, q ≠ sema_ptr.of_lock l) : (k.set_sema q v).locks = k.locks := by
  cases q with
  | plain s => rfl
  | of_lock l => exact absurd rfl (hq l)
  | of_waiter e => rfl

theorem sema_down_loop_neutral (k : Kernel) (q : sema_ptr) (lv : intr_level) (c : caller)
    (hq : ∀ l, q ≠ sema_ptr.of_lock l) (hc : outside_lock (k.stack k.current))
    (hnf : outside_lock (susp.in_sema_down q lv c)) :
    neutral k (sema_down_loop k q lv c) := by
  by_cases h : (k.sema q).value = 0
  · rw [sema_down_loop_zero k q lv c h]
    apply neutral_of_eq
    · intro l
      simp [set_sema_locks_of_not_lock _ _ _ hq]
    · intro t
      simp
    · intro t ht
      simp [set_stack_ne _ _ _ _ ht]
    · exact hc
    · simpa using hnf
  · rw [sema_down_loop_pos k q lv c h]
    apply neutral_of_eq
    · intro l
      simp [set_sema_locks_of_not_lock _ _ _ hq]
    · intro t
      simp
    · intro t ht
      simp [set_stack_ne _ _ _ _ ht]
    · exact hc
    · simp [outside_lock]

theorem sema_up_critical_locks_of_not_lock (k : Kernel) (q : sema_ptr)
    (hq : ∀ l, q ≠ sema_ptr.of_lock l) : (sema_up_critical k q).locks = k.locks := by
  unfold sema_up_critical
  simp only [intr_disable_fst, intr_disable_snd, list_higher_priority_level, intr_set_level_sema]
  split <;> simp [set_sema_locks_of_not_lock _ _ _ hq]

theorem sema_up_neutral (k : Kernel) (q : sema_ptr) (hq : ∀ l, q ≠ sema_ptr.of_lock l) :
    neutral k (sema_up k q) := by
  apply neutral_of_same_stack
  · intro l
    simp [sema_up_critical_locks_of_not_lock _ _ hq]
  · intro t
    simp
  · simp

/-- The loop of `sema_down` in `lock_acquire (l)`, followed by lines 231-232 when it does
not block, establishes the donation invariant. -/
theorem acquiring_tail (k : Kernel) (l : Nat) (lv : intr_level) (ha : acquiring k l) :
    donation_inv
      (if (k.locks l).semaphore.value = 0 then
        sema_down_loop k (sema_ptr.of_lock l) lv (caller.from_lock_acquire l)
      else
        lock_acquire_finish
          (sema_down_loop k (sema_ptr.of_lock l) lv (caller.from_lock_acquire l)) l) := by
  have hlocks := lock_tail_inv k l lv ha.h_locks
  by_cases hv : (k.locks l).semaphore.value = 0
  · simp only [hv, if_true] at hlocks ⊢
    rw [sema_down_loop_zero _ _ _ _ (by simpa using hv)] at hlocks ⊢
    refine ⟨hlocks, ?_, ?_, ?_, ?_⟩
    · intro t
      by_cases ht : t = k.current
      · subst ht
        right
        exact ⟨l, lv, by simp⟩
      · simp only [thread_block_stack, set_stack_ne _ _ _ _ ht, set_sema_stack]
        exact ha.h_frames t ht
    · intro t l1
      by_cases ht : t = k.current
      · subst ht
        simp only [thread_block_thread_wait_on_lock, set_stack_threads, set_sema_threads,
          thread_block_stack, set_stack_same, ha.h_wait hv, Option.some.injEq,
          susp.in_sema_down.injEq, sema_ptr.of_lock.injEq, caller.from_lock_acquire.injEq]
        constructor
        · intro e
          exact ⟨lv, e, rfl, e⟩
        · rintro ⟨_, e, -, -⟩
          exact e
      · simp only [thread_block_thread_wait_on_lock, set_stack_threads, set_sema_threads,
          thread_block_stack, set_stack_ne _ _ _ _ ht, set_sema_stack]
        exact ha.h_waits t l1 ht
    · intro t d hd
      simp only [thread_block_thread_donations, set_stack_threads, set_sema_threads] at hd
      obtain ⟨l1, h1, h2⟩ := ha.h_donors t d hd
      exact ⟨l1, by simpa using h1, by simpa using h2⟩
    · intro t d hd
      simp only [thread_block_thread_donations, set_stack_threads, set_sema_threads] at hd
      simpa using ha.h_above t d hd
  · simp only [hv, if_false] at hlocks ⊢
    rw [sema_down_loop_pos _ _ _ _ (by simpa using hv)] at hlocks ⊢
    have hnone : (k.locks l).holder = none := by
      by_contra hne
      exact hv ((ha.h_locks l).1.mp hne)
    refine ⟨hlocks, ?_, ?_, ?_, ?_⟩
    · intro t
      by_cases ht : t = k.current
      · subst ht
        left
        simp [lock_acquire_finish, outside_lock]
      · simp only [lock_acquire_finish, set_wait_on_lock_stack, set_holder_stack,
          set_stack_ne _ _ _ _ ht, intr_set_level_stack, set_sema_stack]
        exact ha.h_frames t ht
    · intro t l1
      by_cases ht : t = k.current
      · subst ht
        simp [lock_acquire_finish, thread_current]
      · simp only [lock_acquire_finish, set_wait_on_lock_stack, set_holder_stack,
          set_stack_ne _ _ _ _ ht, intr_set_level_stack, set_sema_stack, thread_current,
          set_holder_current, set_stack_current, intr_set_level_current, set_sema_current,
          set_wait_on_lock_thread_wait_on_lock_ne _ _ _ _ ht, set_holder_threads,
          set_stack_threads, intr_set_level_threads, set_sema_threads]
        exact ha.h_waits t l1 ht
    · intro t d hd
      simp only [lock_acquire_finish, set_wait_on_lock_thread_donations, set_holder_threads,
        set_stack_threads, intr_set_level_threads, set_sema_threads] at hd
      obtain ⟨l1, h1, h2⟩ := ha.h_donors t d hd
      have hd1 : d ≠ k.current := fun e => ha.h_free hv t (e ▸ hd)
      have hl1 : l1 ≠ l := by
        intro e
        rw [e, hnone] at h2
        cases h2
      refine ⟨l1, ?_, ?_⟩
      · simp only [lock_acquire_finish, thread_current, set_holder_current, set_stack_current,
          intr_set_level_current, set_sema_current,
          set_wait_on_lock_thread_wait_on_lock_ne _ _ _ _ hd1, set_holder_threads,
          set_stack_threads, intr_set_level_threads, set_sema_threads]
        exact h1
      · simp only [lock_acquire_finish, set_wait_on_lock_locks,
          set_holder_lock_ne _ _ _ _ hl1, set_stack_locks, intr_set_level_locks,
          set_sema_locks_ne _ _ _ _ hl1]
        exact h2
    · intro t d hd
      simp only [lock_acquire_finish, set_wait_on_lock_thread_donations, set_holder_threads,
        set_stack_threads, intr_set_level_threads, set_sema_threads] at hd
      simpa [lock_acquire_finish] using ha.h_above t d hd

/-- The walk of `priority_donate` restores "no donor above its donee": if every donor
waits on a lock of its donee and only the walking thread may be above its donee, then
after the walk no donor is above its donee. -/
theorem walk_above (fuel : Nat) :
    ∀ (k : Kernel) (cur : Nat) (k1 : Kernel),
      priority_donate_loop fuel k cur (k.threads cur).wait_on_lock = some k1 →
      (∀ t d, d ∈ (k.threads t).donations →
        ∃ l, (k.threads d).wait_on_lock = some l ∧ (k.locks l).holder = some t) →
      (∀ t d, d ∈ (k.threads t).donations → d ≠ cur →
        (k.threads d).priority ≤ (k.threads t).priority) →
      ∀ t d, d ∈ (k1.threads t).donations →
        (k1.threads d).priority ≤ (k1.threads t).priority := by
  induction fuel with
  | zero =>
    intro k cur k1 h
    simp [priority_donate_loop] at h
  | succ n ih =>
    intro k cur k1 h hR hP
    cases hw : (k.threads cur).wait_on_lock with
    | none =>
      simp only [hw, priority_donate_loop, Option.some.injEq] at h
      subst h
      intro t d hd
      by_cases hdc : d = cur
      · subst hdc
        obtain ⟨l, h1, -⟩ := hR t d hd
        rw [hw] at h1
        cases h1
      · exact hP t d hd hdc
    | some l =>
      simp only [hw, priority_donate_loop] at h
      cases hh : (k.locks l).holder with
      | none =>
        simp only [hh, Option.some.injEq] at h
        subst h
        intro t d hd
        by_cases hdc : d = cur
        · subst hdc
          obtain ⟨l1, h1, h2⟩ := hR t d hd
          rw [hw] at h1
          cases h1
          rw [hh] at h2
          cases h2
        · exact hP t d hd hdc
      | some holder =>
        simp only [hh] at h
        have hcur : ∀ t, cur ∈ (k.threads t).donations → t = holder := by
          intro t hd
          obtain ⟨l1, h1, h2⟩ := hR t cur hd
          rw [hw] at h1
          cases h1
          rw [hh] at h2
          exact (Option.some.inj h2).symm
        by_cases hlt : (k.threads holder).priority < (k.threads cur).priority
        · simp only [hlt, if_true] at h
          refine ih _ holder k1 h ?_ ?_
          · intro t d hd
            simp only [set_priority_thread_donations] at hd
            obtain ⟨l1, h1, h2⟩ := hR t d hd
            exact ⟨l1, by simpa using h1, by simpa using h2⟩
          · intro t d hd hdh
            simp only [set_priority_thread_donations] at hd
            rw [set_priority_thread_priority_ne _ _ _ _ hdh]
            by_cases hdc : d = cur
            · subst hdc
              rw [hcur t hd]
              simp
            · have := hP t d hd hdc
              by_cases hth : t = holder
              · subst hth
                simp only [set_priority_thread_same]
                omega
              · rw [set_priority_thread_priority_ne _ _ _ _ hth]
                exact this
        · simp only [hlt, if_false] at h
          by_cases hgt : (k.threads holder).priority > (k.threads cur).priority
          · simp only [hgt, if_true, Option.some.injEq] at h
            subst h
            intro t d hd
            by_cases hdc : d = cur
            · subst hdc
              rw [hcur t hd]
              omega
            · exact hP t d hd hdc
          · simp only [hgt, if_false] at h
            refine ih k holder k1 h hR ?_
            intro t d hd _
            by_cases hdc : d = cur
            · subst hdc
              rw [hcur t hd]
              omega
            · exact hP t d hd hdc

/-- The donation step of `lock_acquire (l)` by a thread that holds the donation invariant
and is not suspended in a lock leads to the state `acquiring`. -/
theorem donate_acquiring (fuel : Nat) (k k2 : Kernel) (l : Nat) (hi : donation_inv k)
    (hm : k.thread_mlfqs = false) (hc : outside_lock (k.stack k.current))
    (h : lock_acquire_donate fuel k l = some k2) :
    acquiring (intr_set_level k2 intr_level.INTR_OFF) l ∧
      k2 = { k with threads := k2.threads } := by
  have hwn : (k.threads k.current).wait_on_lock = none := by
    cases hw : (k.threads k.current).wait_on_lock with
    | none => rfl
    | some l1 =>
      obtain ⟨lv, hs⟩ := (hi.h_waits k.current l1).mp hw
      exact absurd hs (outside_lock_not_lock _ hc l1 lv _)
  have hnd : ∀ t, k.current ∉ (k.threads t).donations := by
    intro t hd
    obtain ⟨l1, h1, -⟩ := hi.h_donors t k.current hd
    rw [hwn] at h1
    cases h1
  unfold lock_acquire_donate at h
  cases hh : (k.locks l).holder with
  | none =>
    simp only [hh, Option.some.injEq] at h
    subst h
    refine ⟨⟨?_, ?_, ?_, ?_, ?_, ?_, ?_⟩, rfl⟩
    · exact lock_inv_congr k _ rfl hi.h_locks
    · intro t _
      exact hi.h_frames t
    · intro t l1 _
      exact hi.h_waits t l1
    · exact hi.h_donors
    · exact hi.h_above
    · intro hv
      have := (hi.h_locks l).1.mpr hv
      exact absurd hh this
    · intro _ t
      exact hnd t
  | some H =>
    simp only [hh, set_wait_on_lock_thread_mlfqs, hm, Bool.not_false, if_true, priority_donate,
      thread_current, set_donations_current, set_wait_on_lock_current] at h
    obtain ⟨hk2, hfr⟩ := priority_donate_loop_frame _ _ _ _ _ h
    have hdon : ∀ u, (k2.threads u).donations =
        if u = H then (k.threads H).donations ++ [k.current] else (k.threads u).donations := by
      intro u
      have := congrArg thread.donations (hfr u).1
      simp only at this
      rw [this]
      by_cases hu : u = H
      · subst hu
        simp
      · rw [set_donations_thread_donations_ne _ _ _ _ hu]
        simp [hu]
    have hwol : ∀ u, (k2.threads u).wait_on_lock =
        if u = k.current then some l else (k.threads u).wait_on_lock := by
      intro u
      have := congrArg thread.wait_on_lock (hfr u).1
      simp only [set_donations_thread_wait_on_lock] at this
      rw [this]
      by_cases hu : u = k.current
      · subst hu
        simp
      · rw [set_wait_on_lock_thread_wait_on_lock_ne _ _ _ _ hu]
        simp [hu]
    have hlk : k2.locks = k.locks := by rw [hk2]; rfl
    have hst : k2.stack = k.stack := by rw [hk2]; rfl
    have hcu : k2.current = k.current := by rw [hk2]; rfl
    have hR2 : ∀ t d, d ∈ (k2.threads t).donations →
        ∃ l1, (k2.threads d).wait_on_lock = some l1 ∧ (k2.locks l1).holder = some t := by
      intro t d hd
      rw [hdon] at hd
      by_cases hdc : d = k.current
      · subst hdc
        have htH : t = H := by
          by_contra hne
          simp only [hne, if_false] at hd
          exact hnd t hd
        exact ⟨l, by rw [hwol]; simp, by rw [hlk, hh, htH]⟩
      · have hd0 : d ∈ (k.threads t).donations := by
          by_cases htH : t = H
          · subst htH
            simp only [if_true, List.mem_append, List.mem_singleton] at hd
            rcases hd with hd | hd
            · exact hd
            · exact absurd hd hdc
          · simpa [htH] using hd
        obtain ⟨l1, h1, h2⟩ := hi.h_donors t d hd0
        exact ⟨l1, by rw [hwol]; simpa [hdc] using h1, by rw [hlk]; exact h2⟩
    have hP2 := walk_above fuel _ k.current k2 h
      (by
        intro t d hd
        by_cases hdc : d = k.current
        · subst hdc
          have htH : t = H := by
            by_contra hne
            rw [set_donations_thread_donations_ne _ _ _ _ hne] at hd
            simp only [set_wait_on_lock_thread_donations] at hd
            exact hnd t hd
          exact ⟨l, by simp, by simpa [htH] using hh⟩
        · have hd0 : d ∈ (k.threads t).donations := by
            by_cases htH : t = H
            · subst htH
              simp only [set_donations_thread_same, set_wait_on_lock_thread_donations,
                List.mem_append, List.mem_singleton] at hd
              rcases hd with hd | hd
              · exact hd
              · exact absurd hd hdc
            · rw [set_donations_thread_donations_ne _ _ _ _ htH] at hd
              simpa using hd
          obtain ⟨l1, h1, h2⟩ := hi.h_donors t d hd0
          refine ⟨l1, ?_, by simpa using h2⟩
          simp only [set_donations_thread_wait_on_lock]
          rw [set_wait_on_lock_thread_wait_on_lock_ne _ _ _ _ hdc]
          exact h1)
      (by
        intro t d hd hdc
        have hd0 : d ∈ (k.threads t).donations := by
          by_cases htH : t = H
          · subst htH
            simp only [set_donations_thread_same, set_wait_on_lock_thread_donations,
              List.mem_append, List.mem_singleton] at hd
            rcases hd with hd | hd
            · exact hd
            · exact absurd hd hdc
          · rw [set_donations_thread_donations_ne _ _ _ _ htH] at hd
            simpa using hd
        simpa using hi.h_above t d hd0)
    refine ⟨⟨?_, ?_, ?_, ?_, ?_, ?_, ?_⟩, hk2⟩
    · exact lock_inv_congr k _ (by simpa using hlk) hi.h_locks
    · intro t _
      simp only [intr_set_level_stack, hst]
      exact hi.h_frames t
    · intro t l1 ht
      simp only [intr_set_level_current, hcu] at ht
      simp only [intr_set_level_threads, intr_set_level_stack, hst, hwol, ht, if_false]
      exact hi.h_waits t l1
    · intro t d hd
      simpa using hR2 t d hd
    · intro t d hd
      simpa using hP2 t d hd
    · intro _
      simp [hcu, hwol]
    · intro hv
      simp only [intr_set_level_locks, hlk] at hv
      have := (hi.h_locks l).1.mp (by simp [hh])
      exact absurd this hv

/-- The call `lock_acquire` keeps the donation invariant. -/
theorem lock_acquire_donation_inv (fuel : Nat) (k k1 : Kernel) (l : Nat)
    (hi : donation_inv k) (hm : k.thread_mlfqs = false)
    (hc : outside_lock (k.stack k.current)) (h : lock_acquire fuel k l = some k1) :
    donation_inv k1 := by
  by_cases hic : k.intr_context = true
  · simp [lock_acquire, hic] at h
  by_cases hh : (k.locks l).holder = some k.current
  · simp [lock_acquire, lock_held_by_current_thread, thread_current, hh] at h
  rw [lock_acquire_eq fuel _ l (by simpa using hic) hh] at h
  cases hd : lock_acquire_donate fuel k l with
  | none => simp [hd] at h
  | some k2 =>
    obtain ⟨ha, hk2⟩ := donate_acquiring fuel k k2 l hi hm hc hd
    have hk2l : k2.locks = k.locks := by rw [hk2]
    have ht := acquiring_tail _ l k.level ha
    simp only [hd, Option.map_some', Option.some.injEq] at h
    simp only [intr_set_level_locks, hk2l] at ht
    rw [h] at ht
    exact ht

/-- A thread suspended in the `sema_down` of `lock_acquire (l)` is in the state
`acquiring` when it resumes. -/
theorem resume_acquiring (k : Kernel) (l : Nat) (lv : intr_level) (hi : donation_inv k)
    (hs : k.stack k.current =
      susp.in_sema_down (sema_ptr.of_lock l) lv (caller.from_lock_acquire l)) :
    acquiring (intr_set_level k intr_level.INTR_OFF) l := by
  have hw : (k.threads k.current).wait_on_lock = some l := (hi.h_waits _ l).mpr ⟨lv, hs⟩
  refine ⟨lock_inv_congr k _ rfl hi.h_locks, fun t _ => hi.h_frames t,
    fun t l1 _ => hi.h_waits t l1, hi.h_donors, hi.h_above, fun _ => hw, ?_⟩
  intro hv t hd
  obtain ⟨l1, h1, h2⟩ := hi.h_donors t k.current hd
  rw [hw] at h1
  cases h1
  have := (hi.h_locks l).1.mp (by simp [h2])
  exact hv this

theorem mem_le_max_priority (k : Kernel) (base : Int) (ds : List Nat) (d : Nat)
    (hd : d ∈ ds) : (k.threads d).priority ≤ max_priority k base ds := by
  induction ds generalizing base with
  | nil => simp at hd
  | cons x rest ih =>
    simp only [max_priority, List.foldl_cons]
    rcases List.mem_cons.mp hd with rfl | hd1
    · exact le_trans (le_max_right _ _) (le_max_priority k _ rest)
    · exact ih _ hd1

/-- The effect of `lock_release` in donation mode on the fields the donation invariant
reads. -/
theorem lock_release_effect (k k1 : Kernel) (l : Nat) (hm : k.thread_mlfqs = false)
    (h : lock_release k l = some k1) :
    (k.locks l).holder = some k.current ∧
    k1.stack = k.stack ∧
    (k1.locks l).holder = none ∧
    (k1.locks l).semaphore.value = unsigned_inc (k.locks l).semaphore.value ∧
    (∀ m, m ≠ l → (k1.locks m).holder = (k.locks m).holder ∧
      (k1.locks m).semaphore.value = (k.locks m).semaphore.value) ∧
    (∀ u, (k1.threads u).wait_on_lock = (k.threads u).wait_on_lock) ∧
    (∀ u, u ≠ k.current → (k1.threads u).priority = (k.threads u).priority ∧
      (k1.threads u).donations = (k.threads u).donations) ∧
    (k1.threads k.current).donations = (k.threads k.current).donations.filter
      (fun d => decide ((k.threads d).wait_on_lock ≠ some l)) ∧
    (k1.threads k.current).priority =
      max_priority k (k.threads k.current).original_priority
        (((k.threads k.current).donations.filter
          (fun d => decide ((k.threads d).wait_on_lock ≠ some l))).filter
            (fun d => decide (d ≠ k.current))) := by
  by_cases hh : (k.locks l).holder = some k.current
  · rw [lock_release_eq _ l hh] at h
    simp only [Option.some.injEq] at h
    subst h
    have hm1 : (intr_set_level k intr_level.INTR_OFF).thread_mlfqs = false := hm
    have hsem := sema_up_critical_sema
      ((lock_release_donations (intr_set_level k intr_level.INTR_OFF) l).set_holder l none)
      (sema_ptr.of_lock l)
    simp only [sema_of_lock] at hsem
    refine ⟨hh, by simp, by simp, ?_, ?_, ?_, ?_, ?_, ?_⟩
    · simp [hsem]
    · intro m hmne
      have hsem2 := sema_up_critical_sema_ne
        ((lock_release_donations (intr_set_level k intr_level.INTR_OFF) l).set_holder l none)
        (sema_ptr.of_lock l) (sema_ptr.of_lock m) (by simp [hmne])
      simp only [sema_of_lock] at hsem2
      simp [hsem2, set_holder_lock_ne _ _ _ _ hmne]
    · intro u
      simp
    · intro u hu
      simp only [intr_set_level_threads, sema_up_threads, sema_up_critical_priority,
        sema_up_critical_donations, set_holder_threads, lock_release_donations_eq _ l hm1,
        intr_set_level_current]
      rw [set_priority_thread_priority_ne _ _ _ _ hu]
      simp only [set_priority_thread_donations]
      rw [set_donations_thread_donations_ne _ _ _ _ hu]
      simp
    · simp [lock_release_donations_eq _ l hm1]
    · simp only [intr_set_level_threads, sema_up_threads, sema_up_critical_priority,
        set_holder_threads, lock_release_donations_eq _ l hm1, intr_set_level_current,
        set_priority_thread_same]
      rfl
  · rw [lock_release_none _ l hh] at h
    cases h

/-- The call `lock_release` keeps the donation invariant. -/
theorem lock_release_donation_inv (k k1 : Kernel) (l : Nat)
    (hi : donation_inv k) (hm : k.thread_mlfqs = false)
    (hc : outside_lock (k.stack k.current)) (h : lock_release k l = some k1) :
    donation_inv k1 := by
  obtain ⟨hh, hst, hl1, hl2, hl3, hw, hu, hd, hp⟩ := lock_release_effect k k1 l hm h
  have hwn : (k.threads k.current).wait_on_lock = none := by
    cases hw0 : (k.threads k.current).wait_on_lock with
    | none => rfl
    | some l1 =>
      obtain ⟨lv, hs⟩ := (hi.h_waits k.current l1).mp hw0
      exact absurd hs (outside_lock_not_lock _ hc l1 lv _)
  have hnd : ∀ t, k.current ∉ (k.threads t).donations := by
    intro t hd0
    obtain ⟨l1, h1, -⟩ := hi.h_donors t k.current hd0
    rw [hwn] at h1
    cases h1
  have h0 : (k.locks l).semaphore.value = 0 := (hi.h_locks l).1.mp (by simp [hh])
  have hmem : ∀ t d, d ∈ (k1.threads t).donations → d ∈ (k.threads t).donations ∧
      (t = k.current → (k.threads d).wait_on_lock ≠ some l) := by
    intro t d hd1
    by_cases ht : t = k.current
    · subst ht
      rw [hd] at hd1
      have := List.mem_filter.mp hd1
      exact ⟨this.1, fun _ => by simpa using this.2⟩
    · rw [(hu t ht).2] at hd1
      exact ⟨hd1, fun e => absurd e ht⟩
  refine ⟨?_, ?_, ?_, ?_, ?_⟩
  · intro m
    by_cases hml : m = l
    · subst hml
      rw [hl1, hl2, h0]
      simp [unsigned_inc_zero]
    · rw [(hl3 m hml).1, (hl3 m hml).2]
      exact hi.h_locks m
  · intro t
    rw [hst]
    exact hi.h_frames t
  · intro t l1
    rw [hst, hw]
    exact hi.h_waits t l1
  · intro t d hd1
    obtain ⟨hd0, hne⟩ := hmem t d hd1
    obtain ⟨l1, h1, h2⟩ := hi.h_donors t d hd0
    have hl1ne : l1 ≠ l := by
      intro e
      subst e
      rw [hh] at h2
      have ht : t = k.current := (Option.some.inj h2).symm
      exact hne ht h1
    exact ⟨l1, by rw [hw]; exact h1, by rw [(hl3 l1 hl1ne).1]; exact h2⟩
  · intro t d hd1
    obtain ⟨hd0, -⟩ := hmem t d hd1
    have hdc : d ≠ k.current := fun e => hnd t (e ▸ hd0)
    rw [(hu d hdc).1]
    by_cases ht : t = k.current
    · subst ht
      rw [hp]
      apply mem_le_max_priority
      rw [hd] at hd1
      exact List.mem_filter.mpr ⟨hd1, by simpa using hdc⟩
    · rw [(hu t ht).1]
      exact hi.h_above t d hd0

/-- The call `lock_try_acquire` keeps the donation invariant. -/
theorem lock_try_acquire_donation_inv (k : Kernel) (r : Bool × Kernel) (l : Nat)
    (hi : donation_inv k) (hc : outside_lock (k.stack k.current))
    (h : lock_try_acquire k l = some r) : donation_inv r.2 := by
  by_cases hh : (k.locks l).holder = some k.current
  · have hheld : lock_held_by_current_thread k l = true := by
      simp only [lock_held_by_current_thread, thread_current, hh, decide_True]
    simp only [lock_try_acquire, hheld, if_true] at h
    cases h
  rw [lock_try_acquire_eq _ l hh] at h
  have hwn : (k.threads k.current).wait_on_lock = none := by
    cases hw0 : (k.threads k.current).wait_on_lock with
    | none => rfl
    | some l1 =>
      obtain ⟨lv, hs⟩ := (hi.h_waits k.current l1).mp hw0
      exact absurd hs (outside_lock_not_lock _ hc l1 lv _)
  by_cases hv : 0 < (k.locks l).semaphore.value
  · simp only [hv, if_true, Option.some.injEq] at h
    subst h
    have ha : acquiring (intr_set_level k intr_level.INTR_OFF) l := by
      refine ⟨lock_inv_congr k _ rfl hi.h_locks, fun t _ => hi.h_frames t,
        fun t l1 _ => hi.h_waits t l1, hi.h_donors, hi.h_above, ?_, ?_⟩
      · intro h0
        simp only [intr_set_level_locks] at h0
        omega
      · intro _ t hd
        obtain ⟨l1, h1, -⟩ := hi.h_donors t k.current hd
        rw [hwn] at h1
        cases h1
    have ht := acquiring_tail _ l k.level ha
    have hv0 : (k.locks l).semaphore.value ≠ 0 := by omega
    simp only [intr_set_level_locks, hv0, if_false] at ht
    rw [sema_down_loop_pos _ _ _ _ (by simpa using hv0)] at ht
    refine donation_inv_neutral _ _ ?_ ht
    refine ⟨fun m => ?_, fun t => ?_, fun t => ?_⟩
    · by_cases hml : m = l
      · subst hml
        simp [lock_acquire_finish, thread_current]
      · simp [lock_acquire_finish, set_holder_lock_ne _ _ _ _ hml]
    · by_cases htc : t = k.current
      · subst htc
        simp [lock_acquire_finish, thread_current, hwn]
      · simp [lock_acquire_finish, thread_current,
          set_wait_on_lock_thread_wait_on_lock_ne _ _ _ _ htc]
    · by_cases htc : t = k.current
      · subst htc
        right
        exact ⟨by simpa using hc, by simp [lock_acquire_finish, outside_lock]⟩
      · left
        simp [lock_acquire_finish, set_stack_ne _ _ _ _ htc]
  · simp only [hv, if_false, Option.some.injEq] at h
    subst h
    exact donation_inv_neutral _ _
      (neutral_trans _ _ _ (intr_set_level_neutral _ _) (intr_set_level_neutral _ _)) hi

theorem sema_down_loop_mlfqs (k : Kernel) (q : sema_ptr) (lv : intr_level) (c : caller) :
    (sema_down_loop k q lv c).thread_mlfqs = k.thread_mlfqs :=
  (sema_down_loop_thread_frame k q lv c).1

theorem sema_down_loop_pos_stack (k : Kernel) (q : sema_ptr) (lv : intr_level) (c : caller)
    (h : (k.sema q).value ≠ 0) :
    (sema_down_loop k q lv c).stack (sema_down_loop k q lv c).current = susp.running := by
  rw [sema_down_loop_pos k q lv c h]
  simp

/-- Resuming a `sema_down` outside locks keeps the donation invariant. -/
theorem resume_outside_donation_inv (fuel : Nat) (k k1 : Kernel) (q : sema_ptr)
    (lv : intr_level) (c : caller) (hi : donation_inv k) (hm : k.thread_mlfqs = false)
    (hs : k.stack k.current = susp.in_sema_down q lv c)
    (ho : outside_lock (susp.in_sema_down q lv c)) (h : resume fuel k = some k1) :
    donation_inv k1 := by
  have hq : ∀ l, q ≠ sema_ptr.of_lock l := by
    intro l e
    subst e
    exact ho
  rw [resume_in_sema_down _ _ _ _ _ hs] at h
  have hn : neutral k (sema_down_loop (intr_set_level k intr_level.INTR_OFF) q lv c) :=
    neutral_trans _ _ _ (intr_set_level_neutral k _)
      (sema_down_loop_neutral _ q lv c hq (by simpa [hs] using ho) ho)
  have hi1 := donation_inv_neutral _ _ hn hi
  by_cases hv : (k.sema q).value = 0
  · simp only [hv, if_true, Option.some.injEq] at h
    subst h
    exact hi1
  · simp only [hv, if_false] at h
    cases c with
    | direct =>
      simp only [after_sema_down, Option.some.injEq] at h
      subst h
      exact hi1
    | from_lock_acquire l =>
      cases q with
      | plain s => exact absurd ho (by simp [outside_lock])
      | of_lock l1 => exact absurd rfl (hq l1)
      | of_waiter e => exact absurd ho (by simp [outside_lock])
    | from_cond_wait l =>
      simp only [after_sema_down, cond_wait_finish] at h
      refine lock_acquire_donation_inv fuel _ k1 l hi1 ?_ ?_ h
      · rw [sema_down_loop_mlfqs]
        exact hm
      · rw [sema_down_loop_pos_stack _ _ _ _ (by simpa using hv)]
        simp [outside_lock]

/-- Every turn in donation mode keeps the donation invariant. -/
theorem donation_inv_step (fuel : Nat) (k k1 : Kernel) (t : Nat) (op : Op)
    (hi : donation_inv k) (hm : k.thread_mlfqs = false)
    (h : exec fuel k t op = some k1) : donation_inv k1 := by
  obtain ⟨-, hcase⟩ := exec_some fuel k k1 t op h
  have hid : donation_inv (dispatch k t) := donation_inv_neutral _ _ (dispatch_neutral k t) hi
  have hmd : (dispatch k t).thread_mlfqs = false := by simpa using hm
  rcases hcase with ⟨-, hr⟩ | ⟨-, hs, hc⟩
  · rcases hid.h_frames (dispatch k t).current with ho | ⟨l, lv, hs⟩
    · cases hst : (dispatch k t).stack (dispatch k t).current with
      | running =>
        rw [resume_running _ _ hst] at hr
        cases hr
      | in_sema_down q lv c =>
        rw [hst] at ho
        exact resume_outside_donation_inv fuel _ k1 q lv c hid hmd hst ho hr
      | in_cond_wait e l =>
        rw [resume_in_cond_wait _ _ _ _ hst] at hr
        unfold cond_wait_rest at hr
        have hn0 : neutral (dispatch k t)
            ((dispatch k t).set_stack (thread_current (dispatch k t)) susp.running) := by
          apply neutral_of_eq
          · intro m; simp
          · intro u; simp
          · intro u hu
            exact set_stack_ne _ _ _ _ hu
          · rw [hst]; simp [outside_lock]
          · simp [thread_current, outside_lock]
        split at hr
        · cases hr
        · rename_i k2 hdown
          unfold sema_down at hdown
          split at hdown
          · cases hdown
          · simp only [intr_disable_fst, intr_disable_snd, Option.some.injEq] at hdown
            have hn1 : neutral (dispatch k t) k2 := by
              rw [← hdown]
              refine neutral_trans _ _ _ hn0 (neutral_trans _ _ _ (intr_set_level_neutral _ _)
                (sema_down_loop_neutral _ _ _ _ (by intro m; simp) ?_ (by simp [outside_lock])))
              simp [thread_current, outside_lock]
            have hi2 := donation_inv_neutral _ _ hn1 hid
            split at hr
            · rename_i hret
              simp only [cond_wait_finish] at hr
              refine lock_acquire_donation_inv fuel k2 k1 l hi2 ?_ ?_ hr
              · rw [← hdown, sema_down_loop_mlfqs]
                simpa using hm
              · have : k2.stack k2.current = susp.running := by
                  simpa [returned] using hret
                rw [this]
                simp [outside_lock]
            · simp only [Option.some.injEq] at hr
              subst hr
              exact hi2
    · rw [resume_in_sema_down _ _ _ _ _ hs] at hr
      have ha := resume_acquiring _ l lv hid hs
      have ht := acquiring_tail _ l lv ha
      simp only [intr_set_level_locks, sema_of_lock] at ht hr
      by_cases hv : ((dispatch k t).locks l).semaphore.value = 0
      · simp only [hv, if_true, Option.some.injEq] at ht hr
        subst hr
        exact ht
      · simp only [hv, if_false, after_sema_down, Option.some.injEq] at ht hr
        subst hr
        exact ht
  · have hout : outside_lock ((dispatch k t).stack (dispatch k t).current) := by
      simp [hs, outside_lock]
    cases op with
    | resume => simp [call] at hc
    | sema_down s =>
      simp only [call] at hc
      unfold sema_down at hc
      split at hc
      · cases hc
      · simp only [intr_disable_fst, intr_disable_snd, Option.some.injEq] at hc
        subst hc
        refine donation_inv_neutral _ _ (neutral_trans _ _ _ (intr_set_level_neutral _ _)
          (sema_down_loop_neutral _ _ _ _ (by intro m; simp) ?_ (by simp [outside_lock]))) hid
        simpa using hout
    | sema_try_down s =>
      simp only [call, Option.some.injEq] at hc
      subst hc
      refine donation_inv_neutral _ _ ?_ hid
      apply neutral_of_same_stack
      · intro m
        simp only [sema_try_down]
        split <;> simp [set_sema_locks_of_not_lock]
      · intro u
        simp only [sema_try_down]
        split <;> simp
      · simp only [sema_try_down]
        split <;> simp
    | sema_up s =>
      simp only [call, Option.some.injEq] at hc
      subst hc
      exact donation_inv_neutral _ _ (sema_up_neutral _ _ (by intro m; simp)) hid
    | lock_acquire l => exact lock_acquire_donation_inv fuel _ k1 l hid hmd hout hc
    | lock_try_acquire l =>
      simp only [call] at hc
      cases hr : lock_try_acquire (dispatch k t) l with
      | none => simp [hr] at hc
      | some r =>
        simp only [hr, Option.map_some', Option.some.injEq] at hc
        subst hc
        exact lock_try_acquire_donation_inv _ r l hid hout hr
    | lock_release l => exact lock_release_donation_inv _ k1 l hid hmd hout hc
    | cond_wait c l =>
      simp only [call] at hc
      unfold cond_wait at hc
      split at hc
      · cases hc
      · split at hc
        · cases hc
        · have hn3 : neutral (dispatch k t) (cond_wait_enqueue (dispatch k t) c) := by
            apply neutral_of_same_stack
            · intro m
              simp [cond_wait_enqueue, sema_init, set_sema_locks_of_not_lock]
            · intro u; simp [cond_wait_enqueue, sema_init]
            · simp [cond_wait_enqueue, sema_init]
          have hi3 := donation_inv_neutral _ _ hn3 hid
          have hst3 : (cond_wait_enqueue (dispatch k t) c).stack = (dispatch k t).stack := by
            simp [cond_wait_enqueue, sema_init]
          have hcu3 : (cond_wait_enqueue (dispatch k t) c).current = (dispatch k t).current := by
            simp [cond_wait_enqueue, sema_init]
          have hm3 : (cond_wait_enqueue (dispatch k t) c).thread_mlfqs = false := by
            simpa [cond_wait_enqueue, sema_init] using hm
          cases hrel : lock_release (cond_wait_enqueue (dispatch k t) c) l with
          | none => simp [hrel] at hc
          | some k4 =>
            simp only [hrel, Option.some.injEq] at hc
            subst hc
            have hi4 := lock_release_donation_inv _ k4 l hi3 hm3
              (by rw [hst3, hcu3]; exact hout) hrel
            obtain ⟨-, hst4, -⟩ := lock_release_effect _ k4 l hm3 hrel
            have hcu4 : k4.current = t := by
              rw [lock_release_eq _ l (lock_release_effect _ k4 l hm3 hrel).1] at hrel
              simp only [Option.some.injEq] at hrel
              rw [← hrel]
              simp [cond_wait_enqueue, sema_init]
            refine donation_inv_neutral _ _ ?_ hi4
            apply neutral_of_eq
            · intro m; simp
            · intro u; simp
            · intro u hu
              exact set_stack_ne _ _ _ _ (by simpa [thread_current] using hu)
            · rw [hst4, hst3, hcu4]
              simp [hs, outside_lock]
            · simp [thread_current, outside_lock]
    | cond_signal c l =>
      simp only [call] at hc
      unfold cond_signal at hc
      split at hc
      · cases hc
      · split at hc
        · cases hc
        · split at hc
          · simp only [Option.some.injEq] at hc
            subst hc
            exact hid
          · simp only [Option.some.injEq] at hc
            subst hc
            refine donation_inv_neutral _ _ (neutral_trans _ _ _ ?_
              (sema_up_neutral _ _ (by intro m; simp))) hid
            apply neutral_of_same_stack
            · intro m; simp
            · intro u; simp
            · simp

theorem fresh_boot (prio : Nat → Int) (mlfqs : Bool) : fresh (boot prio mlfqs) := by
  refine ⟨fun l => ?_, fun t => ⟨rfl, rfl, rfl, rfl⟩⟩
  rw [lock_init_lock]
  rfl

theorem fresh_donation_inv (k : Kernel) (h : fresh k) : donation_inv k := by
  obtain ⟨h1, h2⟩ := h
  refine ⟨?_, ?_, ?_, ?_, ?_⟩
  · intro l
    rw [h1 l, lock_init_lock]
    simp
  · intro t
    left
    rw [(h2 t).1]
    simp [outside_lock]
  · intro t l
    rw [(h2 t).2.1, (h2 t).1]
    simp
  · intro t d hd
    rw [(h2 t).2.2.1] at hd
    simp at hd
  · intro t d hd
    rw [(h2 t).2.2.1] at hd
    simp at hd

/-- In donation mode every state reached from a fresh state satisfies the donation
invariant, and no priority is below the base priority. -/
theorem reach_donation_inv (allowed : Op → Prop) (k0 k : Kernel) (hf : fresh k0)
    (hm : k0.thread_mlfqs = false) (h : Reach allowed k0 k) :
    donation_inv k ∧ k.thread_mlfqs = false ∧
      ∀ t, (k.threads t).original_priority ≤ (k.threads t).priority := by
  induction h with
  | init =>
    exact ⟨fresh_donation_inv k0 hf, hm, fun t => by rw [(hf.2 t).2.2.2]⟩
  | step fuel k1 k2 t op _ _ hex ih =>
    obtain ⟨i1, i2, i3⟩ := ih
    have hfr := exec_thread_frame fuel k1 k2 t op hex
    exact ⟨donation_inv_step fuel k1 k2 t op i1 i2 hex, hfr.1.trans i2,
      fun u => (hfr.2 u).2.1 (i3 u)⟩

/-- In MLFQ mode no state reached from a fresh state has a donor. -/
theorem reach_mlfqs (allowed : Op → Prop) (k0 k : Kernel) (hf : fresh k0)
    (hm : k0.thread_mlfqs = true) (h : Reach allowed k0 k) :
    k.thread_mlfqs = true ∧ ∀ t, (k.threads t).donations = [] ∧
      (k.threads t).priority = (k.threads t).original_priority := by
  induction h with
  | init => exact ⟨hm, fun t => ⟨(hf.2 t).2.2.1, (hf.2 t).2.2.2⟩⟩
  | step fuel k1 k2 t op _ _ hex ih =>
    obtain ⟨i1, i2⟩ := ih
    have hfr := exec_thread_frame fuel k1 k2 t op hex
    refine ⟨hfr.1.trans i1, fun u => ?_⟩
    obtain ⟨a, -, c⟩ := hfr.2 u
    obtain ⟨c1, c2⟩ := c i1
    exact ⟨c1.trans (i2 u).1, by rw [c2, a]; exact (i2 u).2⟩

theorem max_priority_le (k : Kernel) (base p : Int) (ds : List Nat) (hb : base ≤ p)
    (hd : ∀ d ∈ ds, (k.threads d).priority ≤ p) : max_priority k base ds ≤ p := by
  induction ds generalizing base with
  | nil => exact hb
  | cons x rest ih =>
    simp only [max_priority, List.foldl_cons]
    exact ih _ (max_le hb (hd x (List.mem_cons_self x rest)))
      (fun d hd1 => hd d (List.mem_cons_of_mem x hd1))

/-! ## C6: who is in `donations` -/

/-- C6, as stated, fails: H takes lock 0, B and A block on it, H releases it and A, woken
first, takes it. B still waits on lock 0, whose holder is now A, and B is not in A's
`donations`. -/
theorem waiter_not_in_donations :
    (run 4 (boot handover_prio false) handover_sched).map
      (fun k => ((k.threads 2).wait_on_lock, (k.locks 0).holder, (k.threads 1).donations,
        decide (2 ∈ (k.threads 1).donations))) =
      some (some 0, some 1, [], false) := by
  decide

/-- C6, amended: in donation mode, in every state reached from a fresh state by turns of
any operations of the module, every thread listed in the `donations` of a thread h
waits on a lock (`wait_on_lock`) whose holder is h; the donation step of `lock_acquire`
on a lock with a holder, when it returns, has appended the caller to the holder's
`donations` and set its `wait_on_lock`. (A waiter left behind when the lock changes
hands is not in the new holder's `donations`.) In MLFQ mode no thread ever appears in
any `donations` list. -/
theorem donations_spec :
    (∀ (allowed : Op → Prop) (k0 k : Kernel), fresh k0 → k0.thread_mlfqs = false →
      Reach allowed k0 k →
      ∀ t d, d ∈ (k.threads t).donations →
        ∃ l, (k.threads d).wait_on_lock = some l ∧ (k.locks l).holder = some t) ∧
    (∀ (fuel : Nat) (k k1 : Kernel) (l H : Nat), k.thread_mlfqs = false →
      (k.locks l).holder = some H → lock_acquire_donate fuel k l = some k1 →
      (k1.threads H).donations = (k.threads H).donations ++ [k.current] ∧
      (k1.threads k.current).wait_on_lock = some l ∧ (k1.locks l).holder = some H) ∧
    (∀ (allowed : Op → Prop) (k0 k : Kernel), fresh k0 → k0.thread_mlfqs = true →
      Reach allowed k0 k → ∀ t, (k.threads t).donations = []) := by
  refine ⟨?_, ?_, ?_⟩
  · intro allowed k0 k hf hm h
    exact (reach_donation_inv allowed k0 k hf hm h).1.h_donors
  · intro fuel k k1 l H hm hh h
    unfold lock_acquire_donate at h
    simp only [hh, set_wait_on_lock_thread_mlfqs, hm, Bool.not_false, if_true, priority_donate,
      thread_current, set_donations_current, set_wait_on_lock_current] at h
    obtain ⟨hk1, hfr⟩ := priority_donate_loop_frame _ _ _ _ _ h
    refine ⟨?_, ?_, ?_⟩
    · have := congrArg thread.donations (hfr H).1
      simp only [set_donations_thread_same, set_wait_on_lock_thread_donations] at this
      exact this
    · have := congrArg thread.wait_on_lock (hfr k.current).1
      simp only [set_donations_thread_wait_on_lock, set_wait_on_lock_thread_same] at this
      exact this
    · rw [hk1]
      exact hh
  · intro allowed k0 k hf hm h t
    exact ((reach_mlfqs allowed k0 k hf hm h).2 t).1

/-- C6 at a concrete input: the state of the two-donor scenario. -/
theorem donations_spec_witness :
    ∀ t d, d ∈ (two_donors.threads t).donations →
      ∃ l, (two_donors.threads d).wait_on_lock = some l ∧
        (two_donors.locks l).holder = some t :=
  donations_spec.1 (fun _ => True) (boot donor_prio false) two_donors
    (fresh_boot donor_prio false) rfl
    (reach_run (fun _ => True) 4 (boot donor_prio false) _ _ _ Reach.init
      (fun _ _ => trivial) (some_getD _ _ (by decide)))

/-! ## C7: the effective priority -/

/-- C7, as stated, fails: B holds lock 1 and waits on lock 0, which has passed from H to
A without B entering A's `donations`; when D (40) blocks on lock 1, the walk raises B
and then A to 40. A's priority is 40, but the maximum of its `original_priority` 30
and the priorities of its donors (it has none) is 30. -/
theorem priority_above_donors :
    (run 4 (boot handover_prio false) through_sched).map
      (fun k => ((k.threads 1).priority, (k.threads 1).original_priority,
        (k.threads 1).donations,
        max_priority k (k.threads 1).original_priority (k.threads 1).donations)) =
      some (40, 30, [], 30) := by
  decide

/-- C7, amended: in every state reached in donation mode from a fresh state (priority
equal to `original_priority`, no donor) by turns of `lock_acquire`, `lock_try_acquire`
and `lock_release`, every thread t satisfies t.priority >= t.original_priority and
t.priority is at least the maximum of t.original_priority and the priorities of the
threads in t.donations. -/
theorem priority_spec (k0 k : Kernel) (hf : fresh k0) (hm : k0.thread_mlfqs = false)
    (h : Reach lock_op k0 k) :
    ∀ t, (k.threads t).original_priority ≤ (k.threads t).priority ∧
      max_priority k (k.threads t).original_priority (k.threads t).donations ≤
        (k.threads t).priority := by
  obtain ⟨hi, -, ho⟩ := reach_donation_inv lock_op k0 k hf hm h
  intro t
  exact ⟨ho t, max_priority_le k _ _ _ (ho t) (fun d hd => hi.h_above t d hd)⟩

/-- C7 at a concrete input: the state of the two-donor scenario. -/
theorem priority_spec_witness :
    (two_donors.threads 0).original_priority ≤ (two_donors.threads 0).priority ∧
    max_priority two_donors (two_donors.threads 0).original_priority
      (two_donors.threads 0).donations ≤ (two_donors.threads 0).priority :=
  priority_spec (boot donor_prio false) two_donors (fresh_boot donor_prio false) rfl
    (reach_run lock_op 4 (boot donor_prio false) _ _ _ Reach.init
      (by
        intro x hx
        simp only [List.mem_cons, List.mem_singleton, List.not_mem_nil, or_false] at hx
        rcases hx with rfl | rfl | rfl | rfl <;> trivial)
      (some_getD _ _ (by decide))) 0

/-! ## C5: the semaphore invariant -/

theorem unsigned_dec_le (v : Nat) (h : v ≠ 0) : unsigned_dec v + 1 ≤ v := by
  unfold unsigned_dec UINT_SIZE
  omega

theorem list_insert_ordered_nodup {α : Type} (less : α → α → Bool) (a : α) (l : List α)
    (hl : l.Nodup) (ha : a ∉ l) : (list_insert_ordered less a l).Nodup :=
  (list_insert_ordered_perm less a l).nodup_iff.mpr (List.nodup_cons.mpr ⟨ha, hl⟩)

/-- The loop of `sema_down` on a stand-alone semaphore, evaluated by a thread that is not
blocked and is either not inside a call or suspended in that loop, keeps the
semaphore invariant; the thread is then no longer woken-and-not-resumed. -/
theorem sema_down_loop_sema_inv (k : Kernel) (s s0 : Nat) (lv : intr_level) (ws : List Nat)
    (hi : sema_inv k s0 ws) (hb : (k.threads k.current).blocked = false)
    (hs : k.stack k.current = susp.running ∨
      ∃ lv1, k.stack k.current = susp.in_sema_down (sema_ptr.plain s) lv1 caller.direct) :
    sema_inv (sema_down_loop k (sema_ptr.plain s) lv caller.direct) s0 (ws.erase k.current) := by
  have hnw : ∀ s1, k.current ∉ (k.semas s1).waiters := by
    intro s1 hmem
    have := (hi.h_waiters s1 _ hmem).1
    rw [hb] at this
    cases this
  have hws : ∀ t ∈ ws.erase k.current, t ∈ ws ∧ t ≠ k.current := by
    intro t ht
    exact ⟨List.mem_of_mem_erase ht, fun e => by
      subst e
      exact (List.Nodup.not_mem_erase hi.h_distinct) ht⟩
  have hcur_ws : s ≠ s0 → k.current ∉ ws := by
    intro hne hmem
    obtain ⟨-, lv2, h2⟩ := hi.h_woken _ hmem
    rcases hs with h1 | ⟨lv1, h1⟩
    · rw [h1] at h2
      cases h2
    · rw [h1] at h2
      simp only [susp.in_sema_down.injEq, sema_ptr.plain.injEq] at h2
      exact hne h2.1
  by_cases hv : (k.semas s).value = 0
  · rw [sema_down_loop_zero _ _ _ _ (by simpa using hv)]
    refine ⟨?_, ?_, ?_, hi.h_distinct.erase _, ?_, ?_⟩
    · intro t
      by_cases ht : t = k.current
      · subst ht
        right
        exact ⟨s, lv, by simp⟩
      · simpa [set_stack_ne _ _ _ _ ht] using hi.h_frames t
    · intro s1 t hmem
      simp only [thread_block_semas, set_stack_semas, Kernel.set_sema, sema_plain,
        upd_apply] at hmem
      by_cases hs1 : s1 = s
      · subst hs1
        simp only [if_true] at hmem
        rcases (mem_list_insert_ordered _ _ _ _).mp hmem with rfl | hold
        · simp [thread_block]
        · have htc : t ≠ k.current := fun e => hnw s1 (e ▸ hold)
          have := hi.h_waiters s1 t hold
          simpa [thread_block, upd_apply, htc, set_stack_ne _ _ _ _ htc] using this
      · simp only [hs1, if_false] at hmem
        have htc : t ≠ k.current := fun e => hnw s1 (e ▸ hmem)
        have := hi.h_waiters s1 t hmem
        simpa [thread_block, upd_apply, htc, set_stack_ne _ _ _ _ htc] using this
    · intro s1
      simp only [thread_block_semas, set_stack_semas, Kernel.set_sema, sema_plain, upd_apply]
      by_cases hs1 : s1 = s
      · subst hs1
        simp only [if_true]
        exact list_insert_ordered_nodup _ _ _ (hi.h_nodup s1) (hnw s1)
      · simp only [hs1, if_false]
        exact hi.h_nodup s1
    · intro t ht
      obtain ⟨hm, htc⟩ := hws t ht
      obtain ⟨h1, lv2, h2⟩ := hi.h_woken t hm
      exact ⟨by simpa [thread_block, upd_apply, htc] using h1,
        lv2, by simpa [set_stack_ne _ _ _ _ htc] using h2⟩
    · intro _
      by_cases hs0 : s = s0
      · subst hs0
        simp [Kernel.set_sema, hv]
      · have hne : s0 ≠ s := fun e => hs0 e.symm
        simp only [thread_block_semas, set_stack_semas, Kernel.set_sema, sema_plain,
          upd_apply, hne, if_false] at *
        rw [List.erase_of_not_mem (hcur_ws hs0)]
        exact hi.h_value ‹_›
  · rw [sema_down_loop_pos _ _ _ _ (by simpa using hv)]
    refine ⟨?_, ?_, ?_, hi.h_distinct.erase _, ?_, ?_⟩
    · intro t
      by_cases ht : t = k.current
      · subst ht
        left
        simp
      · simpa [set_stack_ne _ _ _ _ ht] using hi.h_frames t
    · intro s1 t hmem
      have hold : t ∈ (k.semas s1).waiters := by
        simp only [set_stack_semas, intr_set_level_semas, Kernel.set_sema, sema_plain,
          upd_apply] at hmem
        by_cases hs1 : s1 = s
        · subst hs1
          simpa using hmem
        · simpa [hs1] using hmem
      have htc : t ≠ k.current := fun e => hnw s1 (e ▸ hold)
      have := hi.h_waiters s1 t hold
      simpa [set_stack_ne _ _ _ _ htc] using this
    · intro s1
      simp only [set_stack_semas, intr_set_level_semas, Kernel.set_sema, sema_plain, upd_apply]
      by_cases hs1 : s1 = s
      · subst hs1
        simpa using hi.h_nodup s1
      · simpa [hs1] using hi.h_nodup s1
    · intro t ht
      obtain ⟨hm, htc⟩ := hws t ht
      obtain ⟨h1, lv2, h2⟩ := hi.h_woken t hm
      exact ⟨by simpa using h1, lv2, by simpa [set_stack_ne _ _ _ _ htc] using h2⟩
    · by_cases hs0 : s = s0
      · subst hs0
        simp only [set_stack_semas, intr_set_level_semas, Kernel.set_sema, sema_plain,
          upd_same]
        intro hne
        have h1 := hi.h_value hne
        have h2 := unsigned_dec_le _ hv
        have h3 : ws.length ≤ (ws.erase k.current).length + 1 := by
          rw [List.length_erase]
          split <;> omega
        omega
      · have hne : s0 ≠ s := fun e => hs0 e.symm
        simp only [set_stack_semas, intr_set_level_semas, Kernel.set_sema, sema_plain,
          upd_apply, hne, if_false]
        rw [List.erase_of_not_mem (hcur_ws hs0)]
        exact hi.h_value

theorem sema_inv_congr (k k1 : Kernel) (s0 : Nat) (ws : List Nat) (hi : sema_inv k s0 ws)
    (h1 : k1.stack = k.stack) (h2 : k1.semas = k.semas)
    (h3 : ∀ t, (k1.threads t).blocked = (k.threads t).blocked) : sema_inv k1 s0 ws := by
  refine ⟨?_, ?_, ?_, hi.h_distinct, ?_, ?_⟩
  · intro t
    rw [h1]
    exact hi.h_frames t
  · intro s t hmem
    rw [h2] at hmem
    rw [h1, h3]
    exact hi.h_waiters s t hmem
  · intro s
    rw [h2]
    exact hi.h_nodup s
  · intro t ht
    obtain ⟨a, b⟩ := hi.h_woken t ht
    exact ⟨by rw [h3]; exact a, by rw [h1]; exact b⟩
  · rw [h2]
    exact hi.h_value

/-- The call `sema_up` on a stand-alone semaphore keeps the semaphore invariant; a waiter
it wakes from `s0` joins the woken threads. -/
theorem sema_up_sema_inv (k : Kernel) (s s0 : Nat) (ws : List Nat) (hi : sema_inv k s0 ws) :
    ∃ ws1, sema_inv (sema_up k (sema_ptr.plain s)) s0 ws1 := by
  have hsem := sema_up_critical_sema k (sema_ptr.plain s)
  have hsemne := fun s1 (h : s1 ≠ s) =>
    sema_up_critical_sema_ne k (sema_ptr.plain s) (sema_ptr.plain s1) (by simpa using h)
  simp only [sema_plain] at hsem hsemne
  have hthr := sema_up_critical_threads k (sema_ptr.plain s)
  simp only [sema_plain] at hthr
  have hperm := list_sort_perm (list_higher_priority k) (k.semas s).waiters
  cases hsort : list_sort (list_higher_priority k) (k.semas s).waiters with
  | nil =>
    rw [hsort] at hsem hthr
    simp only [List.tail_nil] at hsem
    refine ⟨ws, ?_, ?_, ?_, hi.h_distinct, ?_, ?_⟩
    · intro t
      simpa using hi.h_frames t
    · intro s1 t hmem
      simp only [sema_up_semas, sema_up_threads, sema_up_stack, hthr]
      simp only [sema_up_semas] at hmem
      by_cases hs1 : s1 = s
      · subst hs1
        rw [hsem] at hmem
        simp at hmem
      · rw [hsemne s1 hs1] at hmem
        exact hi.h_waiters s1 t hmem
    · intro s1
      simp only [sema_up_semas]
      by_cases hs1 : s1 = s
      · subst hs1
        rw [hsem]
        simp
      · rw [hsemne s1 hs1]
        exact hi.h_nodup s1
    · intro t ht
      obtain ⟨a, b⟩ := hi.h_woken t ht
      exact ⟨by simpa [hthr] using a, by simpa using b⟩
    · simp only [sema_up_semas]
      by_cases hs0 : s0 = s
      · subst hs0
        rw [hsem]
        simp
      · rw [hsemne s0 hs0]
        exact hi.h_value
  | cons w rest =>
    rw [hsort] at hsem hthr hperm
    simp only [List.tail_cons] at hsem
    have hwmem : w ∈ (k.semas s).waiters := hperm.subset (List.mem_cons_self w rest)
    have hnd : (w :: rest).Nodup := hperm.nodup_iff.mpr (hi.h_nodup s)
    have hwrest : w ∉ rest := (List.nodup_cons.mp hnd).1
    obtain ⟨hwb, lvw, hwst⟩ := hi.h_waiters s w hwmem
    have hblocked : ∀ t, t ≠ w →
        (((sema_up k (sema_ptr.plain s)).threads t).blocked = (k.threads t).blocked) := by
      intro t ht
      simp [hthr, ht]
    have hwnew : ((sema_up k (sema_ptr.plain s)).threads w).blocked = false := by
      simp [hthr]
    have hbase : (∀ t, (sema_up k (sema_ptr.plain s)).stack t = susp.running ∨
          ∃ s1 lv, (sema_up k (sema_ptr.plain s)).stack t =
            susp.in_sema_down (sema_ptr.plain s1) lv caller.direct) ∧
        (∀ s1 t, t ∈ ((sema_up k (sema_ptr.plain s)).semas s1).waiters →
          ((sema_up k (sema_ptr.plain s)).threads t).blocked = true ∧
          ∃ lv, (sema_up k (sema_ptr.plain s)).stack t =
            susp.in_sema_down (sema_ptr.plain s1) lv caller.direct) ∧
        (∀ s1, ((sema_up k (sema_ptr.plain s)).semas s1).waiters.Nodup) := by
      refine ⟨?_, ?_, ?_⟩
      · intro t
        simpa using hi.h_frames t
      · intro s1 t hmem
        simp only [sema_up_semas] at hmem
        simp only [sema_up_stack]
        by_cases hs1 : s1 = s
        · subst hs1
          rw [hsem] at hmem
          simp only at hmem
          have htw : t ≠ w := fun e => hwrest (e ▸ hmem)
          have hold : t ∈ (k.semas s1).waiters := hperm.subset (List.mem_cons_of_mem w hmem)
          rw [hblocked t htw]
          exact hi.h_waiters s1 t hold
        · rw [hsemne s1 hs1] at hmem
          obtain ⟨a, lv1, b⟩ := hi.h_waiters s1 t hmem
          have htw : t ≠ w := by
            intro e
            subst e
            rw [hwst] at b
            simp only [susp.in_sema_down.injEq, sema_ptr.plain.injEq] at b
            exact hs1 b.1.symm
          rw [hblocked t htw]
          exact ⟨a, lv1, b⟩
      · intro s1
        simp only [sema_up_semas]
        by_cases hs1 : s1 = s
        · subst hs1
          rw [hsem]
          exact (List.nodup_cons.mp hnd).2
        · rw [hsemne s1 hs1]
          exact hi.h_nodup s1
    have hwws : w ∉ ws := by
      intro hmem
      have := (hi.h_woken w hmem).1
      rw [hwb] at this
      cases this
    have hwoken : ∀ t ∈ ws, woken (sema_up k (sema_ptr.plain s)) s0 t := by
      intro t ht
      obtain ⟨a, b⟩ := hi.h_woken t ht
      have htw : t ≠ w := fun e => hwws (e ▸ ht)
      exact ⟨by rw [hblocked t htw]; exact a, by simpa using b⟩
    by_cases hs0 : s = s0
    · subst hs0
      refine ⟨w :: ws, hbase.1, hbase.2.1, hbase.2.2, List.nodup_cons.mpr ⟨hwws, hi.h_distinct⟩,
        ?_, ?_⟩
      · intro t ht
        rcases List.mem_cons.mp ht with rfl | ht1
        · exact ⟨hwnew, lvw, by simpa using hwst⟩
        · exact hwoken t ht1
      · intro _
        simp only [sema_up_semas, hsem, List.length_cons]
        have hne : (k.semas s).waiters ≠ [] := List.ne_nil_of_mem hwmem
        have := hi.h_value hne
        have := unsigned_inc_le (k.semas s).value
        omega
    · have hne : s0 ≠ s := fun e => hs0 e.symm
      refine ⟨ws, hbase.1, hbase.2.1, hbase.2.2, hi.h_distinct, hwoken, ?_⟩
      simp only [sema_up_semas, hsemne s0 hne]
      exact hi.h_value

theorem sema_try_down_plain (k : Kernel) (s : Nat) :
    (sema_try_down k (sema_ptr.plain s)).2 =
      if 0 < (k.semas s).value then
        intr_set_level ((intr_set_level k intr_level.INTR_OFF).set_sema (sema_ptr.plain s)
          { (k.semas s) with value := unsigned_dec (k.semas s).value }) k.level
      else intr_set_level (intr_set_level k intr_level.INTR_OFF) k.level := by
  simp only [sema_try_down, intr_disable_fst, intr_disable_snd, intr_set_level_sema, sema_plain]
  by_cases hv : 0 < (k.semas s).value
  · simp [hv]
  · simp [hv]

/-- One turn of the semaphore interface keeps the semaphore invariant, for some list of
woken threads. -/
theorem sema_inv_step (fuel : Nat) (k k1 : Kernel) (t : Nat) (op : Op) (s0 : Nat)
    (ws : List Nat) (hop : sema_op op) (hi : sema_inv k s0 ws)
    (h : exec fuel k t op = some k1) : ∃ ws1, sema_inv k1 s0 ws1 := by
  obtain ⟨hb, hcase⟩ := exec_some fuel k k1 t op h
  have hid : sema_inv (dispatch k t) s0 ws :=
    sema_inv_congr k _ s0 ws hi (by simp) (by simp) (by simp)
  rcases hcase with ⟨-, hr⟩ | ⟨-, hs, hc⟩
  · rcases hi.h_frames t with hst | ⟨s, lv, hst⟩
    · rw [resume_running _ _ (by simpa using hst)] at hr
      cases hr
    · rw [resume_in_sema_down _ _ _ _ _ (by simpa using hst)] at hr
      have hl := sema_down_loop_sema_inv (intr_set_level (dispatch k t) intr_level.INTR_OFF)
        s s0 lv ws (sema_inv_congr _ _ s0 ws hid rfl rfl (fun _ => rfl))
        (by simpa using hb) (Or.inr ⟨lv, by simpa using hst⟩)
      split at hr
      · simp only [Option.some.injEq] at hr
        subst hr
        exact ⟨_, hl⟩
      · simp only [after_sema_down, Option.some.injEq] at hr
        subst hr
        exact ⟨_, hl⟩
  · cases op with
    | resume => simp [call] at hc
    | lock_acquire l => exact absurd hop (by simp [sema_op])
    | lock_try_acquire l => exact absurd hop (by simp [sema_op])
    | lock_release l => exact absurd hop (by simp [sema_op])
    | cond_wait c l => exact absurd hop (by simp [sema_op])
    | cond_signal c l => exact absurd hop (by simp [sema_op])
    | sema_down s =>
      simp only [call] at hc
      unfold sema_down at hc
      split at hc
      · cases hc
      · simp only [intr_disable_fst, intr_disable_snd, Option.some.injEq] at hc
        subst hc
        exact ⟨_, sema_down_loop_sema_inv (intr_set_level (dispatch k t) intr_level.INTR_OFF)
          s s0 _ ws (sema_inv_congr _ _ s0 ws hid rfl rfl (fun _ => rfl))
          (by simpa using hb) (Or.inl (by simpa using hs))⟩
    | sema_up s =>
      simp only [call, Option.some.injEq] at hc
      subst hc
      exact sema_up_sema_inv _ s s0 ws hid
    | sema_try_down s =>
      simp only [call, Option.some.injEq] at hc
      subst hc
      refine ⟨ws, ?_⟩
      rw [sema_try_down_plain]
      by_cases hv : 0 < ((dispatch k t).semas s).value
      · rw [if_pos hv]
        simp only [dispatch_semas] at hv
        refine ⟨?_, ?_, ?_, hi.h_distinct, ?_, ?_⟩
        · intro u
          simpa using hi.h_frames u
        · intro s1 u hmem
          have hold : u ∈ (k.semas s1).waiters := by
            simp only [intr_set_level_semas, Kernel.set_sema, upd_apply, dispatch_semas]
              at hmem
            by_cases hs1 : s1 = s
            · subst hs1
              simpa using hmem
            · simpa [hs1] using hmem
          simpa using hi.h_waiters s1 u hold
        · intro s1
          simp only [intr_set_level_semas, Kernel.set_sema, upd_apply, dispatch_semas]
          by_cases hs1 : s1 = s
          · subst hs1
            simpa using hi.h_nodup s1
          · simpa [hs1] using hi.h_nodup s1
        · intro u hu
          obtain ⟨a, b⟩ := hi.h_woken u hu
          exact ⟨by simpa using a, by simpa using b⟩
        · simp only [intr_set_level_semas, Kernel.set_sema, upd_apply, dispatch_semas]
          by_cases hs1 : s0 = s
          · subst hs1
            rw [if_pos rfl]
            intro hne
            have h1 := hi.h_value hne
            have h2 := unsigned_dec_le (k.semas s0).value (by omega)
            simp only
            omega
          · simpa [hs1] using hi.h_value
      · rw [if_neg hv]
        exact sema_inv_congr _ _ s0 ws hid rfl rfl (fun _ => rfl)

/-- C5, as stated, fails: threads 1 and 2 block on semaphore 0 (value 0); thread 0, whose
priority is the highest, ups it once. `sema_up` returns without yielding, the value
is 1 and thread 2 is still in the waiter list. -/
theorem sema_value_with_waiter :
    (run 0 (sema_init (boot up_prio false) (sema_ptr.plain 0) 0)
      [(1, Op.sema_down 0), (2, Op.sema_down 0), (0, Op.sema_up 0)]).map
      (fun k => ((k.semas 0).value, (k.semas 0).waiters, k.yields)) = some (1, [2], 0) := by
  decide

/-- C5, amended: in every state reached from `sema_init (s, v)` (no thread inside a call,
no waiter on any semaphore) by turns of `sema_down`, `sema_try_down` and `sema_up`,
whenever the waiter list of `s` is non-empty its value is at most the number of
threads that `sema_up` has woken from `s` and that have not yet resumed their
`sema_down`; so the value is 0 whenever the waiter list is non-empty and no woken
thread is still to resume. -/
theorem sema_value_spec (kb k : Kernel) (s v : Nat)
    (hidle : ∀ t, kb.stack t = susp.running)
    (hempty : ∀ s1, s1 ≠ s → (kb.semas s1).waiters = [])
    (h : Reach sema_op (sema_init kb (sema_ptr.plain s) v) k) :
    (∃ ws : List Nat, ws.Nodup ∧ (∀ t ∈ ws, woken k s t) ∧
      ((k.semas s).waiters ≠ [] → (k.semas s).value ≤ ws.length)) ∧
    ((∀ t, ¬ woken k s t) → (k.semas s).waiters ≠ [] → (k.semas s).value = 0) := by
  have hall : ∃ ws, sema_inv k s ws := by
    induction h with
    | init =>
      have hw : ∀ s1, ((sema_init kb (sema_ptr.plain s) v).semas s1).waiters = [] := by
        intro s1
        by_cases hs1 : s1 = s
        · subst hs1
          simp [sema_init, Kernel.set_sema]
        · simpa [sema_init, Kernel.set_sema, hs1] using hempty s1 hs1
      refine ⟨[], ?_, ?_, ?_, List.nodup_nil, ?_, ?_⟩
      · intro t
        left
        simpa [sema_init] using hidle t
      · intro s1 t hmem
        rw [hw s1] at hmem
        simp at hmem
      · intro s1
        rw [hw s1]
        exact List.nodup_nil
      · intro t ht
        simp at ht
      · intro hne
        exact absurd (hw s) hne
    | step fuel k1 k2 t op _ hop hex ih =>
      obtain ⟨ws, hi⟩ := ih
      exact sema_inv_step fuel k1 k2 t op s ws hop hi hex
  obtain ⟨ws, hi⟩ := hall
  refine ⟨⟨ws, hi.h_distinct, hi.h_woken, hi.h_value⟩, ?_⟩
  intro hnone hne
  have hws : ws = [] := by
    cases ws with
    | nil => rfl
    | cons a rest => exact absurd (hi.h_woken a (List.mem_cons_self a rest)) (hnone a)
  have := hi.h_value hne
  rw [hws] at this
  simpa using this

/-- C5 at a concrete input: the state after threads 1 and 2 blocked on semaphore 0, thread
0 upped it and thread 1 resumed. -/
theorem sema_value_spec_witness :
    ∃ ws : List Nat, ws.Nodup ∧
      (∀ t ∈ ws, woken ((run 0 (sema_init (boot up_prio false) (sema_ptr.plain 0) 0)
        [(1, Op.sema_down 0), (2, Op.sema_down 0), (0, Op.sema_up 0), (1, Op.resume)]).getD
          (boot up_prio false)) 0 t) ∧
      ((((run 0 (sema_init (boot up_prio false) (sema_ptr.plain 0) 0)
        [(1, Op.sema_down 0), (2, Op.sema_down 0), (0, Op.sema_up 0), (1, Op.resume)]).getD
          (boot up_prio false)).semas 0).waiters ≠ [] →
        (((run 0 (sema_init (boot up_prio false) (sema_ptr.plain 0) 0)
        [(1, Op.sema_down 0), (2, Op.sema_down 0), (0, Op.sema_up 0), (1, Op.resume)]).getD
          (boot up_prio false)).semas 0).value ≤ ws.length) :=
  (sema_value_spec (boot up_prio false) _ 0 0 (fun _ => rfl) (fun _ _ => rfl)
    (reach_run sema_op 0 _ _ _ _ Reach.init
      (by
        intro x hx
        simp only [List.mem_cons, List.mem_singleton, List.not_mem_nil, or_false] at hx
        rcases hx with rfl | rfl | rfl | rfl <;> trivial)
      (some_getD _ _ (by decide)))).1

/-! ## C11: `sema_down` -/

/-- C11: called outside interrupt context, `sema_down` on a semaphore of value 0 queues the
current thread (the new list holds exactly the old waiters and the current thread, and
is in descending priority order if the old one was), leaves the value 0 and blocks the
caller, changing no other thread; on a semaphore of positive (representable) value it
leaves the value exactly 1 lower, the waiter list and every thread unchanged, and
returns with the interrupt level of entry. Each evaluation of its loop decrements only
a non-zero value, so the value never wraps: it is never above the old value. -/
theorem sema_down_spec :
    (∀ (k : Kernel) (sema : sema_ptr) (c : caller), k.intr_context = false →
      (k.sema sema).value = 0 →
      ∃ k1, sema_down k sema c = some k1 ∧
        (k1.sema sema).waiters.Perm (k.current :: (k.sema sema).waiters) ∧
        ((k.sema sema).waiters.Pairwise
            (fun a b => (k.threads b).priority ≤ (k.threads a).priority) →
          (k1.sema sema).waiters.Pairwise
            (fun a b => (k1.threads b).priority ≤ (k1.threads a).priority)) ∧
        (k1.sema sema).value = 0 ∧
        k1.threads = upd k.threads k.current { k.threads k.current with blocked := true } ∧
        returned k1 = false) ∧
    (∀ (k : Kernel) (sema : sema_ptr) (c : caller), k.intr_context = false →
      0 < (k.sema sema).value → (k.sema sema).value < UINT_SIZE →
      ∃ k1, sema_down k sema c = some k1 ∧
        (k1.sema sema).value + 1 = (k.sema sema).value ∧
        (k1.sema sema).waiters = (k.sema sema).waiters ∧
        k1.threads = k.threads ∧ k1.level = k.level ∧ returned k1 = true) ∧
    (∀ (k : Kernel) (sema : sema_ptr) (lv : intr_level) (c : caller),
      ((sema_down_loop k sema lv c).sema sema).value =
        (if (k.sema sema).value = 0 then 0 else unsigned_dec (k.sema sema).value) ∧
      ((k.sema sema).value < UINT_SIZE →
        ((sema_down_loop k sema lv c).sema sema).value ≤ (k.sema sema).value)) := by
  refine ⟨?_, ?_, ?_⟩
  · intro k sema c hi hv
    have hv1 : ((intr_set_level k intr_level.INTR_OFF).sema sema).value = 0 := by simpa using hv
    have hd : sema_down k sema c
        = some (sema_down_loop (intr_set_level k intr_level.INTR_OFF) sema k.level c) := by
      simp only [sema_down, hi, Bool.false_eq_true, if_false, intr_disable_fst,
        intr_disable_snd]
    refine ⟨_, hd, ?_⟩
    rw [sema_down_loop_zero _ _ _ _ hv1]
    refine ⟨?_, ?_, ?_, ?_, ?_⟩
    · simp only [thread_block_sema, set_stack_sema, sema_set_sema_same, intr_set_level_sema,
        intr_set_level_current]
      exact list_insert_ordered_perm _ _ _
    · intro hs
      simp only [thread_block_sema, set_stack_sema, sema_set_sema_same, intr_set_level_sema,
        intr_set_level_current, thread_block_thread_priority, set_stack_threads,
        set_sema_threads, intr_set_level_threads]
      exact list_insert_ordered_sorted (fun u => (k.threads u).priority) _
        (fun _ _ => rfl) _ _ hs
    · simp [hv]
    · simp [thread_block]
    · simp [returned, Kernel.set_stack]
  · intro k sema c hi hv hlt
    have hv1 : ((intr_set_level k intr_level.INTR_OFF).sema sema).value ≠ 0 := by
      simp only [intr_set_level_sema]
      omega
    have hd : sema_down k sema c
        = some (sema_down_loop (intr_set_level k intr_level.INTR_OFF) sema k.level c) := by
      simp only [sema_down, hi, Bool.false_eq_true, if_false, intr_disable_fst,
        intr_disable_snd]
    refine ⟨_, hd, ?_⟩
    rw [sema_down_loop_pos _ _ _ _ hv1]
    refine ⟨?_, ?_, ?_, ?_, ?_⟩
    · simp only [set_stack_sema, intr_set_level_sema, sema_set_sema_same]
      exact unsigned_dec_pos _ hv hlt
    · simp
    · simp
    · simp
    · simp [returned, Kernel.set_stack]
  · intro k sema lv c
    by_cases hv : (k.sema sema).value = 0
    · rw [sema_down_loop_zero _ _ _ _ hv]
      simp [hv]
    · rw [sema_down_loop_pos _ _ _ _ hv]
      simp only [set_stack_sema, intr_set_level_sema, sema_set_sema_same, hv, if_false,
        true_and]
      intro hlt
      have := unsigned_dec_pos _ (by omega) hlt
      omega

/-- C11 at a concrete input: thread 2 (priority 20) downs the semaphore on which threads
1 and 3 (priorities 31 and 10) wait. -/
theorem sema_down_spec_witness :
    ∃ k1, sema_down
        (dispatch ((run 0 (boot wake_prio false)
          [(3, Op.sema_down 0), (1, Op.sema_down 0)]).getD (boot wake_prio false)) 2)
        (sema_ptr.plain 0) caller.direct = some k1 ∧
      (k1.sema (sema_ptr.plain 0)).waiters.Perm [2, 1, 3] ∧
      (k1.sema (sema_ptr.plain 0)).waiters.Pairwise
        (fun a b => (k1.threads b).priority ≤ (k1.threads a).priority) := by
  obtain ⟨k1, h1, h2, h3, -⟩ := sema_down_spec.1
    (dispatch ((run 0 (boot wake_prio false)
      [(3, Op.sema_down 0), (1, Op.sema_down 0)]).getD (boot wake_prio false)) 2)
    (sema_ptr.plain 0) caller.direct (by decide) (by decide)
  exact ⟨k1, h1, h2, h3 (by decide)⟩

/-! ## C12: MLFQ mode -/

/-- In MLFQ mode the donation step of `lock_acquire` returns without a walk, whatever the
fuel. -/
theorem lock_acquire_donate_mlfqs (fuel : Nat) (k : Kernel) (l : Nat)
    (hm : k.thread_mlfqs = true) : ∃ k1, lock_acquire_donate fuel k l = some k1 := by
  unfold lock_acquire_donate
  cases (k.locks l).holder with
  | none => exact ⟨_, rfl⟩
  | some holder =>
    simp only [set_wait_on_lock_thread_mlfqs, hm, Bool.not_true, Bool.false_eq_true, if_false]
    exact ⟨_, rfl⟩

/-- C12: in MLFQ mode, for every state and every amount of fuel, `lock_acquire` (called
outside interrupt context on a lock the caller does not hold, free or held), the
remainder of a `lock_acquire` that had blocked, and `lock_release` (called by the
holder) all go through and leave every thread's `priority`, `original_priority` and
`donations` as they were. -/
theorem mlfqs_no_donation (k : Kernel) (l : Nat) (fuel : Nat) (hm : k.thread_mlfqs = true) :
    (k.intr_context = false → (k.locks l).holder ≠ some k.current →
      ∃ k1, lock_acquire fuel k l = some k1 ∧
        ∀ u, (k1.threads u).priority = (k.threads u).priority ∧
          (k1.threads u).original_priority = (k.threads u).original_priority ∧
          (k1.threads u).donations = (k.threads u).donations) ∧
    (∀ lv, k.stack k.current
        = susp.in_sema_down (sema_ptr.of_lock l) lv (caller.from_lock_acquire l) →
      ∃ k1, resume fuel k = some k1 ∧
        ∀ u, (k1.threads u).priority = (k.threads u).priority ∧
          (k1.threads u).original_priority = (k.threads u).original_priority ∧
          (k1.threads u).donations = (k.threads u).donations) ∧
    ((k.locks l).holder = some k.current →
      ∃ k1, lock_release k l = some k1 ∧
        ∀ u, (k1.threads u).priority = (k.threads u).priority ∧
          (k1.threads u).original_priority = (k.threads u).original_priority ∧
          (k1.threads u).donations = (k.threads u).donations) := by
  have key : ∀ k1, thread_frame k k1 →
      ∀ u, (k1.threads u).priority = (k.threads u).priority ∧
        (k1.threads u).original_priority = (k.threads u).original_priority ∧
        (k1.threads u).donations = (k.threads u).donations := by
    intro k1 hf u
    obtain ⟨h1, -, h3⟩ := hf.2 u
    exact ⟨(h3 hm).2, h1, (h3 hm).1⟩
  refine ⟨fun hi hh => ?_, fun lv hs => ?_, fun hh => ?_⟩
  · obtain ⟨k2, hd⟩ := lock_acquire_donate_mlfqs fuel k l hm
    have he := lock_acquire_eq fuel k l hi hh
    rw [hd, Option.map_some'] at he
    exact ⟨_, he, key _ (lock_acquire_thread_frame fuel k _ l he)⟩
  · have he := resume_in_sema_down fuel k _ _ _ hs
    by_cases hv : (k.sema (sema_ptr.of_lock l)).value = 0
    · rw [if_pos hv] at he
      exact ⟨_, he, key _ (resume_thread_frame fuel k _ he)⟩
    · rw [if_neg hv] at he
      simp only [after_sema_down] at he
      exact ⟨_, he, key _ (resume_thread_frame fuel k _ he)⟩
  · have he := lock_release_eq k l hh
    exact ⟨_, he, key _ (lock_release_thread_frame k _ l he)⟩

/-- C12 at a concrete input: in MLFQ mode thread 1 (priority 25) acquires lock 0 held by
thread 0 (priority 10); nothing is donated. -/
theorem mlfqs_no_donation_witness :
    ∃ k1, lock_acquire 0
        (dispatch ((run 0 (boot donor_prio true) [(0, Op.lock_acquire 0)]).getD
          (boot donor_prio true)) 1) 0 = some k1 ∧
      (k1.threads 0).priority = 10 ∧ (k1.threads 0).donations = [] := by
  obtain ⟨k1, h1, h2⟩ := (mlfqs_no_donation
    (dispatch ((run 0 (boot donor_prio true) [(0, Op.lock_acquire 0)]).getD
      (boot donor_prio true)) 1) 0 0 (by decide)).1 (by decide) (by decide)
  refine ⟨k1, h1, ?_, ?_⟩
  · rw [(h2 0).1]
    decide
  · rw [(h2 0).2.2]
    decide

/-! ## C16: the walk of `priority_donate` terminates -/

theorem priority_donate_loop_terminates (hs : List Nat) :
    ∀ (k : Kernel) (cur : Nat) (wl : Option Nat) (fuel : Nat),
      is_chain k wl hs = true → hs.length < fuel →
      ∃ k1 n, priority_donate_loop fuel k cur wl = some k1 ∧
        priority_donate_iterations fuel k cur wl = some n ∧ n ≤ hs.length := by
  induction hs with
  | nil =>
    intro k cur wl fuel hc hf
    obtain ⟨m, rfl⟩ : ∃ m, fuel = m + 1 := ⟨fuel - 1, by omega⟩
    cases wl with
    | none => exact ⟨k, 0, rfl, rfl, le_refl _⟩
    | some l =>
      have hh : (k.locks l).holder = none := by simpa [is_chain] using hc
      refine ⟨k, 0, ?_, ?_, le_refl _⟩
      · simp only [priority_donate_loop, hh]
      · simp only [priority_donate_iterations, hh]
  | cons h rest ih =>
    intro k cur wl fuel hc hf
    obtain ⟨m, rfl⟩ : ∃ m, fuel = m + 1 := ⟨fuel - 1, by omega⟩
    cases wl with
    | none => simp [is_chain] at hc
    | some l =>
      simp only [is_chain, Bool.and_eq_true, decide_eq_true_eq] at hc
      obtain ⟨hh, hrest⟩ := hc
      have hm : rest.length < m := by simpa using hf
      simp only [priority_donate_loop, priority_donate_iterations, hh]
      by_cases hlt : (k.threads h).priority < (k.threads cur).priority
      · simp only [hlt, if_true]
        have hc1 : is_chain (k.set_priority h (k.threads cur).priority)
            ((k.set_priority h (k.threads cur).priority).threads h).wait_on_lock rest = true := by
          rw [set_priority_thread_wait_on_lock,
            is_chain_congr k (k.set_priority h (k.threads cur).priority) (fun _ => rfl) rest
              (fun u _ => set_priority_thread_wait_on_lock k h _ u)]
          exact hrest
        obtain ⟨k1, n, h1, h2, h3⟩ := ih _ h _ m hc1 hm
        refine ⟨k1, n + 1, h1, ?_, by simpa using h3⟩
        rw [h2]
        rfl
      · simp only [hlt, if_false]
        by_cases hgt : (k.threads h).priority > (k.threads cur).priority
        · simp only [hgt, if_true]
          exact ⟨k, 1, rfl, rfl, by simp⟩
        · simp only [hgt, if_false]
          obtain ⟨k1, n, h1, h2, h3⟩ := ih k h _ m hrest hm
          refine ⟨k1, n + 1, h1, ?_, by simpa using h3⟩
          rw [h2]
          rfl

/-- C16: if the locks and holders reached from the current thread's `wait_on_lock` form a
finite chain `hs` (the relation is acyclic), `priority_donate` returns, and the body
of its loop has been entered at most `hs.length` times: `hs.length + 1` evaluations of
the loop condition are enough. -/
theorem priority_donate_terminates (k : Kernel) (l : Nat) (hs : List Nat) (fuel : Nat)
    (hc : is_chain k (k.threads k.current).wait_on_lock hs = true)
    (hf : hs.length < fuel) :
    ∃ k1 n, priority_donate fuel k l = some k1 ∧
      priority_donate_iterations fuel k k.current (k.threads k.current).wait_on_lock = some n ∧
      n ≤ hs.length :=
  priority_donate_loop_terminates hs k k.current _ fuel hc hf

/-- C16 at a concrete input: H (thread 2, priority 30) walks the chain M, L of the nested
scenario in two passes. -/
theorem priority_donate_terminates_witness :
    ∃ k1 n, priority_donate 3 nested_donating 1 = some k1 ∧
      priority_donate_iterations 3 nested_donating nested_donating.current
        (nested_donating.threads nested_donating.current).wait_on_lock = some n ∧
      n ≤ 2 :=
  priority_donate_terminates nested_donating 1 [1, 0] 3 (by decide) (by decide)

/-! ## C20: what the walk of `priority_donate` changes -/

theorem is_chain_unique (k : Kernel) (a : List Nat) :
    ∀ (b : List Nat) (wl : Option Nat), is_chain k wl a = true → is_chain k wl b = true →
      a = b := by
  induction a with
  | nil =>
    intro b wl ha hb
    cases b with
    | nil => rfl
    | cons y b =>
      cases wl with
      | none => simp [is_chain] at hb
      | some l => simp_all [is_chain]
  | cons x a ih =>
    intro b wl ha hb
    cases wl with
    | none => simp [is_chain] at ha
    | some l =>
      cases b with
      | nil => simp_all [is_chain]
      | cons y b =>
        simp only [is_chain, Bool.and_eq_true, decide_eq_true_eq] at ha hb
        have hxy : x = y := by
          have := ha.1.symm.trans hb.1
          simpa using this
        subst hxy
        rw [ih b _ ha.2 hb.2]

theorem is_chain_suffix (k : Kernel) (pre : List Nat) (x : Nat) (suf : List Nat) :
    ∀ wl, is_chain k wl (pre ++ x :: suf) = true →
      is_chain k (k.threads x).wait_on_lock suf = true := by
  induction pre with
  | nil =>
    intro wl h
    cases wl with
    | none => simp [is_chain] at h
    | some l =>
      simp only [List.nil_append, is_chain, Bool.and_eq_true] at h
      exact h.2
  | cons y pre ih =>
    intro wl h
    cases wl with
    | none => simp [is_chain] at h
    | some l =>
      simp only [List.cons_append, is_chain, Bool.and_eq_true] at h
      exact ih _ h.2

/-- A thread whose `wait_on_lock` starts a finite chain is not on that chain. -/
theorem is_chain_not_mem (k : Kernel) (x : Nat) (hs : List Nat)
    (hc : is_chain k (k.threads x).wait_on_lock hs = true) : x ∉ hs := by
  intro hx
  obtain ⟨pre, suf, rfl⟩ := List.append_of_mem hx
  have h1 := is_chain_suffix k pre x suf _ hc
  have h2 := is_chain_unique k _ _ _ h1 hc
  have h3 := congrArg List.length h2
  simp at h3
  omega

/-- A finite chain meets no holder twice. -/
theorem is_chain_nodup (k : Kernel) (hs : List Nat) :
    ∀ wl, is_chain k wl hs = true → hs.Nodup := by
  induction hs with
  | nil => intro _ _; exact List.nodup_nil
  | cons x rest ih =>
    intro wl h
    cases wl with
    | none => simp [is_chain] at h
    | some l =>
      simp only [is_chain, Bool.and_eq_true] at h
      exact List.nodup_cons.mpr ⟨is_chain_not_mem k x rest h.2, ih _ h.2⟩

/-- C20: if the locks and holders reached from the current thread's `wait_on_lock` form a
finite chain `hs` (the relation is acyclic), `priority_donate` returns a state that
differs from the old one in thread priorities only (`original_priority`, `donations`,
`wait_on_lock`, `blocked`, locks, semaphores and all the rest are those of before); no
priority is lower than before; a priority that has changed is that of a holder on the
chain and is now the priority the current thread had at the start. -/
theorem priority_donate_frame (k : Kernel) (l : Nat) (hs : List Nat) (fuel : Nat)
    (hc : is_chain k (k.threads k.current).wait_on_lock hs = true)
    (hf : hs.length < fuel) :
    ∃ k1, priority_donate fuel k l = some k1 ∧
      k1 = { k with threads := k1.threads } ∧
      ∀ u, k1.threads u = { k.threads u with priority := (k1.threads u).priority } ∧
        (k.threads u).priority ≤ (k1.threads u).priority ∧
        ((k1.threads u).priority ≠ (k.threads u).priority →
          u ∈ hs ∧ (k1.threads u).priority = (k.threads k.current).priority) := by
  have he := priority_donate_loop_eq hs k k.current _ fuel hc (is_chain_nodup k hs _ hc)
    (is_chain_not_mem k k.current hs hc) hf
  refine ⟨_, he, rfl, fun u => ?_⟩
  by_cases hu : u ∈ donated_holders k (k.threads k.current).priority hs
  · simp only [hu, if_true, true_and]
    have hle : (k.threads u).priority ≤ (k.threads k.current).priority := by
      have := (List.mem_takeWhile_imp hu)
      simpa using this
    exact ⟨hle, fun _ => ⟨donated_holders_subset k _ hs u hu, trivial⟩⟩
  · simp only [hu, if_false, le_refl, ne_eq, not_true_eq_false, false_implies, and_self]

/-- C20 at a concrete input: in the nested scenario the walk of H (thread 2, priority 30)
raises M and L and touches nothing else. -/
theorem priority_donate_frame_witness :
    ∃ k1, priority_donate 3 nested_donating 1 = some k1 ∧
      ∀ u, (nested_donating.threads u).priority ≤ (k1.threads u).priority ∧
        ((k1.threads u).priority ≠ (nested_donating.threads u).priority →
          u ∈ [1, 0] ∧ (k1.threads u).priority = 30) := by
  obtain ⟨k1, h1, -, h3⟩ :=
    priority_donate_frame nested_donating 1 [1, 0] 3 (by decide) (by decide)
  exact ⟨k1, h1, fun u => ⟨(h3 u).2.1, (h3 u).2.2⟩⟩

/-! ## C13: the assertions -/

/-- The donation step of `lock_acquire` returns when MLFQ mode is on, or when the holders
reached from the lock form a finite chain without the caller and the fuel covers it. -/
theorem lock_acquire_donate_some (fuel : Nat) (k : Kernel) (l : Nat) (hs : List Nat)
    (hw : k.thread_mlfqs = true ∨
      (is_chain k (some l) hs = true ∧ k.current ∉ hs ∧ hs.length < fuel)) :
    ∃ k1, lock_acquire_donate fuel k l = some k1 := by
  rcases hw with hm | ⟨hc, hn, hf⟩
  · exact lock_acquire_donate_mlfqs fuel k l hm
  · unfold lock_acquire_donate
    cases hh : (k.locks l).holder with
    | none => exact ⟨_, rfl⟩
    | some holder =>
      simp only [set_wait_on_lock_thread_mlfqs]
      split
      · have hc2 : is_chain
            ((k.set_wait_on_lock (thread_current k) (some l)).set_donations holder
              (((k.set_wait_on_lock (thread_current k) (some l)).threads holder).donations
                ++ [thread_current (k.set_wait_on_lock (thread_current k) (some l))]))
            (some l) hs = true := by
          refine Eq.trans (is_chain_congr k _ ?_ hs ?_ (some l)) hc
          · intro _
            rfl
          · intro h hh
            rw [set_donations_thread_wait_on_lock]
            apply set_wait_on_lock_thread_wait_on_lock_ne
            rintro rfl
            exact hn hh
        obtain ⟨k1, n, h1, -⟩ := priority_donate_loop_terminates hs _
          (thread_current ((k.set_wait_on_lock (thread_current k) (some l)).set_donations holder
              (((k.set_wait_on_lock (thread_current k) (some l)).threads holder).donations
                ++ [thread_current (k.set_wait_on_lock (thread_current k) (some l))])))
          (some l) fuel hc2 hf
        refine ⟨k1, ?_⟩
        rw [← h1]
        simp [priority_donate, thread_current, Kernel.set_wait_on_lock, upd_apply]
      · exact ⟨_, rfl⟩

theorem lock_acquire_some (fuel : Nat) (k : Kernel) (l : Nat) (hs : List Nat)
    (hi : k.intr_context = false) (hh : (k.locks l).holder ≠ some k.current)
    (hw : k.thread_mlfqs = true ∨
      (is_chain k (some l) hs = true ∧ k.current ∉ hs ∧ hs.length < fuel)) :
    ∃ k1, lock_acquire fuel k l = some k1 := by
  obtain ⟨k2, hd⟩ := lock_acquire_donate_some fuel k l hs hw
  have he := lock_acquire_eq fuel k l hi hh
  rw [hd, Option.map_some'] at he
  exact ⟨_, he⟩

/-- C13: a call whose assertion fails aborts (the model returns `none`, so no changed
state exists): `lock_acquire` in interrupt context or on a lock the caller holds,
`lock_release` on a lock the caller does not hold, `sema_down` and `cond_wait` in
interrupt context, `cond_wait` and `cond_signal` without the lock. Conversely a call
whose assertions hold goes through: `sema_down`, `lock_release`, `cond_signal` and
`cond_wait` (through its `lock_release`) always, and `lock_acquire` whenever its walk
terminates, that is in MLFQ mode or when the holders reached from the lock form a
finite chain without the caller. -/
theorem assertions_spec :
    (∀ (fuel : Nat) (k : Kernel) (l : Nat),
      k.intr_context = true ∨ (k.locks l).holder = some k.current →
      lock_acquire fuel k l = none) ∧
    (∀ (k : Kernel) (l : Nat), (k.locks l).holder ≠ some k.current → lock_release k l = none) ∧
    (∀ (k : Kernel) (q : sema_ptr) (c : caller), k.intr_context = true →
      sema_down k q c = none) ∧
    (∀ (k : Kernel) (c l : Nat), k.intr_context = true ∨ (k.locks l).holder ≠ some k.current →
      cond_wait k c l = none) ∧
    (∀ (k : Kernel) (c l : Nat), (k.locks l).holder ≠ some k.current →
      cond_signal k c l = none) ∧
    (∀ (k : Kernel) (q : sema_ptr) (c : caller), k.intr_context = false →
      ∃ k1, sema_down k q c = some k1) ∧
    (∀ (k : Kernel) (l : Nat), (k.locks l).holder = some k.current →
      ∃ k1, lock_release k l = some k1) ∧
    (∀ (k : Kernel) (c l : Nat), k.intr_context = false →
      (k.locks l).holder = some k.current → ∃ k1, cond_wait k c l = some k1) ∧
    (∀ (k : Kernel) (c l : Nat), k.intr_context = false →
      (k.locks l).holder = some k.current → ∃ k1, cond_signal k c l = some k1) ∧
    (∀ (fuel : Nat) (k : Kernel) (l : Nat) (hs : List Nat), k.intr_context = false →
      (k.locks l).holder ≠ some k.current →
      (k.thread_mlfqs = true ∨
        (is_chain k (some l) hs = true ∧ k.current ∉ hs ∧ hs.length < fuel)) →
      ∃ k1, lock_acquire fuel k l = some k1) := by
  refine ⟨?_, ?_, ?_, ?_, ?_, ?_, ?_, ?_, ?_, ?_⟩
  · rintro fuel k l (hi | hh)
    · simp [lock_acquire, hi]
    · simp [lock_acquire, lock_held_by_current_thread, thread_current, hh]
  · intro k l hh
    exact lock_release_none k l hh
  · intro k q c hi
    simp [sema_down, hi]
  · rintro k c l (hi | hh)
    · simp [cond_wait, hi]
    · simp [cond_wait, lock_held_by_current_thread, thread_current, hh]
  · intro k c l hh
    simp [cond_signal, lock_held_by_current_thread, thread_current, hh]
  · intro k q c hi
    simp [sema_down, hi]
  · intro k l hh
    exact ⟨_, lock_release_eq k l hh⟩
  · intro k c l hi hh
    obtain ⟨k1, h1, -⟩ := cond_wait_eq k c l hi hh
    exact ⟨k1, h1⟩
  · intro k c l hi hh
    have hheld : lock_held_by_current_thread k l = true := by
      simp [lock_held_by_current_thread, thread_current, hh]
    unfold cond_signal
    simp only [hi, hheld, Bool.false_eq_true, if_false, Bool.not_true]
    cases (k.conds c).waiters with
    | nil => exact ⟨_, rfl⟩
    | cons e rest => exact ⟨_, rfl⟩
  · intro fuel k l hs hi hh hw
    exact lock_acquire_some fuel k l hs hi hh hw

/-- C13 at concrete inputs: in the nested scenario H (thread 2) acquires lock 1 through the
chain M, L, and `lock_release` of lock 0, which L holds, aborts when H calls it. -/
theorem assertions_spec_witness :
    (∃ k1, lock_acquire 3 (dispatch nested_before 2) 1 = some k1) ∧
    lock_release (dispatch nested_before 2) 0 = none :=
  ⟨assertions_spec.2.2.2.2.2.2.2.2.2 3 (dispatch nested_before 2) 1 [1, 0] (by decide)
      (by decide) (Or.inr ⟨by decide, by decide, by decide⟩),
    assertions_spec.2.1 (dispatch nested_before 2) 0 (by decide)⟩

/-! ## C15: the preemption check of `sema_up` -/

@[simp] theorem sema_up_critical_yields (k : Kernel) (sema : sema_ptr) :
    (sema_up_critical k sema).yields = k.yields := by
  unfold sema_up_critical
  simp only [intr_disable_fst, intr_disable_snd]
  split <;> simp [intr_set_level, Kernel.set_sema, thread_unblock] <;> cases sema <;> rfl

@[simp] theorem sema_up_critical_current (k : Kernel) (sema : sema_ptr) :
    (sema_up_critical k sema).current = k.current := by
  unfold sema_up_critical
  simp only [intr_disable_fst, intr_disable_snd]
  split <;> simp [thread_unblock]

@[simp] theorem sema_up_critical_intr_context (k : Kernel) (sema : sema_ptr) :
    (sema_up_critical k sema).intr_context = k.intr_context := by
  unfold sema_up_critical
  simp only [intr_disable_fst, intr_disable_snd]
  split <;> simp [thread_unblock]

@[simp] theorem lock_release_donations_yields (k : Kernel) (l : Nat) :
    (lock_release_donations k l).yields = k.yields := by
  obtain ⟨f, hf⟩ := lock_release_donations_frame k l
  rw [hf]

/-- The yield of `sema_up`, read off the request counter. -/
theorem sema_up_yields_iff (k : Kernel) (sema : sema_ptr) :
    ((sema_up k sema).yields = k.yields + 1 ↔
      ∃ ready rest, (sema_up_critical k sema).ready_list = ready :: rest ∧
        k.intr_context = false ∧
        (k.threads k.current).priority < (k.threads ready).priority) ∧
    ((sema_up k sema).yields ≠ k.yields + 1 → sema_up k sema = sema_up_critical k sema) := by
  unfold sema_up
  simp only [thread_current, sema_up_critical_intr_context, sema_up_critical_current,
    sema_up_critical_priority]
  cases hr : (sema_up_critical k sema).ready_list with
  | nil => simp
  | cons ready rest =>
    simp only [List.cons.injEq, exists_and_right, exists_and_left]
    by_cases hi : k.intr_context = false
    · by_cases hp : (k.threads k.current).priority < (k.threads ready).priority
      · simp [hi, hp, thread_yield]
      · simp only [hi, Bool.not_false, Bool.true_and, hp, decide_False, Bool.false_eq_true,
          if_false, sema_up_critical_yields, self_eq_add_right, one_ne_zero, false_iff,
          not_exists, not_and, ne_eq, not_false_eq_true, forall_const, and_true]
        rintro x ⟨⟨rfl, -⟩, -⟩
        simpa using hp
    · have hi1 : k.intr_context = true := by simpa using hi
      simp [hi1]

theorem list_insert_ordered_head (k : Kernel) (t : Nat) (l : List Nat) :
    ∃ ready rest, list_insert_ordered (list_higher_priority k) t l = ready :: rest ∧
      (k.threads t).priority ≤ (k.threads ready).priority := by
  cases l with
  | nil => exact ⟨t, [], rfl, le_refl _⟩
  | cons e rest =>
    simp only [list_insert_ordered]
    split
    · exact ⟨t, _, rfl, le_refl _⟩
    · rename_i h
      refine ⟨e, _, rfl, ?_⟩
      simpa [list_higher_priority] using h

/-- The thread woken by `sema_up` has the highest priority of the waiters, and the ready
queue, into which it is inserted in priority order, starts with a thread of at least
that priority. -/
theorem sema_up_critical_head (k : Kernel) (sema : sema_ptr) (w : Nat)
    (hw : w ∈ (k.sema sema).waiters) :
    ∃ ready rest, (sema_up_critical k sema).ready_list = ready :: rest ∧
      (k.threads w).priority ≤ (k.threads ready).priority := by
  rw [sema_up_critical_ready_list]
  have hs := list_sort_sorted (fun u => (k.threads u).priority) (list_higher_priority k)
    (fun _ _ => rfl) (k.sema sema).waiters
  have hp := list_sort_perm (list_higher_priority k) (k.sema sema).waiters
  have hw1 : w ∈ list_sort (list_higher_priority k) (k.sema sema).waiters := hp.mem_iff.mpr hw
  cases hl : list_sort (list_higher_priority k) (k.sema sema).waiters with
  | nil => simp [hl] at hw1
  | cons t rest =>
    rw [hl] at hs hw1
    obtain ⟨ready, rest1, h1, h2⟩ := list_insert_ordered_head k t k.ready_list
    refine ⟨ready, rest1, h1, le_trans ?_ h2⟩
    rcases List.mem_cons.mp hw1 with rfl | hm
    · exact le_refl _
    · exact (List.pairwise_cons.mp hs).1 w hm

/-- C15: `sema_up` yields exactly when, after its critical part, the ready queue is not
empty, the call is not in interrupt context, and the head of the ready queue has a
priority strictly above the current thread's; otherwise it is the critical part alone.
Hence, outside interrupt context, upping a semaphore on which a thread of priority
above the caller's waits yields (the woken thread is inserted in priority order).
In `lock_release` the comparison reads the holder's priority after the release: the
call yields exactly when the head of the ready queue is above the priority the holder
is left with, which in donation mode is the maximum of its base priority and the
remaining donors'. -/
theorem sema_up_yield_spec :
    (∀ (k : Kernel) (sema : sema_ptr),
      ((sema_up k sema).yields = k.yields + 1 ↔
        ∃ ready rest, (sema_up_critical k sema).ready_list = ready :: rest ∧
          k.intr_context = false ∧
          (k.threads k.current).priority < (k.threads ready).priority) ∧
      ((sema_up k sema).yields ≠ k.yields + 1 → sema_up k sema = sema_up_critical k sema)) ∧
    (∀ (k : Kernel) (sema : sema_ptr) (w : Nat), k.intr_context = false →
      w ∈ (k.sema sema).waiters →
      (k.threads k.current).priority < (k.threads w).priority →
      (sema_up k sema).yields = k.yields + 1) ∧
    (∀ (k k1 : Kernel) (l : Nat), lock_release k l = some k1 →
      (k1.yields = k.yields + 1 ↔
        ∃ ready rest, k1.ready_list = ready :: rest ∧ k.intr_context = false ∧
          (k1.threads k.current).priority < (k1.threads ready).priority) ∧
      (k.thread_mlfqs = false →
        (k1.threads k.current).priority =
          max_priority k (k.threads k.current).original_priority
            (((k.threads k.current).donations.filter
              (fun d => decide ((k.threads d).wait_on_lock ≠ some l))).filter
                (fun d => decide (d ≠ k.current))))) := by
  refine ⟨sema_up_yields_iff, ?_, ?_⟩
  · intro k sema w hi hw hp
    obtain ⟨ready, rest, h1, h2⟩ := sema_up_critical_head k sema w hw
    exact (sema_up_yields_iff k sema).1.mpr ⟨ready, rest, h1, hi, lt_of_lt_of_le hp h2⟩
  · intro k k1 l h
    have hh : (k.locks l).holder = some k.current := by
      by_contra hne
      rw [lock_release_none k l hne] at h
      cases h
    refine ⟨?_, fun hm => (lock_release_effect k k1 l hm h).2.2.2.2.2.2.2.2⟩
    rw [lock_release_eq k l hh] at h
    simp only [Option.some.injEq] at h
    subst h
    have hy := (sema_up_yields_iff
      ((lock_release_donations (intr_set_level k intr_level.INTR_OFF) l).set_holder l none)
      (sema_ptr.of_lock l)).1
    simp only [set_holder_yields, lock_release_donations_yields, intr_set_level_yields,
      set_holder_intr_context, lock_release_donations_intr_context,
      intr_set_level_intr_context, set_holder_current, lock_release_donations_current,
      intr_set_level_current, set_holder_threads] at hy
    simp only [intr_set_level_yields, intr_set_level_ready_list, intr_set_level_threads,
      sema_up_ready_list, sema_up_threads, sema_up_critical_priority, set_holder_threads]
    exact hy

/-- C15 at a concrete input: L (thread 0, base 10), holding X and Y with donors H1 (25) and
H2 (28), releases Y: it wakes H2 and, left with priority 25, yields; its priority
before the release, 28, was not below that of H2. -/
theorem sema_up_yield_spec_witness :
    (two_donors.threads 0).priority = 28 ∧
    ∃ k1, lock_release (dispatch two_donors 0) 1 = some k1 ∧
      k1.ready_list = [2] ∧ (k1.threads 0).priority = 25 ∧
      k1.yields = (dispatch two_donors 0).yields + 1 := by
  have hk : ∃ k1, lock_release (dispatch two_donors 0) 1 = some k1 ∧
      k1.ready_list = [2] ∧ (k1.threads 0).priority = 25 := by
    refine ⟨_, rfl, ?_, ?_⟩
    · decide
    · decide
  obtain ⟨k1, h1, h2, h3⟩ := hk
  refine ⟨by decide, k1, h1, h2, h3, ?_⟩
  refine ((sema_up_yield_spec.2.2 (dispatch two_donors 0) k1 1 h1).1).mpr
    ⟨2, [], h2, by decide, ?_⟩
  have hc : (dispatch two_donors 0).current = 0 := by decide
  have h4 : (k1.threads 2).priority = 28 := by
    have e : some k1 = lock_release (dispatch two_donors 0) 1 := h1.symm
    have : ((lock_release (dispatch two_donors 0) 1).getD (boot donor_prio false)).threads 2
        = (k1.threads 2) := by rw [← e]; rfl
    rw [← this]
    decide
  rw [hc, h3, h4]
  decide

/-! ## C18: `cond_broadcast` -/

/-- Successive calls of `cond_signal` leave the caller, the context and the holders of
all locks as they were. -/
theorem cond_signals_frame (c l : Nat) (n : Nat) :
    ∀ k k1 : Kernel, cond_signals c l n k = some k1 →
      k1.current = k.current ∧ k1.intr_context = k.intr_context ∧
      ∀ m, (k1.locks m).holder = (k.locks m).holder := by
  induction n with
  | zero =>
    intro k k1 h
    simp only [cond_signals, Option.some.injEq] at h
    subst h
    exact ⟨rfl, rfl, fun _ => rfl⟩
  | succ n ih =>
    intro k k1 h
    simp only [cond_signals] at h
    cases hs : cond_signal k c l with
    | none => simp [hs] at h
    | some k2 =>
      simp only [hs] at h
      obtain ⟨h1, h2, h3⟩ := ih k2 k1 h
      have hk2 : k2.current = k.current ∧ k2.intr_context = k.intr_context ∧
          ∀ m, (k2.locks m).holder = (k.locks m).holder := by
        unfold cond_signal at hs
        split at hs
        · cases hs
        · split at hs
          · cases hs
          · split at hs
            · simp only [Option.some.injEq] at hs
              subst hs
              exact ⟨rfl, rfl, fun _ => rfl⟩
            · simp only [Option.some.injEq] at hs
              subst hs
              exact ⟨by simp, by simp, fun m => by simp⟩
      exact ⟨h1.trans hk2.1, h2.trans hk2.2.1, fun m => (h3 m).trans (hk2.2.2 m)⟩

/-- One `cond_signal` on a non-empty list, seen through the semaphores of the records. -/
theorem cond_signal_value (k : Kernel) (c e : Nat) (rest : List Nat) (x : Nat) :
    ((sema_up { k with conds := upd k.conds c { waiters := rest } }
        (sema_ptr.of_waiter e)).elems x).semaphore.value =
      if x = e then unsigned_inc (k.elems x).semaphore.value
      else (k.elems x).semaphore.value := by
  have h0 := sema_up_sema { k with conds := upd k.conds c { waiters := rest } }
    (sema_ptr.of_waiter e) (sema_ptr.of_waiter x)
  simp only [sema_of_waiter] at h0
  rw [h0]
  by_cases hx : x = e
  · subst hx
    have h1 := sema_up_critical_sema { k with conds := upd k.conds c { waiters := rest } }
      (sema_ptr.of_waiter x)
    simp only [sema_of_waiter] at h1
    rw [h1]
    simp
  · have h1 := sema_up_critical_sema_ne { k with conds := upd k.conds c { waiters := rest } }
      (sema_ptr.of_waiter e) (sema_ptr.of_waiter x) (by simpa using hx)
    simp only [sema_of_waiter] at h1
    rw [h1]
    simp [hx]

theorem cond_broadcast_eq (c l : Nat) (ws : List Nat) :
    ∀ (k : Kernel) (fuel : Nat), k.intr_context = false →
      (k.locks l).holder = some k.current → (k.conds c).waiters = ws → ws.length < fuel →
      ∃ k1, cond_broadcast fuel k c l = some k1 ∧
        cond_broadcast_calls fuel k c l = some ws.length ∧
        cond_signals c l ws.length k = some k1 ∧
        (k1.conds c).waiters = [] ∧
        ∀ x, (k1.elems x).semaphore.value
          = unsigned_inc^[ws.count x] (k.elems x).semaphore.value := by
  induction ws with
  | nil =>
    intro k fuel hi hh hw hf
    obtain ⟨m, rfl⟩ : ∃ m, fuel = m + 1 := ⟨fuel - 1, by omega⟩
    refine ⟨k, ?_, ?_, rfl, hw, fun x => by simp⟩
    · simp only [cond_broadcast, hw]
    · simp only [cond_broadcast_calls, hw, List.length_nil]
  | cons e rest ih =>
    intro k fuel hi hh hw hf
    obtain ⟨m, rfl⟩ : ∃ m, fuel = m + 1 := ⟨fuel - 1, by omega⟩
    have hs := cond_signal_cons k c l e rest hi hh hw
    obtain ⟨k1, h1, h2, h3, h4, h5⟩ := ih
      (sema_up { k with conds := upd k.conds c { waiters := rest } } (sema_ptr.of_waiter e)) m
      (by simpa using hi) (by simpa using hh) (by simp) (by simpa using hf)
    refine ⟨k1, ?_, ?_, ?_, h4, fun x => ?_⟩
    · simp only [cond_broadcast, hw, hs]
      exact h1
    · simp only [cond_broadcast_calls, hw, hs, h2, Option.map_some', List.length_cons]
    · simp only [List.length_cons, cond_signals, hs]
      exact h3
    · rw [h5 x, cond_signal_value, List.count_cons]
      by_cases hx : x = e
      · subst hx
        simp [Function.iterate_succ_apply]
      · have hx1 : (e == x) = false := by simpa using fun h => hx h.symm
        simp [hx, hx1]

/-- C18: called outside interrupt context by the holder of the lock on a condition with
`n` queued records (and fuel for `n + 1` evaluations of the loop condition),
`cond_broadcast` returns after exactly `n` calls of `cond_signal`, with the queue empty;
the call number `i` finds the queue without its first `i` records and is `sema_up` on
the semaphore of record `i`, front to back; at the end the semaphore value of every
record has been incremented once for each of its occurrences in the queue, and no
other record's value has changed. -/
theorem cond_broadcast_spec (k : Kernel) (c l : Nat) (fuel : Nat)
    (hi : k.intr_context = false) (hh : (k.locks l).holder = some k.current)
    (hf : (k.conds c).waiters.length < fuel) :
    ∃ k1, cond_broadcast fuel k c l = some k1 ∧
      cond_broadcast_calls fuel k c l = some (k.conds c).waiters.length ∧
      cond_signals c l (k.conds c).waiters.length k = some k1 ∧
      (k1.conds c).waiters = [] ∧
      (∀ (i : Nat) (h : i < (k.conds c).waiters.length),
        ∃ ki, cond_signals c l i k = some ki ∧
          (ki.conds c).waiters = (k.conds c).waiters.drop i ∧
          cond_signal ki c l = some
            (sema_up
              { ki with conds := upd ki.conds c ⟨(k.conds c).waiters.drop (i + 1)⟩ }
              (sema_ptr.of_waiter ((k.conds c).waiters.get ⟨i, h⟩)))) ∧
      ∀ x, (k1.elems x).semaphore.value
        = unsigned_inc^[(k.conds c).waiters.count x] (k.elems x).semaphore.value := by
  obtain ⟨k1, h1, h2, h3, h4, h5⟩ := cond_broadcast_eq c l _ k fuel hi hh rfl hf
  refine ⟨k1, h1, h2, h3, h4, fun i h => ?_, h5⟩
  obtain ⟨ki, g1, g2, -⟩ := cond_signals_drop c l i k hi hh
  obtain ⟨f1, f2, f3⟩ := cond_signals_frame c l i k ki g1
  refine ⟨ki, g1, g2, ?_⟩
  apply cond_signal_cons ki c l _ _ (f2.trans hi) (by rw [f3, f1]; exact hh)
  rw [g2]
  exact List.drop_eq_getElem_cons h

/-- C18 at a concrete input: W3 (thread 3), holding lock 0, broadcasts condition 0 on which
W2 and W1 wait: two calls of `cond_signal`, and the queue is empty. -/
theorem cond_broadcast_spec_witness :
    (cond_third.conds 0).waiters = [2, 1] ∧
    ∃ k1, cond_broadcast 3 cond_third 0 0 = some k1 ∧
      cond_broadcast_calls 3 cond_third 0 0 = some 2 ∧ (k1.conds 0).waiters = [] := by
  have hw : (cond_third.conds 0).waiters = [2, 1] := by decide!
  obtain ⟨k1, h1, h2, -, h4, -⟩ := cond_broadcast_spec cond_third 0 0 3 (by decide!)
    (by decide!) (by rw [hw]; decide)
  refine ⟨hw, k1, h1, ?_, h4⟩
  rw [h2, hw]
  rfl

/-! ## C17: what holds when `lock_acquire` and `cond_wait` return -/

theorem quiet_refl (k : Kernel) : quiet k k := ⟨rfl, rfl, fun _ => rfl, fun _ _ => rfl⟩

theorem quiet_trans (k k1 k2 : Kernel) (h1 : quiet k k1) (h2 : quiet k1 k2) : quiet k k2 := by
  obtain ⟨a1, b1, c1, d1⟩ := h1
  obtain ⟨a2, b2, c2, d2⟩ := h2
  refine ⟨a2.trans a1, b2.trans b1, fun e => (c2 e).trans (c1 e), fun u hu => ?_⟩
  rw [d2 u (by rw [b1]; exact hu), d1 u hu]

theorem quiet_of_eq (k k1 : Kernel) (hc : k1.conds = k.conds) (hcur : k1.current = k.current)
    (he : k1.elems = k.elems) (hs : k1.stack = k.stack) : quiet k k1 :=
  ⟨hc, hcur, fun e => by rw [he], fun u _ => by rw [hs]⟩

theorem set_sema_elems_of_not_waiter (k : Kernel) (q : sema_ptr) (v : semaphore)
    (hq : ∀ e, q ≠ sema_ptr.of_waiter e) : (k.set_sema q v).elems = k.elems := by
  cases q with
  | plain s => rfl
  | of_lock l => rfl
  | of_waiter e => exact absurd rfl (hq e)

theorem set_sema_elem_value (k : Kernel) (q : sema_ptr) (ws : List Nat) (e : Nat) :
    (((k.set_sema q { k.sema q with waiters := ws }).elems e).semaphore).value
      = (k.elems e).semaphore.value := by
  cases q with
  | plain s => rfl
  | of_lock l => rfl
  | of_waiter x =>
    by_cases h : e = x
    · subst h
      simp [Kernel.set_sema, Kernel.sema]
    · simp [Kernel.set_sema, upd_apply, h]

theorem set_sema_elem_ne (k : Kernel) (q : sema_ptr) (v : semaphore) (e : Nat)
    (h : q ≠ sema_ptr.of_waiter e) : (k.set_sema q v).elems e = k.elems e := by
  cases q with
  | plain s => rfl
  | of_lock l => rfl
  | of_waiter x =>
    have hx : e ≠ x := by
      rintro rfl
      exact h rfl
    simp [Kernel.set_sema, upd_apply, hx]

/-- An evaluation of the loop of `sema_down` that blocks is quiet. -/
theorem sema_down_loop_zero_quiet (k : Kernel) (q : sema_ptr) (lv : intr_level) (c : caller)
    (h : (k.sema q).value = 0) : quiet k (sema_down_loop k q lv c) := by
  rw [sema_down_loop_zero k q lv c h]
  refine ⟨by simp, by simp, fun e => ?_, fun u hu => ?_⟩
  · simp only [thread_block_elems, set_stack_elems]
    exact set_sema_elem_value k q _ e
  · simp [Kernel.set_stack, upd_apply, hu]

/-- An evaluation of the loop of `sema_down` on a semaphore that is no wait record's is
quiet. -/
theorem sema_down_loop_quiet (k : Kernel) (q : sema_ptr) (lv : intr_level) (c : caller)
    (hq : ∀ e, q ≠ sema_ptr.of_waiter e) : quiet k (sema_down_loop k q lv c) := by
  by_cases h : (k.sema q).value = 0
  · exact sema_down_loop_zero_quiet k q lv c h
  · rw [sema_down_loop_pos k q lv c h]
    refine ⟨by simp, by simp, fun e => ?_, fun u hu => ?_⟩
    · simp [set_sema_elems_of_not_waiter _ _ _ hq]
    · simp [Kernel.set_stack, upd_apply, hu]

theorem sema_up_critical_elems_of_not_waiter (k : Kernel) (q : sema_ptr)
    (hq : ∀ e, q ≠ sema_ptr.of_waiter e) : (sema_up_critical k q).elems = k.elems := by
  unfold sema_up_critical
  simp only [intr_disable_fst, intr_disable_snd]
  split <;> simp [set_sema_elems_of_not_waiter _ _ _ hq]

theorem sema_up_quiet (k : Kernel) (q : sema_ptr) (hq : ∀ e, q ≠ sema_ptr.of_waiter e) :
    quiet k (sema_up k q) :=
  quiet_of_eq _ _ (by simp) (by simp)
    (by simp [sema_up_critical_elems_of_not_waiter _ _ hq]) (by simp)

theorem intr_set_level_quiet (k : Kernel) (lv : intr_level) : quiet k (intr_set_level k lv) :=
  quiet_of_eq _ _ rfl rfl rfl rfl

theorem lock_acquire_finish_quiet (k : Kernel) (l : Nat) : quiet k (lock_acquire_finish k l) :=
  quiet_of_eq _ _ rfl rfl rfl rfl

theorem lock_acquire_quiet (fuel : Nat) (k k1 : Kernel) (l : Nat)
    (h : lock_acquire fuel k l = some k1) : quiet k k1 := by
  by_cases hic : k.intr_context = true
  · simp [lock_acquire, hic] at h
  by_cases hh : (k.locks l).holder = some k.current
  · simp [lock_acquire, lock_held_by_current_thread, thread_current, hh] at h
  rw [lock_acquire_eq fuel _ l (by simpa using hic) hh] at h
  cases hd : lock_acquire_donate fuel k l with
  | none => simp [hd] at h
  | some k2 =>
    simp only [hd, Option.map_some', Option.some.injEq] at h
    obtain ⟨h2, -⟩ := lock_acquire_donate_frame fuel k l k2 hd
    have q2 : quiet k k2 := by
      rw [h2]
      exact quiet_of_eq _ _ rfl rfl rfl rfl
    have q3 := quiet_trans _ _ _ (intr_set_level_quiet k2 intr_level.INTR_OFF)
      (sema_down_loop_quiet (intr_set_level k2 intr_level.INTR_OFF)
        (sema_ptr.of_lock l) k.level (caller.from_lock_acquire l) (by simp))
    split at h
    · rw [← h]
      exact quiet_trans _ _ _ q2 q3
    · rw [← h]
      exact quiet_trans _ _ _ q2 (quiet_trans _ _ _ q3 (lock_acquire_finish_quiet _ l))

theorem lock_release_quiet (k k1 : Kernel) (l : Nat)
    (h : lock_release k l = some k1) : quiet k k1 := by
  by_cases hh : (k.locks l).holder = some k.current
  · rw [lock_release_eq _ l hh] at h
    simp only [Option.some.injEq] at h
    subst h
    apply quiet_of_eq
    · simp
    · simp
    · simp [sema_up_critical_elems_of_not_waiter _ (sema_ptr.of_lock l) (by simp)]
    · simp
  · rw [lock_release_none _ l hh] at h
    cases h

theorem lock_try_acquire_quiet (k : Kernel) (l : Nat) (r : Bool × Kernel)
    (h : lock_try_acquire k l = some r) : quiet k r.2 := by
  by_cases hh : (k.locks l).holder = some k.current
  · simp [lock_try_acquire, lock_held_by_current_thread, thread_current, hh] at h
  rw [lock_try_acquire_eq k l hh] at h
  split at h
  · simp only [Option.some.injEq] at h
    subst h
    exact quiet_of_eq _ _ rfl rfl rfl rfl
  · simp only [Option.some.injEq] at h
    subst h
    exact quiet_of_eq _ _ rfl rfl rfl rfl

theorem sema_try_down_quiet (k : Kernel) (s : Nat) :
    quiet k (sema_try_down k (sema_ptr.plain s)).2 := by
  rw [sema_try_down_plain]
  split
  · exact quiet_of_eq _ _ rfl rfl rfl rfl
  · exact quiet_of_eq _ _ rfl rfl rfl rfl

/-- The invariant passes to a state with the same queues in which every queued record
keeps its value and its thread stays inside `cond_wait`. -/
theorem cond_inv_of (k k1 : Kernel) (hi : cond_inv k) (hc : k1.conds = k.conds)
    (he : ∀ c e, e ∈ (k.conds c).waiters →
      (k1.elems e).semaphore.value = (k.elems e).semaphore.value ∧
      (cond_waiting k e → cond_waiting k1 e)) : cond_inv k1 := by
  refine ⟨fun c e hm => ?_, fun c => ?_, fun c d e h1 h2 => ?_⟩
  · rw [hc] at hm
    obtain ⟨h1, h2⟩ := hi.h_wait c e hm
    obtain ⟨h3, h4⟩ := he c e hm
    exact ⟨h3.trans h1, h4 h2⟩
  · rw [hc]
    exact hi.h_nodup c
  · rw [hc] at h1 h2
    exact hi.h_one c d e h1 h2

/-- A quiet step by a thread that has no record queued keeps the invariant. -/
theorem cond_inv_quiet (k k1 : Kernel) (hi : cond_inv k) (hq : quiet k k1)
    (hn : ∀ c, k.current ∉ (k.conds c).waiters) : cond_inv k1 := by
  obtain ⟨a, b, c, d⟩ := hq
  refine cond_inv_of k k1 hi a (fun x e hm => ⟨c e, fun hw => ?_⟩)
  have hne : e ≠ k.current := by
    rintro rfl
    exact hn x hm
  unfold cond_waiting
  rw [d e hne]
  exact hw

/-- A thread that is not inside a call has no record queued. -/
theorem cond_inv_running (k : Kernel) (hi : cond_inv k) (t : Nat)
    (hs : k.stack t = susp.running) (c : Nat) : t ∉ (k.conds c).waiters := by
  intro hm
  rcases (hi.h_wait c t hm).2 with ⟨l, h1⟩ | ⟨l, lv, h1⟩ <;> rw [hs] at h1 <;> cases h1

/-- An evaluation of the loop of `sema_down` that blocks keeps the invariant, if a caller
with a queued record evaluates it on that record's semaphore, inside `cond_wait`. -/
theorem sema_down_loop_zero_cond_inv (kd k0 : Kernel) (hi : cond_inv kd) (hq0 : quiet kd k0)
    (q : sema_ptr) (lv : intr_level) (c : caller) (hv : (k0.sema q).value = 0)
    (hw : ∀ x, kd.current ∈ (kd.conds x).waiters →
      ∃ l, q = sema_ptr.of_waiter kd.current ∧ c = caller.from_cond_wait l) :
    cond_inv (sema_down_loop k0 q lv c) := by
  have hq := quiet_trans _ _ _ hq0 (sema_down_loop_zero_quiet k0 q lv c hv)
  refine cond_inv_of kd _ hi hq.1 (fun x e hm => ⟨hq.2.2.1 e, fun hwt => ?_⟩)
  by_cases he : e = kd.current
  · subst he
    obtain ⟨l, rfl, rfl⟩ := hw x hm
    right
    refine ⟨l, lv, ?_⟩
    rw [sema_down_loop_zero k0 _ lv _ hv, hq0.2.1]
    simp
  · unfold cond_waiting at hwt ⊢
    rw [hq.2.2.2 e he]
    exact hwt

/-- An evaluation of the loop of `sema_down` that returns, by a thread without a queued
record, keeps the invariant. -/
theorem sema_down_loop_pos_cond_inv (kd k0 : Kernel) (hi : cond_inv kd) (hq0 : quiet kd k0)
    (q : sema_ptr) (lv : intr_level) (c : caller) (hv : (k0.sema q).value ≠ 0)
    (hn : ∀ x, kd.current ∉ (kd.conds x).waiters) :
    cond_inv (sema_down_loop k0 q lv c) ∧
      (sema_down_loop k0 q lv c).conds = kd.conds ∧
      (sema_down_loop k0 q lv c).current = kd.current := by
  obtain ⟨a, b, c0, d⟩ := hq0
  rw [sema_down_loop_pos k0 q lv c hv]
  refine ⟨cond_inv_of kd _ hi (by simpa using a) (fun x e hm => ?_), by simpa using a,
    by simpa using b⟩
  have hne : e ≠ kd.current := by
    rintro rfl
    exact hn x hm
  have hqe : q ≠ sema_ptr.of_waiter e := by
    rintro rfl
    apply hv
    rw [sema_of_waiter, c0 e]
    exact (hi.h_wait x e hm).1
  refine ⟨?_, fun hwt => ?_⟩
  · simp only [set_stack_elems, intr_set_level_elems, set_sema_elem_ne _ _ _ _ hqe]
    exact c0 e
  · unfold cond_waiting at hwt ⊢
    have hst : ((intr_set_level (k0.set_sema q
        { k0.sema q with value := unsigned_dec (k0.sema q).value }) lv).set_stack k0.current
          susp.running).stack e = kd.stack e := by
      rw [set_stack_ne _ _ _ _ (by rw [b]; exact hne)]
      simp only [intr_set_level_stack, set_sema_stack]
      exact d e hne
    rw [hst]
    exact hwt

theorem after_sema_down_quiet (fuel : Nat) (k k1 : Kernel) (c : caller)
    (h : after_sema_down fuel k c = some k1) : quiet k k1 := by
  cases c with
  | direct =>
    simp only [after_sema_down, Option.some.injEq] at h
    subst h
    exact quiet_refl k
  | from_lock_acquire l =>
    simp only [after_sema_down, Option.some.injEq] at h
    subst h
    exact lock_acquire_finish_quiet k l
  | from_cond_wait l =>
    exact lock_acquire_quiet fuel k k1 l h

/-- The state `cond_wait` hands to `lock_release`. -/
theorem cond_wait_enqueue_fields (k : Kernel) (c : Nat) :
    (cond_wait_enqueue k c).stack = k.stack ∧
    (cond_wait_enqueue k c).current = k.current ∧
    ((cond_wait_enqueue k c).elems k.current).semaphore.value = 0 ∧
    (∀ e, e ≠ k.current → (cond_wait_enqueue k c).elems e = k.elems e) ∧
    ((cond_wait_enqueue k c).conds c).waiters.Perm (k.current :: (k.conds c).waiters) ∧
    ∀ d, d ≠ c → (cond_wait_enqueue k c).conds d = k.conds d := by
  refine ⟨rfl, rfl, ?_, fun e he => ?_, ?_, fun d hd => ?_⟩
  · simp [cond_wait_enqueue, sema_init, Kernel.set_sema, thread_current, UINT_SIZE]
  · simp [cond_wait_enqueue, sema_init, Kernel.set_sema, thread_current, upd_apply, he]
  · simp only [cond_wait_enqueue, upd_same]
    exact list_insert_ordered_perm _ _ _
  · simp [cond_wait_enqueue, sema_init, upd_apply, hd]

/-- Every turn keeps the condition-variable invariant. -/
theorem cond_inv_step (fuel : Nat) (k k1 : Kernel) (t : Nat) (op : Op)
    (hi : cond_inv k) (h : exec fuel k t op = some k1) : cond_inv k1 := by
  obtain ⟨-, hcase⟩ := exec_some fuel k k1 t op h
  have hid : cond_inv (dispatch k t) :=
    cond_inv_of k _ hi (by simp) (fun c e _ => ⟨by simp, fun hw => by
      simpa [cond_waiting] using hw⟩)
  have hq0 : quiet (dispatch k t) (intr_set_level (dispatch k t) intr_level.INTR_OFF) :=
    intr_set_level_quiet _ _
  rcases hcase with ⟨-, hr⟩ | ⟨-, hs, hc⟩
  · cases hst : (dispatch k t).stack (dispatch k t).current with
    | running =>
      rw [resume_running _ _ hst] at hr
      cases hr
    | in_sema_down q lv c =>
      rw [resume_in_sema_down _ _ _ _ _ hst] at hr
      by_cases hv : ((dispatch k t).sema q).value = 0
      · rw [if_pos hv] at hr
        simp only [Option.some.injEq] at hr
        subst hr
        refine sema_down_loop_zero_cond_inv _ _ hid hq0 q lv c (by simpa using hv) ?_
        intro x hm
        rcases (hid.h_wait x _ hm).2 with ⟨l, h1⟩ | ⟨l, lv1, h1⟩
        · rw [hst] at h1
          cases h1
        · rw [hst] at h1
          injection h1 with e1 e2 e3
          exact ⟨l, e1, e3⟩
      · rw [if_neg hv] at hr
        have hn : ∀ x, (dispatch k t).current ∉ ((dispatch k t).conds x).waiters := by
          intro x hm
          obtain ⟨h0, h1⟩ := hid.h_wait x _ hm
          rcases h1 with ⟨l, h1⟩ | ⟨l, lv1, h1⟩
          · rw [hst] at h1
            cases h1
          · rw [hst] at h1
            injection h1 with e1 e2 e3
            subst e1
            exact hv h0
        obtain ⟨i1, i2, i3⟩ := sema_down_loop_pos_cond_inv _ _ hid hq0 q lv c
          (by simpa using hv) hn
        refine cond_inv_quiet _ _ i1 (after_sema_down_quiet fuel _ _ c hr) ?_
        rw [i2, i3]
        exact hn
    | in_cond_wait e l =>
      rw [resume_in_cond_wait _ _ _ _ hst] at hr
      unfold cond_wait_rest at hr
      by_cases hic : (dispatch k t).intr_context = true
      · have hic0 : k.intr_context = true := by simpa using hic
        simp [sema_down, hic0] at hr
      have hic1 : ((dispatch k t).set_stack (thread_current (dispatch k t))
          susp.running).intr_context = false := by simpa using hic
      simp only [sema_down, hic1, Bool.false_eq_true, if_false, intr_disable_fst,
        intr_disable_snd, returned_sema_down_loop, intr_set_level_sema, set_stack_sema,
        sema_of_waiter, intr_set_level_elems, set_stack_elems, set_stack_level] at hr
      have hq1 : quiet (dispatch k t)
          (intr_set_level ((dispatch k t).set_stack (thread_current (dispatch k t))
            susp.running) intr_level.INTR_OFF) := by
        refine ⟨rfl, rfl, fun _ => rfl, fun u hu => ?_⟩
        simp only [intr_set_level_stack]
        exact set_stack_ne _ _ _ _ hu
      by_cases hv : ((dispatch k t).elems e).semaphore.value = 0
      · simp only [hv, ne_eq, not_true_eq_false, decide_False, Bool.false_eq_true, if_false,
          Option.some.injEq] at hr
        subst hr
        refine sema_down_loop_zero_cond_inv _ _ hid hq1 _ _ _ (by simpa using hv) ?_
        intro x hm
        rcases (hid.h_wait x _ hm).2 with ⟨l1, h1⟩ | ⟨l1, lv1, h1⟩
        · rw [hst] at h1
          injection h1 with e1 e2
          subst e1
          exact ⟨l, rfl, rfl⟩
        · rw [hst] at h1
          cases h1
      · simp only [hv, ne_eq, not_false_eq_true, decide_True, if_true] at hr
        have hn : ∀ x, (dispatch k t).current ∉ ((dispatch k t).conds x).waiters := by
          intro x hm
          obtain ⟨h0, h1⟩ := hid.h_wait x _ hm
          rcases h1 with ⟨l1, h1⟩ | ⟨l1, lv1, h1⟩
          · rw [hst] at h1
            injection h1 with e1 e2
            subst e1
            exact hv h0
          · rw [hst] at h1
            cases h1
        obtain ⟨i1, i2, i3⟩ := sema_down_loop_pos_cond_inv _ _ hid hq1
          (sema_ptr.of_waiter e) (dispatch k t).level (caller.from_cond_wait l)
          (by simpa using hv) hn
        refine cond_inv_quiet _ _ i1 (lock_acquire_quiet fuel _ _ l hr) ?_
        rw [i2, i3]
        exact hn
  · have hn : ∀ x, (dispatch k t).current ∉ ((dispatch k t).conds x).waiters := by
      intro x
      exact cond_inv_running _ hid _ (by simpa using hs) x
    cases op with
    | resume => simp [call] at hc
    | sema_down s =>
      simp only [call] at hc
      by_cases hic : (dispatch k t).intr_context = true
      · have hic0 : k.intr_context = true := by simpa using hic
        simp [sema_down, hic0] at hc
      simp only [sema_down, hic, Bool.false_eq_true, if_false, intr_disable_fst,
        intr_disable_snd, Option.some.injEq] at hc
      subst hc
      exact cond_inv_quiet _ _ hid (quiet_trans _ _ _ hq0
        (sema_down_loop_quiet _ _ _ _ (by simp))) hn
    | sema_try_down s =>
      simp only [call, Option.some.injEq] at hc
      subst hc
      exact cond_inv_quiet _ _ hid (sema_try_down_quiet _ s) hn
    | sema_up s =>
      simp only [call, Option.some.injEq] at hc
      subst hc
      exact cond_inv_quiet _ _ hid (sema_up_quiet _ _ (by simp)) hn
    | lock_acquire l =>
      exact cond_inv_quiet _ _ hid (lock_acquire_quiet fuel _ _ l hc) hn
    | lock_try_acquire l =>
      simp only [call] at hc
      cases hr : lock_try_acquire (dispatch k t) l with
      | none => simp [hr] at hc
      | some r =>
        simp only [hr, Option.map_some', Option.some.injEq] at hc
        subst hc
        exact cond_inv_quiet _ _ hid (lock_try_acquire_quiet _ l r hr) hn
    | lock_release l =>
      exact cond_inv_quiet _ _ hid (lock_release_quiet _ _ l hc) hn
    | cond_wait c l =>
      simp only [call, cond_wait] at hc
      split at hc
      · cases hc
      split at hc
      · cases hc
      split at hc
      · cases hc
      rename_i k4 hrel
      simp only [Option.some.injEq] at hc
      subst hc
      obtain ⟨q1, q2, q3, q4⟩ := lock_release_quiet _ _ l hrel
      obtain ⟨f1, f2, f3, f4, f5, f6⟩ := cond_wait_enqueue_fields (dispatch k t) c
      have hcur : thread_current k4 = (dispatch k t).current := by
        rw [thread_current, q2, f2]
      have hw : ∀ d e, e ∈ ((cond_wait_enqueue (dispatch k t) c).conds d).waiters →
          (d = c ∧ e = (dispatch k t).current) ∨
            (e ≠ (dispatch k t).current ∧ e ∈ ((dispatch k t).conds d).waiters) := by
        intro d e hm
        by_cases hd : d = c
        · subst hd
          rw [f5.mem_iff, List.mem_cons] at hm
          rcases hm with rfl | hm
          · exact Or.inl ⟨rfl, rfl⟩
          · exact Or.inr ⟨fun he => hn d (he ▸ hm), hm⟩
        · rw [f6 d hd] at hm
          exact Or.inr ⟨fun he => hn d (he ▸ hm), hm⟩
      refine ⟨fun d e hm => ?_, fun d => ?_, fun d1 d2 e h1 h2 => ?_⟩
      · simp only [set_stack_conds, q1] at hm
        simp only [set_stack_elems, q3]
        rcases hw d e hm with ⟨rfl, rfl⟩ | ⟨hne, hm1⟩
        · refine ⟨f3, Or.inl ⟨l, ?_⟩⟩
          rw [hcur]
          simp [thread_current]
        · obtain ⟨g1, g2⟩ := hid.h_wait d e hm1
          refine ⟨by rw [f4 e hne]; exact g1, ?_⟩
          unfold cond_waiting at g2 ⊢
          rw [hcur, set_stack_ne _ _ _ _ hne, q4 e (by rw [f2]; exact hne), f1]
          exact g2
      · simp only [set_stack_conds, q1]
        by_cases hd : d = c
        · subst hd
          exact f5.nodup_iff.mpr (List.nodup_cons.mpr ⟨hn d, hid.h_nodup d⟩)
        · rw [f6 d hd]
          exact hid.h_nodup d
      · simp only [set_stack_conds, q1] at h1 h2
        rcases hw d1 e h1 with ⟨rfl, rfl⟩ | ⟨hne1, hm1⟩
        · rcases hw d2 _ h2 with ⟨rfl, -⟩ | ⟨hne2, -⟩
          · rfl
          · exact absurd rfl hne2
        · rcases hw d2 e h2 with ⟨rfl, rfl⟩ | ⟨-, hm2⟩
          · exact absurd rfl hne1
          · exact hid.h_one d1 d2 e hm1 hm2
    | cond_signal c l =>
      simp only [call, cond_signal] at hc
      split at hc
      · cases hc
      split at hc
      · cases hc
      split at hc
      · simp only [Option.some.injEq] at hc
        subst hc
        exact hid
      · rename_i e rest hws
        simp only [Option.some.injEq] at hc
        subst hc
        have hmem : ∀ d x, x ∈ ((upd (dispatch k t).conds c { waiters := rest }) d).waiters →
            x ∈ ((dispatch k t).conds d).waiters ∧ x ≠ e := by
          intro d x hm
          have hnd := hid.h_nodup c
          rw [hws, List.nodup_cons] at hnd
          by_cases hd : d = c
          · subst hd
            rw [upd_same] at hm
            refine ⟨by rw [hws]; exact List.mem_cons_of_mem _ hm, ?_⟩
            rintro rfl
            exact hnd.1 hm
          · rw [upd_ne _ _ _ _ hd] at hm
            refine ⟨hm, ?_⟩
            rintro rfl
            exact hd (hid.h_one d c x hm (by rw [hws]; exact List.mem_cons_self _ _))
        refine ⟨fun d x hm => ?_, fun d => ?_, fun d1 d2 x h1 h2 => ?_⟩
        · simp only [sema_up_conds] at hm
          obtain ⟨m1, m2⟩ := hmem d x hm
          obtain ⟨g1, g2⟩ := hid.h_wait d x m1
          refine ⟨?_, ?_⟩
          · rw [cond_signal_value, if_neg m2]
            exact g1
          · unfold cond_waiting at g2 ⊢
            simpa using g2
        · simp only [sema_up_conds]
          by_cases hd : d = c
          · subst hd
            rw [upd_same]
            have hnd := hid.h_nodup d
            rw [hws, List.nodup_cons] at hnd
            exact hnd.2
          · rw [upd_ne _ _ _ _ hd]
            exact hid.h_nodup d
        · simp only [sema_up_conds] at h1 h2
          exact hid.h_one d1 d2 x (hmem d1 x h1).1 (hmem d2 x h2).1

/-- Every state reached from one that satisfies the condition-variable invariant
satisfies it. -/
theorem reach_cond_inv (allowed : Op → Prop) (k0 k : Kernel) (hi : cond_inv k0)
    (h : Reach allowed k0 k) : cond_inv k := by
  induction h with
  | init => exact hi
  | step fuel k1 k2 t op _ _ hex ih => exact cond_inv_step fuel k1 k2 t op ih hex

/-- A `lock_acquire` that returns within its turn has made the caller the holder and
cleared its `wait_on_lock`. -/
theorem lock_acquire_returned (fuel : Nat) (k k1 : Kernel) (l : Nat)
    (h : lock_acquire fuel k l = some k1) (hr : returned k1 = true) :
    (k1.locks l).holder = some k1.current ∧ (k1.threads k1.current).wait_on_lock = none := by
  by_cases hic : k.intr_context = true
  · simp [lock_acquire, hic] at h
  by_cases hh : (k.locks l).holder = some k.current
  · simp [lock_acquire, lock_held_by_current_thread, thread_current, hh] at h
  rw [lock_acquire_eq fuel _ l (by simpa using hic) hh] at h
  cases hd : lock_acquire_donate fuel k l with
  | none => simp [hd] at h
  | some k2 =>
    simp only [hd, Option.map_some', Option.some.injEq] at h
    split at h
    · rename_i hv
      subst h
      rw [returned_sema_down_loop] at hr
      obtain ⟨h2, -⟩ := lock_acquire_donate_frame fuel k l k2 hd
      have hlk : k2.locks = k.locks := by rw [h2]
      simp [hlk, hv] at hr
    · subst h
      simp [lock_acquire_finish, thread_current, Kernel.set_wait_on_lock, Kernel.set_holder]

/-- The end of a `lock_acquire` whose `sema_down` returns after a block. -/
theorem lock_acquire_resumed (fuel : Nat) (k k1 : Kernel) (l : Nat) (lv : intr_level)
    (hs : k.stack k.current
      = susp.in_sema_down (sema_ptr.of_lock l) lv (caller.from_lock_acquire l))
    (h : resume fuel k = some k1) (hr : returned k1 = true) :
    (k1.locks l).holder = some k1.current ∧ (k1.threads k1.current).wait_on_lock = none := by
  rw [resume_in_sema_down _ _ _ _ _ hs] at h
  split at h
  · rename_i hv
    simp only [Option.some.injEq] at h
    subst h
    rw [returned_sema_down_loop] at hr
    simp only [intr_set_level_sema] at hr
    exact absurd hv (by simpa using hr)
  · simp only [after_sema_down, Option.some.injEq] at h
    subst h
    simp [lock_acquire_finish, thread_current, Kernel.set_wait_on_lock, Kernel.set_holder]

/-- C17: whenever `lock_acquire (l)` returns, in the turn of the call or in the turn that
resumes it after a block, `l.holder` is the current thread and the current thread's
`wait_on_lock` is none. `cond_wait (c, l)` returns when its final `lock_acquire`
returns, so the same holds then: in the turn that resumes it after `lock_release`, in
the turn that resumes it after a block in the `sema_down` on its record, and (as
above) after a block in the `lock_acquire`. In every state reached from one in which
no thread is inside a call and no record is queued, the thread of a queued record is
inside `cond_wait` and its `sema_down` has not returned; so when `cond_wait` has
returned, the caller's record is on no condition's list. -/
theorem return_spec :
    (∀ (fuel : Nat) (k k1 : Kernel) (l : Nat), lock_acquire fuel k l = some k1 →
      returned k1 = true →
      (k1.locks l).holder = some k1.current ∧
        (k1.threads k1.current).wait_on_lock = none) ∧
    (∀ (fuel : Nat) (k k1 : Kernel) (l : Nat) (lv : intr_level),
      k.stack k.current
        = susp.in_sema_down (sema_ptr.of_lock l) lv (caller.from_lock_acquire l) →
      resume fuel k = some k1 → returned k1 = true →
      (k1.locks l).holder = some k1.current ∧
        (k1.threads k1.current).wait_on_lock = none) ∧
    (∀ (fuel : Nat) (k k1 : Kernel) (e l : Nat),
      k.stack k.current = susp.in_cond_wait e l →
      resume fuel k = some k1 → returned k1 = true →
      (k1.locks l).holder = some k1.current ∧
        (k1.threads k1.current).wait_on_lock = none) ∧
    (∀ (fuel : Nat) (k k1 : Kernel) (e l : Nat) (lv : intr_level),
      k.stack k.current
        = susp.in_sema_down (sema_ptr.of_waiter e) lv (caller.from_cond_wait l) →
      resume fuel k = some k1 → returned k1 = true →
      (k1.locks l).holder = some k1.current ∧
        (k1.threads k1.current).wait_on_lock = none) ∧
    (∀ (k0 k : Kernel), (∀ t, k0.stack t = susp.running) →
      (∀ c, (k0.conds c).waiters = []) → Reach (fun _ => True) k0 k →
      (∀ c t, t ∈ (k.conds c).waiters → cond_waiting k t) ∧
      (returned k = true → ∀ c, k.current ∉ (k.conds c).waiters)) := by
  refine ⟨lock_acquire_returned, fun fuel k k1 l lv => lock_acquire_resumed fuel k k1 l lv,
    ?_, ?_, ?_⟩
  · intro fuel k k1 e l hs h hr
    rw [resume_in_cond_wait _ _ _ _ hs] at h
    unfold cond_wait_rest at h
    split at h
    · cases h
    · split at h
      · exact lock_acquire_returned fuel _ k1 l h hr
      · rename_i hnr
        simp only [Option.some.injEq] at h
        subst h
        exact absurd hr hnr
  · intro fuel k k1 e l lv hs h hr
    rw [resume_in_sema_down _ _ _ _ _ hs] at h
    split at h
    · rename_i hv
      simp only [Option.some.injEq] at h
      subst h
      rw [returned_sema_down_loop] at hr
      simp only [intr_set_level_sema] at hr
      exact absurd hv (by simpa using hr)
    · exact lock_acquire_returned fuel _ k1 l h hr
  · intro k0 k h1 h2 hre
    have h0 : cond_inv k0 :=
      ⟨fun c e hm => by simp [h2 c] at hm, fun c => by simp [h2 c],
        fun c d e hm => by simp [h2 c] at hm⟩
    have hi := reach_cond_inv _ k0 k h0 hre
    refine ⟨fun c t hm => (hi.h_wait c t hm).2, fun hr c => ?_⟩
    exact cond_inv_running k hi _ (by simpa [returned] using hr) c

/-- C17 at a concrete input: W1, signalled while blocked in the `sema_down` of
`cond_wait (0, 0)`, is resumed: `cond_wait` returns, W1 holds lock 0 and no record is
queued on condition 0. -/
theorem return_spec_witness :
    ∃ k1, resume 4 cond_woken = some k1 ∧ returned k1 = true ∧
      (k1.locks 0).holder = some 1 ∧ (k1.threads 1).wait_on_lock = none ∧
      (k1.conds 0).waiters = [] := by
  have hk : ∃ k1, resume 4 cond_woken = some k1 ∧ returned k1 = true ∧ k1.current = 1 ∧
      (k1.conds 0).waiters = [] := by
    refine ⟨_, rfl, ?_, ?_, ?_⟩
    · decide!
    · decide!
    · decide!
  obtain ⟨k1, h1, h2, h3, h4⟩ := hk
  obtain ⟨g1, g2⟩ := return_spec.2.2.2.1 4 cond_woken k1 1 0 intr_level.INTR_ON
    (by decide!) h1 h2
  rw [h3] at g1 g2
  exact ⟨k1, h1, h2, g1, g2, h4⟩

/-! ## C14: the interrupt level of the writes -/

theorem sema_down_loop_writes_level (k : Kernel) (sema : sema_ptr)
    (w : shared_field × intr_level) (hw : w ∈ sema_down_loop_writes k sema) :
    w.1.of_sema = true ∧ w.2 = k.level := by
  unfold sema_down_loop_writes at hw
  split at hw <;> simp only [List.mem_singleton] at hw <;> subst hw <;> exact ⟨rfl, rfl⟩

theorem sema_down_writes_level (k : Kernel) (sema : sema_ptr)
    (w : shared_field × intr_level) (hw : w ∈ sema_down_writes k sema) :
    w.1.of_sema = true ∧ w.2 = intr_level.INTR_OFF := by
  unfold sema_down_writes at hw
  split at hw
  · simp at hw
  · exact sema_down_loop_writes_level _ _ w hw

theorem sema_try_down_writes_level (k : Kernel) (sema : sema_ptr)
    (w : shared_field × intr_level) (hw : w ∈ sema_try_down_writes k sema) :
    w.1.of_sema = true ∧ w.2 = intr_level.INTR_OFF := by
  unfold sema_try_down_writes at hw
  simp only at hw
  split at hw
  · simp only [List.mem_singleton] at hw
    subst hw
    exact ⟨rfl, rfl⟩
  · simp at hw

theorem sema_up_writes_level (k : Kernel) (sema : sema_ptr)
    (w : shared_field × intr_level) (hw : w ∈ sema_up_writes k sema) :
    w.1.of_sema = true ∧ w.2 = intr_level.INTR_OFF := by
  unfold sema_up_writes at hw
  simp only [List.mem_append, List.mem_singleton] at hw
  rcases hw with hw | hw
  · split at hw
    · simp at hw
    · simp only [List.mem_singleton] at hw
      subst hw
      exact ⟨rfl, rfl⟩
  · subst hw
    exact ⟨rfl, rfl⟩

theorem priority_donate_loop_writes_level (fuel : Nat) :
    ∀ (k : Kernel) (cur : Nat) (wl : Option Nat) (w : shared_field × intr_level),
      w ∈ priority_donate_loop_writes fuel k cur wl →
      (∃ t, w.1 = shared_field.priority t) ∧ w.2 = k.level := by
  induction fuel with
  | zero =>
    intro k cur wl w hw
    simp [priority_donate_loop_writes] at hw
  | succ n ih =>
    intro k cur wl w hw
    unfold priority_donate_loop_writes at hw
    split at hw
    · simp at hw
    · split at hw
      · simp at hw
      · split at hw
        · rcases List.mem_cons.mp hw with rfl | hw
          · exact ⟨⟨_, rfl⟩, rfl⟩
          · obtain ⟨a, b⟩ := ih _ _ _ w hw
            exact ⟨a, b⟩
        · split at hw
          · simp at hw
          · exact ih _ _ _ w hw

theorem lock_acquire_donate_writes_level (fuel : Nat) (k : Kernel) (l : Nat)
    (w : shared_field × intr_level) (hw : w ∈ lock_acquire_donate_writes fuel k l) :
    w.1.of_sema = false ∧ (∀ m, w.1 ≠ shared_field.holder m) ∧ w.2 = k.level := by
  unfold lock_acquire_donate_writes at hw
  split at hw
  · simp at hw
  · rcases List.mem_cons.mp hw with rfl | hw
    · exact ⟨rfl, (fun m h => by cases h), rfl⟩
    · split at hw
      · rcases List.mem_cons.mp hw with rfl | hw
        · exact ⟨rfl, (fun m h => by cases h), rfl⟩
        · obtain ⟨⟨t, h1⟩, h2⟩ := priority_donate_loop_writes_level fuel _ _ _ w hw
          refine ⟨?_, ?_, h2⟩
          · rw [h1]
            rfl
          · intro m h
            rw [h1] at h
            cases h
      · simp at hw

theorem lock_acquire_donate_level (fuel : Nat) (k k1 : Kernel) (l : Nat)
    (h : lock_acquire_donate fuel k l = some k1) : k1.level = k.level := by
  obtain ⟨h1, -⟩ := lock_acquire_donate_frame fuel k l k1 h
  rw [h1]

theorem sema_down_level (k k1 : Kernel) (q : sema_ptr) (c : caller)
    (h : sema_down k q c = some k1) (hr : returned k1 = true) : k1.level = k.level := by
  unfold sema_down at h
  split at h
  · cases h
  · simp only [intr_disable_fst, intr_disable_snd, Option.some.injEq] at h
    subst h
    rw [returned_sema_down_loop] at hr
    have hv : ((intr_set_level k intr_level.INTR_OFF).sema q).value ≠ 0 := by simpa using hr
    rw [sema_down_loop_pos _ _ _ _ hv]
    simp

/-- A store of `lock_acquire` is either one of its `sema_down`, made with interrupts off,
or one of its own, made at the level of entry. -/
theorem lock_acquire_writes_level (fuel : Nat) (k : Kernel) (l : Nat)
    (w : shared_field × intr_level) (hw : w ∈ lock_acquire_writes fuel k l) :
    (w.1.of_sema = true ∧ w.2 = intr_level.INTR_OFF) ∨
    (w.1.of_sema = false ∧ w.2 = k.level) := by
  unfold lock_acquire_writes at hw
  split at hw
  · simp at hw
  split at hw
  · simp at hw
  rcases List.mem_append.mp hw with hw | hw
  · obtain ⟨h1, -, h3⟩ := lock_acquire_donate_writes_level fuel k l w hw
    exact Or.inr ⟨h1, h3⟩
  · split at hw
    · simp at hw
    · rename_i k1 hd
      rcases List.mem_append.mp hw with hw | hw
      · exact Or.inl (sema_down_writes_level _ _ w hw)
      · split at hw
        · simp at hw
        · rename_i k2 hs
          split at hw
          · rename_i hr
            have hl : k2.level = k.level :=
              (sema_down_level k1 k2 _ _ hs hr).trans (lock_acquire_donate_level fuel k k1 l hd)
            simp only [lock_acquire_finish_writes, List.mem_cons, List.mem_singleton,
              List.mem_nil_iff, or_false] at hw
            rcases hw with rfl | rfl
            · exact Or.inr ⟨rfl, hl⟩
            · exact Or.inr ⟨rfl, hl⟩
          · simp at hw

theorem refresh_priority_loop_writes_level (t : Nat) (ds : List Nat) :
    ∀ (k : Kernel) (w : shared_field × intr_level),
      w ∈ refresh_priority_loop_writes k t ds → w.2 = k.level := by
  induction ds with
  | nil =>
    intro k w hw
    simp [refresh_priority_loop_writes] at hw
  | cons d rest ih =>
    intro k w hw
    unfold refresh_priority_loop_writes at hw
    split at hw
    · rcases List.mem_cons.mp hw with rfl | hw
      · rfl
      · exact ih (k.set_priority t (k.threads d).priority) w hw
    · exact ih _ w hw

theorem lock_release_donations_writes_level (k : Kernel) (l : Nat)
    (w : shared_field × intr_level) (hw : w ∈ lock_release_donations_writes k l) :
    w.2 = k.level := by
  unfold lock_release_donations_writes at hw
  split at hw
  · simp only [List.mem_append, List.mem_map, List.mem_cons] at hw
    rcases hw with ⟨d, -, rfl⟩ | rfl | hw
    · rfl
    · rfl
    · unfold refresh_priority_writes at hw
      rcases List.mem_cons.mp hw with rfl | hw
      · rfl
      · have h := refresh_priority_loop_writes_level _ _ _ w hw
        exact h
  · simp at hw

theorem lock_release_donations_level (k : Kernel) (l : Nat) :
    (lock_release_donations k l).level = k.level := by
  obtain ⟨f, hf⟩ := lock_release_donations_frame k l
  rw [hf]

theorem lock_release_writes_level (k : Kernel) (l : Nat)
    (w : shared_field × intr_level) (hw : w ∈ lock_release_writes k l) :
    w.2 = intr_level.INTR_OFF := by
  unfold lock_release_writes at hw
  split at hw
  · simp at hw
  · simp only [intr_disable_snd, List.mem_append, List.mem_cons] at hw
    rcases hw with hw | rfl | hw
    · have h := lock_release_donations_writes_level _ l w hw
      exact h
    · have h := lock_release_donations_level (intr_set_level k intr_level.INTR_OFF) l
      exact h
    · exact (sema_up_writes_level _ _ w hw).2

/-- A store of `lock_try_acquire` is either the one of its `sema_try_down`, made with
interrupts off, or the one to `lock->holder`, made at the level of entry. -/
theorem lock_try_acquire_writes_level (k : Kernel) (l : Nat)
    (w : shared_field × intr_level) (hw : w ∈ lock_try_acquire_writes k l) :
    (w.1.of_sema = true ∧ w.2 = intr_level.INTR_OFF) ∨
    (w.1 = shared_field.holder l ∧ w.2 = k.level) := by
  unfold lock_try_acquire_writes at hw
  split at hw
  · simp at hw
  · rcases List.mem_append.mp hw with hw | hw
    · exact Or.inl (sema_try_down_writes_level _ _ w hw)
    · split at hw
      · simp only [List.mem_singleton] at hw
        subst hw
        refine Or.inr ⟨rfl, ?_⟩
        simp only [sema_try_down, intr_disable_fst, intr_disable_snd]
        split <;> simp
      · simp at hw

theorem cond_signal_writes_level (k : Kernel) (c l : Nat)
    (w : shared_field × intr_level) (hw : w ∈ cond_signal_writes k c l) :
    w.1.of_sema = true ∧ w.2 = intr_level.INTR_OFF := by
  unfold cond_signal_writes at hw
  split at hw
  · simp at hw
  split at hw
  · simp at hw
  split at hw
  · simp at hw
  · exact sema_up_writes_level _ _ w hw

theorem cond_wait_writes_level (k : Kernel) (c l : Nat)
    (w : shared_field × intr_level) (hw : w ∈ cond_wait_writes k c l) :
    w ∈ sema_init_writes k (sema_ptr.of_waiter k.current) ∨ w.2 = intr_level.INTR_OFF := by
  unfold cond_wait_writes at hw
  split at hw
  · simp at hw
  split at hw
  · simp at hw
  rcases List.mem_append.mp hw with hw | hw
  · exact Or.inl hw
  · exact Or.inr (lock_release_writes_level _ l w hw)

theorem sema_down_loop_level (k : Kernel) (q : sema_ptr) (lv : intr_level) (c : caller)
    (hr : returned (sema_down_loop k q lv c) = true) : (sema_down_loop k q lv c).level = lv := by
  rw [returned_sema_down_loop] at hr
  have hv : (k.sema q).value ≠ 0 := by simpa using hr
  rw [sema_down_loop_pos _ _ _ _ hv]
  simp

/-- A store of a call resumed in `sema_down` is either one of the loop, made with
interrupts off, or one of the caller of `sema_down`, made at the level `sema_down`
restores. -/
theorem resume_in_sema_down_writes_level (fuel : Nat) (k : Kernel) (q : sema_ptr)
    (lv : intr_level) (c : caller) (hs : k.stack k.current = susp.in_sema_down q lv c)
    (w : shared_field × intr_level) (hw : w ∈ resume_writes fuel k) :
    (w.1.of_sema = true ∧ w.2 = intr_level.INTR_OFF) ∨ (w.1.of_sema = false ∧ w.2 = lv) := by
  simp only [resume_writes, thread_current, hs] at hw
  rcases List.mem_append.mp hw with hw | hw
  · exact Or.inl (sema_down_loop_writes_level _ _ w hw)
  · split at hw
    · rename_i hr
      have hl := sema_down_loop_level _ q lv c hr
      cases c with
      | direct => simp [after_sema_down_writes] at hw
      | from_lock_acquire l =>
        simp only [after_sema_down_writes, lock_acquire_finish_writes, List.mem_cons,
          List.mem_singleton, List.mem_nil_iff, or_false] at hw
        rcases hw with rfl | rfl
        · exact Or.inr ⟨rfl, hl⟩
        · exact Or.inr ⟨rfl, hl⟩
      | from_cond_wait l =>
        simp only [after_sema_down_writes] at hw
        rcases lock_acquire_writes_level fuel _ l w hw with h | ⟨h1, h2⟩
        · exact Or.inl h
        · exact Or.inr ⟨h1, h2.trans hl⟩
    · simp at hw

/-- A store of a `cond_wait` resumed after its `lock_release` is either one of a
`sema_down`, made with interrupts off, or one of `lock_acquire`, made at the level of
the resumption. -/
theorem resume_in_cond_wait_writes_level (fuel : Nat) (k : Kernel) (e l : Nat)
    (hs : k.stack k.current = susp.in_cond_wait e l)
    (w : shared_field × intr_level) (hw : w ∈ resume_writes fuel k) :
    (w.1.of_sema = true ∧ w.2 = intr_level.INTR_OFF) ∨
    (w.1.of_sema = false ∧ w.2 = k.level) := by
  simp only [resume_writes, thread_current, hs, cond_wait_rest_writes] at hw
  rcases List.mem_append.mp hw with hw | hw
  · exact Or.inl (sema_down_writes_level _ _ w hw)
  · split at hw
    · simp at hw
    · rename_i k1 hd
      split at hw
      · rename_i hr
        have hl := sema_down_level _ k1 _ _ hd hr
        rcases lock_acquire_writes_level fuel _ l w hw with h | ⟨h1, h2⟩
        · exact Or.inl h
        · exact Or.inr ⟨h1, h2.trans hl⟩
      · simp at hw

/-- C14, as stated, fails: thread 0, in thread context with interrupts on, calls
`lock_try_acquire` or `lock_acquire` on the free lock 0, and the store to
`lock->holder` is made with interrupts on; thread 1 then calls `lock_acquire` on the
held lock, and its stores to `wait_on_lock`, to the holder's `donations` and to the
holder's priority are made with interrupts on; only the store of `sema_down` is made
with interrupts off. -/
theorem holder_written_with_interrupts_on :
    (boot donor_prio false).level = intr_level.INTR_ON ∧
    (boot donor_prio false).intr_context = false ∧
    lock_try_acquire_writes (boot donor_prio false) 0 =
      [(shared_field.value (sema_ptr.of_lock 0), intr_level.INTR_OFF),
        (shared_field.holder 0, intr_level.INTR_ON)] ∧
    lock_acquire_writes 4 (boot donor_prio false) 0 =
      [(shared_field.value (sema_ptr.of_lock 0), intr_level.INTR_OFF),
        (shared_field.holder 0, intr_level.INTR_ON),
        (shared_field.wait_on_lock 0, intr_level.INTR_ON)] ∧
    lock_acquire_writes 4
        (dispatch ((run 4 (boot donor_prio false) [(0, Op.lock_acquire 0)]).getD
          (boot donor_prio false)) 1) 0 =
      [(shared_field.wait_on_lock 1, intr_level.INTR_ON),
        (shared_field.donations 0, intr_level.INTR_ON),
        (shared_field.priority 0, intr_level.INTR_ON),
        (shared_field.waiters (sema_ptr.of_lock 0), intr_level.INTR_OFF)] := by
  refine ⟨rfl, rfl, ?_, ?_, ?_⟩
  · decide
  · decide
  · decide

/-- C14, amended: whatever the level of entry, every store to a semaphore's `value` or
`waiters` by `sema_down`, `sema_try_down` and `sema_up`, called directly or from
`lock_acquire`, `lock_try_acquire`, `lock_release`, `cond_wait` (after its
`sema_init`) and `cond_signal`, in the turn of the call or in the turn that resumes a
blocked call, is made with interrupts off; so is every store of `lock_release`, that
is those to the holder's `donations` and priority and to `lock->holder`. The stores to
`lock->holder` by `lock_acquire` and `lock_try_acquire` follow the return of
`sema_down` and `sema_try_down` and are made at the level of entry, which a resumed
`lock_acquire` has restored; `cond_wait` initialises the semaphore of its own record at
the level of entry. -/
theorem interrupt_discipline :
    (∀ (k : Kernel) (sema : sema_ptr) (w : shared_field × intr_level),
      w ∈ sema_down_writes k sema ∨ w ∈ sema_try_down_writes k sema ∨
        w ∈ sema_up_writes k sema → w.2 = intr_level.INTR_OFF) ∧
    (∀ (k : Kernel) (l : Nat) (w : shared_field × intr_level),
      w ∈ lock_release_writes k l → w.2 = intr_level.INTR_OFF) ∧
    (∀ (k : Kernel) (c l : Nat) (w : shared_field × intr_level),
      w ∈ cond_signal_writes k c l → w.2 = intr_level.INTR_OFF) ∧
    (∀ (k : Kernel) (c l : Nat) (w : shared_field × intr_level),
      w ∈ cond_wait_writes k c l →
      w ∈ sema_init_writes k (sema_ptr.of_waiter k.current) ∨ w.2 = intr_level.INTR_OFF) ∧
    (∀ (fuel : Nat) (k : Kernel) (l : Nat) (w : shared_field × intr_level),
      w ∈ lock_acquire_writes fuel k l →
      (w.1.of_sema = true → w.2 = intr_level.INTR_OFF) ∧
      (∀ m, w.1 = shared_field.holder m → w.2 = k.level)) ∧
    (∀ (k : Kernel) (l : Nat) (w : shared_field × intr_level),
      w ∈ lock_try_acquire_writes k l →
      (w.1.of_sema = true → w.2 = intr_level.INTR_OFF) ∧
      (∀ m, w.1 = shared_field.holder m → w.2 = k.level)) ∧
    (∀ (fuel : Nat) (k : Kernel) (q : sema_ptr) (lv : intr_level) (c : caller)
      (w : shared_field × intr_level),
      k.stack k.current = susp.in_sema_down q lv c → w ∈ resume_writes fuel k →
      (w.1.of_sema = true → w.2 = intr_level.INTR_OFF) ∧
      (∀ m, w.1 = shared_field.holder m → w.2 = lv)) ∧
    (∀ (fuel : Nat) (k : Kernel) (e l : Nat) (w : shared_field × intr_level),
      k.stack k.current = susp.in_cond_wait e l → w ∈ resume_writes fuel k →
      (w.1.of_sema = true → w.2 = intr_level.INTR_OFF) ∧
      (∀ m, w.1 = shared_field.holder m → w.2 = k.level)) := by
  have key : ∀ (w : shared_field × intr_level) (lv : intr_level),
      (w.1.of_sema = true ∧ w.2 = intr_level.INTR_OFF) ∨ (w.1.of_sema = false ∧ w.2 = lv) →
      (w.1.of_sema = true → w.2 = intr_level.INTR_OFF) ∧
      (∀ m, w.1 = shared_field.holder m → w.2 = lv) := by
    rintro w lv (⟨h1, h2⟩ | ⟨h1, h2⟩)
    · refine ⟨fun _ => h2, fun m hm => ?_⟩
      rw [hm] at h1
      cases h1
    · refine ⟨fun h => ?_, fun _ _ => h2⟩
      rw [h1] at h
      cases h
  refine ⟨?_, ?_, ?_, ?_, ?_, ?_, ?_, ?_⟩
  · rintro k sema w (hw | hw | hw)
    · exact (sema_down_writes_level k sema w hw).2
    · exact (sema_try_down_writes_level k sema w hw).2
    · exact (sema_up_writes_level k sema w hw).2
  · exact lock_release_writes_level
  · intro k c l w hw
    exact (cond_signal_writes_level k c l w hw).2
  · exact cond_wait_writes_level
  · intro fuel k l w hw
    exact key w k.level (lock_acquire_writes_level fuel k l w hw)
  · intro k l w hw
    refine key w k.level ?_
    rcases lock_try_acquire_writes_level k l w hw with h | ⟨h1, h2⟩
    · exact Or.inl h
    · refine Or.inr ⟨?_, h2⟩
      rw [h1]
      rfl
  · intro fuel k q lv c w hs hw
    exact key w lv (resume_in_sema_down_writes_level fuel k q lv c hs w hw)
  · intro fuel k e l w hs hw
    exact key w k.level (resume_in_cond_wait_writes_level fuel k e l hs w hw)

/-- C14, amended, at a concrete input: L (thread 0) releases Y (lock 1) in the two-donor
scenario: there are stores, and each is made with interrupts off. -/
theorem interrupt_discipline_witness :
    lock_release_writes (dispatch two_donors 0) 1 ≠ [] ∧
    ∀ w ∈ lock_release_writes (dispatch two_donors 0) 1, w.2 = intr_level.INTR_OFF :=
  ⟨by decide, fun w hw => interrupt_discipline.2.1 (dispatch two_donors 0) 1 w hw⟩

/-! ## C19: the semaphore self-test -/

theorem views_congr (k k1 : Kernel) (v : test_view) (hv : views k v)
    (hc : k1.intr_context = k.intr_context) (hs : k1.semas = k.semas)
    (ht : k1.threads = k.threads) (hst : k1.stack = k.stack) : views k1 v :=
  ⟨hc.trans hv.h_ctx, by rw [hs]; exact hv.h_s0, by rw [hs]; exact hv.h_s1,
    by rw [ht]; exact hv.h_b0, by rw [ht]; exact hv.h_b1,
    by rw [hst]; exact hv.h_f0, by rw [hst]; exact hv.h_f1⟩

theorem views_frame (k : Kernel) (v : test_view) (hv : views k v) (t : Nat) (ht : t < 2) :
    in_frame (k.stack t) (v.frame t) ∧ (k.threads t).blocked = v.blocked t := by
  obtain rfl | rfl : t = 0 ∨ t = 1 := by omega
  · exact ⟨hv.h_f0, hv.h_b0⟩
  · exact ⟨hv.h_f1, hv.h_b1⟩

theorem views_sema (k : Kernel) (v : test_view) (hv : views k v) (s : Nat) (hs : s < 2) :
    k.semas s = { value := v.value s, waiters := v.waiters s } := by
  obtain rfl | rfl : s = 0 ∨ s = 1 := by omega
  · exact hv.h_s0
  · exact hv.h_s1

/-- The loop of `sema_down` on one of the two semaphores, evaluated by one of the two
threads with no other thread waiting, seen through the view. -/
theorem views_sema_down_loop (k : Kernel) (v : test_view) (t s : Nat) (lv : intr_level)
    (hv : views k v) (hc : k.current = t) (ht : t < 2) (hs : s < 2)
    (hsc : v.value s = 0 → v.waiters s = []) :
    views (sema_down_loop k (sema_ptr.plain s) lv caller.direct) (view_down v t s) := by
  have hsem := views_sema k v hv s hs
  obtain ⟨h0, h1, h2, h3, h4, h5, h6⟩ := hv
  by_cases hval : v.value s = 0
  · have hw := hsc hval
    have hz : (k.sema (sema_ptr.plain s)).value = 0 := by
      rw [sema_plain, hsem]
      exact hval
    rw [sema_down_loop_zero k _ lv _ hz]
    simp only [view_down, hval, if_true]
    obtain rfl | rfl : t = 0 ∨ t = 1 := by omega
    all_goals obtain rfl | rfl : s = 0 ∨ s = 1 := by omega
    all_goals
      simp only [test_view.value, test_view.waiters] at hval hw hsem
      simp only [if_true, one_ne_zero, if_false] at hval hw hsem
      refine ⟨by simpa using h0, ?_, ?_, ?_, ?_, ?_, ?_⟩
      all_goals
        simp [test_view.set_sema, test_view.set_blocked, test_view.set_frame, Kernel.set_sema,
          Kernel.set_stack, thread_block, upd_apply, hc, h1, h2, h3, h4, hw, hval,
          list_insert_ordered, in_frame]
      all_goals first | exact h5 | exact h6
  · have hz : (k.sema (sema_ptr.plain s)).value ≠ 0 := by
      rw [sema_plain, hsem]
      exact hval
    rw [sema_down_loop_pos k _ lv _ hz]
    simp only [view_down, hval, if_false]
    obtain rfl | rfl : t = 0 ∨ t = 1 := by omega
    all_goals obtain rfl | rfl : s = 0 ∨ s = 1 := by omega
    all_goals
      simp only [test_view.value, test_view.waiters] at hval hsem ⊢
      simp only [if_true, one_ne_zero, if_false] at hval hsem ⊢
      refine ⟨by simpa using h0, ?_, ?_, ?_, ?_, ?_, ?_⟩
      all_goals
        simp [test_view.set_sema, test_view.set_blocked, test_view.set_frame, Kernel.set_sema,
          Kernel.set_stack, upd_apply, hc, h1, h2, h3, h4, hval, in_frame]
      all_goals first | exact h5 | exact h6

/-- A `sema_up` on one of the two semaphores, with at most one of the two threads waiting,
seen through the view. -/
theorem views_sema_up (k : Kernel) (v : test_view) (s : Nat) (hv : views k v) (hs : s < 2)
    (hsc : v.waiters s = [] ∨ ∃ x, x < 2 ∧ v.waiters s = [x]) :
    views (sema_up k (sema_ptr.plain s)) (view_up v s) := by
  have hsem := views_sema k v hv s hs
  obtain ⟨h0, h1, h2, h3, h4, h5, h6⟩ := hv
  have hsm : ∀ q, (sema_up k (sema_ptr.plain s)).semas q
      = (sema_up_critical k (sema_ptr.plain s)).semas q := by
    intro q
    rw [sema_up_semas]
  have hne : ∀ q, q ≠ s → (sema_up_critical k (sema_ptr.plain s)).semas q = k.semas q := by
    intro q hq
    have := sema_up_critical_sema_ne k (sema_ptr.plain s) (sema_ptr.plain q) (by simpa using hq)
    simpa only [sema_plain] using this
  have hself := sema_up_critical_sema k (sema_ptr.plain s)
  simp only [sema_plain] at hself
  rw [hsem] at hself
  have hth := sema_up_critical_threads k (sema_ptr.plain s)
  simp only [sema_plain] at hth
  rw [hsem] at hth
  rcases hsc with hw | ⟨x, hx, hw⟩
  · simp only [hw, list_sort, List.tail_nil] at hself hth
    simp only [view_up, hw]
    obtain rfl | rfl : s = 0 ∨ s = 1 := by omega
    · refine ⟨by simpa using h0, ?_, ?_, ?_, ?_, by simpa using h5, by simpa using h6⟩
      · rw [hsm, hself]
        simp [test_view.set_sema]
      · rw [hsm, hne 1 (by decide), h2]
        simp [test_view.set_sema]
      · rw [sema_up_threads, hth, h3]
        simp [test_view.set_sema]
      · rw [sema_up_threads, hth, h4]
        simp [test_view.set_sema]
    · refine ⟨by simpa using h0, ?_, ?_, ?_, ?_, by simpa using h5, by simpa using h6⟩
      · rw [hsm, hne 0 (by decide), h1]
        simp [test_view.set_sema]
      · rw [hsm, hself]
        simp [test_view.set_sema]
      · rw [sema_up_threads, hth, h3]
        simp [test_view.set_sema]
      · rw [sema_up_threads, hth, h4]
        simp [test_view.set_sema]
  · simp only [hw, list_sort, sort_insert, List.tail_cons] at hself hth
    simp only [view_up, hw]
    obtain rfl | rfl : s = 0 ∨ s = 1 := by omega
    all_goals obtain rfl | rfl : x = 0 ∨ x = 1 := by omega
    all_goals
      refine ⟨by simpa using h0, ?_, ?_, ?_, ?_, by simpa using h5, by simpa using h6⟩
    all_goals
      first
      | (rw [hsm, hself]
         simp [test_view.set_sema, test_view.set_blocked])
      | (rw [hsm, hne _ (by decide)]
         simp [test_view.set_sema, test_view.set_blocked, h1, h2])
      | (rw [sema_up_threads, hth]
         simp [test_view.set_sema, test_view.set_blocked, upd_apply, h3, h4])

theorem exec_call (fuel : Nat) (k : Kernel) (t : Nat) (op : Op)
    (hb : (k.threads t).blocked = false) (hs : k.stack t = susp.running)
    (hop : op ≠ Op.resume) : exec fuel k t op = call fuel (dispatch k t) op := by
  unfold exec
  cases op <;> simp_all

theorem exec_resume (fuel : Nat) (k : Kernel) (t : Nat)
    (hb : (k.threads t).blocked = false) :
    exec fuel k t Op.resume = resume fuel (dispatch k t) := by
  unfold exec
  simp only [hb, Bool.false_eq_true, if_false]

theorem exec_blocked (fuel : Nat) (k : Kernel) (t : Nat) (op : Op)
    (hb : (k.threads t).blocked = true) : exec fuel k t op = none := by
  unfold exec
  simp only [hb, if_true]

/-- A turn of one of the two threads that the view determines is the turn the kernel
takes. -/
theorem exec_views (fuel : Nat) (k : Kernel) (v v1 : test_view) (t : Nat) (op : Op)
    (hv : views k v) (ht : t < 2) (h : view_step v t op = some v1) :
    ∃ k1, exec fuel k t op = some k1 ∧ views k1 v1 := by
  obtain ⟨hf, hb⟩ := views_frame k v hv t ht
  have hvd : views (intr_set_level (dispatch k t) intr_level.INTR_OFF) v :=
    views_congr k _ v hv (by simp) (by simp) (by simp) (by simp)
  cases op with
  | sema_up s =>
    simp only [view_step] at h
    split at h
    · cases h
    rename_i hc
    simp only [Bool.or_eq_true, decide_eq_true_eq, not_or, Bool.not_eq_true, not_le] at hc
    obtain ⟨⟨hc1, hc2⟩, hc3⟩ := hc
    have hc4 : v.frame t = none := by
      cases hfr : v.frame t with
      | none => rfl
      | some q => simp [hfr] at hc2
    rw [hc4] at hf
    rw [exec_call fuel k t _ (hb.trans hc1) hf (by simp)]
    have hvd1 : views (dispatch k t) v :=
      views_congr k _ v hv (by simp) (by simp) (by simp) (by simp)
    refine ⟨_, rfl, ?_⟩
    split at h
    · rename_i hw
      simp only [Option.some.injEq] at h
      subst h
      exact views_sema_up _ v s hvd1 hc3 (Or.inl hw)
    · rename_i x hw
      split at h
      · rename_i hx
        simp only [Option.some.injEq] at h
        subst h
        exact views_sema_up _ v s hvd1 hc3 (Or.inr ⟨x, hx, hw⟩)
      · cases h
    · cases h
  | sema_down s =>
    simp only [view_step] at h
    split at h
    · cases h
    rename_i hc
    simp only [Bool.or_eq_true, decide_eq_true_eq, not_or, Bool.not_eq_true, not_le] at hc
    obtain ⟨⟨hc1, hc2⟩, hc3⟩ := hc
    have hc4 : v.frame t = none := by
      cases hfr : v.frame t with
      | none => rfl
      | some q => simp [hfr] at hc2
    rw [hc4] at hf
    split at h
    · cases h
    rename_i hsc
    simp only [Option.some.injEq] at h
    subst h
    rw [exec_call fuel k t _ (hb.trans hc1) hf (by simp)]
    have hic : (dispatch k t).intr_context = false := by
      rw [dispatch_intr_context]
      exact hv.h_ctx
    have hcall : call fuel (dispatch k t) (Op.sema_down s)
        = some (sema_down_loop (intr_set_level (dispatch k t) intr_level.INTR_OFF)
          (sema_ptr.plain s) (dispatch k t).level caller.direct) := by
      simp only [call, sema_down, hic, Bool.false_eq_true, if_false, intr_disable_fst,
        intr_disable_snd]
    refine ⟨_, hcall, ?_⟩
    refine views_sema_down_loop _ v t s _ hvd (by simp) ht hc3 (fun h0 => ?_)
    simpa [h0] using hsc
  | resume =>
    simp only [view_step] at h
    split at h
    · cases h
    rename_i hc1
    split at h
    · cases h
    rename_i s hfr
    split at h
    · cases h
    rename_i hc
    simp only [Bool.or_eq_true, decide_eq_true_eq, not_or, not_le] at hc
    obtain ⟨hc3, hsc⟩ := hc
    simp only [Option.some.injEq] at h
    subst h
    rw [hfr] at hf
    obtain ⟨lv, hst⟩ := hf
    rw [exec_resume fuel k t (hb.trans (by simpa using hc1)),
      resume_in_sema_down fuel _ _ lv caller.direct (by simpa using hst)]
    have hl := views_sema_down_loop _ v t s lv hvd (by simp) ht hc3 (fun h0 => by
      simpa [h0] using hsc)
    split
    · exact ⟨_, rfl, hl⟩
    · exact ⟨_, rfl, hl⟩
  | sema_try_down s => simp [view_step] at h
  | lock_acquire l => simp [view_step] at h
  | lock_try_acquire l => simp [view_step] at h
  | lock_release l => simp [view_step] at h
  | cond_wait c l => simp [view_step] at h
  | cond_signal c l => simp [view_step] at h

/-- A turn of the self-test that the view determines is the turn the kernel takes. -/
theorem test_turn_views (fuel : Nat) (c : test_state) (v : test_view) (t : Nat)
    (c1 : test_view × List Op × List Op) (hv : views c.k v)
    (h : view_turn (v, c.main, c.helper) t = some c1) :
    ∃ k1, test_turn fuel c t = some ⟨k1, c1.2.1, c1.2.2⟩ ∧ views k1 c1.1 := by
  unfold view_turn at h
  unfold test_turn
  by_cases h0 : t = 0
  · subst h0
    simp only [if_true] at h ⊢
    have hf := hv.h_f0
    cases hfr : v.frame0 with
    | none =>
      rw [hfr] at hf h
      simp only [in_frame] at hf
      simp only [hf, if_true]
      cases hm : c.main with
      | nil => simp [hm] at h
      | cons op rest =>
        simp only [hm] at h ⊢
        cases hst : view_step v 0 op with
        | none => simp [hst] at h
        | some v1 =>
          simp only [hst, Option.map_some', Option.some.injEq] at h
          subst h
          obtain ⟨k1, e1, e2⟩ := exec_views fuel c.k v v1 0 op hv (by decide) hst
          exact ⟨k1, by simp [e1], e2⟩
    | some q =>
      rw [hfr] at hf h
      obtain ⟨lv, hf⟩ := hf
      simp only [hf, if_false] at h ⊢
      cases hst : view_step v 0 Op.resume with
      | none => simp [hst] at h
      | some v1 =>
        simp only [hst, Option.map_some', Option.some.injEq] at h
        subst h
        obtain ⟨k1, e1, e2⟩ := exec_views fuel c.k v v1 0 Op.resume hv (by decide) hst
        exact ⟨k1, by simp [e1], e2⟩
  · simp only [h0, if_false] at h ⊢
    by_cases h1 : t = 1
    · subst h1
      simp only [if_true] at h ⊢
      have hf := hv.h_f1
      cases hfr : v.frame1 with
      | none =>
        rw [hfr] at hf h
        simp only [in_frame] at hf
        simp only [hf, if_true]
        cases hm : c.helper with
        | nil => simp [hm] at h
        | cons op rest =>
          simp only [hm] at h ⊢
          cases hst : view_step v 1 op with
          | none => simp [hst] at h
          | some v1 =>
            simp only [hst, Option.map_some', Option.some.injEq] at h
            subst h
            obtain ⟨k1, e1, e2⟩ := exec_views fuel c.k v v1 1 op hv (by decide) hst
            exact ⟨k1, by simp [e1], e2⟩
      | some q =>
        rw [hfr] at hf h
        obtain ⟨lv, hf⟩ := hf
        simp only [hf, if_false] at h ⊢
        cases hst : view_step v 1 Op.resume with
        | none => simp [hst] at h
        | some v1 =>
          simp only [hst, Option.map_some', Option.some.injEq] at h
          subst h
          obtain ⟨k1, e1, e2⟩ := exec_views fuel c.k v v1 1 Op.resume hv (by decide) hst
          exact ⟨k1, by simp [e1], e2⟩
    · simp [h1] at h

/-- A thread that the view shows idle cannot take a turn. -/
theorem test_turn_idle (fuel : Nat) (c : test_state) (v : test_view) (t : Nat)
    (hv : views c.k v) (h : view_idle (v, c.main, c.helper) t = true) :
    test_turn fuel c t = none := by
  unfold test_turn
  by_cases h0 : t = 0
  · subst h0
    simp only [view_idle, test_view.blocked, test_view.frame, if_true, Bool.or_eq_true,
      decide_eq_true_eq, Bool.and_eq_true, Option.isNone_iff_eq_none,
      List.isEmpty_iff] at h
    simp only [if_true]
    rcases h with (h | h) | ⟨h2, h3⟩
    · omega
    · have hb : (c.k.threads 0).blocked = true := hv.h_b0.trans h
      split
      · split
        · rfl
        · rw [exec_blocked fuel _ _ _ hb]
          rfl
      · rw [exec_blocked fuel _ _ _ hb]
        rfl
    · have hf := hv.h_f0
      rw [h2] at hf
      simp only [in_frame] at hf
      simp [hf, h3]
  · by_cases h1 : t = 1
    · subst h1
      simp only [view_idle, test_view.blocked, test_view.frame, one_ne_zero, if_false,
        Bool.or_eq_true, decide_eq_true_eq, Bool.and_eq_true, Option.isNone_iff_eq_none,
        List.isEmpty_iff] at h
      simp only [one_ne_zero, if_false, if_true]
      rcases h with (h | h) | ⟨h2, h3⟩
      · omega
      · have hb : (c.k.threads 1).blocked = true := hv.h_b1.trans h
        split
        · split
          · rfl
          · rw [exec_blocked fuel _ _ _ hb]
            rfl
        · rw [exec_blocked fuel _ _ _ hb]
          rfl
      · have hf := hv.h_f1
        rw [h2] at hf
        simp only [in_frame] at hf
        simp [hf, h3]
    · simp [h0, h1]

/-- The table of the self-test: from each stage a thread either cannot take a turn or
takes the self-test to a stage from which fewer turns remain. -/
theorem phase_table (p : phase) (m t : Nat) :
    view_idle (phase_cfg p m) t = true ∨
    ∃ p1 m1, view_turn (phase_cfg p m) t = some (phase_cfg p1 m1) ∧
      phase_turns p1 m1 < phase_turns p m := by
  rcases (by omega : t = 0 ∨ t = 1 ∨ 2 ≤ t) with rfl | rfl | h2
  · cases p with
    | round_start =>
      cases m with
      | zero =>
        exact Or.inl (by
          simp [view_turn, view_idle, phase_cfg, phase_view, phase_main, phase_helper,
        self_test_script, test_helper_script, view_step, test_view.blocked, test_view.frame,
        test_view.waiters, test_view.value, test_view.set_sema, test_view.set_blocked,
        test_view.set_frame, view_up, view_down, unsigned_inc_zero, unsigned_dec_one])
      | succ m =>
        exact Or.inr ⟨phase.main_upped, m, by
          simp [view_turn, view_idle, phase_cfg, phase_view, phase_main, phase_helper,
        self_test_script, test_helper_script, view_step, test_view.blocked, test_view.frame,
        test_view.waiters, test_view.value, test_view.set_sema, test_view.set_blocked,
        test_view.set_frame, view_up, view_down, unsigned_inc_zero, unsigned_dec_one], by
          simp only [phase_turns]
          omega⟩
    | helper_waits =>
      exact Or.inr ⟨phase.helper_woken, m, by
        simp [view_turn, view_idle, phase_cfg, phase_view, phase_main, phase_helper,
        self_test_script, test_helper_script, view_step, test_view.blocked, test_view.frame,
        test_view.waiters, test_view.value, test_view.set_sema, test_view.set_blocked,
        test_view.set_frame, view_up, view_down, unsigned_inc_zero, unsigned_dec_one], by
        simp only [phase_turns]
        omega⟩
    | main_upped =>
      exact Or.inr ⟨phase.main_waits, m, by
        simp [view_turn, view_idle, phase_cfg, phase_view, phase_main, phase_helper,
        self_test_script, test_helper_script, view_step, test_view.blocked, test_view.frame,
        test_view.waiters, test_view.value, test_view.set_sema, test_view.set_blocked,
        test_view.set_frame, view_up, view_down, unsigned_inc_zero, unsigned_dec_one], by
        simp only [phase_turns]
        omega⟩
    | helper_woken =>
      exact Or.inr ⟨phase.main_waits_helper_woken, m, by
        simp [view_turn, view_idle, phase_cfg, phase_view, phase_main, phase_helper,
        self_test_script, test_helper_script, view_step, test_view.blocked, test_view.frame,
        test_view.waiters, test_view.value, test_view.set_sema, test_view.set_blocked,
        test_view.set_frame, view_up, view_down, unsigned_inc_zero, unsigned_dec_one], by
        simp only [phase_turns]
        omega⟩
    | main_waits =>
      exact Or.inl (by
        simp [view_turn, view_idle, phase_cfg, phase_view, phase_main, phase_helper,
        self_test_script, test_helper_script, view_step, test_view.blocked, test_view.frame,
        test_view.waiters, test_view.value, test_view.set_sema, test_view.set_blocked,
        test_view.set_frame, view_up, view_down, unsigned_inc_zero, unsigned_dec_one])
    | main_waits_helper_woken =>
      exact Or.inl (by
        simp [view_turn, view_idle, phase_cfg, phase_view, phase_main, phase_helper,
        self_test_script, test_helper_script, view_step, test_view.blocked, test_view.frame,
        test_view.waiters, test_view.value, test_view.set_sema, test_view.set_blocked,
        test_view.set_frame, view_up, view_down, unsigned_inc_zero, unsigned_dec_one])
    | both_passed =>
      exact Or.inr ⟨phase.main_waits_helper_passed, m, by
        simp [view_turn, view_idle, phase_cfg, phase_view, phase_main, phase_helper,
        self_test_script, test_helper_script, view_step, test_view.blocked, test_view.frame,
        test_view.waiters, test_view.value, test_view.set_sema, test_view.set_blocked,
        test_view.set_frame, view_up, view_down, unsigned_inc_zero, unsigned_dec_one], by
        simp only [phase_turns]
        omega⟩
    | main_waits_helper_passed =>
      exact Or.inl (by
        simp [view_turn, view_idle, phase_cfg, phase_view, phase_main, phase_helper,
        self_test_script, test_helper_script, view_step, test_view.blocked, test_view.frame,
        test_view.waiters, test_view.value, test_view.set_sema, test_view.set_blocked,
        test_view.set_frame, view_up, view_down, unsigned_inc_zero, unsigned_dec_one])
    | helper_upped =>
      exact Or.inr ⟨phase.round_start, m, by
        simp [view_turn, view_idle, phase_cfg, phase_view, phase_main, phase_helper,
        self_test_script, test_helper_script, view_step, test_view.blocked, test_view.frame,
        test_view.waiters, test_view.value, test_view.set_sema, test_view.set_blocked,
        test_view.set_frame, view_up, view_down, unsigned_inc_zero, unsigned_dec_one], by
        simp only [phase_turns]
        omega⟩
    | main_woken =>
      exact Or.inr ⟨phase.round_start, m, by
        simp [view_turn, view_idle, phase_cfg, phase_view, phase_main, phase_helper,
        self_test_script, test_helper_script, view_step, test_view.blocked, test_view.frame,
        test_view.waiters, test_view.value, test_view.set_sema, test_view.set_blocked,
        test_view.set_frame, view_up, view_down, unsigned_inc_zero, unsigned_dec_one], by
        simp only [phase_turns]
        omega⟩
    | helper_waits_next =>
      exact Or.inr ⟨phase.helper_waits, m, by
        simp [view_turn, view_idle, phase_cfg, phase_view, phase_main, phase_helper,
        self_test_script, test_helper_script, view_step, test_view.blocked, test_view.frame,
        test_view.waiters, test_view.value, test_view.set_sema, test_view.set_blocked,
        test_view.set_frame, view_up, view_down, unsigned_inc_zero, unsigned_dec_one], by
        simp only [phase_turns]
        omega⟩
    | main_woken_helper_waits =>
      exact Or.inr ⟨phase.helper_waits, m, by
        simp [view_turn, view_idle, phase_cfg, phase_view, phase_main, phase_helper,
        self_test_script, test_helper_script, view_step, test_view.blocked, test_view.frame,
        test_view.waiters, test_view.value, test_view.set_sema, test_view.set_blocked,
        test_view.set_frame, view_up, view_down, unsigned_inc_zero, unsigned_dec_one], by
        simp only [phase_turns]
        omega⟩
  · cases p with
    | round_start =>
      cases m with
      | zero =>
        exact Or.inl (by
          simp [view_turn, view_idle, phase_cfg, phase_view, phase_main, phase_helper,
        self_test_script, test_helper_script, view_step, test_view.blocked, test_view.frame,
        test_view.waiters, test_view.value, test_view.set_sema, test_view.set_blocked,
        test_view.set_frame, view_up, view_down, unsigned_inc_zero, unsigned_dec_one])
      | succ m =>
        exact Or.inr ⟨phase.helper_waits, m, by
          simp [view_turn, view_idle, phase_cfg, phase_view, phase_main, phase_helper,
        self_test_script, test_helper_script, view_step, test_view.blocked, test_view.frame,
        test_view.waiters, test_view.value, test_view.set_sema, test_view.set_blocked,
        test_view.set_frame, view_up, view_down, unsigned_inc_zero, unsigned_dec_one], by
          simp only [phase_turns]
          omega⟩
    | helper_waits =>
      exact Or.inl (by
        simp [view_turn, view_idle, phase_cfg, phase_view, phase_main, phase_helper,
        self_test_script, test_helper_script, view_step, test_view.blocked, test_view.frame,
        test_view.waiters, test_view.value, test_view.set_sema, test_view.set_blocked,
        test_view.set_frame, view_up, view_down, unsigned_inc_zero, unsigned_dec_one])
    | main_upped =>
      exact Or.inr ⟨phase.both_passed, m, by
        simp [view_turn, view_idle, phase_cfg, phase_view, phase_main, phase_helper,
        self_test_script, test_helper_script, view_step, test_view.blocked, test_view.frame,
        test_view.waiters, test_view.value, test_view.set_sema, test_view.set_blocked,
        test_view.set_frame, view_up, view_down, unsigned_inc_zero, unsigned_dec_one], by
        simp only [phase_turns]
        omega⟩
    | helper_woken =>
      exact Or.inr ⟨phase.both_passed, m, by
        simp [view_turn, view_idle, phase_cfg, phase_view, phase_main, phase_helper,
        self_test_script, test_helper_script, view_step, test_view.blocked, test_view.frame,
        test_view.waiters, test_view.value, test_view.set_sema, test_view.set_blocked,
        test_view.set_frame, view_up, view_down, unsigned_inc_zero, unsigned_dec_one], by
        simp only [phase_turns]
        omega⟩
    | main_waits =>
      exact Or.inr ⟨phase.main_waits_helper_passed, m, by
        simp [view_turn, view_idle, phase_cfg, phase_view, phase_main, phase_helper,
        self_test_script, test_helper_script, view_step, test_view.blocked, test_view.frame,
        test_view.waiters, test_view.value, test_view.set_sema, test_view.set_blocked,
        test_view.set_frame, view_up, view_down, unsigned_inc_zero, unsigned_dec_one], by
        simp only [phase_turns]
        omega⟩
    | main_waits_helper_woken =>
      exact Or.inr ⟨phase.main_waits_helper_passed, m, by
        simp [view_turn, view_idle, phase_cfg, phase_view, phase_main, phase_helper,
        self_test_script, test_helper_script, view_step, test_view.blocked, test_view.frame,
        test_view.waiters, test_view.value, test_view.set_sema, test_view.set_blocked,
        test_view.set_frame, view_up, view_down, unsigned_inc_zero, unsigned_dec_one], by
        simp only [phase_turns]
        omega⟩
    | both_passed =>
      exact Or.inr ⟨phase.helper_upped, m, by
        simp [view_turn, view_idle, phase_cfg, phase_view, phase_main, phase_helper,
        self_test_script, test_helper_script, view_step, test_view.blocked, test_view.frame,
        test_view.waiters, test_view.value, test_view.set_sema, test_view.set_blocked,
        test_view.set_frame, view_up, view_down, unsigned_inc_zero, unsigned_dec_one], by
        simp only [phase_turns]
        omega⟩
    | main_waits_helper_passed =>
      exact Or.inr ⟨phase.main_woken, m, by
        simp [view_turn, view_idle, phase_cfg, phase_view, phase_main, phase_helper,
        self_test_script, test_helper_script, view_step, test_view.blocked, test_view.frame,
        test_view.waiters, test_view.value, test_view.set_sema, test_view.set_blocked,
        test_view.set_frame, view_up, view_down, unsigned_inc_zero, unsigned_dec_one], by
        simp only [phase_turns]
        omega⟩
    | helper_upped =>
      cases m with
      | zero =>
        exact Or.inl (by
          simp [view_turn, view_idle, phase_cfg, phase_view, phase_main, phase_helper,
        self_test_script, test_helper_script, view_step, test_view.blocked, test_view.frame,
        test_view.waiters, test_view.value, test_view.set_sema, test_view.set_blocked,
        test_view.set_frame, view_up, view_down, unsigned_inc_zero, unsigned_dec_one])
      | succ m =>
        exact Or.inr ⟨phase.helper_waits_next, m, by
          simp [view_turn, view_idle, phase_cfg, phase_view, phase_main, phase_helper,
        self_test_script, test_helper_script, view_step, test_view.blocked, test_view.frame,
        test_view.waiters, test_view.value, test_view.set_sema, test_view.set_blocked,
        test_view.set_frame, view_up, view_down, unsigned_inc_zero, unsigned_dec_one], by
          simp only [phase_turns]
          omega⟩
    | main_woken =>
      cases m with
      | zero =>
        exact Or.inl (by
          simp [view_turn, view_idle, phase_cfg, phase_view, phase_main, phase_helper,
        self_test_script, test_helper_script, view_step, test_view.blocked, test_view.frame,
        test_view.waiters, test_view.value, test_view.set_sema, test_view.set_blocked,
        test_view.set_frame, view_up, view_down, unsigned_inc_zero, unsigned_dec_one])
      | succ m =>
        exact Or.inr ⟨phase.main_woken_helper_waits, m, by
          simp [view_turn, view_idle, phase_cfg, phase_view, phase_main, phase_helper,
        self_test_script, test_helper_script, view_step, test_view.blocked, test_view.frame,
        test_view.waiters, test_view.value, test_view.set_sema, test_view.set_blocked,
        test_view.set_frame, view_up, view_down, unsigned_inc_zero, unsigned_dec_one], by
          simp only [phase_turns]
          omega⟩
    | helper_waits_next =>
      exact Or.inl (by
        simp [view_turn, view_idle, phase_cfg, phase_view, phase_main, phase_helper,
        self_test_script, test_helper_script, view_step, test_view.blocked, test_view.frame,
        test_view.waiters, test_view.value, test_view.set_sema, test_view.set_blocked,
        test_view.set_frame, view_up, view_down, unsigned_inc_zero, unsigned_dec_one])
    | main_woken_helper_waits =>
      exact Or.inl (by
        simp [view_turn, view_idle, phase_cfg, phase_view, phase_main, phase_helper,
        self_test_script, test_helper_script, view_step, test_view.blocked, test_view.frame,
        test_view.waiters, test_view.value, test_view.set_sema, test_view.set_blocked,
        test_view.set_frame, view_up, view_down, unsigned_inc_zero, unsigned_dec_one])
  · exact Or.inl (by simp [view_idle, h2])

/-- From every stage but the end of the last round some thread can take a turn. -/
theorem phase_progress (p : phase) (m : Nat) :
    (p = phase.round_start ∧ m = 0) ∨
    ∃ t p1 m1, view_turn (phase_cfg p m) t = some (phase_cfg p1 m1) := by
  cases p with
  | round_start =>
    cases m with
    | zero => exact Or.inl ⟨rfl, rfl⟩
    | succ m =>
      exact Or.inr ⟨0, phase.main_upped, m, by
        simp [view_turn, view_idle, phase_cfg, phase_view, phase_main, phase_helper,
        self_test_script, test_helper_script, view_step, test_view.blocked, test_view.frame,
        test_view.waiters, test_view.value, test_view.set_sema, test_view.set_blocked,
        test_view.set_frame, view_up, view_down, unsigned_inc_zero, unsigned_dec_one]⟩
  | helper_waits =>
    exact Or.inr ⟨0, phase.helper_woken, m, by
      simp [view_turn, view_idle, phase_cfg, phase_view, phase_main, phase_helper,
        self_test_script, test_helper_script, view_step, test_view.blocked, test_view.frame,
        test_view.waiters, test_view.value, test_view.set_sema, test_view.set_blocked,
        test_view.set_frame, view_up, view_down, unsigned_inc_zero, unsigned_dec_one]⟩
  | main_upped =>
    exact Or.inr ⟨0, phase.main_waits, m, by
      simp [view_turn, view_idle, phase_cfg, phase_view, phase_main, phase_helper,
        self_test_script, test_helper_script, view_step, test_view.blocked, test_view.frame,
        test_view.waiters, test_view.value, test_view.set_sema, test_view.set_blocked,
        test_view.set_frame, view_up, view_down, unsigned_inc_zero, unsigned_dec_one]⟩
  | helper_woken =>
    exact Or.inr ⟨0, phase.main_waits_helper_woken, m, by
      simp [view_turn, view_idle, phase_cfg, phase_view, phase_main, phase_helper,
        self_test_script, test_helper_script, view_step, test_view.blocked, test_view.frame,
        test_view.waiters, test_view.value, test_view.set_sema, test_view.set_blocked,
        test_view.set_frame, view_up, view_down, unsigned_inc_zero, unsigned_dec_one]⟩
  | main_waits =>
    exact Or.inr ⟨1, phase.main_waits_helper_passed, m, by
      simp [view_turn, view_idle, phase_cfg, phase_view, phase_main, phase_helper,
        self_test_script, test_helper_script, view_step, test_view.blocked, test_view.frame,
        test_view.waiters, test_view.value, test_view.set_sema, test_view.set_blocked,
        test_view.set_frame, view_up, view_down, unsigned_inc_zero, unsigned_dec_one]⟩
  | main_waits_helper_woken =>
    exact Or.inr ⟨1, phase.main_waits_helper_passed, m, by
      simp [view_turn, view_idle, phase_cfg, phase_view, phase_main, phase_helper,
        self_test_script, test_helper_script, view_step, test_view.blocked, test_view.frame,
        test_view.waiters, test_view.value, test_view.set_sema, test_view.set_blocked,
        test_view.set_frame, view_up, view_down, unsigned_inc_zero, unsigned_dec_one]⟩
  | both_passed =>
    exact Or.inr ⟨0, phase.main_waits_helper_passed, m, by
      simp [view_turn, view_idle, phase_cfg, phase_view, phase_main, phase_helper,
        self_test_script, test_helper_script, view_step, test_view.blocked, test_view.frame,
        test_view.waiters, test_view.value, test_view.set_sema, test_view.set_blocked,
        test_view.set_frame, view_up, view_down, unsigned_inc_zero, unsigned_dec_one]⟩
  | main_waits_helper_passed =>
    exact Or.inr ⟨1, phase.main_woken, m, by
      simp [view_turn, view_idle, phase_cfg, phase_view, phase_main, phase_helper,
        self_test_script, test_helper_script, view_step, test_view.blocked, test_view.frame,
        test_view.waiters, test_view.value, test_view.set_sema, test_view.set_blocked,
        test_view.set_frame, view_up, view_down, unsigned_inc_zero, unsigned_dec_one]⟩
  | helper_upped =>
    exact Or.inr ⟨0, phase.round_start, m, by
      simp [view_turn, view_idle, phase_cfg, phase_view, phase_main, phase_helper,
        self_test_script, test_helper_script, view_step, test_view.blocked, test_view.frame,
        test_view.waiters, test_view.value, test_view.set_sema, test_view.set_blocked,
        test_view.set_frame, view_up, view_down, unsigned_inc_zero, unsigned_dec_one]⟩
  | main_woken =>
    exact Or.inr ⟨0, phase.round_start, m, by
      simp [view_turn, view_idle, phase_cfg, phase_view, phase_main, phase_helper,
        self_test_script, test_helper_script, view_step, test_view.blocked, test_view.frame,
        test_view.waiters, test_view.value, test_view.set_sema, test_view.set_blocked,
        test_view.set_frame, view_up, view_down, unsigned_inc_zero, unsigned_dec_one]⟩
  | helper_waits_next =>
    exact Or.inr ⟨0, phase.helper_waits, m, by
      simp [view_turn, view_idle, phase_cfg, phase_view, phase_main, phase_helper,
        self_test_script, test_helper_script, view_step, test_view.blocked, test_view.frame,
        test_view.waiters, test_view.value, test_view.set_sema, test_view.set_blocked,
        test_view.set_frame, view_up, view_down, unsigned_inc_zero, unsigned_dec_one]⟩
  | main_woken_helper_waits =>
    exact Or.inr ⟨0, phase.helper_waits, m, by
      simp [view_turn, view_idle, phase_cfg, phase_view, phase_main, phase_helper,
        self_test_script, test_helper_script, view_step, test_view.blocked, test_view.frame,
        test_view.waiters, test_view.value, test_view.set_sema, test_view.set_blocked,
        test_view.set_frame, view_up, view_down, unsigned_inc_zero, unsigned_dec_one]⟩

/-- A turn of the self-test leads from a stage to a stage from which fewer turns remain. -/
theorem at_phase_step (fuel : Nat) (c c1 : test_state) (p : phase) (m t : Nat)
    (ha : at_phase c p m) (h : test_turn fuel c t = some c1) :
    ∃ p1 m1, at_phase c1 p1 m1 ∧ phase_turns p1 m1 < phase_turns p m := by
  obtain ⟨hv, hm, hh⟩ := ha
  have hcfg : (phase_view p, c.main, c.helper) = phase_cfg p m := by
    rw [hm, hh]
    rfl
  rcases phase_table p m t with hi | ⟨p1, m1, ht, hlt⟩
  · rw [← hcfg] at hi
    rw [test_turn_idle fuel c _ t hv hi] at h
    cases h
  · rw [← hcfg] at ht
    obtain ⟨k1, e1, e2⟩ := test_turn_views fuel c _ t _ hv ht
    rw [e1] at h
    simp only [Option.some.injEq] at h
    subst h
    exact ⟨p1, m1, ⟨e2, rfl, rfl⟩, hlt⟩

/-- At every stage but the end of the last round some thread can take a turn. -/
theorem at_phase_progress (fuel : Nat) (c : test_state) (p : phase) (m : Nat)
    (ha : at_phase c p m) :
    (p = phase.round_start ∧ m = 0) ∨ ∃ t c1, test_turn fuel c t = some c1 := by
  obtain ⟨hv, hm, hh⟩ := ha
  have hcfg : (phase_view p, c.main, c.helper) = phase_cfg p m := by
    rw [hm, hh]
    rfl
  rcases phase_progress p m with h | ⟨t, p1, m1, ht⟩
  · exact Or.inl h
  · rw [← hcfg] at ht
    obtain ⟨k1, e1, -⟩ := test_turn_views fuel c _ t _ hv ht
    exact Or.inr ⟨t, _, e1⟩

/-- A run of the self-test leads from a stage to a stage, and is no longer than the number
of turns that remained. -/
theorem at_phase_run (fuel : Nat) (sched : List Nat) :
    ∀ (c c1 : test_state) (p : phase) (m : Nat), at_phase c p m →
      test_run fuel c sched = some c1 →
      ∃ p1 m1, at_phase c1 p1 m1 ∧ phase_turns p1 m1 + sched.length ≤ phase_turns p m := by
  induction sched with
  | nil =>
    intro c c1 p m ha h
    simp only [test_run, Option.some.injEq] at h
    subst h
    exact ⟨p, m, ha, le_refl _⟩
  | cons t rest ih =>
    intro c c1 p m ha h
    simp only [test_run] at h
    cases ht : test_turn fuel c t with
    | none => simp [ht] at h
    | some c2 =>
      simp only [ht] at h
      obtain ⟨p2, m2, ha2, hlt⟩ := at_phase_step fuel c c2 p m t ha ht
      obtain ⟨p1, m1, ha1, hle⟩ := ih c2 c1 p2 m2 ha2 h
      refine ⟨p1, m1, ha1, ?_⟩
      simp only [List.length_cons]
      omega

/-- The self-test starts at the start of a round, `n` rounds to go. -/
theorem test_start_at_phase (k : Kernel) (n : Nat) (hc : k.intr_context = false)
    (hb0 : (k.threads 0).blocked = false) (hb1 : (k.threads 1).blocked = false)
    (hs0 : k.stack 0 = susp.running) (hs1 : k.stack 1 = susp.running) :
    at_phase (test_start k n) phase.round_start n := by
  refine ⟨⟨?_, ?_, ?_, ?_, ?_, ?_, ?_⟩, rfl, rfl⟩
  · simpa [test_start, sema_init] using hc
  · simp [test_start, sema_init, Kernel.set_sema, upd_apply, phase_view, UINT_SIZE]
  · simp [test_start, sema_init, Kernel.set_sema, upd_apply, phase_view, UINT_SIZE]
  · simpa [test_start, sema_init, phase_view] using hb0
  · simpa [test_start, sema_init, phase_view] using hb1
  · simpa [test_start, sema_init, phase_view, in_frame] using hs0
  · simpa [test_start, sema_init, phase_view, in_frame] using hs1

/-- C19: the self-test with `n` rounds, started in thread context with both threads
runnable, under every schedule (every sequence of choices of a thread to run): the run
has at most `6 * n` turns; as long as a thread has calls left or is inside a call, some
thread can take a turn, so a run that cannot go on has both threads out of their
loops; and then both semaphores have value 0 and no waiter, and neither thread is
blocked. -/
theorem sema_self_test_spec (n fuel : Nat) (k : Kernel) (hc : k.intr_context = false)
    (hb0 : (k.threads 0).blocked = false) (hb1 : (k.threads 1).blocked = false)
    (hs0 : k.stack 0 = susp.running) (hs1 : k.stack 1 = susp.running)
    (sched : List Nat) (c : test_state)
    (h : test_run fuel (test_start k n) sched = some c) :
    sched.length ≤ 6 * n ∧
    (test_finished c ∨ ∃ t c1, test_turn fuel c t = some c1) ∧
    (test_finished c →
      c.k.semas 0 = { value := 0, waiters := [] } ∧
      c.k.semas 1 = { value := 0, waiters := [] } ∧
      (c.k.threads 0).blocked = false ∧ (c.k.threads 1).blocked = false) := by
  obtain ⟨p, m, ha, hle⟩ := at_phase_run fuel sched _ c _ n
    (test_start_at_phase k n hc hb0 hb1 hs0 hs1) h
  have hfin : test_finished c → p = phase.round_start ∧ m = 0 := by
    rintro ⟨f1, f2, f3, f4⟩
    obtain ⟨hv, hm, hh⟩ := ha
    have g0 := hv.h_f0
    have g1 := hv.h_f1
    rw [f3] at g0
    rw [f4] at g1
    rw [f1] at hm
    rw [f2] at hh
    cases p <;> cases m <;>
      simp [phase_view, in_frame, phase_main, phase_helper, self_test_script,
        test_helper_script] at g0 g1 hm hh ⊢
  refine ⟨?_, ?_, ?_⟩
  · simp only [phase_turns] at hle
    have : phase_turns phase.round_start n = 6 * n := rfl
    omega
  · rcases at_phase_progress fuel c p m ha with ⟨rfl, rfl⟩ | hp
    · left
      obtain ⟨hv, hm, hh⟩ := ha
      exact ⟨hm, hh, hv.h_f0, hv.h_f1⟩
    · exact Or.inr hp
  · intro hf
    obtain ⟨rfl, rfl⟩ := hfin hf
    obtain ⟨hv, -, -⟩ := ha
    exact ⟨hv.h_s0, hv.h_s1, hv.h_b0, hv.h_b1⟩

/-- C19 at a concrete input: one round from boot under the schedule A, A, B, B, A: thread
A ups and blocks, thread B passes and ups, thread A resumes; both have finished. -/
theorem sema_self_test_spec_witness :
    ∃ c, test_run 0 (test_start (boot wake_prio false) 1) [0, 0, 1, 1, 0] = some c ∧
      test_finished c ∧
      c.k.semas 0 = { value := 0, waiters := [] } ∧
      c.k.semas 1 = { value := 0, waiters := [] } := by
  have hk : ∃ c, test_run 0 (test_start (boot wake_prio false) 1) [0, 0, 1, 1, 0] = some c ∧
      test_finished c := by
    refine ⟨_, rfl, ?_, ?_, ?_, ?_⟩
    · decide!
    · decide!
    · decide!
    · decide!
  obtain ⟨c, h1, h2⟩ := hk
  obtain ⟨-, -, h3⟩ := sema_self_test_spec 1 0 (boot wake_prio false) (by decide) (by decide)
    (by decide) (by decide) (by decide) [0, 0, 1, 1, 0] c h1
  exact ⟨c, h1, h2, (h3 h2).1, (h3 h2).2.1⟩

end Pintos
